import Mathlib

/-!
# Incant audio effects: parameter handling, ring buffers and the glitch engine

A shallow embedding of the core effects of the repository (Delay, Chorus, Phaser,
Filter, Glitch; C++ namespace `incant`), and of the LFO shape of Tremolo and the
parameter handling and drive loop of Distortion.

Modelling conventions
* `float`/`double` samples and parameters are exact rationals (`ℚ`): every
  finite float is a rational.  The effects are embedded over exact (real)
  arithmetic; NaN and the infinities are not values of the model.  Where a
  statement depends on the rounding of a `float` operation, the rounded
  evaluation is a definition of its own (`roundFloat`, `Rounding`), and the
  `float` literal `0.01f` is the binary32 value it denotes.
* Division is total on `ℚ` (`x / 0 = 0`), unlike the code: a statement that
  depends on a quotient also states that the divisor is not zero.
* `int` values are `ℤ`; `static_cast<int>` is truncation toward zero
  (`truncToInt`, conversions that do not fit an `int` are not modelled)
  and the C++ `%` is the truncated remainder (`cMod`).
* Undefined behaviour (reading or writing a `juce::AudioBuffer` cell that does
  not exist, `%` by zero) is an explicit `Fault` in the `Except` monad.
* Library functions of `<cmath>` are supplied through a `MathFns` record, the
  uniform random draws `dist_(rng_)` are supplied as a stream, and the
  `juce::SmoothedValue` ramps are either supplied as a stream or run from the
  state (`SmoothedValue`).
-/

namespace Incant

/-! ## Shared primitives -/

/-- Undefined behaviour the per-sample code can run into. -/
inductive Fault where
  | indexOutOfRange
  | moduloByZero
  deriving DecidableEq, Repr

/-- The `<cmath>` functions used by the effects, and the constant pi. -/
structure MathFns where
  sin : ℚ → ℚ
  tan : ℚ → ℚ
  tanh : ℚ → ℚ
  pow : ℚ → ℚ → ℚ
  pi : ℚ

/-- A sample instance used to evaluate the effects on concrete inputs: `pow` is
exact at whole non-negative exponents (`b ^ floor e`), `tanh` is the bounded
odd function `v / (1 + |v|)`, `tan` and `sin` are the identity and zero. -/
def MathFns.sample : MathFns :=
  { sin := fun _ => 0
    tan := fun v => v
    tanh := fun v => v / (1 + |v|)
    pow := fun b e => b ^ ⌊e⌋.toNat
    pi := 3 }

/-- The sample instance with the square root of 40 to eight decimals as the
power `b ^ (1/2)`. -/
def MathFns.sampleRoot : MathFns :=
  { sin := fun _ => 0
    tan := fun v => v
    tanh := fun v => v / (1 + |v|)
    pow := fun b e => if e = 1 / 2 then 632455532 / 100000000 else b ^ ⌊e⌋.toNat
    pi := 3 }

/-- The sample instance with a soft clipper that saturates: `tanh` is the
identity clipped to `[-1, 1]`, so that it returns exactly -1 and 1 for large
arguments, as a `tanh` evaluated in `float` does. -/
def MathFns.saturating : MathFns :=
  { sin := fun _ => 0
    tan := fun v => v
    tanh := fun v => max (-1) (min 1 v)
    pow := fun b e => b ^ ⌊e⌋.toNat
    pi := 3 }

/-- The helper `juce::jlimit (lowerLimit, upperLimit, valueToConstrain)`, on
finite values (`jlimitFloat` covers NaN). -/
def jlimit (lowerLimit upperLimit valueToConstrain : ℚ) : ℚ :=
  if valueToConstrain < lowerLimit then lowerLimit
  else if upperLimit < valueToConstrain then upperLimit
  else valueToConstrain

/-- The helper `juce::jlimit` on `float` arguments that may be NaN (`none`):
every comparison with NaN is false, so a NaN value passes both tests and is
returned unchanged. -/
def jlimitFloat (lowerLimit upperLimit : ℚ) (valueToConstrain : Option ℚ) : Option ℚ :=
  let less : Option ℚ → Option ℚ → Bool := fun a b =>
    match a, b with
    | some x, some y => decide (x < y)
    | _, _ => false
  if less valueToConstrain (some lowerLimit) then some lowerLimit
  else if less (some upperLimit) valueToConstrain then some upperLimit
  else valueToConstrain

/-- Conversion `static_cast<int>(x)`: truncation toward zero. -/
def truncToInt (x : ℚ) : ℤ :=
  if 0 ≤ x then ⌊x⌋ else ⌈x⌉

/-- The C++ operator `a % b` on `int`: truncated remainder, undefined for `b = 0`. -/
def cMod (a b : ℤ) : Except Fault ℤ :=
  if b = 0 then .error .moduloByZero else .ok (Int.tmod a b)

/-- The function `std::round`: nearest integer, halfway cases away from zero. -/
def cRound (x : ℚ) : ℤ :=
  if 0 ≤ x then ⌊x + 1 / 2⌋ else ⌈x - 1 / 2⌉

/-- Nearest integer, halfway cases to the even neighbour: the rounding
direction of IEEE 754 arithmetic. -/
def roundHalfEven (x : ℚ) : ℤ :=
  if x - (⌊x⌋ : ℤ) < 1 / 2 then ⌊x⌋
  else if 1 / 2 < x - (⌊x⌋ : ℤ) then ⌊x⌋ + 1
  else if ⌊x⌋ % 2 = 0 then ⌊x⌋ else ⌊x⌋ + 1

/-- Rounding of an exact result to the nearest binary floating-point number with
`precision` significant bits (ties to even): the spacing of such numbers around
`x` is `2 ^ (floor (log2 |x|) + 1 - precision)`.  Overflow and subnormal
results are not modelled. -/
def roundBinary (precision : ℕ) (x : ℚ) : ℚ :=
  if x = 0 then 0
  else
    let ulp : ℚ := 2 ^ (Int.log 2 |x| + 1 - (precision : ℤ))
    (roundHalfEven (x / ulp) : ℚ) * ulp

/-- Rounding to `float` (IEEE 754 binary32, 24 significant bits). -/
def roundFloat (x : ℚ) : ℚ := roundBinary 24 x

/-- Rounding to `double` (IEEE 754 binary64, 53 significant bits). -/
def roundDouble (x : ℚ) : ℚ := roundBinary 53 x

/-- How the results of `float` and `double` operations are rounded. -/
structure Rounding where
  toFloat : ℚ → ℚ
  toDouble : ℚ → ℚ

/-- No rounding: exact (real) arithmetic. -/
def Rounding.exact : Rounding :=
  { toFloat := fun x => x
    toDouble := fun x => x }

/-- The rounding of IEEE 754 arithmetic, `float` to 24 and `double` to 53 bits. -/
def Rounding.ieee : Rounding :=
  { toFloat := roundFloat
    toDouble := roundDouble }

/-- The properties of rounding that statements about rounded arithmetic rest on:
it is monotone on the non-negative values and leaves zero unchanged.  Both hold
of exact arithmetic and of the IEEE 754 rounding to nearest. -/
structure Rounding.Monotone (r : Rounding) : Prop where
  float_mono : ∀ x y : ℚ, 0 ≤ x → x ≤ y → r.toFloat x ≤ r.toFloat y
  double_mono : ∀ x y : ℚ, 0 ≤ x → x ≤ y → r.toDouble x ≤ r.toDouble y
  float_zero : r.toFloat 0 = 0
  double_zero : r.toDouble 0 = 0

/-- A `juce::AudioBuffer<float>`: `numChannels` rows of `numSamples` cells.
Only cells `data c i` with `c < numChannels` and `i < numSamples` exist. -/
structure AudioBuffer where
  numChannels : ℕ
  numSamples : ℤ
  data : ℕ → ℕ → ℚ

namespace AudioBuffer

/-- A default-constructed buffer: no channels, no samples. -/
def empty : AudioBuffer :=
  { numChannels := 0, numSamples := 0, data := fun _ _ => 0 }

/-- The calls `setSize (channels, samples)` followed by `clear ()`. -/
def sized (channels : ℕ) (samples : ℤ) : AudioBuffer :=
  { numChannels := channels, numSamples := samples, data := fun _ _ => 0 }

/-- The call `clear ()`: every cell becomes zero, the size is kept. -/
def clear (b : AudioBuffer) : AudioBuffer :=
  { b with data := fun _ _ => 0 }

/-- Whether cell `(channel, index)` exists. -/
def inRange (b : AudioBuffer) (channel : ℕ) (index : ℤ) : Prop :=
  channel < b.numChannels ∧ 0 ≤ index ∧ index < b.numSamples

instance (b : AudioBuffer) (channel : ℕ) (index : ℤ) : Decidable (b.inRange channel index) := by
  unfold inRange; infer_instance

/-- The call `getSample (channel, index)`. -/
def getSample (b : AudioBuffer) (channel : ℕ) (index : ℤ) : Except Fault ℚ :=
  if b.inRange channel index then .ok (b.data channel index.toNat)
  else .error .indexOutOfRange

/-- The call `setSample (channel, index, value)`. -/
def setSample (b : AudioBuffer) (channel : ℕ) (index : ℤ) (value : ℚ) :
    Except Fault AudioBuffer :=
  if b.inRange channel index then
    .ok { b with data := fun c i => if c = channel ∧ i = index.toNat then value else b.data c i }
  else .error .indexOutOfRange

end AudioBuffer

/-- The JUCE class `juce::SmoothedValue<float>` with its default linear ramp.
It is library code outside the repository and is modelled after its documented
behaviour: `currentValue` moves to `target` in `stepsToTarget` equal steps, and
`countdown` is the number of steps still to go (0 when not smoothing). -/
structure SmoothedValue where
  currentValue : ℚ := 0
  target : ℚ := 0
  step : ℚ := 0
  countdown : ℤ := 0
  stepsToTarget : ℤ := 0

namespace SmoothedValue

/-- The call `setCurrentAndTargetValue (newValue)`: jump to the value, no ramp. -/
def setCurrentAndTargetValue (v : SmoothedValue) (newValue : ℚ) : SmoothedValue :=
  { v with target := newValue, currentValue := newValue, countdown := 0 }

/-- The call `reset (sampleRate, rampLengthInSeconds)`: set the ramp length in
samples and jump to the current target. -/
def reset (v : SmoothedValue) (sampleRate rampLengthInSeconds : ℚ) : SmoothedValue :=
  setCurrentAndTargetValue { v with stepsToTarget := ⌊rampLengthInSeconds * sampleRate⌋ } v.target

/-- The call `setTargetValue (newValue)`: start a ramp from the current value. -/
def setTargetValue (v : SmoothedValue) (newValue : ℚ) : SmoothedValue :=
  if newValue = v.target then v
  else if v.stepsToTarget ≤ 0 then v.setCurrentAndTargetValue newValue
  else
    { v with
      target := newValue
      countdown := v.stepsToTarget
      step := (newValue - v.currentValue) / (v.stepsToTarget : ℚ) }

/-- The call `getNextValue ()`: the target when no ramp is running, else one
step along the ramp, landing exactly on the target with the last step. -/
def getNextValue (v : SmoothedValue) : SmoothedValue × ℚ :=
  if v.countdown ≤ 0 then (v, v.target)
  else if v.countdown - 1 > 0 then
    ({ v with countdown := v.countdown - 1, currentValue := v.currentValue + v.step },
      v.currentValue + v.step)
  else
    ({ v with countdown := v.countdown - 1, currentValue := v.target }, v.target)

end SmoothedValue

/-- One sample frame of a block: the channel 0 and the channel 1 sample.  For a
mono block the second component is not part of the block and is passed through. -/
abbrev Frame := ℚ × ℚ

/-! ## Parameter records (ParameterSchema.h) -/

/-- Record `DelayParams` with its defaults. -/
structure DelayParams where
  time : ℚ := 3 / 10
  feedback : ℚ := 4 / 10
  filter : ℚ := 7 / 10
  pingPong : ℚ := 0
  dryWet : ℚ := 5 / 10

/-- Record `GlitchParams` with its defaults. -/
structure GlitchParams where
  rate : ℚ := 5 / 10
  stutter : ℚ := 5 / 10
  crush : ℚ := 0
  reverse : ℚ := 3 / 10
  dryWet : ℚ := 7 / 10

/-- Record `ChorusParams` with its defaults. -/
structure ChorusParams where
  rate : ℚ := 4 / 10
  depth : ℚ := 5 / 10
  delay : ℚ := 3 / 10
  feedback : ℚ := 0
  dryWet : ℚ := 5 / 10

/-- Record `PhaserParams` with its defaults. -/
structure PhaserParams where
  rate : ℚ := 3 / 10
  depth : ℚ := 7 / 10
  feedback : ℚ := 5 / 10
  stages : ℚ := 5 / 10
  dryWet : ℚ := 5 / 10

/-- Record `FilterParams` with its defaults. -/
structure FilterParams where
  cutoff : ℚ := 5 / 10
  resonance : ℚ := 3 / 10
  lfoRate : ℚ := 3 / 10
  lfoDepth : ℚ := 0
  filterType : ℚ := 0

/-- A value is a normalized parameter when it lies in the unit interval. -/
def Normalized (v : ℚ) : Prop := 0 ≤ v ∧ v ≤ 1

/-- All five fields of a `DelayParams` record are normalized. -/
def DelayParams.InRange (p : DelayParams) : Prop :=
  Normalized p.time ∧ Normalized p.feedback ∧ Normalized p.filter ∧
    Normalized p.pingPong ∧ Normalized p.dryWet

/-- All five fields of a `GlitchParams` record are normalized. -/
def GlitchParams.InRange (p : GlitchParams) : Prop :=
  Normalized p.rate ∧ Normalized p.stutter ∧ Normalized p.crush ∧
    Normalized p.reverse ∧ Normalized p.dryWet

/-- All five fields of a `ChorusParams` record are normalized. -/
def ChorusParams.InRange (p : ChorusParams) : Prop :=
  Normalized p.rate ∧ Normalized p.depth ∧ Normalized p.delay ∧
    Normalized p.feedback ∧ Normalized p.dryWet

/-- All five fields of a `PhaserParams` record are normalized. -/
def PhaserParams.InRange (p : PhaserParams) : Prop :=
  Normalized p.rate ∧ Normalized p.depth ∧ Normalized p.feedback ∧
    Normalized p.stages ∧ Normalized p.dryWet

/-- All five fields of a `FilterParams` record are normalized. -/
def FilterParams.InRange (p : FilterParams) : Prop :=
  Normalized p.cutoff ∧ Normalized p.resonance ∧ Normalized p.lfoRate ∧
    Normalized p.lfoDepth ∧ Normalized p.filterType

/-! ## Delay (effects/Delay.cpp) -/

namespace Delay

/-- The members of a `Delay` instance.  `smoothedFeedback` and `smoothedDryWet`
are the two `juce::SmoothedValue` ramps (the constructor sets them to the default
feedback and dry/wet), `filterFreq` is the cutoff handed to the feedback
lowpass.  The constructor leaves the buffer empty. -/
structure State where
  params : DelayParams := {}
  sampleRate : ℚ := 44100
  delayBuffer : AudioBuffer := AudioBuffer.empty
  writePosition : ℤ := 0
  delaySamples : ℤ := 0
  smoothedFeedback : SmoothedValue := { currentValue := 4 / 10, target := 4 / 10 }
  smoothedDryWet : SmoothedValue := { currentValue := 5 / 10, target := 5 / 10 }
  filterFreq : ℚ := 0

/-- Method `Delay::updateDelay`. -/
def updateDelay (s : State) : State :=
  let delayMs : ℚ := 10 + s.params.time * 990
  let delaySamples := truncToInt (delayMs * s.sampleRate / 1000)
  let filterFreq : ℚ := 500 + s.params.filter * 14500
  { s with
    delaySamples := min delaySamples (s.delayBuffer.numSamples - 1)
    smoothedFeedback := s.smoothedFeedback.setTargetValue (s.params.feedback * (95 / 100))
    smoothedDryWet := s.smoothedDryWet.setTargetValue s.params.dryWet
    filterFreq := min filterFreq (s.sampleRate * (45 / 100)) }

/-- Method `Delay::prepare`. -/
def prepare (s : State) (sampleRate : ℚ) : State :=
  updateDelay { s with
    sampleRate := sampleRate
    delayBuffer := AudioBuffer.sized 2 (truncToInt sampleRate)
    writePosition := 0
    smoothedFeedback := s.smoothedFeedback.reset sampleRate (5 / 100)
    smoothedDryWet := s.smoothedDryWet.reset sampleRate (5 / 100) }

/-- Method `Delay::reset` (the reset of the JUCE lowpass touches no modelled
field). -/
def reset (s : State) : State :=
  { s with
    delayBuffer := s.delayBuffer.clear
    writePosition := 0
    smoothedFeedback := s.smoothedFeedback.setCurrentAndTargetValue s.params.feedback
    smoothedDryWet := s.smoothedDryWet.setCurrentAndTargetValue s.params.dryWet }

/-- Method `Delay::setParameter`. -/
def setParameter (s : State) (index : ℤ) (value : ℚ) : State :=
  let value := jlimit 0 1 value
  let p := s.params
  let p :=
    if index = 0 then { p with time := value }
    else if index = 1 then { p with feedback := value }
    else if index = 2 then { p with filter := value }
    else if index = 3 then { p with pingPong := value }
    else if index = 4 then { p with dryWet := value }
    else p
  updateDelay { s with params := p }

/-- Method `Delay::getParameter`. -/
def getParameter (s : State) (index : ℤ) : ℚ :=
  if index = 0 then s.params.time
  else if index = 1 then s.params.feedback
  else if index = 2 then s.params.filter
  else if index = 3 then s.params.pingPong
  else if index = 4 then s.params.dryWet
  else 0

/-- Method `Delay::setParams`. -/
def setParams (s : State) (params : DelayParams) : State :=
  updateDelay { s with params := params }

/-- One iteration of the per-sample loop of `Delay::process`.  `feedback` and
`dryWet` are the values `getNextValue ()` returns for this sample. -/
def processSample (m : MathFns) (stereo : Bool) (s : State) (feedback dryWet : ℚ)
    (x : Frame) : Except Fault (State × Frame) := do
  let delayBufferSize := s.delayBuffer.numSamples
  let pingPong := s.params.pingPong
  let readPos ← cMod (s.writePosition - s.delaySamples + delayBufferSize) delayBufferSize
  let delayedL ← s.delayBuffer.getSample 0 readPos
  let delayedR ← s.delayBuffer.getSample 1 readPos
  let feedbackL := delayedL * (1 - pingPong) + delayedR * pingPong
  let feedbackR := delayedR * (1 - pingPong) + delayedL * pingPong
  let inputL := x.1
  let inputR := if stereo then x.2 else inputL
  let writeL := m.tanh (inputL + feedbackL * feedback)
  let writeR := m.tanh (inputR + feedbackR * feedback)
  let buf ← s.delayBuffer.setSample 0 s.writePosition writeL
  let buf ← buf.setSample 1 s.writePosition writeR
  let outL := inputL * (1 - dryWet) + delayedL * dryWet
  let outR := inputR * (1 - dryWet) + delayedR * dryWet
  let writePosition ← cMod (s.writePosition + 1) delayBufferSize
  pure ({ s with delayBuffer := buf, writePosition := writePosition },
        (outL, if stereo then outR else x.2))

/-- The sample loop of `Delay::process` from sample index `k` on; `ramp k` is the
pair of smoothed (feedback, dryWet) values for sample `k`. -/
def sampleLoop (m : MathFns) (stereo : Bool) (ramp : ℕ → ℚ × ℚ) :
    State → ℕ → List Frame → Except Fault (State × List Frame)
  | s, _, [] => pure (s, [])
  | s, k, x :: xs => do
    let (s1, y) ← processSample m stereo s (ramp k).1 (ramp k).2 x
    let (s2, ys) ← sampleLoop m stereo ramp s1 (k + 1) xs
    pure (s2, y :: ys)

/-- The guard and the per-sample loop of `Delay::process` (everything before the
feedback lowpass is run over the delay buffer). -/
def processLoop (m : MathFns) (stereo : Bool) (ramp : ℕ → ℚ × ℚ) (s : State)
    (block : List Frame) : Except Fault (State × List Frame) :=
  if s.delayBuffer.numSamples = 0 ∨ s.delaySamples = 0 then pure (s, block)
  else sampleLoop m stereo ramp s 0 block

/-- Method `Delay::process`; `feedbackFilter` is the JUCE lowpass run over the
whole delay buffer after the loop. -/
def process (m : MathFns) (feedbackFilter : AudioBuffer → AudioBuffer) (stereo : Bool)
    (ramp : ℕ → ℚ × ℚ) (s : State) (block : List Frame) :
    Except Fault (State × List Frame) :=
  if s.delayBuffer.numSamples = 0 ∨ s.delaySamples = 0 then pure (s, block)
  else do
    let (s1, out) ← sampleLoop m stereo ramp s 0 block
    pure ({ s1 with delayBuffer := feedbackFilter s1.delayBuffer }, out)

/-- The five coefficients `b0 b1 b2 a1 a2` of a second-order
`juce::dsp::IIR::Coefficients<float>`, normalised by `a0`.  The JUCE filter is
library code outside the repository and is modelled after its source. -/
structure IIRCoefficients where
  b0 : ℚ
  b1 : ℚ
  b2 : ℚ
  a1 : ℚ
  a2 : ℚ

/-- The call `juce::dsp::IIR::Coefficients<float>::makeLowPass (sampleRate,
frequency)` of `updateDelay`: the second-order lowpass with `Q = inverseRootTwo`
(the `float` nearest to `1 / sqrt 2`, which is `11863283 / 2^24`). -/
def makeLowPass (m : MathFns) (sampleRate frequency : ℚ) : IIRCoefficients :=
  let q : ℚ := 11863283 / 16777216
  let n := 1 / m.tan (m.pi * frequency / sampleRate)
  let nSquared := n * n
  let invQ := 1 / q
  let c1 := 1 / (1 + invQ * n + nSquared)
  { b0 := c1
    b1 := c1 * 2
    b2 := c1
    a1 := c1 * 2 * (1 - nSquared)
    a2 := c1 * (1 - invQ * n + nSquared) }

/-- The state `(lv1, lv2)` of one `juce::dsp::IIR::Filter<float>` after it has
processed the cells `x 0, ..., x (i - 1)` of a channel, started in the state
`start`: the second-order case of `Filter::processInternal`. -/
def iirState (c : IIRCoefficients) (x : ℕ → ℚ) (start : ℚ × ℚ) : ℕ → ℚ × ℚ
  | 0 => start
  | i + 1 =>
    let lv := iirState c x start i
    let input := x i
    let output := input * c.b0 + lv.1
    (input * c.b1 - output * c.a1 + lv.2, input * c.b2 - output * c.a2)

/-- The value the filter writes to cell `i` of the channel. -/
def iirOutput (c : IIRCoefficients) (x : ℕ → ℚ) (start : ℚ × ℚ) (i : ℕ) : ℚ :=
  x i * c.b0 + (iirState c x start i).1

/-- The call `feedbackFilter_.process (context)` that ends `Delay::process`: the
`ProcessorDuplicator` runs one filter per channel, in place, over all cells of
the delay buffer in index order; `memory channel` is the state of the filter of
that channel before the call (zero after `prepare` and `reset`). -/
def feedbackFilter (c : IIRCoefficients) (memory : ℕ → ℚ × ℚ) (buffer : AudioBuffer) :
    AudioBuffer :=
  { buffer with
    data := fun channel i =>
      if channel < buffer.numChannels ∧ (i : ℤ) < buffer.numSamples then
        iirOutput c (buffer.data channel) (memory channel) i
      else buffer.data channel i }

/-- The two calls `getNextValue ()` at the top of a loop iteration of
`Delay::process`: the new state and the (feedback, dryWet) pair for the sample. -/
def nextGains (s : State) : State × ℚ × ℚ :=
  let f := s.smoothedFeedback.getNextValue
  let d := s.smoothedDryWet.getNextValue
  ({ s with smoothedFeedback := f.1, smoothedDryWet := d.1 }, f.2, d.2)

/-- The sample loop of `Delay::process` with the two ramps run from the state
(`sampleLoop` above takes their values as a stream instead). -/
def smoothedLoop (m : MathFns) (stereo : Bool) :
    State → List Frame → Except Fault (State × List Frame)
  | s, [] => pure (s, [])
  | s, x :: xs => do
    let g := nextGains s
    let (s1, y) ← processSample m stereo g.1 g.2.1 g.2.2 x
    let (s2, ys) ← smoothedLoop m stereo s1 xs
    pure (s2, y :: ys)

/-- Method `Delay::process` with the two ramps run from the state;
`feedbackFilter` is the JUCE lowpass run over the delay buffer after the loop. -/
def processSmoothed (m : MathFns) (feedbackFilter : AudioBuffer → AudioBuffer) (stereo : Bool)
    (s : State) (block : List Frame) : Except Fault (State × List Frame) :=
  if s.delayBuffer.numSamples = 0 ∨ s.delaySamples = 0 then pure (s, block)
  else do
    let (s1, out) ← smoothedLoop m stereo s block
    pure ({ s1 with delayBuffer := feedbackFilter s1.delayBuffer }, out)

end Delay

/-! ## Chorus (effects/Chorus.cpp) -/

namespace Chorus

/-- The members of a `Chorus` instance. -/
structure State where
  params : ChorusParams := {}
  sampleRate : ℚ := 44100
  delayBuffer : AudioBuffer := AudioBuffer.empty
  writePosition : ℤ := 0
  lfoPhaseL : ℚ := 0
  lfoPhaseR : ℚ := 1 / 4

/-- Method `Chorus::prepare`. -/
def prepare (s : State) (sampleRate : ℚ) : State :=
  { s with
    sampleRate := sampleRate
    delayBuffer := AudioBuffer.sized 2 (truncToInt (sampleRate * (5 / 100)))
    writePosition := 0
    lfoPhaseL := 0
    lfoPhaseR := 1 / 4 }

/-- Method `Chorus::reset`. -/
def reset (s : State) : State :=
  { s with
    delayBuffer := s.delayBuffer.clear
    writePosition := 0
    lfoPhaseL := 0
    lfoPhaseR := 1 / 4 }

/-- Method `Chorus::setParameter`. -/
def setParameter (s : State) (index : ℤ) (value : ℚ) : State :=
  let value := jlimit 0 1 value
  let p := s.params
  let p :=
    if index = 0 then { p with rate := value }
    else if index = 1 then { p with depth := value }
    else if index = 2 then { p with delay := value }
    else if index = 3 then { p with feedback := value }
    else if index = 4 then { p with dryWet := value }
    else p
  { s with params := p }

/-- Method `Chorus::getParameter`. -/
def getParameter (s : State) (index : ℤ) : ℚ :=
  if index = 0 then s.params.rate
  else if index = 1 then s.params.depth
  else if index = 2 then s.params.delay
  else if index = 3 then s.params.feedback
  else if index = 4 then s.params.dryWet
  else 0

/-- Method `Chorus::setParams`. -/
def setParams (s : State) (params : ChorusParams) : State :=
  { s with params := params }

/-- The fractional read position `readPosFloat` of the `readInterpolated` lambda,
over exact arithmetic (`readPosFloatRounded` has the rounding of the `float`
operations). -/
def readPosFloat (delayBufferSize writePosition : ℤ) (delaySamples : ℚ) : ℚ :=
  let readPosFloat : ℚ := (writePosition : ℚ) - delaySamples
  if readPosFloat < 0 then readPosFloat + delayBufferSize else readPosFloat

/-- The lambda `readInterpolated` of `Chorus::process`, reading `buffer` with
write cursor `writePosition`. -/
def readInterpolated (buffer : AudioBuffer) (writePosition : ℤ) (channel : ℕ)
    (delaySamples : ℚ) : Except Fault ℚ := do
  let delayBufferSize := buffer.numSamples
  let readPosFloat := readPosFloat delayBufferSize writePosition delaySamples
  let readPos0 := truncToInt readPosFloat
  let readPos1 ← cMod (readPos0 + 1) delayBufferSize
  let frac := readPosFloat - (⌊readPosFloat⌋ : ℤ)
  let s0 ← buffer.getSample channel readPos0
  let s1 ← buffer.getSample channel readPos1
  pure (s0 + frac * (s1 - s0))

/-- The fractional read position `readPosFloat` with the rounding of the `float`
operations made explicit: the conversion of the cursor, the subtraction and the
wrap `readPosFloat += delayBufferSize` each round their result to `float`. -/
def readPosFloatRounded (r : Rounding) (delayBufferSize writePosition : ℤ)
    (delaySamples : ℚ) : ℚ :=
  let readPosFloat : ℚ := r.toFloat (r.toFloat (writePosition : ℚ) - delaySamples)
  if readPosFloat < 0 then r.toFloat (readPosFloat + r.toFloat (delayBufferSize : ℚ))
  else readPosFloat

/-- The lambda `readInterpolated` of `Chorus::process` with the rounding of the
`float` operations made explicit. -/
def readInterpolatedRounded (r : Rounding) (buffer : AudioBuffer) (writePosition : ℤ)
    (channel : ℕ) (delaySamples : ℚ) : Except Fault ℚ := do
  let delayBufferSize := buffer.numSamples
  let readPosFloat := readPosFloatRounded r delayBufferSize writePosition delaySamples
  let readPos0 := truncToInt readPosFloat
  let readPos1 ← cMod (readPos0 + 1) delayBufferSize
  let frac := r.toFloat (readPosFloat - (⌊readPosFloat⌋ : ℤ))
  let s0 ← buffer.getSample channel readPos0
  let s1 ← buffer.getSample channel readPos1
  pure (r.toFloat (s0 + r.toFloat (frac * r.toFloat (s1 - s0))))

/-- One iteration of the per-sample loop of `Chorus::process`. -/
def processSample (m : MathFns) (stereo : Bool) (s : State) (x : Frame) :
    Except Fault (State × Frame) := do
  let delayBufferSize := s.delayBuffer.numSamples
  let lfoFreq : ℚ := 1 / 10 + s.params.rate * (49 / 10)
  let lfoIncrement := lfoFreq / s.sampleRate
  let baseDelayMs : ℚ := 5 + s.params.delay * 25
  let baseDelaySamples := baseDelayMs * s.sampleRate / 1000
  let modDepthMs : ℚ := 1 / 2 + s.params.depth * (45 / 10)
  let modDepthSamples := modDepthMs * s.sampleRate / 1000
  let feedback := s.params.feedback * (7 / 10)
  let dryWet := s.params.dryWet
  let lfoL := m.sin (s.lfoPhaseL * 2 * m.pi)
  let lfoR := m.sin (s.lfoPhaseR * 2 * m.pi)
  let delayL := jlimit 1 ((delayBufferSize - 1 : ℤ) : ℚ) (baseDelaySamples + lfoL * modDepthSamples)
  let delayR := jlimit 1 ((delayBufferSize - 1 : ℤ) : ℚ) (baseDelaySamples + lfoR * modDepthSamples)
  let inputL := x.1
  let inputR := if stereo then x.2 else inputL
  let delayedL ← readInterpolated s.delayBuffer s.writePosition 0 delayL
  let delayedR ← readInterpolated s.delayBuffer s.writePosition 1 delayR
  let buf ← s.delayBuffer.setSample 0 s.writePosition (inputL + delayedL * feedback)
  let buf ← buf.setSample 1 s.writePosition (inputR + delayedR * feedback)
  let outL := inputL * (1 - dryWet) + delayedL * dryWet
  let outR := inputR * (1 - dryWet) + delayedR * dryWet
  let writePosition ← cMod (s.writePosition + 1) delayBufferSize
  let lfoPhaseL := s.lfoPhaseL + lfoIncrement
  let lfoPhaseR := s.lfoPhaseR + lfoIncrement
  pure ({ s with
          delayBuffer := buf
          writePosition := writePosition
          lfoPhaseL := if lfoPhaseL ≥ 1 then lfoPhaseL - 1 else lfoPhaseL
          lfoPhaseR := if lfoPhaseR ≥ 1 then lfoPhaseR - 1 else lfoPhaseR },
        (outL, if stereo then outR else x.2))

/-- The sample loop of `Chorus::process`. -/
def sampleLoop (m : MathFns) (stereo : Bool) :
    State → List Frame → Except Fault (State × List Frame)
  | s, [] => pure (s, [])
  | s, x :: xs => do
    let (s1, y) ← processSample m stereo s x
    let (s2, ys) ← sampleLoop m stereo s1 xs
    pure (s2, y :: ys)

/-- Method `Chorus::process`. -/
def process (m : MathFns) (stereo : Bool) (s : State) (block : List Frame) :
    Except Fault (State × List Frame) :=
  if s.delayBuffer.numSamples = 0 then pure (s, block)
  else sampleLoop m stereo s block

/-- The per-sample phase step `lfoIncrement` of `Chorus::process`. -/
def lfoIncrement (s : State) : ℚ := (1 / 10 + s.params.rate * (49 / 10)) / s.sampleRate

/-- Successive calls of `Chorus::process` on one instance, one call per audio
block, returning the final state and the processed blocks. -/
def processBlocks (m : MathFns) (stereo : Bool) :
    State → List (List Frame) → Except Fault (State × List (List Frame))
  | s, [] => pure (s, [])
  | s, block :: blocks => do
    let (s1, out) ← process m stereo s block
    let (s2, outs) ← processBlocks m stereo s1 blocks
    pure (s2, out :: outs)

end Chorus

/-! ## Phaser (effects/Phaser.cpp, effects/Phaser.h) -/

namespace Phaser

/-- The struct `AllPassStage`: one delayed sample per channel (`z1[0]`, `z1[1]`). -/
structure AllPassStage where
  z1L : ℚ := 0
  z1R : ℚ := 0

/-- Method `AllPassStage::process` on channel 0. -/
def AllPassStage.processL (st : AllPassStage) (input coefficient : ℚ) : AllPassStage × ℚ :=
  let output := coefficient * input + st.z1L
  ({ st with z1L := input - coefficient * output }, output)

/-- Method `AllPassStage::process` on channel 1. -/
def AllPassStage.processR (st : AllPassStage) (input coefficient : ℚ) : AllPassStage × ℚ :=
  let output := coefficient * input + st.z1R
  ({ st with z1R := input - coefficient * output }, output)

/-- The constant `kMaxStages`. -/
def kMaxStages : ℕ := 12

/-- The members of a `Phaser` instance; `stages` holds the `kMaxStages` stages. -/
structure State where
  params : PhaserParams := {}
  sampleRate : ℚ := 44100
  stages : List AllPassStage := List.replicate kMaxStages {}
  lfoPhase : ℚ := 0
  feedbackL : ℚ := 0
  feedbackR : ℚ := 0

/-- Method `Phaser::reset`. -/
def reset (s : State) : State :=
  { s with
    stages := s.stages.map (fun _ => ({} : AllPassStage))
    lfoPhase := 0
    feedbackL := 0
    feedbackR := 0 }

/-- Method `Phaser::prepare`. -/
def prepare (s : State) (sampleRate : ℚ) : State :=
  reset { s with sampleRate := sampleRate }

/-- Method `Phaser::setParameter`. -/
def setParameter (s : State) (index : ℤ) (value : ℚ) : State :=
  let value := jlimit 0 1 value
  let p := s.params
  let p :=
    if index = 0 then { p with rate := value }
    else if index = 1 then { p with depth := value }
    else if index = 2 then { p with feedback := value }
    else if index = 3 then { p with stages := value }
    else if index = 4 then { p with dryWet := value }
    else p
  { s with params := p }

/-- Method `Phaser::getParameter`. -/
def getParameter (s : State) (index : ℤ) : ℚ :=
  if index = 0 then s.params.rate
  else if index = 1 then s.params.depth
  else if index = 2 then s.params.feedback
  else if index = 3 then s.params.stages
  else if index = 4 then s.params.dryWet
  else 0

/-- Method `Phaser::setParams`. -/
def setParams (s : State) (params : PhaserParams) : State :=
  { s with params := params }

/-- The stage count chosen at the top of `Phaser::process`. -/
def numStages (p : PhaserParams) : ℕ :=
  if p.stages < 1 / 4 then 4
  else if p.stages < 1 / 2 then 6
  else if p.stages < 3 / 4 then 8
  else 12

/-- The loop over the first `n` all-pass stages for one sample. -/
def runStages (coefficient : ℚ) : List AllPassStage → ℕ → ℚ → ℚ → List AllPassStage × ℚ × ℚ
  | [], _, wetL, wetR => ([], wetL, wetR)
  | st :: rest, 0, wetL, wetR => (st :: rest, wetL, wetR)
  | st :: rest, n + 1, wetL, wetR =>
    let (st1, wetL1) := st.processL wetL coefficient
    let (st2, wetR1) := st1.processR wetR coefficient
    let (rest1, wetL2, wetR2) := runStages coefficient rest n wetL1 wetR1
    (st2 :: rest1, wetL2, wetR2)

/-- One iteration of the per-sample loop of `Phaser::process`.  The divisions by
the sample rate and by `1 + tan (w0 / 2)` are the total division of `ℚ`; they
agree with the code where the divisor is not zero. -/
def processSample (m : MathFns) (stereo : Bool) (s : State) (x : Frame) : State × Frame :=
  let lfoFreq : ℚ := 5 / 100 + s.params.rate * (495 / 100)
  let lfoIncrement := lfoFreq / s.sampleRate
  let feedback := s.params.feedback * (85 / 100)
  let dryWet := s.params.dryWet
  let minFreq : ℚ := 100
  let maxFreq : ℚ := 4000
  let lfo := m.sin (s.lfoPhase * 2 * m.pi) * s.params.depth
  let sweepNorm := 1 / 2 + 1 / 2 * lfo
  let sweepFreq := minFreq * m.pow (maxFreq / minFreq) sweepNorm
  let w0 := 2 * m.pi * sweepFreq / s.sampleRate
  let coefficient := (1 - m.tan (w0 * (1 / 2))) / (1 + m.tan (w0 * (1 / 2)))
  let inputL := x.1
  let inputR := if stereo then x.2 else inputL
  let wetL := inputL + s.feedbackL * feedback
  let wetR := inputR + s.feedbackR * feedback
  let (stages, wetL, wetR) := runStages coefficient s.stages (numStages s.params) wetL wetR
  let outL := inputL * (1 - dryWet) + wetL * dryWet
  let outR := inputR * (1 - dryWet) + wetR * dryWet
  let lfoPhase := s.lfoPhase + lfoIncrement
  ({ s with
     stages := stages
     feedbackL := m.tanh wetL
     feedbackR := m.tanh wetR
     lfoPhase := if lfoPhase ≥ 1 then lfoPhase - 1 else lfoPhase },
   (outL, if stereo then outR else x.2))

/-- Method `Phaser::process`. -/
def process (m : MathFns) (stereo : Bool) : State → List Frame → State × List Frame
  | s, [] => (s, [])
  | s, x :: xs =>
    let (s1, y) := processSample m stereo s x
    let (s2, ys) := process m stereo s1 xs
    (s2, y :: ys)

/-- The per-sample phase step `lfoIncrement` of `Phaser::process`. -/
def lfoIncrement (s : State) : ℚ := (5 / 100 + s.params.rate * (495 / 100)) / s.sampleRate

/-- The value `sweepNorm` of `Phaser::process` for the sample that starts in `s`. -/
def sweepNorm (m : MathFns) (s : State) : ℚ :=
  1 / 2 + 1 / 2 * (m.sin (s.lfoPhase * 2 * m.pi) * s.params.depth)

/-- The value `sweepFreq` of `Phaser::process` for the sample that starts in `s`. -/
def sweepFreq (m : MathFns) (s : State) : ℚ := 100 * m.pow (4000 / 100) (sweepNorm m s)

/-- The value `w0` of `Phaser::process` for the sample that starts in `s`. -/
def w0 (m : MathFns) (s : State) : ℚ := 2 * m.pi * sweepFreq m s / s.sampleRate

/-- The all-pass `coefficient` of `Phaser::process` for the sample that starts
in `s`, shared by all stages and both channels. -/
def coefficient (m : MathFns) (s : State) : ℚ :=
  (1 - m.tan (w0 m s * (1 / 2))) / (1 + m.tan (w0 m s * (1 / 2)))

end Phaser

/-! ## Filter (effects/Filter.cpp, effects/Filter.h) -/

namespace Filter

/-- The enum `FilterType`. -/
inductive FilterType where
  | LowPass
  | HighPass
  | BandPass
  | Notch
  deriving DecidableEq, Repr

/-- The struct `SVFState`: the two integrator states of one channel. -/
structure SVFState where
  ic1eq : ℚ := 0
  ic2eq : ℚ := 0

/-- The members of a `Filter` instance. -/
structure State where
  params : FilterParams := {}
  sampleRate : ℚ := 44100
  stateL : SVFState := {}
  stateR : SVFState := {}
  lfoPhase : ℚ := 0

/-- Method `Filter::reset`. -/
def reset (s : State) : State :=
  { s with stateL := {}, stateR := {}, lfoPhase := 0 }

/-- Method `Filter::prepare`. -/
def prepare (s : State) (sampleRate : ℚ) : State :=
  reset { s with sampleRate := sampleRate }

/-- Method `Filter::setParameter`. -/
def setParameter (s : State) (index : ℤ) (value : ℚ) : State :=
  let value := jlimit 0 1 value
  let p := s.params
  let p :=
    if index = 0 then { p with cutoff := value }
    else if index = 1 then { p with resonance := value }
    else if index = 2 then { p with lfoRate := value }
    else if index = 3 then { p with lfoDepth := value }
    else if index = 4 then { p with filterType := value }
    else p
  { s with params := p }

/-- Method `Filter::getParameter`. -/
def getParameter (s : State) (index : ℤ) : ℚ :=
  if index = 0 then s.params.cutoff
  else if index = 1 then s.params.resonance
  else if index = 2 then s.params.lfoRate
  else if index = 3 then s.params.lfoDepth
  else if index = 4 then s.params.filterType
  else 0

/-- Method `Filter::setParams`. -/
def setParams (s : State) (params : FilterParams) : State :=
  { s with params := params }

/-- Method `Filter::getFilterType`. -/
def getFilterType (p : FilterParams) : FilterType :=
  if p.filterType < 1 / 4 then .LowPass
  else if p.filterType < 1 / 2 then .HighPass
  else if p.filterType < 3 / 4 then .BandPass
  else .Notch

/-- The state-variable tick of one channel for one input sample, with the
coefficients `a1 a2 a3 k` of this sample. -/
def svfTick (filterType : FilterType) (a1 a2 a3 k : ℚ) (state : SVFState) (input : ℚ) :
    SVFState × ℚ :=
  let v3 := input - state.ic2eq
  let v1 := a1 * state.ic1eq + a2 * v3
  let v2 := state.ic2eq + a2 * state.ic1eq + a3 * v3
  let output :=
    match filterType with
    | .LowPass => v2
    | .HighPass => input - k * v1 - v2
    | .BandPass => v1
    | .Notch => input - k * v1
  ({ ic1eq := 2 * v1 - state.ic1eq, ic2eq := 2 * v2 - state.ic2eq }, output)

/-- One iteration of the per-sample loop of `Filter::process`.  The divisions by
the sample rate, by the resonance and by `1 + g * (g + k)` are the total division
of `ℚ`; they agree with the code where the divisor is not zero. -/
def processSample (m : MathFns) (stereo : Bool) (s : State) (x : Frame) : State × Frame :=
  let lfoFreq : ℚ := 1 / 10 + s.params.lfoRate * (99 / 10)
  let lfoIncrement := lfoFreq / s.sampleRate
  let minFreq : ℚ := 20
  let maxFreq : ℚ := min 20000 (s.sampleRate * (45 / 100))
  let baseCutoff := minFreq * m.pow (maxFreq / minFreq) s.params.cutoff
  let resonance : ℚ := 1 / 2 + s.params.resonance * (195 / 10)
  let filterType := getFilterType s.params
  let lfo := m.sin (s.lfoPhase * 2 * m.pi)
  let lfoOctaves := lfo * s.params.lfoDepth * 2
  let modulatedCutoff := jlimit minFreq maxFreq (baseCutoff * m.pow 2 lfoOctaves)
  let g := m.tan (m.pi * modulatedCutoff / s.sampleRate)
  let k := 1 / resonance
  let a1 := 1 / (1 + g * (g + k))
  let a2 := g * a1
  let a3 := g * a2
  let (stateL, outL) := svfTick filterType a1 a2 a3 k s.stateL x.1
  let (stateR, outR) :=
    if stereo then svfTick filterType a1 a2 a3 k s.stateR x.2 else (s.stateR, x.2)
  let lfoPhase := s.lfoPhase + lfoIncrement
  ({ s with
     stateL := stateL
     stateR := stateR
     lfoPhase := if lfoPhase ≥ 1 then lfoPhase - 1 else lfoPhase },
   (outL, outR))

/-- Method `Filter::process`. -/
def process (m : MathFns) (stereo : Bool) : State → List Frame → State × List Frame
  | s, [] => (s, [])
  | s, x :: xs =>
    let (s1, y) := processSample m stereo s x
    let (s2, ys) := process m stereo s1 xs
    (s2, y :: ys)

/-- The upper cutoff bound `maxFreq` of `Filter::process`. -/
def maxFreq (sampleRate : ℚ) : ℚ := min 20000 (sampleRate * (45 / 100))

/-- The clamped `modulatedCutoff` of `Filter::process` for the sample that
starts in state `s`. -/
def modulatedCutoff (m : MathFns) (s : State) : ℚ :=
  jlimit 20 (maxFreq s.sampleRate)
    (20 * m.pow (maxFreq s.sampleRate / 20) s.params.cutoff
      * m.pow 2 (m.sin (s.lfoPhase * 2 * m.pi) * s.params.lfoDepth * 2))

/-- The coefficient `g` of `Filter::process` for the sample that starts in `s`. -/
def coeffG (m : MathFns) (s : State) : ℚ :=
  m.tan (m.pi * modulatedCutoff m s / s.sampleRate)

/-- The value `resonance` (the Q) of `Filter::process`. -/
def resonanceQ (s : State) : ℚ := 1 / 2 + s.params.resonance * (195 / 10)

/-- The coefficient `k` of `Filter::process`. -/
def coeffK (s : State) : ℚ := 1 / resonanceQ s

/-- The coefficient `a1` of `Filter::process`. -/
def coeffA1 (m : MathFns) (s : State) : ℚ := 1 / (1 + coeffG m s * (coeffG m s + coeffK s))

/-- The coefficient `a2` of `Filter::process`. -/
def coeffA2 (m : MathFns) (s : State) : ℚ := coeffG m s * coeffA1 m s

/-- The coefficient `a3` of `Filter::process`. -/
def coeffA3 (m : MathFns) (s : State) : ℚ := coeffG m s * coeffA2 m s

/-- The per-sample phase step `lfoIncrement` of `Filter::process`. -/
def lfoIncrement (s : State) : ℚ := (1 / 10 + s.params.lfoRate * (99 / 10)) / s.sampleRate

end Filter

/-! ## Glitch (effects/Glitch.cpp, effects/Glitch.h) -/

namespace Glitch

/-- The members of a `Glitch` instance.  `rngCalls` counts the calls of
`dist_(rng_)` made so far: the next draw is number `rngCalls` of the stream.
The dry copy `dryBuffer_` is scratch space of one `process` call and is
modelled as a value inside `process`. -/
structure State where
  params : GlitchParams := {}
  sampleRate : ℚ := 44100
  captureBuffer : AudioBuffer := AudioBuffer.empty
  captureLength : ℤ := 0
  capturePosition : ℤ := 0
  isGlitching : Bool := false
  isReversed : Bool := false
  glitchPlaybackPos : ℤ := 0
  glitchRepeatCount : ℤ := 0
  currentRepeat : ℤ := 0
  samplesUntilNextGlitch : ℤ := 0
  rngCalls : ℕ := 0

/-- Method `Glitch::reset`. -/
def reset (s : State) : State :=
  { s with
    captureBuffer := s.captureBuffer.clear
    capturePosition := 0
    isGlitching := false
    isReversed := false
    glitchPlaybackPos := 0
    glitchRepeatCount := 0
    currentRepeat := 0
    samplesUntilNextGlitch := truncToInt (s.sampleRate * (1 / 10)) }

/-- Method `Glitch::prepare`. -/
def prepare (s : State) (sampleRate : ℚ) : State :=
  reset { s with
    sampleRate := sampleRate
    captureBuffer := AudioBuffer.sized 2 (truncToInt (sampleRate * (1 / 2))) }

/-- Method `Glitch::setParameter`. -/
def setParameter (s : State) (index : ℤ) (value : ℚ) : State :=
  let value := jlimit 0 1 value
  let p := s.params
  let p :=
    if index = 0 then { p with rate := value }
    else if index = 1 then { p with stutter := value }
    else if index = 2 then { p with crush := value }
    else if index = 3 then { p with reverse := value }
    else if index = 4 then { p with dryWet := value }
    else p
  { s with params := p }

/-- Method `Glitch::getParameter`. -/
def getParameter (s : State) (index : ℤ) : ℚ :=
  if index = 0 then s.params.rate
  else if index = 1 then s.params.stutter
  else if index = 2 then s.params.crush
  else if index = 3 then s.params.reverse
  else if index = 4 then s.params.dryWet
  else 0

/-- Method `Glitch::setParams`. -/
def setParams (s : State) (params : GlitchParams) : State :=
  { s with params := params }

/-- Method `Glitch::triggerGlitch`; `draws` is the stream of `dist_(rng_)` values.
The guard compares with the `float` literal `0.01f`, which is the binary32
value `5368709 / 2^29` (a little below 1/100). -/
def triggerGlitch (draws : ℕ → ℚ) (s : State) : State :=
  if s.params.rate < 5368709 / 536870912 then
    { s with samplesUntilNextGlitch := truncToInt s.sampleRate }
  else
    let minMs : ℚ := 5 + (1 - s.params.stutter) * 45
    let maxMs : ℚ := 50 + (1 - s.params.stutter) * 150
    let lengthMs := minMs + draws s.rngCalls * (maxMs - minMs)
    let captureLength := truncToInt (lengthMs * s.sampleRate / 1000)
    let captureLength := min captureLength (s.captureBuffer.numSamples - 1)
    let captureLength := max captureLength 64
    let minRepeats : ℤ := 1
    let maxRepeats : ℤ := 2 + truncToInt (s.params.stutter * 14)
    let glitchRepeatCount :=
      minRepeats + truncToInt (draws (s.rngCalls + 1) * ((maxRepeats - minRepeats : ℤ) : ℚ))
    { s with
      isGlitching := true
      glitchPlaybackPos := 0
      currentRepeat := 0
      captureLength := captureLength
      glitchRepeatCount := glitchRepeatCount
      isReversed := decide (draws (s.rngCalls + 2) < s.params.reverse)
      rngCalls := s.rngCalls + 3 }

/-- Method `Glitch::bitCrush`. -/
def bitCrush (m : MathFns) (sample amount : ℚ) : ℚ :=
  let bits : ℚ := 16 - amount * 13
  let bits := max bits 2
  let levels := m.pow 2 bits
  (cRound (sample * levels) : ℚ) / levels

/-- The countdown at the top of the branch `if (!isGlitching_)` of
`Glitch::process`: decrement, and trigger when the counter reaches zero. -/
def countdown (draws : ℕ → ℚ) (s : State) : State :=
  let s1 := { s with samplesUntilNextGlitch := s.samplesUntilNextGlitch - 1 }
  if s1.samplesUntilNextGlitch ≤ 0 then triggerGlitch draws s1 else s1

/-- The capture half of one loop iteration of `Glitch::process` (the branch
`if (!isGlitching_)`): countdown, trigger, capture write, cursor advance. -/
def captureStep (draws : ℕ → ℚ) (stereo : Bool) (s : State) (x : Frame) :
    Except Fault State :=
  if s.isGlitching then pure s
  else do
    let s2 := countdown draws s
    let buf ← s2.captureBuffer.setSample 0 s2.capturePosition x.1
    let buf ← if stereo then buf.setSample 1 s2.capturePosition x.2 else pure buf
    let capturePosition ← cMod (s2.capturePosition + 1) s2.captureBuffer.numSamples
    pure { s2 with captureBuffer := buf, capturePosition := capturePosition }

/-- The cell index `readPos` of the playback half of `Glitch::process`. -/
def readPos (s : State) : Except Fault ℤ :=
  if s.isReversed then
    cMod (s.capturePosition - 1 - s.glitchPlaybackPos + s.captureBuffer.numSamples)
      s.captureBuffer.numSamples
  else
    cMod (s.capturePosition - s.captureLength + s.glitchPlaybackPos + s.captureBuffer.numSamples)
      s.captureBuffer.numSamples

/-- The sample written back for one channel during playback: the captured cell,
bit-crushed when `crush > 0.01f` (the binary32 value `5368709 / 2^29`). -/
def glitchSample (m : MathFns) (s : State) (channel : ℕ) (readPos : ℤ) : Except Fault ℚ := do
  let glitchSample ← s.captureBuffer.getSample channel readPos
  pure (if s.params.crush > 5368709 / 536870912 then bitCrush m glitchSample s.params.crush
        else glitchSample)

/-- The line `samplesUntilNextGlitch_ = static_cast<int> (rateMs * sampleRate_ /
1000.0f)` of `Glitch::process` with the rounding of each floating-point
operation made explicit: `rateMs = 50.0f + (1.0f - rate) * 2000.0f` is computed
in `float`, the product with the `double` `sampleRate_` and the quotient in
`double`. -/
def baseCountdown (r : Rounding) (sampleRate rate : ℚ) : ℤ :=
  let rateMs : ℚ := r.toFloat (50 + r.toFloat (r.toFloat (1 - rate) * 2000))
  truncToInt (r.toDouble (r.toDouble (rateMs * sampleRate) / 1000))

/-- The line `samplesUntilNextGlitch_ = static_cast<int> (samplesUntilNextGlitch_
* (0.5f + dist_(rng_)))` that follows it, `u` being the draw: the `int` is
converted to `float` and the sum and the product are `float` operations, rounded
before the conversion to `int`. -/
def nextCountdown (r : Rounding) (sampleRate rate u : ℚ) : ℤ :=
  let samplesUntilNextGlitch := baseCountdown r sampleRate rate
  truncToInt (r.toFloat (r.toFloat (samplesUntilNextGlitch : ℚ) * r.toFloat (1 / 2 + u)))

/-- The block `// Advance playback` of `Glitch::process`, over exact arithmetic
(`nextCountdown` is the rescheduled countdown with the rounding of the `float`
operations). -/
def advancePlayback (draws : ℕ → ℚ) (s : State) : State :=
  let s1 := { s with glitchPlaybackPos := s.glitchPlaybackPos + 1 }
  if s1.glitchPlaybackPos ≥ s1.captureLength then
    let s2 := { s1 with glitchPlaybackPos := 0, currentRepeat := s1.currentRepeat + 1 }
    if s2.currentRepeat ≥ s2.glitchRepeatCount then
      let rateMs : ℚ := 50 + (1 - s2.params.rate) * 2000
      let samplesUntilNextGlitch := truncToInt (rateMs * s2.sampleRate / 1000)
      { s2 with
        isGlitching := false
        samplesUntilNextGlitch :=
          truncToInt ((samplesUntilNextGlitch : ℚ) * (1 / 2 + draws s2.rngCalls))
        rngCalls := s2.rngCalls + 1 }
    else s2
  else s1

/-- The playback half of one loop iteration of `Glitch::process` (the branch
`if (isGlitching_)`): returns the new state and the frame left in the block. -/
def playbackStep (m : MathFns) (draws : ℕ → ℚ) (stereo : Bool) (s : State) (x : Frame) :
    Except Fault (State × Frame) :=
  if s.isGlitching then do
    let readPos ← readPos s
    let outL ← glitchSample m s 0 readPos
    let outR ← if stereo then glitchSample m s 1 readPos else pure x.2
    pure (advancePlayback draws s, (outL, outR))
  else pure (s, x)

/-- One iteration of the per-sample loop of `Glitch::process`: the wet frame. -/
def processSample (m : MathFns) (draws : ℕ → ℚ) (stereo : Bool) (s : State) (x : Frame) :
    Except Fault (State × Frame) := do
  let s1 ← captureStep draws stereo s x
  playbackStep m draws stereo s1 x

/-- The per-sample loop of `Glitch::process`: final state and wet block. -/
def sampleLoop (m : MathFns) (draws : ℕ → ℚ) (stereo : Bool) :
    State → List Frame → Except Fault (State × List Frame)
  | s, [] => pure (s, [])
  | s, x :: xs => do
    let (s1, y) ← processSample m draws stereo s x
    let (s2, ys) ← sampleLoop m draws stereo s1 xs
    pure (s2, y :: ys)

/-- The loop `// Mix dry/wet` of `Glitch::process` for one frame. -/
def mix (stereo : Bool) (dryWet : ℚ) (dry wet : Frame) : Frame :=
  (dry.1 * (1 - dryWet) + wet.1 * dryWet,
   if stereo then dry.2 * (1 - dryWet) + wet.2 * dryWet else wet.2)

/-- Method `Glitch::process`: dry copy of the block, per-sample loop, mix. -/
def process (m : MathFns) (draws : ℕ → ℚ) (stereo : Bool) (s : State) (block : List Frame) :
    Except Fault (State × List Frame) := do
  let dryWet := s.params.dryWet
  let dry := block
  let (s1, wet) ← sampleLoop m draws stereo s block
  pure (s1, List.zipWith (mix stereo dryWet) dry wet)

end Glitch

/-! ## Tremolo (effects/Tremolo.cpp) -/

namespace Tremolo

/-- Method `Tremolo::getLfoValue`. -/
def getLfoValue (m : MathFns) (phase shape : ℚ) : ℚ :=
  if shape < 33 / 100 then
    let sine := m.sin (phase * 2 * m.pi)
    let triangle := 4 * |phase - 1 / 2| - 1
    let blend := shape / (33 / 100)
    sine * (1 - blend) + triangle * blend
  else if shape < 66 / 100 then
    let triangle := 4 * |phase - 1 / 2| - 1
    let square : ℚ := if phase < 1 / 2 then 1 else -1
    let blend := (shape - 33 / 100) / (33 / 100)
    triangle * (1 - blend) + square * blend
  else
    if phase < 1 / 2 then 1 else -1

end Tremolo

/-! ## Distortion (effects/Distortion.cpp, effects/Distortion.h) -/

/-- Record `DistortionParams` with its defaults. -/
structure DistortionParams where
  drive : ℚ := 5 / 10
  tone : ℚ := 5 / 10
  dryWet : ℚ := 5 / 10
  curveType : ℚ := 0

namespace Distortion

/-- The enum `CurveType`. -/
inductive CurveType where
  | SoftClip
  | HardClip
  | Tube
  | Fuzz
  deriving DecidableEq, Repr

/-- The members of a `Distortion` instance with their in-class initializers
(`curveType_ = SoftClip`, `driveGain_ = 1.0f`; the constructor is defaulted).
`toneCutoff` is the cutoff last handed to the JUCE tone lowpass. -/
structure State where
  params : DistortionParams := {}
  sampleRate : ℚ := 44100
  curveType : CurveType := .SoftClip
  driveGain : ℚ := 1
  toneCutoff : ℚ := 0

/-- Method `Distortion::updateFilter`. -/
def updateFilter (s : State) : State :=
  { s with toneCutoff := 1000 + s.params.tone * 11000 }

/-- Method `Distortion::prepare`. -/
def prepare (s : State) (sampleRate : ℚ) : State :=
  updateFilter { s with sampleRate := sampleRate }

/-- Method `Distortion::reset` (it only clears the JUCE tone filter). -/
def reset (s : State) : State := s

/-- Method `Distortion::setParameter`. -/
def setParameter (s : State) (index : ℤ) (value : ℚ) : State :=
  let value := jlimit 0 1 value
  let p := s.params
  let p :=
    if index = 0 then { p with drive := value }
    else if index = 1 then { p with tone := value }
    else if index = 2 then { p with dryWet := value }
    else if index = 3 then { p with curveType := value }
    else p
  let curveType : CurveType :=
    if p.curveType < 1 / 4 then .SoftClip
    else if p.curveType < 1 / 2 then .HardClip
    else if p.curveType < 3 / 4 then .Tube
    else .Fuzz
  updateFilter { s with params := p, curveType := curveType, driveGain := 1 + p.drive * 49 }

/-- Method `Distortion::getParameter`. -/
def getParameter (s : State) (index : ℤ) : ℚ :=
  if index = 0 then s.params.drive
  else if index = 1 then s.params.tone
  else if index = 2 then s.params.dryWet
  else if index = 3 then s.params.curveType
  else 0

/-- Method `Distortion::setParams`. -/
def setParams (s : State) (params : DistortionParams) : State :=
  updateFilter (setParameter { s with params := params } 3 params.curveType)

/-- Method `Distortion::processSample`, the shaping curve; `exp` is `std::exp`. -/
def processSample (m : MathFns) (exp : ℚ → ℚ) (s : State) (sample : ℚ) : ℚ :=
  match s.curveType with
  | .SoftClip => m.tanh sample
  | .HardClip => jlimit (-1) 1 sample
  | .Tube => if sample ≥ 0 then 1 - exp (-sample) else -1 + exp sample
  | .Fuzz => m.tanh (|sample| * 2) * (if sample ≥ 0 then 1 else -(1 / 2))

/-- The loop `// Apply drive and distortion` of `Distortion::process` over the
samples of one channel: `data[i] = processSample (data[i] * driveGain_)`. -/
def applyDrive (m : MathFns) (exp : ℚ → ℚ) (s : State) (data : List ℚ) : List ℚ :=
  data.map (fun x => processSample m exp s (x * s.driveGain))

/-- The curve the parameter value `curveType` stands for: soft below 0.25, hard
below 0.5, tube below 0.75, fuzz from 0.75 on. -/
def quartileCurve (curveType : ℚ) : CurveType :=
  if curveType < 1 / 4 then .SoftClip
  else if curveType < 1 / 2 then .HardClip
  else if curveType < 3 / 4 then .Tube
  else .Fuzz

/-- The derived settings agree with the stored parameters: the drive gain is
`1 + 49 * drive` and the active curve is the quartile of `curveType`. -/
def Consistent (s : State) : Prop :=
  s.driveGain = 1 + 49 * s.params.drive ∧ s.curveType = quartileCurve s.params.curveType

end Distortion

/-! ## Sequences of parameter writes -/

/-- A parameter write an effect can receive: `setParameter (index, value)` or
`setParams (record)`, with arbitrary finite values. -/
inductive ParamCall (P : Type) where
  | setParameter (index : ℤ) (value : ℚ)
  | setParams (params : P)

/-- Perform one parameter write on a `Delay`. -/
def Delay.applyCall (s : Delay.State) : ParamCall DelayParams → Delay.State
  | .setParameter index value => Delay.setParameter s index value
  | .setParams params => Delay.setParams s params

/-- Perform one parameter write on a `Chorus`. -/
def Chorus.applyCall (s : Chorus.State) : ParamCall ChorusParams → Chorus.State
  | .setParameter index value => Chorus.setParameter s index value
  | .setParams params => Chorus.setParams s params

/-- Perform one parameter write on a `Phaser`. -/
def Phaser.applyCall (s : Phaser.State) : ParamCall PhaserParams → Phaser.State
  | .setParameter index value => Phaser.setParameter s index value
  | .setParams params => Phaser.setParams s params

/-- Perform one parameter write on a `Filter`. -/
def Filter.applyCall (s : Filter.State) : ParamCall FilterParams → Filter.State
  | .setParameter index value => Filter.setParameter s index value
  | .setParams params => Filter.setParams s params

/-- Perform one parameter write on a `Glitch`. -/
def Glitch.applyCall (s : Glitch.State) : ParamCall GlitchParams → Glitch.State
  | .setParameter index value => Glitch.setParameter s index value
  | .setParams params => Glitch.setParams s params

/-- Perform one parameter write on a `Distortion`. -/
def Distortion.applyCall (s : Distortion.State) : ParamCall DistortionParams → Distortion.State
  | .setParameter index value => Distortion.setParameter s index value
  | .setParams params => Distortion.setParams s params

/-- Every record handed to `setParams` in the call has its fields in the unit
interval (`InRange`); `setParameter` values are unconstrained. -/
def ParamCall.RecordsOk {P : Type} (InRange : P → Prop) : ParamCall P → Prop
  | .setParameter _ _ => True
  | .setParams params => InRange params

/-! ## Loop invariants of the glitch engine -/

/-- The cursor and grain bounds that keep every buffer access of
`Glitch::process` in range: a two-channel capture buffer of at least 65 cells,
the capture cursor inside it and, while a grain plays, a grain length in
`[64, capacity - 1]` with the playback offset in `[0, length)`. -/
structure Glitch.Safe (s : Glitch.State) : Prop where
  channels : s.captureBuffer.numChannels = 2
  capacity : 65 ≤ s.captureBuffer.numSamples
  cursor_nonneg : 0 ≤ s.capturePosition
  cursor_lt : s.capturePosition < s.captureBuffer.numSamples
  grain : s.isGlitching = true →
    64 ≤ s.captureLength ∧ s.captureLength ≤ s.captureBuffer.numSamples - 1
      ∧ 0 ≤ s.glitchPlaybackPos ∧ s.glitchPlaybackPos < s.captureLength

/-- The frames captured so far, most recent first, after the loop iteration that
starts in state `s` with input `x`: the input is captured exactly when the
engine is not glitching at the start of the iteration. -/
def Glitch.captured (s : Glitch.State) (history : List Frame) (x : Frame) : List Frame :=
  if s.isGlitching then history else x :: history

/-- The states `Glitch::process` passes through at sample boundaries, starting
from `start`, each paired with the frames captured so far (most recent first). -/
inductive Glitch.Reaches (m : MathFns) (draws : ℕ → ℚ) (stereo : Bool) (start : Glitch.State) :
    Glitch.State → List Frame → Prop where
  | start : Glitch.Reaches m draws stereo start start []
  | sample {s s1 : Glitch.State} {history : List Frame} (x y : Frame) :
      Glitch.Reaches m draws stereo start s history →
      Glitch.processSample m draws stereo s x = .ok (s1, y) →
      Glitch.Reaches m draws stereo start s1 (Glitch.captured s history x)

/-- The capture buffer holds the capture history: the cell `k + 1` positions
behind the capture cursor holds the frame captured `k` captures ago (channel 1
only for stereo blocks), and zero when fewer than `k + 1` frames were captured. -/
def Glitch.HoldsHistory (stereo : Bool) (s : Glitch.State) (history : List Frame) : Prop :=
  ∀ k : ℕ, (k : ℤ) < s.captureBuffer.numSamples →
    s.captureBuffer.data 0 ((s.capturePosition - 1 - k) % s.captureBuffer.numSamples).toNat
        = (history.getD k (0, 0)).1
    ∧ (stereo = true →
        s.captureBuffer.data 1 ((s.capturePosition - 1 - k) % s.captureBuffer.numSamples).toNat
          = (history.getD k (0, 0)).2)

/-- The bounds under which the capture half of `Glitch::process` stays in range:
a two-channel capture buffer with at least one cell and the capture cursor
inside it. -/
structure Glitch.Prepared (s : Glitch.State) : Prop where
  channels : s.captureBuffer.numChannels = 2
  capacity : 1 ≤ s.captureBuffer.numSamples
  cursor_nonneg : 0 ≤ s.capturePosition
  cursor_lt : s.capturePosition < s.captureBuffer.numSamples

/-! ## Loop invariants of the delay lines -/

/-- The bounds that keep every buffer access of the loop of `Delay::process` in
range: a two-channel delay buffer with at least one cell, the write cursor
inside it and a delay of at most `capacity - 1` samples. -/
structure Delay.Ready (s : Delay.State) : Prop where
  channels : s.delayBuffer.numChannels = 2
  capacity : 1 ≤ s.delayBuffer.numSamples
  cursor_nonneg : 0 ≤ s.writePosition
  cursor_lt : s.writePosition < s.delayBuffer.numSamples
  delay_le : s.delaySamples ≤ s.delayBuffer.numSamples - 1

/-- The bounds that keep every buffer access of the loop of `Chorus::process` in
range: a two-channel delay buffer with at least one cell and the write cursor
inside it. -/
structure Chorus.Ready (s : Chorus.State) : Prop where
  channels : s.delayBuffer.numChannels = 2
  capacity : 1 ≤ s.delayBuffer.numSamples
  cursor_nonneg : 0 ≤ s.writePosition
  cursor_lt : s.writePosition < s.delayBuffer.numSamples

/-! ## Theorems -/

/-! ### Parameter access (C1, C2, C3) -/

theorem jlimit_mem (lo hi v : ℚ) (h : lo ≤ hi) : lo ≤ jlimit lo hi v ∧ jlimit lo hi v ≤ hi := by
  unfold jlimit
  split_ifs with h1 h2
  · exact ⟨le_refl _, h⟩
  · exact ⟨h, le_refl _⟩
  · exact ⟨not_lt.mp h1, not_lt.mp h2⟩

/-- On finite values `jlimitFloat` is `jlimit`; a NaN is returned unchanged, so
the clamp of `setParameter` does not bring it into the unit interval. -/
theorem jlimitFloat_spec (lo hi : ℚ) :
    (∀ v : ℚ, jlimitFloat lo hi (some v) = some (jlimit lo hi v))
    ∧ jlimitFloat lo hi none = none := by
  refine ⟨fun v => ?_, rfl⟩
  simp only [jlimitFloat, jlimit, decide_eq_true_eq]
  split_ifs <;> rfl

theorem jlimit_unit_eq (v : ℚ) :
    jlimit 0 1 v = if v < 0 then 0 else if v > 1 then 1 else v := by
  unfold jlimit
  rfl

theorem jlimit_unit_normalized (v : ℚ) : Normalized (jlimit 0 1 v) := by
  unfold jlimit Normalized
  split_ifs with h1 h2
  · exact ⟨le_refl _, zero_le_one⟩
  · exact ⟨zero_le_one, le_refl _⟩
  · exact ⟨not_lt.mp h1, not_lt.mp h2⟩

theorem Delay.params_updateDelay (s : Delay.State) : (Delay.updateDelay s).params = s.params := rfl

/-- C1: for each of Delay, Chorus, Phaser, Filter and Glitch, every index `i` in
0..4 and every value `v`, reading parameter `i` after `setParameter (i, v)` gives
`v` clamped into the unit interval (0 below 0, 1 above 1, `v` otherwise), and
every other index `j` reads what it read before. -/
theorem C1_setParameter_getParameter (i j : ℤ) (v : ℚ) (hi0 : 0 ≤ i) (hi4 : i ≤ 4) (hj : j ≠ i)
    (d : Delay.State) (c : Chorus.State) (p : Phaser.State) (f : Filter.State)
    (g : Glitch.State) :
    (Delay.getParameter (Delay.setParameter d i v) i = (if v < 0 then 0 else if v > 1 then 1 else v)
      ∧ Delay.getParameter (Delay.setParameter d i v) j = Delay.getParameter d j)
    ∧ (Chorus.getParameter (Chorus.setParameter c i v) i
        = (if v < 0 then 0 else if v > 1 then 1 else v)
      ∧ Chorus.getParameter (Chorus.setParameter c i v) j = Chorus.getParameter c j)
    ∧ (Phaser.getParameter (Phaser.setParameter p i v) i
        = (if v < 0 then 0 else if v > 1 then 1 else v)
      ∧ Phaser.getParameter (Phaser.setParameter p i v) j = Phaser.getParameter p j)
    ∧ (Filter.getParameter (Filter.setParameter f i v) i
        = (if v < 0 then 0 else if v > 1 then 1 else v)
      ∧ Filter.getParameter (Filter.setParameter f i v) j = Filter.getParameter f j)
    ∧ (Glitch.getParameter (Glitch.setParameter g i v) i
        = (if v < 0 then 0 else if v > 1 then 1 else v)
      ∧ Glitch.getParameter (Glitch.setParameter g i v) j = Glitch.getParameter g j) := by
  have hcases : i = 0 ∨ i = 1 ∨ i = 2 ∨ i = 3 ∨ i = 4 := by omega
  rw [← jlimit_unit_eq]
  refine ⟨⟨?_, ?_⟩, ⟨?_, ?_⟩, ⟨?_, ?_⟩, ⟨?_, ?_⟩, ⟨?_, ?_⟩⟩
  all_goals
    rcases hcases with rfl | rfl | rfl | rfl | rfl <;>
    simp [Delay.getParameter, Delay.setParameter, Delay.params_updateDelay,
      Chorus.getParameter, Chorus.setParameter, Phaser.getParameter, Phaser.setParameter,
      Filter.getParameter, Filter.setParameter, Glitch.getParameter, Glitch.setParameter, hj]

/-- Witness for C1: writing 3/2 to index 2 of freshly constructed effects reads
back 1 at index 2 and leaves index 0 alone. -/
theorem C1_setParameter_getParameter_witness :
    Delay.getParameter (Delay.setParameter {} 2 (3 / 2)) 2 = 1
    ∧ Glitch.getParameter (Glitch.setParameter {} 2 (3 / 2)) 0 = 1 / 2 := by
  have h := C1_setParameter_getParameter 2 0 (3 / 2) (by decide) (by decide) (by decide)
    {} {} {} {} {}
  refine ⟨?_, ?_⟩
  · rw [h.1.1]; norm_num
  · rw [h.2.2.2.2.2]; norm_num [Glitch.getParameter]

/-- C2: for each of Delay, Chorus, Phaser, Filter and Glitch and every index
`i < 0` or `i ≥ 5`, `setParameter (i, v)` leaves the stored parameter record as
it was, for every `v`, and `getParameter (i)` returns 0. -/
theorem C2_index_out_of_range (i : ℤ) (v : ℚ) (hi : i < 0 ∨ 5 ≤ i)
    (d : Delay.State) (c : Chorus.State) (p : Phaser.State) (f : Filter.State)
    (g : Glitch.State) :
    ((Delay.setParameter d i v).params = d.params ∧ Delay.getParameter d i = 0)
    ∧ ((Chorus.setParameter c i v).params = c.params ∧ Chorus.getParameter c i = 0)
    ∧ ((Phaser.setParameter p i v).params = p.params ∧ Phaser.getParameter p i = 0)
    ∧ ((Filter.setParameter f i v).params = f.params ∧ Filter.getParameter f i = 0)
    ∧ ((Glitch.setParameter g i v).params = g.params ∧ Glitch.getParameter g i = 0) := by
  have h0 : i ≠ 0 := by omega
  have h1 : i ≠ 1 := by omega
  have h2 : i ≠ 2 := by omega
  have h3 : i ≠ 3 := by omega
  have h4 : i ≠ 4 := by omega
  simp [Delay.getParameter, Delay.setParameter, Delay.params_updateDelay,
    Chorus.getParameter, Chorus.setParameter, Phaser.getParameter, Phaser.setParameter,
    Filter.getParameter, Filter.setParameter, Glitch.getParameter, Glitch.setParameter,
    h0, h1, h2, h3, h4]

/-- Witness for C2: index 5 on a freshly constructed Chorus and Glitch. -/
theorem C2_index_out_of_range_witness :
    (Chorus.setParameter {} 5 (9 / 10)).params = ({} : Chorus.State).params
    ∧ Glitch.getParameter {} 5 = 0 :=
  ⟨(C2_index_out_of_range 5 (9 / 10) (Or.inr (le_refl 5)) {} {} {} {} {}).2.1.1,
   (C2_index_out_of_range 5 (9 / 10) (Or.inr (le_refl 5)) {} {} {} {} {}).2.2.2.2.2⟩

theorem Delay.delay_setParameter_inRange (s : Delay.State) (i : ℤ) (v : ℚ) (h : s.params.InRange) :
    (Delay.setParameter s i v).params.InRange := by
  have hv := jlimit_unit_normalized v
  obtain ⟨h1, h2, h3, h4, h5⟩ := h
  simp only [Delay.setParameter, Delay.params_updateDelay]
  split_ifs <;> exact ⟨by assumption, by assumption, by assumption, by assumption, by assumption⟩

theorem Chorus.chorus_setParameter_inRange (s : Chorus.State) (i : ℤ) (v : ℚ) (h : s.params.InRange) :
    (Chorus.setParameter s i v).params.InRange := by
  have hv := jlimit_unit_normalized v
  obtain ⟨h1, h2, h3, h4, h5⟩ := h
  simp only [Chorus.setParameter]
  split_ifs <;> exact ⟨by assumption, by assumption, by assumption, by assumption, by assumption⟩

theorem Phaser.phaser_setParameter_inRange (s : Phaser.State) (i : ℤ) (v : ℚ) (h : s.params.InRange) :
    (Phaser.setParameter s i v).params.InRange := by
  have hv := jlimit_unit_normalized v
  obtain ⟨h1, h2, h3, h4, h5⟩ := h
  simp only [Phaser.setParameter]
  split_ifs <;> exact ⟨by assumption, by assumption, by assumption, by assumption, by assumption⟩

theorem Filter.filter_setParameter_inRange (s : Filter.State) (i : ℤ) (v : ℚ) (h : s.params.InRange) :
    (Filter.setParameter s i v).params.InRange := by
  have hv := jlimit_unit_normalized v
  obtain ⟨h1, h2, h3, h4, h5⟩ := h
  simp only [Filter.setParameter]
  split_ifs <;> exact ⟨by assumption, by assumption, by assumption, by assumption, by assumption⟩

theorem Glitch.glitch_setParameter_inRange (s : Glitch.State) (i : ℤ) (v : ℚ) (h : s.params.InRange) :
    (Glitch.setParameter s i v).params.InRange := by
  have hv := jlimit_unit_normalized v
  obtain ⟨h1, h2, h3, h4, h5⟩ := h
  simp only [Glitch.setParameter]
  split_ifs <;> exact ⟨by assumption, by assumption, by assumption, by assumption, by assumption⟩

theorem DelayParams.delayParams_default_inRange : ({} : DelayParams).InRange := by
  simp only [DelayParams.InRange, Normalized]; norm_num

theorem ChorusParams.chorusParams_default_inRange : ({} : ChorusParams).InRange := by
  simp only [ChorusParams.InRange, Normalized]; norm_num

theorem PhaserParams.phaserParams_default_inRange : ({} : PhaserParams).InRange := by
  simp only [PhaserParams.InRange, Normalized]; norm_num

theorem FilterParams.filterParams_default_inRange : ({} : FilterParams).InRange := by
  simp only [FilterParams.InRange, Normalized]; norm_num

theorem GlitchParams.glitchParams_default_inRange : ({} : GlitchParams).InRange := by
  simp only [GlitchParams.InRange, Normalized]; norm_num

theorem Delay.delay_foldl_applyCall_inRange (calls : List (ParamCall DelayParams)) :
    ∀ s : Delay.State, s.params.InRange →
      (∀ call ∈ calls, call.RecordsOk DelayParams.InRange) →
      (calls.foldl Delay.applyCall s).params.InRange := by
  induction calls with
  | nil => intro s hs _; simpa using hs
  | cons call rest ih =>
    intro s hs hall
    rw [List.foldl_cons]
    apply ih
    · have hc := hall call (List.mem_cons_self _ _)
      cases call with
      | setParameter index value => exact Delay.delay_setParameter_inRange s index value hs
      | setParams params => exact hc
    · intro c hcmem
      exact hall c (List.mem_cons_of_mem _ hcmem)

theorem Chorus.chorus_foldl_applyCall_inRange (calls : List (ParamCall ChorusParams)) :
    ∀ s : Chorus.State, s.params.InRange →
      (∀ call ∈ calls, call.RecordsOk ChorusParams.InRange) →
      (calls.foldl Chorus.applyCall s).params.InRange := by
  induction calls with
  | nil => intro s hs _; simpa using hs
  | cons call rest ih =>
    intro s hs hall
    rw [List.foldl_cons]
    apply ih
    · have hc := hall call (List.mem_cons_self _ _)
      cases call with
      | setParameter index value => exact Chorus.chorus_setParameter_inRange s index value hs
      | setParams params => exact hc
    · intro c hcmem
      exact hall c (List.mem_cons_of_mem _ hcmem)

theorem Phaser.phaser_foldl_applyCall_inRange (calls : List (ParamCall PhaserParams)) :
    ∀ s : Phaser.State, s.params.InRange →
      (∀ call ∈ calls, call.RecordsOk PhaserParams.InRange) →
      (calls.foldl Phaser.applyCall s).params.InRange := by
  induction calls with
  | nil => intro s hs _; simpa using hs
  | cons call rest ih =>
    intro s hs hall
    rw [List.foldl_cons]
    apply ih
    · have hc := hall call (List.mem_cons_self _ _)
      cases call with
      | setParameter index value => exact Phaser.phaser_setParameter_inRange s index value hs
      | setParams params => exact hc
    · intro c hcmem
      exact hall c (List.mem_cons_of_mem _ hcmem)

theorem Filter.filter_foldl_applyCall_inRange (calls : List (ParamCall FilterParams)) :
    ∀ s : Filter.State, s.params.InRange →
      (∀ call ∈ calls, call.RecordsOk FilterParams.InRange) →
      (calls.foldl Filter.applyCall s).params.InRange := by
  induction calls with
  | nil => intro s hs _; simpa using hs
  | cons call rest ih =>
    intro s hs hall
    rw [List.foldl_cons]
    apply ih
    · have hc := hall call (List.mem_cons_self _ _)
      cases call with
      | setParameter index value => exact Filter.filter_setParameter_inRange s index value hs
      | setParams params => exact hc
    · intro c hcmem
      exact hall c (List.mem_cons_of_mem _ hcmem)

theorem Glitch.glitch_foldl_applyCall_inRange (calls : List (ParamCall GlitchParams)) :
    ∀ s : Glitch.State, s.params.InRange →
      (∀ call ∈ calls, call.RecordsOk GlitchParams.InRange) →
      (calls.foldl Glitch.applyCall s).params.InRange := by
  induction calls with
  | nil => intro s hs _; simpa using hs
  | cons call rest ih =>
    intro s hs hall
    rw [List.foldl_cons]
    apply ih
    · have hc := hall call (List.mem_cons_self _ _)
      cases call with
      | setParameter index value => exact Glitch.glitch_setParameter_inRange s index value hs
      | setParams params => exact hc
    · intro c hcmem
      exact hall c (List.mem_cons_of_mem _ hcmem)

/-- C3 as stated fails: `setParams` stores the record it is given without
clamping, so one `setParams` call with a field of 2 leaves a stored parameter
outside the unit interval, in each of the five effects. -/
theorem C3_setParams_stores_unclamped :
    ¬ (([ParamCall.setParams ({ time := 2 } : DelayParams)].foldl Delay.applyCall {}).params.InRange)
    ∧ ¬ (([ParamCall.setParams ({ rate := 2 } : ChorusParams)].foldl
          Chorus.applyCall {}).params.InRange)
    ∧ ¬ (([ParamCall.setParams ({ rate := 2 } : PhaserParams)].foldl
          Phaser.applyCall {}).params.InRange)
    ∧ ¬ (([ParamCall.setParams ({ cutoff := 2 } : FilterParams)].foldl
          Filter.applyCall {}).params.InRange)
    ∧ ¬ (([ParamCall.setParams ({ rate := 2 } : GlitchParams)].foldl
          Glitch.applyCall {}).params.InRange) := by
  refine ⟨?_, ?_, ?_, ?_, ?_⟩ <;>
  · intro h
    have h1 := h.1.2
    simp only [List.foldl_cons, List.foldl_nil, Delay.applyCall, Delay.setParams,
      Delay.params_updateDelay, Chorus.applyCall, Chorus.setParams, Phaser.applyCall,
      Phaser.setParams, Filter.applyCall, Filter.setParams, Glitch.applyCall,
      Glitch.setParams] at h1
    norm_num at h1

/-- C3 (amended): for each of Delay, Chorus, Phaser, Filter and Glitch, in every
state reached from construction by any sequence of `setParameter (i, v)` calls
with arbitrary index and arbitrary finite value (a rational, as every `float`
other than NaN and the infinities is) and `setParams (record)` calls whose
records have all fields in the unit interval, every stored parameter lies in the
unit interval. -/
theorem C3_stored_parameters_in_unit_interval
    (dcalls : List (ParamCall DelayParams)) (ccalls : List (ParamCall ChorusParams))
    (pcalls : List (ParamCall PhaserParams)) (fcalls : List (ParamCall FilterParams))
    (gcalls : List (ParamCall GlitchParams))
    (hd : ∀ call ∈ dcalls, call.RecordsOk DelayParams.InRange)
    (hc : ∀ call ∈ ccalls, call.RecordsOk ChorusParams.InRange)
    (hp : ∀ call ∈ pcalls, call.RecordsOk PhaserParams.InRange)
    (hf : ∀ call ∈ fcalls, call.RecordsOk FilterParams.InRange)
    (hg : ∀ call ∈ gcalls, call.RecordsOk GlitchParams.InRange) :
    (dcalls.foldl Delay.applyCall {}).params.InRange
    ∧ (ccalls.foldl Chorus.applyCall {}).params.InRange
    ∧ (pcalls.foldl Phaser.applyCall {}).params.InRange
    ∧ (fcalls.foldl Filter.applyCall {}).params.InRange
    ∧ (gcalls.foldl Glitch.applyCall {}).params.InRange :=
  ⟨Delay.delay_foldl_applyCall_inRange dcalls {} DelayParams.delayParams_default_inRange hd,
   Chorus.chorus_foldl_applyCall_inRange ccalls {} ChorusParams.chorusParams_default_inRange hc,
   Phaser.phaser_foldl_applyCall_inRange pcalls {} PhaserParams.phaserParams_default_inRange hp,
   Filter.filter_foldl_applyCall_inRange fcalls {} FilterParams.filterParams_default_inRange hf,
   Glitch.glitch_foldl_applyCall_inRange gcalls {} GlitchParams.glitchParams_default_inRange hg⟩

/-- Witness for C3: a write of 7 to index 0, a `setParams` with the default
record and a write of -3 to index 4 on a Glitch (and single writes elsewhere). -/
theorem C3_stored_parameters_in_unit_interval_witness :
    ([ParamCall.setParameter 0 7, ParamCall.setParams ({} : GlitchParams),
      ParamCall.setParameter 4 (-3)].foldl Glitch.applyCall {}).params.InRange :=
  (C3_stored_parameters_in_unit_interval
    [ParamCall.setParameter 1 5] [ParamCall.setParameter 1 5] [ParamCall.setParameter 1 5]
    [ParamCall.setParameter 1 5]
    [ParamCall.setParameter 0 7, ParamCall.setParams ({} : GlitchParams),
      ParamCall.setParameter 4 (-3)]
    (by simp [ParamCall.RecordsOk]) (by simp [ParamCall.RecordsOk])
    (by simp [ParamCall.RecordsOk]) (by simp [ParamCall.RecordsOk])
    (by
      intro call hcall
      simp only [List.mem_cons, List.mem_singleton, List.not_mem_nil, or_false] at hcall
      rcases hcall with rfl | rfl | rfl
      · trivial
      · exact GlitchParams.glitchParams_default_inRange
      · trivial)).2.2.2.2

/-! ### Running in the `Except` monad -/

@[simp] theorem except_ok_bind {ε α β : Type} (a : α) (f : α → Except ε β) :
    (Except.ok a >>= f) = f a := rfl

@[simp] theorem except_error_bind {ε α β : Type} (e : ε) (f : α → Except ε β) :
    ((Except.error e : Except ε α) >>= f) = Except.error e := rfl

@[simp] theorem except_pure_eq_ok {ε α : Type} (a : α) : (pure a : Except ε α) = Except.ok a := rfl

/-! ### Processing before `prepare` (C4) -/

@[simp] theorem Glitch.triggerGlitch_captureBuffer (draws : ℕ → ℚ) (s : Glitch.State) :
    (Glitch.triggerGlitch draws s).captureBuffer = s.captureBuffer := by
  unfold Glitch.triggerGlitch; split_ifs <;> rfl

@[simp] theorem Glitch.triggerGlitch_capturePosition (draws : ℕ → ℚ) (s : Glitch.State) :
    (Glitch.triggerGlitch draws s).capturePosition = s.capturePosition := by
  unfold Glitch.triggerGlitch; split_ifs <;> rfl

@[simp] theorem Glitch.triggerGlitch_params (draws : ℕ → ℚ) (s : Glitch.State) :
    (Glitch.triggerGlitch draws s).params = s.params := by
  unfold Glitch.triggerGlitch; split_ifs <;> rfl

@[simp] theorem Glitch.triggerGlitch_sampleRate (draws : ℕ → ℚ) (s : Glitch.State) :
    (Glitch.triggerGlitch draws s).sampleRate = s.sampleRate := by
  unfold Glitch.triggerGlitch; split_ifs <;> rfl

@[simp] theorem Glitch.countdown_captureBuffer (draws : ℕ → ℚ) (s : Glitch.State) :
    (Glitch.countdown draws s).captureBuffer = s.captureBuffer := by
  unfold Glitch.countdown; simp only; split_ifs <;> simp

@[simp] theorem Glitch.countdown_capturePosition (draws : ℕ → ℚ) (s : Glitch.State) :
    (Glitch.countdown draws s).capturePosition = s.capturePosition := by
  unfold Glitch.countdown; simp only; split_ifs <;> simp

@[simp] theorem Glitch.countdown_params (draws : ℕ → ℚ) (s : Glitch.State) :
    (Glitch.countdown draws s).params = s.params := by
  unfold Glitch.countdown; simp only; split_ifs <;> simp

@[simp] theorem Glitch.countdown_sampleRate (draws : ℕ → ℚ) (s : Glitch.State) :
    (Glitch.countdown draws s).sampleRate = s.sampleRate := by
  unfold Glitch.countdown; simp only; split_ifs <;> simp

/-- C4 at the failing input: on instances that were constructed and never
prepared, `Delay::process` and `Chorus::process` return at their zero-size guard
with block and state unchanged, but `Glitch::process` has no such guard: for
every block with at least one sample its first loop iteration writes cell 0 of
the zero-capacity capture buffer, and the cursor advance that follows is a
modulo by the capacity 0. -/
theorem C4_glitch_process_unprepared (m : MathFns) (feedbackFilter : AudioBuffer → AudioBuffer)
    (ramp : ℕ → ℚ × ℚ) (draws : ℕ → ℚ) (stereo : Bool) (x : Frame) (xs : List Frame) :
    Delay.process m feedbackFilter stereo ramp {} (x :: xs) = .ok ({}, x :: xs)
    ∧ Chorus.process m stereo {} (x :: xs) = .ok ({}, x :: xs)
    ∧ Glitch.process m draws stereo {} (x :: xs) = .error .indexOutOfRange
    ∧ cMod (({} : Glitch.State).capturePosition + 1) ({} : Glitch.State).captureBuffer.numSamples
        = .error .moduloByZero := by
  refine ⟨?_, ?_, ?_, ?_⟩
  · simp [Delay.process, AudioBuffer.empty]
  · simp [Chorus.process, AudioBuffer.empty]
  · have hcap : Glitch.captureStep draws stereo {} x = .error .indexOutOfRange := by
      simp [Glitch.captureStep, AudioBuffer.setSample, AudioBuffer.inRange, AudioBuffer.empty]
    simp [Glitch.process, Glitch.sampleLoop, Glitch.processSample, hcap]
  · simp [cMod, AudioBuffer.empty]

/-! ### Ring-buffer index arithmetic -/

theorem emod_of_neg_ge (a cap : ℤ) (h1 : -cap ≤ a) (h2 : a < 0) : a % cap = a + cap := by
  rw [← Int.add_emod_self]
  exact Int.emod_eq_of_lt (by omega) (by omega)

theorem cMod_eq_emod (a cap : ℤ) (ha : 0 ≤ a) (hcap : 0 < cap) : cMod a cap = .ok (a % cap) := by
  unfold cMod
  rw [if_neg (by omega), Int.tmod_eq_emod ha (by omega)]

theorem truncToInt_of_nonneg (x : ℚ) (hx : 0 ≤ x) : truncToInt x = ⌊x⌋ := by
  unfold truncToInt
  rw [if_pos hx]

theorem truncToInt_nonneg (x : ℚ) (hx : 0 ≤ x) : 0 ≤ truncToInt x := by
  rw [truncToInt_of_nonneg x hx]
  exact Int.floor_nonneg.mpr hx

theorem AudioBuffer.getSample_ok (b : AudioBuffer) (channel : ℕ) (index : ℤ)
    (hch : channel < b.numChannels) (h0 : 0 ≤ index) (h1 : index < b.numSamples) :
    b.getSample channel index = .ok (b.data channel index.toNat) := by
  unfold AudioBuffer.getSample
  rw [if_pos ⟨hch, h0, h1⟩]

/-! ### The interpolated read of Chorus (C6, C7) -/

theorem Chorus.readPosFloat_bounds (cap w : ℤ) (d : ℚ) (hw0 : 0 ≤ w) (hw : w < cap)
    (hd0 : 0 ≤ d) (hd : d ≤ cap) :
    0 ≤ Chorus.readPosFloat cap w d ∧ Chorus.readPosFloat cap w d < cap := by
  have hwq0 : (0 : ℚ) ≤ w := by exact_mod_cast hw0
  have hwq : (w : ℚ) < cap := by exact_mod_cast hw
  unfold Chorus.readPosFloat
  simp only
  split_ifs with h
  · constructor <;> linarith
  · constructor <;> linarith

theorem Chorus.floor_readPosFloat (cap w : ℤ) (d : ℚ) (hw0 : 0 ≤ w) (hw : w < cap)
    (hd1 : 1 ≤ d) (hd : d ≤ ((cap - 1 : ℤ) : ℚ)) :
    ⌊Chorus.readPosFloat cap w d⌋ = (w - ⌈d⌉) % cap := by
  have hc1 : 1 ≤ ⌈d⌉ := Int.one_le_ceil_iff.mpr (by linarith)
  have hc2 : ⌈d⌉ ≤ cap - 1 := Int.ceil_le.mpr hd
  have hle : d ≤ ⌈d⌉ := Int.le_ceil d
  have hlt : (⌈d⌉ : ℚ) < d + 1 := Int.ceil_lt_add_one d
  unfold Chorus.readPosFloat
  simp only
  split_ifs with h
  · have hwc : w < ⌈d⌉ := by
      have : (w : ℚ) < ⌈d⌉ := by linarith
      exact_mod_cast this
    rw [emod_of_neg_ge _ _ (by omega) (by omega), Int.floor_eq_iff]
    push_cast
    constructor <;> linarith
  · have hwc : ⌈d⌉ ≤ w := Int.ceil_le.mpr (by linarith)
    rw [Int.emod_eq_of_lt (by omega) (by omega), Int.floor_eq_iff]
    push_cast
    constructor <;> linarith

theorem Chorus.fract_readPosFloat (cap w : ℤ) (d : ℚ) :
    Chorus.readPosFloat cap w d - (⌊Chorus.readPosFloat cap w d⌋ : ℤ) = 0 ∨ ⌈d⌉ = ⌊d⌋ + 1 := by
  by_cases hint : ⌈d⌉ = ⌊d⌋ + 1
  · exact Or.inr hint
  · left
    have h1 := Int.ceil_le_floor_add_one d
    have h2 : ⌈d⌉ ≤ ⌊d⌋ := by omega
    have h3 : (⌈d⌉ : ℚ) ≤ ⌊d⌋ := by exact_mod_cast h2
    have hd : d = (⌊d⌋ : ℚ) := le_antisymm (le_trans (Int.le_ceil d) h3) (Int.floor_le d)
    have hr : ∃ z : ℤ, Chorus.readPosFloat cap w d = (z : ℚ) := by
      unfold Chorus.readPosFloat
      simp only
      split_ifs
      · exact ⟨w - ⌊d⌋ + cap, by rw [hd]; push_cast; simp⟩
      · exact ⟨w - ⌊d⌋, by rw [hd]; push_cast; simp⟩
    obtain ⟨z, hz⟩ := hr
    rw [hz, Int.floor_intCast, sub_self]

/-- The value `readInterpolated` returns, spelled out: both reads are in range,
the first cell is `ceil d` behind the cursor, the second is the cell after it. -/
theorem Chorus.readInterpolated_eq (buffer : AudioBuffer) (cap w : ℤ) (channel : ℕ) (d : ℚ)
    (hcapdef : buffer.numSamples = cap) (hch : channel < buffer.numChannels)
    (hw0 : 0 ≤ w) (hw : w < cap) (hd1 : 1 ≤ d) (hd : d ≤ ((cap - 1 : ℤ) : ℚ)) :
    Chorus.readInterpolated buffer w channel d
      = .ok (buffer.data channel ((w - ⌈d⌉) % cap).toNat
          + (Chorus.readPosFloat cap w d - (⌊Chorus.readPosFloat cap w d⌋ : ℤ))
            * (buffer.data channel (((w - ⌈d⌉) % cap + 1) % cap).toNat
                - buffer.data channel ((w - ⌈d⌉) % cap).toNat)) := by
  have hcap : 0 < cap := by omega
  have hdq : d ≤ (cap : ℚ) := by
    have : ((cap - 1 : ℤ) : ℚ) ≤ cap := by push_cast; linarith
    linarith
  obtain ⟨hr0, hr1⟩ := Chorus.readPosFloat_bounds cap w d hw0 hw (by linarith) hdq
  have hfloor := Chorus.floor_readPosFloat cap w d hw0 hw hd1 hd
  have hp0 : 0 ≤ (w - ⌈d⌉) % cap := Int.emod_nonneg _ (by omega)
  have hp1 : (w - ⌈d⌉) % cap < cap := Int.emod_lt_of_pos _ hcap
  have hq0 : 0 ≤ ((w - ⌈d⌉) % cap + 1) % cap := Int.emod_nonneg _ (by omega)
  have hq1 : ((w - ⌈d⌉) % cap + 1) % cap < cap := Int.emod_lt_of_pos _ hcap
  have hmod := cMod_eq_emod ((w - ⌈d⌉) % cap + 1) cap (by omega) hcap
  have hg0 := AudioBuffer.getSample_ok buffer channel _ hch hp0 (hcapdef.symm ▸ hp1)
  have hg1 := AudioBuffer.getSample_ok buffer channel _ hch hq0 (hcapdef.symm ▸ hq1)
  simp only [Chorus.readInterpolated, hcapdef, truncToInt_of_nonneg _ hr0, hfloor, hmod,
    except_ok_bind, hg0, hg1, except_pure_eq_ok]

theorem Chorus.second_cell (cap w : ℤ) (d : ℚ) (h : ⌈d⌉ = ⌊d⌋ + 1) :
    ((w - ⌈d⌉) % cap + 1) % cap = (w - ⌊d⌋) % cap := by
  rw [Int.emod_add_emod, h]
  congr 1
  ring

theorem emod_sub_ne_self (cap w k : ℤ) (hw0 : 0 ≤ w) (hw : w < cap) (hk1 : 1 ≤ k)
    (hk : k ≤ cap - 1) : (w - k) % cap ≠ w := by
  rcases lt_or_le (w - k) 0 with h | h
  · rw [emod_of_neg_ge _ _ (by omega) h]; omega
  · rw [Int.emod_eq_of_lt h (by omega)]; omega

theorem between_of_lerp (a b frac : ℚ) (h0 : 0 ≤ frac) (h1 : frac < 1) :
    min a b ≤ a + frac * (b - a) ∧ a + frac * (b - a) ≤ max a b := by
  rcases le_total a b with hab | hab
  · rw [min_eq_left hab, max_eq_right hab]
    constructor <;> nlinarith
  · rw [min_eq_right hab, max_eq_left hab]
    constructor <;> nlinarith

/-- Over exact arithmetic, for every capacity at least 2, write cursor `w` in
`[0, capacity)`, buffer contents and delay `d` in `[1, capacity - 1]`,
`readInterpolated` reads two cells whose indices lie in `[0, capacity)` and
returns a value between (inclusive) the samples stored `ceil d` and `floor d`
positions behind the write cursor. -/
theorem Chorus.readInterpolated_convex (buffer : AudioBuffer) (w : ℤ) (channel : ℕ) (d : ℚ)
    (hcap : 2 ≤ buffer.numSamples) (hch : channel < buffer.numChannels)
    (hw0 : 0 ≤ w) (hw : w < buffer.numSamples)
    (hd1 : 1 ≤ d) (hd : d ≤ ((buffer.numSamples - 1 : ℤ) : ℚ)) :
    ∃ (readPos1 : ℤ) (v : ℚ),
      (0 ≤ truncToInt (Chorus.readPosFloat buffer.numSamples w d)
        ∧ truncToInt (Chorus.readPosFloat buffer.numSamples w d) < buffer.numSamples)
      ∧ cMod (truncToInt (Chorus.readPosFloat buffer.numSamples w d) + 1) buffer.numSamples
          = .ok readPos1
      ∧ (0 ≤ readPos1 ∧ readPos1 < buffer.numSamples)
      ∧ Chorus.readInterpolated buffer w channel d = .ok v
      ∧ min (buffer.data channel ((w - ⌈d⌉) % buffer.numSamples).toNat)
            (buffer.data channel ((w - ⌊d⌋) % buffer.numSamples).toNat) ≤ v
      ∧ v ≤ max (buffer.data channel ((w - ⌈d⌉) % buffer.numSamples).toNat)
            (buffer.data channel ((w - ⌊d⌋) % buffer.numSamples).toNat) := by
  have hcap0 : 0 < buffer.numSamples := by omega
  have hdq : d ≤ (buffer.numSamples : ℚ) := by
    have : ((buffer.numSamples - 1 : ℤ) : ℚ) ≤ buffer.numSamples := by push_cast; linarith
    linarith
  obtain ⟨hr0, hr1⟩ :=
    Chorus.readPosFloat_bounds buffer.numSamples w d hw0 hw (by linarith) hdq
  have hfloor := Chorus.floor_readPosFloat buffer.numSamples w d hw0 hw hd1 hd
  have hp0 : 0 ≤ (w - ⌈d⌉) % buffer.numSamples := Int.emod_nonneg _ (by omega)
  have hp1 : (w - ⌈d⌉) % buffer.numSamples < buffer.numSamples := Int.emod_lt_of_pos _ hcap0
  have hread :=
    Chorus.readInterpolated_eq buffer buffer.numSamples w channel d rfl hch hw0 hw hd1 hd
  rw [truncToInt_of_nonneg _ hr0, hfloor]
  refine ⟨_, _, ⟨hp0, hp1⟩, cMod_eq_emod _ _ (by omega) hcap0,
    ⟨Int.emod_nonneg _ (by omega), Int.emod_lt_of_pos _ hcap0⟩, hread, ?_⟩
  rcases Chorus.fract_readPosFloat buffer.numSamples w d with h0 | hceil
  · rw [h0]
    simp only [zero_mul, add_zero]
    exact ⟨min_le_left _ _, le_max_left _ _⟩
  · rw [Chorus.second_cell _ _ _ hceil]
    refine between_of_lerp _ _ _ ?_ ?_
    · rw [Int.self_sub_floor]; exact Int.fract_nonneg _
    · rw [Int.self_sub_floor]; exact Int.fract_lt_one _

/-- C7: for a delay `d` in `[1, capacity - 1]` and a write cursor `w`, the value
`readInterpolated` returns is the same for any two buffers of the same size that
agree on every cell other than the one at the write cursor.  In Delay, for
`1 ≤ delaySamples ≤ capacity - 1` the read position
`(w - delaySamples + capacity) % capacity` lies in `[0, capacity)` and is not `w`;
and `1 ≤ delaySamples ≤ capacity - 1` does hold whenever the guard of
`Delay::process` lets the loop run, for every state left by `updateDelay` with a
non-negative sample rate and time parameter. -/
theorem C7_read_never_depends_on_cursor_cell (buffer buffer' : AudioBuffer) (w : ℤ)
    (channel : ℕ) (d : ℚ) (s : Delay.State)
    (hchs : buffer'.numChannels = buffer.numChannels)
    (hsize : buffer'.numSamples = buffer.numSamples)
    (hsame : ∀ c i, i ≠ w.toNat → buffer'.data c i = buffer.data c i)
    (hch : channel < buffer.numChannels)
    (hw0 : 0 ≤ w) (hw : w < buffer.numSamples)
    (hd1 : 1 ≤ d) (hd : d ≤ ((buffer.numSamples - 1 : ℤ) : ℚ))
    (hsw0 : 0 ≤ s.writePosition) (hsw : s.writePosition < s.delayBuffer.numSamples)
    (hds1 : 1 ≤ s.delaySamples) (hds : s.delaySamples ≤ s.delayBuffer.numSamples - 1) :
    Chorus.readInterpolated buffer' w channel d = Chorus.readInterpolated buffer w channel d
    ∧ (∃ readPos : ℤ,
        cMod (s.writePosition - s.delaySamples + s.delayBuffer.numSamples)
          s.delayBuffer.numSamples = .ok readPos
        ∧ 0 ≤ readPos ∧ readPos < s.delayBuffer.numSamples ∧ readPos ≠ s.writePosition)
    ∧ ∀ t : Delay.State, 0 ≤ t.sampleRate → 0 ≤ t.params.time →
        0 ≤ t.delayBuffer.numSamples →
        ¬ ((Delay.updateDelay t).delayBuffer.numSamples = 0
            ∨ (Delay.updateDelay t).delaySamples = 0) →
        1 ≤ (Delay.updateDelay t).delaySamples
        ∧ (Delay.updateDelay t).delaySamples
            ≤ (Delay.updateDelay t).delayBuffer.numSamples - 1 := by
  refine ⟨?_, ?_, ?_⟩
  · have hcap0 : 0 < buffer.numSamples := by omega
    have hc1 : 1 ≤ ⌈d⌉ := Int.one_le_ceil_iff.mpr (by linarith)
    have hc2 : ⌈d⌉ ≤ buffer.numSamples - 1 := Int.ceil_le.mpr hd
    have hf1 : 1 ≤ ⌊d⌋ := Int.le_floor.mpr (by exact_mod_cast hd1)
    have hf2 : ⌊d⌋ ≤ buffer.numSamples - 1 := le_trans (Int.floor_le_ceil d) hc2
    have hne : ∀ k : ℤ, 1 ≤ k → k ≤ buffer.numSamples - 1 →
        ((w - k) % buffer.numSamples).toNat ≠ w.toNat := by
      intro k hk1 hk hEq
      have h1 := emod_sub_ne_self buffer.numSamples w k hw0 hw hk1 hk
      have h2 : 0 ≤ (w - k) % buffer.numSamples := Int.emod_nonneg _ (by omega)
      omega
    rw [Chorus.readInterpolated_eq buffer' buffer.numSamples w channel d hsize (hchs ▸ hch)
        hw0 hw hd1 hd,
      Chorus.readInterpolated_eq buffer buffer.numSamples w channel d rfl hch hw0 hw hd1 hd,
      hsame _ _ (hne _ hc1 hc2)]
    rcases Chorus.fract_readPosFloat buffer.numSamples w d with h0 | hceil
    · rw [h0]; simp only [zero_mul, add_zero]
    · rw [Chorus.second_cell _ _ _ hceil, hsame _ _ (hne _ hf1 hf2)]
  · have hcap0 : 0 < s.delayBuffer.numSamples := by omega
    refine ⟨_, cMod_eq_emod _ _ (by omega) hcap0, Int.emod_nonneg _ (by omega),
      Int.emod_lt_of_pos _ hcap0, ?_⟩
    rw [Int.add_emod_self]
    exact emod_sub_ne_self _ _ _ hsw0 hsw hds1 hds
  · intro t hsr htime hcap hguard
    push_neg at hguard
    obtain ⟨hg1, hg2⟩ := hguard
    have hnum : (Delay.updateDelay t).delayBuffer.numSamples = t.delayBuffer.numSamples := rfl
    have hds : (Delay.updateDelay t).delaySamples
        = min (truncToInt ((10 + t.params.time * 990) * t.sampleRate / 1000))
            (t.delayBuffer.numSamples - 1) := rfl
    rw [hnum] at hg1 ⊢
    have htr : 0 ≤ truncToInt ((10 + t.params.time * 990) * t.sampleRate / 1000) := by
      apply truncToInt_nonneg
      have : 0 ≤ (10 + t.params.time * 990) * t.sampleRate :=
        mul_nonneg (by linarith) hsr
      linarith
    have hle : (Delay.updateDelay t).delaySamples ≤ t.delayBuffer.numSamples - 1 := by
      rw [hds]; exact min_le_right _ _
    have hge : 0 ≤ (Delay.updateDelay t).delaySamples := by
      rw [hds]; exact le_min htr (by omega)
    exact ⟨by omega, hle⟩

/-- Witness for C7: a four-cell buffer with the cursor at 0 and delay 3/2, once
with 10 and once with 99 in the cursor cell; a Delay with four cells, cursor 0
and a delay of 2 samples. -/
theorem C7_read_never_depends_on_cursor_cell_witness :
    Chorus.readInterpolated
        { numChannels := 2, numSamples := 4, data := fun _ i => if i = 0 then 99 else (i : ℚ) }
        0 0 (3 / 2)
      = Chorus.readInterpolated
        { numChannels := 2, numSamples := 4, data := fun _ i => if i = 0 then 10 else (i : ℚ) }
        0 0 (3 / 2) :=
  (C7_read_never_depends_on_cursor_cell
    { numChannels := 2, numSamples := 4, data := fun _ i => if i = 0 then 10 else (i : ℚ) }
    { numChannels := 2, numSamples := 4, data := fun _ i => if i = 0 then 99 else (i : ℚ) }
    0 0 (3 / 2)
    { delayBuffer := AudioBuffer.sized 2 4, writePosition := 0, delaySamples := 2 }
    rfl rfl (by intro c i hi; simp only [Int.toNat_zero] at hi; simp [hi])
    (by norm_num) (by norm_num) (by norm_num) (by norm_num) (by norm_num)
    (by norm_num) (by norm_num [AudioBuffer.sized]) (by norm_num)
    (by norm_num [AudioBuffer.sized])).1

/-! ### Grain length (C8, C9) -/

theorem Glitch.triggerGlitch_captureLength (draws : ℕ → ℚ) (s : Glitch.State)
    (hrate : 1 / 100 ≤ s.params.rate) :
    (Glitch.triggerGlitch draws s).captureLength
      = max (min (truncToInt ((5 + (1 - s.params.stutter) * 45
                + draws s.rngCalls * (50 + (1 - s.params.stutter) * 150
                    - (5 + (1 - s.params.stutter) * 45))) * s.sampleRate / 1000))
              (s.captureBuffer.numSamples - 1)) 64 := by
  unfold Glitch.triggerGlitch
  rw [if_neg (not_lt.mpr (le_trans (by norm_num) hrate))]

theorem Glitch.triggerGlitch_isGlitching (draws : ℕ → ℚ) (s : Glitch.State)
    (hrate : 1 / 100 ≤ s.params.rate) :
    (Glitch.triggerGlitch draws s).isGlitching = true := by
  unfold Glitch.triggerGlitch
  rw [if_neg (not_lt.mpr (le_trans (by norm_num) hrate))]

/-- C8: whenever `triggerGlitch` starts a grain (rate at least 0.01), for every
sample rate, capture capacity, stutter value and random draws, the state is
glitching and `captureLength_` is at least 64. -/
theorem C8_grain_length_at_least_64 (draws : ℕ → ℚ) (s : Glitch.State)
    (hrate : 1 / 100 ≤ s.params.rate) :
    (Glitch.triggerGlitch draws s).isGlitching = true
    ∧ 64 ≤ (Glitch.triggerGlitch draws s).captureLength := by
  refine ⟨Glitch.triggerGlitch_isGlitching draws s hrate, ?_⟩
  rw [Glitch.triggerGlitch_captureLength draws s hrate]
  exact le_max_right _ _

/-- Witness for C8: a freshly constructed Glitch (rate 0.5, no capture buffer). -/
theorem C8_grain_length_at_least_64_witness :
    64 ≤ (Glitch.triggerGlitch (fun _ => 0) {}).captureLength :=
  (C8_grain_length_at_least_64 (fun _ => 0) {} (by norm_num)).2

theorem truncToInt_cast_le (x y : ℚ) (hxy : x ≤ y) (hy : 0 ≤ y) : (truncToInt x : ℚ) ≤ y := by
  unfold truncToInt
  split_ifs with h
  · exact le_trans (Int.floor_le x) hxy
  · have hx : x ≤ ((0 : ℤ) : ℚ) := by push_cast; linarith
    have : ⌈x⌉ ≤ 0 := Int.ceil_le.mpr hx
    have : (⌈x⌉ : ℚ) ≤ 0 := by exact_mod_cast this
    linarith

/-- C9 as stated fails: prepared at 1000 Hz with stutter 1, the capture buffer has
500 cells and the band ends at 50 samples, yet the grain drawn with `u = 0` is the
64-sample floor, above `min (50, 499)`. -/
theorem C9_floor_exceeds_band_at_1000Hz :
    (Glitch.prepare { params := { stutter := 1 } } 1000).captureBuffer.numSamples = 500
    ∧ (50 + (1 - (1 : ℚ)) * 150) * 1000 / 1000 = 50
    ∧ (Glitch.triggerGlitch (fun _ => 0)
        (Glitch.prepare { params := { stutter := 1 } } 1000)).captureLength = 64
    ∧ ¬ (((Glitch.triggerGlitch (fun _ => 0)
            (Glitch.prepare { params := { stutter := 1 } } 1000)).captureLength : ℚ)
          ≤ min ((50 + (1 - (1 : ℚ)) * 150) * 1000 / 1000)
              (((Glitch.prepare { params := { stutter := 1 } } 1000).captureBuffer.numSamples
                : ℚ) - 1)) := by
  have hcap : (Glitch.prepare { params := { stutter := 1 } } 1000).captureBuffer.numSamples
      = 500 := by
    norm_num [Glitch.prepare, Glitch.reset, AudioBuffer.sized, AudioBuffer.clear, truncToInt]
  have hlen : (Glitch.triggerGlitch (fun _ => 0)
      (Glitch.prepare { params := { stutter := 1 } } 1000)).captureLength = 64 := by
    rw [Glitch.triggerGlitch_captureLength _ _ (by norm_num [Glitch.prepare, Glitch.reset]), hcap]
    norm_num [Glitch.prepare, Glitch.reset, truncToInt]
  refine ⟨hcap, by norm_num, hlen, ?_⟩
  rw [hlen, hcap]
  norm_num

/-- C9 (amended): for every sample rate, stutter in `[0,1]` and uniform draw
`u` in `[0,1)` (only `stutter ≤ 1` and `u < 1` are used) for which the target
interval is not empty, that is
`64 ≤ min (maxBandBound, capacity - 1)` with
`maxBandBound = (50 + (1 - stutter) * 150) * sampleRate / 1000` and
`capacity` the capture buffer length, the grain length chosen by `triggerGlitch`
lies within `[64, min (maxBandBound, capacity - 1)]`; a buffer prepared at a
non-negative sample rate has `capacity = floor (sampleRate / 2)`. -/
theorem C9_grain_length_within_band (draws : ℕ → ℚ) (s : Glitch.State)
    (hrate : 1 / 100 ≤ s.params.rate)
    (hst1 : s.params.stutter ≤ 1) (hu1 : draws s.rngCalls < 1)
    (hband : (64 : ℚ) ≤ min ((50 + (1 - s.params.stutter) * 150) * s.sampleRate / 1000)
        ((s.captureBuffer.numSamples : ℚ) - 1)) :
    64 ≤ (Glitch.triggerGlitch draws s).captureLength
    ∧ ((Glitch.triggerGlitch draws s).captureLength : ℚ)
        ≤ min ((50 + (1 - s.params.stutter) * 150) * s.sampleRate / 1000)
            ((s.captureBuffer.numSamples : ℚ) - 1)
    ∧ ∀ (s0 : Glitch.State) (sampleRate : ℚ), 0 ≤ sampleRate →
        (Glitch.prepare s0 sampleRate).captureBuffer.numSamples = ⌊sampleRate / 2⌋ := by
  have hb1 := le_trans hband (min_le_left _ _)
  have hb2 := le_trans hband (min_le_right _ _)
  have hmaxMs : (0 : ℚ) < 50 + (1 - s.params.stutter) * 150 := by nlinarith
  have hsr : 0 ≤ s.sampleRate := by
    by_contra hneg
    push_neg at hneg
    have : (50 + (1 - s.params.stutter) * 150) * s.sampleRate < 0 :=
      mul_neg_of_pos_of_neg hmaxMs hneg
    linarith
  have hlen := Glitch.triggerGlitch_captureLength draws s hrate
  refine ⟨?_, ?_, ?_⟩
  · rw [hlen]
    exact le_max_right _ _
  · have hgap : (0 : ℚ) ≤ 50 + (1 - s.params.stutter) * 150 - (5 + (1 - s.params.stutter) * 45) := by
      nlinarith
    have hms : 5 + (1 - s.params.stutter) * 45
        + draws s.rngCalls * (50 + (1 - s.params.stutter) * 150
            - (5 + (1 - s.params.stutter) * 45))
        ≤ 50 + (1 - s.params.stutter) * 150 := by
      nlinarith [mul_le_mul_of_nonneg_right (le_of_lt hu1) hgap]
    have hx : (5 + (1 - s.params.stutter) * 45
        + draws s.rngCalls * (50 + (1 - s.params.stutter) * 150
            - (5 + (1 - s.params.stutter) * 45))) * s.sampleRate / 1000
        ≤ (50 + (1 - s.params.stutter) * 150) * s.sampleRate / 1000 := by
      have := mul_le_mul_of_nonneg_right hms hsr
      linarith
    have hlen0 := truncToInt_cast_le _ _ hx (by linarith)
    rw [hlen]
    push_cast
    exact le_min (max_le (le_trans (min_le_left _ _) hlen0) hb1)
      (max_le (min_le_right _ _) hb2)
  · intro s0 sampleRate hsr0
    simp only [Glitch.prepare, Glitch.reset, AudioBuffer.sized, AudioBuffer.clear]
    rw [truncToInt_of_nonneg _ (by linarith)]
    congr 1
    ring

/-- Witness for C9: a Glitch prepared at 44100 Hz with stutter 1/2 and `u = 0`. -/
theorem C9_grain_length_within_band_witness :
    64 ≤ (Glitch.triggerGlitch (fun _ => 0) (Glitch.prepare {} 44100)).captureLength := by
  have hcap : (Glitch.prepare {} 44100).captureBuffer.numSamples = 22050 := by
    norm_num [Glitch.prepare, Glitch.reset, AudioBuffer.sized, AudioBuffer.clear, truncToInt]
  exact (C9_grain_length_within_band (fun _ => 0) (Glitch.prepare {} 44100)
    (by norm_num [Glitch.prepare, Glitch.reset])
    (by norm_num [Glitch.prepare, Glitch.reset])
    (by norm_num)
    (by rw [hcap]; norm_num [Glitch.prepare, Glitch.reset])).1

/-! ### The glitch loop stays in range -/

theorem AudioBuffer.setSample_ok (b : AudioBuffer) (channel : ℕ) (index : ℤ) (value : ℚ)
    (hch : channel < b.numChannels) (h0 : 0 ≤ index) (h1 : index < b.numSamples) :
    b.setSample channel index value
      = .ok { b with
              data := fun c i => if c = channel ∧ i = index.toNat then value else b.data c i } := by
  unfold AudioBuffer.setSample
  rw [if_pos ⟨hch, h0, h1⟩]

theorem Glitch.countdown_grain (draws : ℕ → ℚ) (s : Glitch.State)
    (hg : s.isGlitching = false) (hcap : 65 ≤ s.captureBuffer.numSamples)
    (h : (Glitch.countdown draws s).isGlitching = true) :
    64 ≤ (Glitch.countdown draws s).captureLength
    ∧ (Glitch.countdown draws s).captureLength ≤ s.captureBuffer.numSamples - 1
    ∧ (Glitch.countdown draws s).glitchPlaybackPos = 0
    ∧ (Glitch.countdown draws s).isReversed
        = decide (draws (s.rngCalls + 2) < s.params.reverse) := by
  unfold Glitch.countdown at h ⊢
  simp only at h ⊢
  split_ifs at h ⊢ with h1
  · unfold Glitch.triggerGlitch at h ⊢
    simp only at h ⊢
    split_ifs at h ⊢ with h2
    · simp [hg] at h
    · refine ⟨le_max_right _ _, max_le (min_le_right _ _) (by omega), rfl, rfl⟩
  · simp [hg] at h

@[simp] theorem Glitch.advancePlayback_captureBuffer (draws : ℕ → ℚ) (s : Glitch.State) :
    (Glitch.advancePlayback draws s).captureBuffer = s.captureBuffer := by
  unfold Glitch.advancePlayback; simp only; split_ifs <;> rfl

@[simp] theorem Glitch.advancePlayback_capturePosition (draws : ℕ → ℚ) (s : Glitch.State) :
    (Glitch.advancePlayback draws s).capturePosition = s.capturePosition := by
  unfold Glitch.advancePlayback; simp only; split_ifs <;> rfl

@[simp] theorem Glitch.advancePlayback_params (draws : ℕ → ℚ) (s : Glitch.State) :
    (Glitch.advancePlayback draws s).params = s.params := by
  unfold Glitch.advancePlayback; simp only; split_ifs <;> rfl

@[simp] theorem Glitch.advancePlayback_sampleRate (draws : ℕ → ℚ) (s : Glitch.State) :
    (Glitch.advancePlayback draws s).sampleRate = s.sampleRate := by
  unfold Glitch.advancePlayback; simp only; split_ifs <;> rfl

theorem Glitch.advancePlayback_safe (draws : ℕ → ℚ) (s : Glitch.State) (hs : Glitch.Safe s)
    (hg : s.isGlitching = true) : Glitch.Safe (Glitch.advancePlayback draws s) := by
  obtain ⟨hL0, hL1, hp0, hp1⟩ := hs.grain hg
  refine ⟨by simpa using hs.channels, by simpa using hs.capacity,
    by simpa using hs.cursor_nonneg, by simpa using hs.cursor_lt, ?_⟩
  rw [Glitch.advancePlayback_captureBuffer]
  unfold Glitch.advancePlayback
  simp only
  split_ifs with h1 h2
  · intro h; simp at h
  · intro _; dsimp only at *; exact ⟨hL0, hL1, le_refl 0, by omega⟩
  · intro _; dsimp only at *; exact ⟨hL0, hL1, by omega, by omega⟩

/-- The capture half of an iteration never faults on a safe state; it leaves a
glitching engine alone and otherwise stores the input frame at the cursor and
advances the cursor by one, modulo the capacity. -/
theorem Glitch.captureStep_ok (draws : ℕ → ℚ) (stereo : Bool) (s : Glitch.State) (x : Frame)
    (hs : Glitch.Safe s) :
    ∃ s1, Glitch.captureStep draws stereo s x = .ok s1 ∧ Glitch.Safe s1
      ∧ s1.params = s.params ∧ s1.sampleRate = s.sampleRate
      ∧ s1.captureBuffer.numSamples = s.captureBuffer.numSamples
      ∧ (s.isGlitching = true → s1 = s)
      ∧ (s.isGlitching = false →
          s1.capturePosition = (s.capturePosition + 1) % s.captureBuffer.numSamples
          ∧ ∀ c i, s1.captureBuffer.data c i
              = if (c = 0 ∨ (c = 1 ∧ stereo = true)) ∧ i = s.capturePosition.toNat
                then (if c = 0 then x.1 else x.2) else s.captureBuffer.data c i)
      ∧ (s.isGlitching = false → s1.isReversed = (Glitch.countdown draws s).isReversed) := by
  have hcap := hs.capacity
  have hc0 := hs.cursor_nonneg
  have hc1 := hs.cursor_lt
  cases hg : s.isGlitching with
  | true =>
    refine ⟨s, ?_, hs, rfl, rfl, rfl, fun _ => rfl, fun h => by simp at h,
      fun h => by simp at h⟩
    simp [Glitch.captureStep, hg]
  | false =>
    have hmod := cMod_eq_emod (s.capturePosition + 1) s.captureBuffer.numSamples
      (by omega) (by omega)
    have hw0 := AudioBuffer.setSample_ok s.captureBuffer 0 s.capturePosition x.1
      (by rw [hs.channels]; norm_num) hc0 hc1
    have hgrain : ∀ s1 : Glitch.State,
        s1.isGlitching = (Glitch.countdown draws s).isGlitching →
        s1.captureLength = (Glitch.countdown draws s).captureLength →
        s1.glitchPlaybackPos = (Glitch.countdown draws s).glitchPlaybackPos →
        s1.captureBuffer.numSamples = s.captureBuffer.numSamples →
        s1.isGlitching = true →
        64 ≤ s1.captureLength ∧ s1.captureLength ≤ s1.captureBuffer.numSamples - 1
          ∧ 0 ≤ s1.glitchPlaybackPos ∧ s1.glitchPlaybackPos < s1.captureLength := by
      intro s1 e1 e2 e3 e4 h
      obtain ⟨h1, h2, h3, -⟩ := Glitch.countdown_grain draws s hg hcap (e1 ▸ h)
      rw [e2, e3, e4]
      exact ⟨h1, h2, by omega, by omega⟩
    cases hst : stereo with
    | false =>
      refine ⟨{ Glitch.countdown draws s with
                captureBuffer := { s.captureBuffer with
                  data := fun c i => if c = 0 ∧ i = s.capturePosition.toNat then x.1
                    else s.captureBuffer.data c i }
                capturePosition := (s.capturePosition + 1) % s.captureBuffer.numSamples },
        ?_, ?_, ?_, ?_, ?_, fun h => by simp at h, fun _ => ⟨?_, ?_⟩, fun _ => rfl⟩
      · simp only [Glitch.captureStep, hg, Bool.false_eq_true, if_false,
          Glitch.countdown_captureBuffer, Glitch.countdown_capturePosition, hw0,
          except_ok_bind, except_pure_eq_ok, hmod]
      · exact ⟨hs.channels, hcap, Int.emod_nonneg _ (by omega), Int.emod_lt_of_pos _ (by omega),
          hgrain _ rfl rfl rfl rfl⟩
      · simp
      · simp
      · rfl
      · rfl
      · intro c i
        by_cases hc : c = 0
        · subst hc; simp
        · simp [hc]
    | true =>
      have hw1 := AudioBuffer.setSample_ok
        { s.captureBuffer with
          data := fun c i => if c = 0 ∧ i = s.capturePosition.toNat then x.1
            else s.captureBuffer.data c i }
        1 s.capturePosition x.2 (by simp only; rw [hs.channels]; norm_num) hc0 hc1
      refine ⟨{ Glitch.countdown draws s with
                captureBuffer := { s.captureBuffer with
                  data := fun c i => if c = 1 ∧ i = s.capturePosition.toNat then x.2
                    else if c = 0 ∧ i = s.capturePosition.toNat then x.1
                    else s.captureBuffer.data c i }
                capturePosition := (s.capturePosition + 1) % s.captureBuffer.numSamples },
        ?_, ?_, ?_, ?_, ?_, fun h => by simp at h, fun _ => ⟨?_, ?_⟩, fun _ => rfl⟩
      · simp only [Glitch.captureStep, hg, Bool.false_eq_true, if_false, if_true,
          Glitch.countdown_captureBuffer, Glitch.countdown_capturePosition, hw0,
          except_ok_bind, except_pure_eq_ok, hmod, hw1]
      · exact ⟨hs.channels, hcap, Int.emod_nonneg _ (by omega), Int.emod_lt_of_pos _ (by omega),
          hgrain _ rfl rfl rfl rfl⟩
      · simp
      · simp
      · rfl
      · rfl
      · intro c i
        simp only
        by_cases hc : c = 0
        · subst hc; simp
        · by_cases hc1 : c = 1
          · subst hc1; simp
          · simp [hc, hc1]

theorem Glitch.readPos_ok (s : Glitch.State) (hs : Glitch.Safe s) (hg : s.isGlitching = true) :
    ∃ idx, Glitch.readPos s = .ok idx ∧ 0 ≤ idx ∧ idx < s.captureBuffer.numSamples
      ∧ (s.isReversed = false →
          idx = (s.capturePosition - 1 - (s.captureLength - s.glitchPlaybackPos - 1))
                  % s.captureBuffer.numSamples) := by
  obtain ⟨hL0, hL1, hp0, hp1⟩ := hs.grain hg
  have hcap := hs.capacity
  have hc0 := hs.cursor_nonneg
  have hc1 := hs.cursor_lt
  cases hr : s.isReversed with
  | true =>
    refine ⟨(s.capturePosition - 1 - s.glitchPlaybackPos + s.captureBuffer.numSamples)
        % s.captureBuffer.numSamples, ?_, Int.emod_nonneg _ (by omega),
      Int.emod_lt_of_pos _ (by omega), fun h => by simp at h⟩
    simp only [Glitch.readPos, hr, if_true]
    exact cMod_eq_emod _ _ (by omega) (by omega)
  | false =>
    refine ⟨(s.capturePosition - s.captureLength + s.glitchPlaybackPos
        + s.captureBuffer.numSamples) % s.captureBuffer.numSamples, ?_,
      Int.emod_nonneg _ (by omega), Int.emod_lt_of_pos _ (by omega), fun _ => ?_⟩
    · simp only [Glitch.readPos, hr, Bool.false_eq_true, if_false]
      exact cMod_eq_emod _ _ (by omega) (by omega)
    · rw [Int.add_emod_self]
      congr 1
      ring

/-- The playback half of an iteration never faults on a safe glitching state: it
reads one in-range cell per channel, for a forward grain the cell
`captureLength - glitchPlaybackPos` positions behind the capture cursor. -/
theorem Glitch.playbackStep_ok (m : MathFns) (draws : ℕ → ℚ) (stereo : Bool)
    (s : Glitch.State) (x : Frame) (hs : Glitch.Safe s) (hg : s.isGlitching = true) :
    ∃ idx : ℤ, 0 ≤ idx ∧ idx < s.captureBuffer.numSamples
      ∧ (s.isReversed = false →
          idx = (s.capturePosition - 1 - (s.captureLength - s.glitchPlaybackPos - 1))
                  % s.captureBuffer.numSamples)
      ∧ Glitch.playbackStep m draws stereo s x
          = .ok (Glitch.advancePlayback draws s,
              ((if s.params.crush > 5368709 / 536870912
                  then Glitch.bitCrush m (s.captureBuffer.data 0 idx.toNat) s.params.crush
                  else s.captureBuffer.data 0 idx.toNat),
               (if stereo = true then
                  (if s.params.crush > 5368709 / 536870912
                    then Glitch.bitCrush m (s.captureBuffer.data 1 idx.toNat) s.params.crush
                    else s.captureBuffer.data 1 idx.toNat)
                else x.2))) := by
  obtain ⟨idx, hidx, h0, h1, hfwd⟩ := Glitch.readPos_ok s hs hg
  have hg0 := AudioBuffer.getSample_ok s.captureBuffer 0 idx
    (by rw [hs.channels]; norm_num) h0 h1
  have hg1 := AudioBuffer.getSample_ok s.captureBuffer 1 idx
    (by rw [hs.channels]; norm_num) h0 h1
  refine ⟨idx, h0, h1, hfwd, ?_⟩
  cases stereo <;>
    simp [Glitch.playbackStep, hg, hidx, Glitch.glitchSample, hg0, hg1]

/-- One loop iteration never faults on a safe state, and the state after it is
safe again with the same parameters, sample rate and capacity. -/
theorem Glitch.processSample_ok (m : MathFns) (draws : ℕ → ℚ) (stereo : Bool)
    (s : Glitch.State) (x : Frame) (hs : Glitch.Safe s) :
    ∃ s1 s2 y, Glitch.captureStep draws stereo s x = .ok s1
      ∧ Glitch.playbackStep m draws stereo s1 x = .ok (s2, y)
      ∧ Glitch.processSample m draws stereo s x = .ok (s2, y)
      ∧ Glitch.Safe s1 ∧ Glitch.Safe s2
      ∧ s2.params = s.params ∧ s2.sampleRate = s.sampleRate
      ∧ s2.captureBuffer = s1.captureBuffer
      ∧ s2.capturePosition = s1.capturePosition := by
  obtain ⟨s1, hc, hs1, hp, hsr, -, -, -, -⟩ := Glitch.captureStep_ok draws stereo s x hs
  cases hg : s1.isGlitching with
  | false =>
    have hpb : Glitch.playbackStep m draws stereo s1 x = .ok (s1, x) := by
      simp [Glitch.playbackStep, hg]
    exact ⟨s1, s1, x, hc, hpb, by simp [Glitch.processSample, hc, hpb], hs1, hs1, hp, hsr,
      rfl, rfl⟩
  | true =>
    obtain ⟨idx, -, -, -, hpb⟩ := Glitch.playbackStep_ok m draws stereo s1 x hs1 hg
    exact ⟨s1, _, _, hc, hpb, by simp [Glitch.processSample, hc, hpb], hs1,
      Glitch.advancePlayback_safe draws s1 hs1 hg, by simp [hp], by simp [hsr], by simp,
      by simp⟩

/-! ### Grain playback replays the capture history (C10) -/

theorem Glitch.prepare_safe (s0 : Glitch.State) (sampleRate : ℚ)
    (hcap : 65 ≤ (Glitch.prepare s0 sampleRate).captureBuffer.numSamples) :
    Glitch.Safe (Glitch.prepare s0 sampleRate) := by
  refine ⟨rfl, hcap, le_refl 0, ?_, fun h => ?_⟩
  · have : (Glitch.prepare s0 sampleRate).capturePosition = 0 := rfl
    rw [this]; omega
  · have : (Glitch.prepare s0 sampleRate).isGlitching = false := rfl
    rw [this] at h; simp at h

theorem Glitch.prepare_data (s0 : Glitch.State) (sampleRate : ℚ) (c i : ℕ) :
    (Glitch.prepare s0 sampleRate).captureBuffer.data c i = 0 := rfl

theorem Glitch.countdown_isReversed (draws : ℕ → ℚ) (s : Glitch.State)
    (hrev : s.params.reverse = 0) (hdraws : ∀ n, 0 ≤ draws n) (h : s.isReversed = false) :
    (Glitch.countdown draws s).isReversed = false := by
  unfold Glitch.countdown
  simp only
  split_ifs with h1
  · unfold Glitch.triggerGlitch
    simp only
    split_ifs with h2
    · exact h
    · simp only [hrev, decide_eq_false_iff_not, not_lt]
      exact hdraws _
  · exact h

@[simp] theorem Glitch.advancePlayback_isReversed (draws : ℕ → ℚ) (s : Glitch.State) :
    (Glitch.advancePlayback draws s).isReversed = s.isReversed := by
  unfold Glitch.advancePlayback; simp only; split_ifs <;> rfl

theorem emod_pred_succ (cp cap : ℤ) (k : ℤ) :
    ((cp + 1) % cap - 1 - k) % cap = (cp - k) % cap := by
  rw [sub_sub, sub_eq_add_neg, Int.emod_add_emod]
  congr 1
  ring

/-- Capturing one frame keeps the buffer in step with the capture history. -/
theorem Glitch.holdsHistory_capture (stereo : Bool) (s s1 : Glitch.State) (history : List Frame)
    (x : Frame) (hs : Glitch.Safe s) (hh : Glitch.HoldsHistory stereo s history)
    (hn : s1.captureBuffer.numSamples = s.captureBuffer.numSamples)
    (hcp : s1.capturePosition = (s.capturePosition + 1) % s.captureBuffer.numSamples)
    (hdata : ∀ c i, s1.captureBuffer.data c i
        = if (c = 0 ∨ (c = 1 ∧ stereo = true)) ∧ i = s.capturePosition.toNat
          then (if c = 0 then x.1 else x.2) else s.captureBuffer.data c i) :
    Glitch.HoldsHistory stereo s1 (x :: history) := by
  have hcap := hs.capacity
  have hc0 := hs.cursor_nonneg
  have hc1 := hs.cursor_lt
  intro k hk
  rw [hn] at hk ⊢
  rw [hcp, emod_pred_succ, hdata, hdata]
  cases k with
  | zero =>
    have hidx : (s.capturePosition - ((0 : ℕ) : ℤ)) % s.captureBuffer.numSamples
        = s.capturePosition := by
      simp only [Nat.cast_zero, sub_zero]
      exact Int.emod_eq_of_lt hc0 hc1
    rw [hidx]
    simp only [List.getD_cons_zero, true_or, and_self, if_true, true_and]
    intro hst
    simp [hst]
  | succ k =>
    have hk' : ((k : ℤ)) < s.captureBuffer.numSamples := by push_cast at hk; omega
    have hne := emod_sub_ne_self s.captureBuffer.numSamples s.capturePosition ((k + 1 : ℕ) : ℤ)
      hc0 hc1 (by push_cast; omega) (by push_cast at hk ⊢; omega)
    have hnn : 0 ≤ (s.capturePosition - ((k + 1 : ℕ) : ℤ)) % s.captureBuffer.numSamples :=
      Int.emod_nonneg _ (by omega)
    have hne' : ((s.capturePosition - ((k + 1 : ℕ) : ℤ)) % s.captureBuffer.numSamples).toNat
        ≠ s.capturePosition.toNat := by
      intro hEq; omega
    have hidx : (s.capturePosition - ((k + 1 : ℕ) : ℤ)) = s.capturePosition - 1 - (k : ℤ) := by
      push_cast; ring
    obtain ⟨h0, h1⟩ := hh k hk'
    simp only [hne', and_false, if_false, List.getD_cons_succ]
    rw [hidx]
    exact ⟨h0, h1⟩

/-- What holds in every state the loop reaches from a prepared engine with
`reverse = 0`: the state is safe, the buffer is in step with the capture
history, the parameters are those of the start, and no grain is reversed. -/
theorem Glitch.reaches_invariant (m : MathFns) (draws : ℕ → ℚ) (stereo : Bool)
    (s0 : Glitch.State) (sampleRate : ℚ)
    (hcap : 65 ≤ (Glitch.prepare s0 sampleRate).captureBuffer.numSamples)
    (hrev : s0.params.reverse = 0) (hdraws : ∀ n, 0 ≤ draws n)
    (s : Glitch.State) (history : List Frame)
    (hreach : Glitch.Reaches m draws stereo (Glitch.prepare s0 sampleRate) s history) :
    Glitch.Safe s ∧ Glitch.HoldsHistory stereo s history ∧ s.params = s0.params
      ∧ s.isReversed = false := by
  induction hreach with
  | start =>
    refine ⟨Glitch.prepare_safe s0 sampleRate hcap, ?_, rfl, rfl⟩
    intro k _
    simp [Glitch.prepare_data]
  | @sample s s2 history x y _ hstep ih =>
    obtain ⟨hs, hh, hp, hr⟩ := ih
    obtain ⟨s1, hc, hs1, hp1, -, hn, hglitch, hcapt, hrev1⟩ :=
      Glitch.captureStep_ok draws stereo s x hs
    have hh1 : Glitch.HoldsHistory stereo s1 (Glitch.captured s history x) := by
      unfold Glitch.captured
      cases hg : s.isGlitching with
      | true => rw [hglitch hg]; simpa using hh
      | false =>
        obtain ⟨hcp, hdata⟩ := hcapt hg
        simpa using Glitch.holdsHistory_capture stereo s s1 history x hs hh hn hcp hdata
    have hr1 : s1.isReversed = false := by
      cases hg : s.isGlitching with
      | true => rw [hglitch hg]; exact hr
      | false =>
        rw [hrev1 hg]
        exact Glitch.countdown_isReversed draws s (by rw [hp]; exact hrev) hdraws hr
    have hstep' : Glitch.playbackStep m draws stereo s1 x = .ok (s2, y) := by
      simpa [Glitch.processSample, hc] using hstep
    cases hg1 : s1.isGlitching with
    | false =>
      have : s2 = s1 := by
        simp [Glitch.playbackStep, hg1] at hstep'
        exact hstep'.1.symm
      subst this
      exact ⟨hs1, hh1, by rw [hp1, hp], hr1⟩
    | true =>
      obtain ⟨idx, -, -, -, hpb⟩ := Glitch.playbackStep_ok m draws stereo s1 x hs1 hg1
      rw [hpb] at hstep'
      have : s2 = Glitch.advancePlayback draws s1 := by
        simp at hstep'
        exact hstep'.1.symm
      subst this
      refine ⟨Glitch.advancePlayback_safe draws s1 hs1 hg1, ?_, by simp [hp1, hp], by simp [hr1]⟩
      intro k hk
      simp only [Glitch.advancePlayback_captureBuffer,
        Glitch.advancePlayback_capturePosition] at hk ⊢
      exact hh1 k hk

theorem Glitch.captureStep_params (draws : ℕ → ℚ) (stereo : Bool) (s s1 : Glitch.State)
    (x : Frame) (h : Glitch.captureStep draws stereo s x = .ok s1) : s1.params = s.params := by
  cases hg : s.isGlitching with
  | true =>
    simp only [Glitch.captureStep, hg, if_true, except_pure_eq_ok, Except.ok.injEq] at h
    rw [← h]
  | false =>
    simp only [Glitch.captureStep, hg, Bool.false_eq_true, if_false,
      Glitch.countdown_captureBuffer, Glitch.countdown_capturePosition] at h
    cases h0 : s.captureBuffer.setSample 0 s.capturePosition x.1 with
    | error e => rw [h0] at h; simp at h
    | ok buf =>
      rw [h0] at h
      simp only [except_ok_bind] at h
      cases stereo with
      | false =>
        simp only [Bool.false_eq_true, if_false, except_pure_eq_ok, except_ok_bind] at h
        cases h2 : cMod (s.capturePosition + 1) s.captureBuffer.numSamples with
        | error e => rw [h2] at h; simp at h
        | ok cp =>
          rw [h2] at h
          simp only [except_ok_bind, Except.ok.injEq] at h
          rw [← h]
          simp
      | true =>
        simp only [if_true] at h
        cases h1 : buf.setSample 1 s.capturePosition x.2 with
        | error e => rw [h1] at h; simp at h
        | ok buf1 =>
          rw [h1] at h
          simp only [except_ok_bind] at h
          cases h2 : cMod (s.capturePosition + 1) s.captureBuffer.numSamples with
          | error e => rw [h2] at h; simp at h
          | ok cp =>
            rw [h2] at h
            simp only [except_ok_bind, except_pure_eq_ok, Except.ok.injEq] at h
            rw [← h]
            simp

theorem Glitch.playbackStep_params (m : MathFns) (draws : ℕ → ℚ) (stereo : Bool)
    (s s1 : Glitch.State) (x y : Frame)
    (h : Glitch.playbackStep m draws stereo s x = .ok (s1, y)) : s1.params = s.params := by
  cases hg : s.isGlitching with
  | false =>
    simp only [Glitch.playbackStep, hg, Bool.false_eq_true, if_false, except_pure_eq_ok,
      Except.ok.injEq, Prod.mk.injEq] at h
    rw [← h.1]
  | true =>
    simp only [Glitch.playbackStep, hg, if_true] at h
    cases h0 : Glitch.readPos s with
    | error e => rw [h0] at h; simp at h
    | ok idx =>
      rw [h0] at h
      simp only [except_ok_bind] at h
      cases h1 : Glitch.glitchSample m s 0 idx with
      | error e => rw [h1] at h; simp at h
      | ok outL =>
        rw [h1] at h
        simp only [except_ok_bind] at h
        cases stereo with
        | false =>
          simp only [Bool.false_eq_true, if_false, except_pure_eq_ok, except_ok_bind,
            Except.ok.injEq, Prod.mk.injEq] at h
          rw [← h.1]
          simp
        | true =>
          simp only [if_true] at h
          cases h2 : Glitch.glitchSample m s 1 idx with
          | error e => rw [h2] at h; simp at h
          | ok outR =>
            rw [h2] at h
            simp only [except_ok_bind, except_pure_eq_ok, Except.ok.injEq, Prod.mk.injEq] at h
            rw [← h.1]
            simp

theorem Glitch.processSample_params (m : MathFns) (draws : ℕ → ℚ) (stereo : Bool)
    (s s1 : Glitch.State) (x y : Frame)
    (h : Glitch.processSample m draws stereo s x = .ok (s1, y)) : s1.params = s.params := by
  unfold Glitch.processSample at h
  cases h0 : Glitch.captureStep draws stereo s x with
  | error e => rw [h0] at h; simp at h
  | ok s0 =>
    rw [h0] at h
    simp only [except_ok_bind] at h
    rw [Glitch.playbackStep_params m draws stereo s0 s1 x y h,
      Glitch.captureStep_params draws stereo s s0 x h0]

/-- Processing a block is processing its first frame as a block of one and then
the rest: the states `Glitch::process` passes through inside a block are the
states it reaches frame by frame. -/
theorem Glitch.process_cons (m : MathFns) (draws : ℕ → ℚ) (stereo : Bool) (s : Glitch.State)
    (x : Frame) (xs : List Frame) :
    Glitch.process m draws stereo s (x :: xs)
      = (Glitch.process m draws stereo s [x] >>= fun r1 =>
          Glitch.process m draws stereo r1.1 xs >>= fun r2 =>
            .ok (r2.1, r1.2 ++ r2.2)) := by
  unfold Glitch.process
  simp only [Glitch.sampleLoop]
  cases h0 : Glitch.processSample m draws stereo s x with
  | error e => simp
  | ok r =>
    obtain ⟨s1, y⟩ := r
    have hp := Glitch.processSample_params m draws stereo s s1 x y h0
    simp only [except_ok_bind, except_pure_eq_ok, hp]
    cases h1 : Glitch.sampleLoop m draws stereo s1 xs with
    | error e => simp
    | ok r2 =>
      obtain ⟨s2, ys⟩ := r2
      simp

theorem Glitch.mix_full_wet (stereo : Bool) (dry wet : Frame) :
    Glitch.mix stereo 1 dry wet = wet := by
  cases stereo <;> simp [Glitch.mix]

/-- Every stage of the list holds zero in both channels. -/
theorem Phaser.runStages_zero (coefficient : ℚ) (stages : List Phaser.AllPassStage) :
    ∀ n : ℕ, (∀ st ∈ stages, st.z1L = 0 ∧ st.z1R = 0) →
      (Phaser.runStages coefficient stages n 0 0).2 = (0, 0)
      ∧ ∀ st ∈ (Phaser.runStages coefficient stages n 0 0).1, st.z1L = 0 ∧ st.z1R = 0 := by
  induction stages with
  | nil => intro n _; simp [Phaser.runStages]
  | cons st rest ih =>
    intro n hz
    cases n with
    | zero => exact ⟨by simp [Phaser.runStages], by simpa [Phaser.runStages] using hz⟩
    | succ n =>
      obtain ⟨hL, hR⟩ := hz st (List.mem_cons_self _ _)
      obtain ⟨h1, h2⟩ := ih n (fun t ht => hz t (List.mem_cons_of_mem _ ht))
      have eL : st.processL 0 coefficient = ({ st with z1L := 0 }, 0) := by
        simp [Phaser.AllPassStage.processL, hL]
      have eR : ({ st with z1L := 0 } : Phaser.AllPassStage).processR 0 coefficient
          = ({ z1L := 0, z1R := 0 }, 0) := by
        simp [Phaser.AllPassStage.processR, hR]
      simp only [Phaser.runStages, eL, eR]
      refine ⟨h1, ?_⟩
      intro t ht
      rcases List.mem_cons.mp ht with rfl | ht
      · exact ⟨rfl, rfl⟩
      · exact h2 t ht

theorem Phaser.phaser_processSample_zero (m : MathFns) (htanh : m.tanh 0 = 0) (stereo : Bool)
    (s : Phaser.State) (hst : ∀ st ∈ s.stages, st.z1L = 0 ∧ st.z1R = 0)
    (hfL : s.feedbackL = 0) (hfR : s.feedbackR = 0) :
    (Phaser.processSample m stereo s (0, 0)).2 = (0, 0)
    ∧ (∀ st ∈ (Phaser.processSample m stereo s (0, 0)).1.stages, st.z1L = 0 ∧ st.z1R = 0)
    ∧ (Phaser.processSample m stereo s (0, 0)).1.feedbackL = 0
    ∧ (Phaser.processSample m stereo s (0, 0)).1.feedbackR = 0 := by
  have hrun := fun c => Phaser.runStages_zero c s.stages (Phaser.numStages s.params) hst
  unfold Phaser.processSample
  simp only [hfL, hfR, zero_mul, add_zero, ite_self]
  generalize hc : ((1 - m.tan _) / (1 + m.tan _) : ℚ) = c
  obtain ⟨h1, h2⟩ := hrun c
  rcases hres : Phaser.runStages c s.stages (Phaser.numStages s.params) 0 0 with ⟨st', wL, wR⟩
  rw [hres] at h1 h2
  simp only [Prod.mk.injEq] at h1
  obtain ⟨rfl, rfl⟩ := h1
  simp only [htanh, zero_mul, add_zero, ite_self]
  exact ⟨trivial, h2, trivial, trivial⟩

theorem Phaser.phaser_process_zero (m : MathFns) (htanh : m.tanh 0 = 0) (stereo : Bool) (n : ℕ) :
    ∀ s : Phaser.State, (∀ st ∈ s.stages, st.z1L = 0 ∧ st.z1R = 0) →
      s.feedbackL = 0 → s.feedbackR = 0 →
      (Phaser.process m stereo s (List.replicate n (0, 0))).2 = List.replicate n (0, 0)
      ∧ (∀ st ∈ (Phaser.process m stereo s (List.replicate n (0, 0))).1.stages,
          st.z1L = 0 ∧ st.z1R = 0)
      ∧ (Phaser.process m stereo s (List.replicate n (0, 0))).1.feedbackL = 0
      ∧ (Phaser.process m stereo s (List.replicate n (0, 0))).1.feedbackR = 0 := by
  induction n with
  | zero => intro s h1 h2 h3; exact ⟨rfl, h1, h2, h3⟩
  | succ n ih =>
    intro s h1 h2 h3
    obtain ⟨e1, e2, e3, e4⟩ := Phaser.phaser_processSample_zero m htanh stereo s h1 h2 h3
    obtain ⟨i1, i2, i3, i4⟩ := ih (Phaser.processSample m stereo s (0, 0)).1 e2 e3 e4
    simp only [List.replicate_succ, Phaser.process]
    exact ⟨by rw [e1, i1], i2, i3, i4⟩

theorem Filter.svfTick_zero (filterType : Filter.FilterType) (a1 a2 a3 k : ℚ) :
    Filter.svfTick filterType a1 a2 a3 k { ic1eq := 0, ic2eq := 0 } 0
      = ({ ic1eq := 0, ic2eq := 0 }, 0) := by
  cases filterType <;> simp [Filter.svfTick]

theorem Filter.filter_processSample_zero (m : MathFns) (stereo : Bool) (s : Filter.State)
    (hL : s.stateL = { ic1eq := 0, ic2eq := 0 }) (hR : s.stateR = { ic1eq := 0, ic2eq := 0 }) :
    (Filter.processSample m stereo s (0, 0)).2 = (0, 0)
    ∧ (Filter.processSample m stereo s (0, 0)).1.stateL = { ic1eq := 0, ic2eq := 0 }
    ∧ (Filter.processSample m stereo s (0, 0)).1.stateR = { ic1eq := 0, ic2eq := 0 } := by
  unfold Filter.processSample
  simp only [hL, hR, Filter.svfTick_zero, ite_self]
  exact ⟨trivial, trivial, trivial⟩

theorem Filter.filter_process_zero (m : MathFns) (stereo : Bool) (n : ℕ) :
    ∀ s : Filter.State, s.stateL = { ic1eq := 0, ic2eq := 0 } →
      s.stateR = { ic1eq := 0, ic2eq := 0 } →
      (Filter.process m stereo s (List.replicate n (0, 0))).2 = List.replicate n (0, 0)
      ∧ (Filter.process m stereo s (List.replicate n (0, 0))).1.stateL
          = { ic1eq := 0, ic2eq := 0 }
      ∧ (Filter.process m stereo s (List.replicate n (0, 0))).1.stateR
          = { ic1eq := 0, ic2eq := 0 } := by
  induction n with
  | zero => intro s h1 h2; exact ⟨rfl, h1, h2⟩
  | succ n ih =>
    intro s h1 h2
    obtain ⟨e1, e2, e3⟩ := Filter.filter_processSample_zero m stereo s h1 h2
    obtain ⟨i1, i2, i3⟩ := ih (Filter.processSample m stereo s (0, 0)).1 e2 e3
    simp only [List.replicate_succ, Filter.process]
    exact ⟨by rw [e1, i1], i2, i3⟩

theorem jlimit_delay_bounds (cap : ℤ) (v : ℚ) (hcap : 1 ≤ cap) :
    0 ≤ jlimit 1 ((cap - 1 : ℤ) : ℚ) v ∧ jlimit 1 ((cap - 1 : ℤ) : ℚ) v ≤ cap := by
  have hq : (1 : ℚ) ≤ cap := by exact_mod_cast hcap
  unfold jlimit
  push_cast
  split_ifs with h1 h2
  · constructor <;> linarith
  · constructor <;> linarith
  · constructor <;> linarith

theorem Chorus.readInterpolated_zero (buffer : AudioBuffer) (w : ℤ) (channel : ℕ) (d : ℚ)
    (hzero : ∀ c i, buffer.data c i = 0) (hch : channel < buffer.numChannels)
    (hw0 : 0 ≤ w) (hw : w < buffer.numSamples) (hd0 : 0 ≤ d)
    (hd : d ≤ (buffer.numSamples : ℚ)) :
    Chorus.readInterpolated buffer w channel d = .ok 0 := by
  obtain ⟨hr0, hr1⟩ := Chorus.readPosFloat_bounds buffer.numSamples w d hw0 hw hd0 hd
  have hf0 : 0 ≤ ⌊Chorus.readPosFloat buffer.numSamples w d⌋ := Int.floor_nonneg.mpr hr0
  have hf1 : ⌊Chorus.readPosFloat buffer.numSamples w d⌋ < buffer.numSamples :=
    Int.floor_lt.mpr hr1
  have hmod := cMod_eq_emod (⌊Chorus.readPosFloat buffer.numSamples w d⌋ + 1)
    buffer.numSamples (by omega) (by omega)
  have hg0 := AudioBuffer.getSample_ok buffer channel _ hch hf0 hf1
  have hg1 := AudioBuffer.getSample_ok buffer channel
    ((⌊Chorus.readPosFloat buffer.numSamples w d⌋ + 1) % buffer.numSamples) hch
    (Int.emod_nonneg _ (by omega)) (Int.emod_lt_of_pos _ (by omega))
  simp only [Chorus.readInterpolated, truncToInt_of_nonneg _ hr0, hmod, except_ok_bind, hg0, hg1,
    except_pure_eq_ok, hzero, sub_self, mul_zero, add_zero]

theorem Chorus.chorus_processSample_zero (m : MathFns) (stereo : Bool) (s : Chorus.State)
    (hch : s.delayBuffer.numChannels = 2) (hcap : 1 ≤ s.delayBuffer.numSamples)
    (hw0 : 0 ≤ s.writePosition) (hw : s.writePosition < s.delayBuffer.numSamples)
    (hzero : ∀ c i, s.delayBuffer.data c i = 0) :
    ∃ s1, Chorus.processSample m stereo s (0, 0) = .ok (s1, (0, 0))
      ∧ s1.delayBuffer.numChannels = 2
      ∧ s1.delayBuffer.numSamples = s.delayBuffer.numSamples
      ∧ 0 ≤ s1.writePosition ∧ s1.writePosition < s1.delayBuffer.numSamples
      ∧ ∀ c i, s1.delayBuffer.data c i = 0 := by
  have hread : ∀ (channel : ℕ) (v : ℚ), channel < 2 →
      Chorus.readInterpolated s.delayBuffer s.writePosition channel
        (jlimit 1 ((s.delayBuffer.numSamples - 1 : ℤ) : ℚ) v) = .ok 0 := by
    intro channel v hc
    obtain ⟨h0, h1⟩ := jlimit_delay_bounds s.delayBuffer.numSamples v hcap
    exact Chorus.readInterpolated_zero _ _ _ _ hzero (by rw [hch]; exact hc) hw0 hw h0 h1
  have hmod := cMod_eq_emod (s.writePosition + 1) s.delayBuffer.numSamples (by omega) (by omega)
  have hw0' := AudioBuffer.setSample_ok s.delayBuffer 0 s.writePosition 0
    (by rw [hch]; norm_num) hw0 hw
  have hw1' := AudioBuffer.setSample_ok
    { s.delayBuffer with
      data := fun c i => if c = 0 ∧ i = s.writePosition.toNat then 0 else s.delayBuffer.data c i }
    1 s.writePosition 0 (by simp only; rw [hch]; norm_num) hw0 hw
  simp only [Chorus.processSample, hread _ _ (by norm_num : (0 : ℕ) < 2),
    hread _ _ (by norm_num : (1 : ℕ) < 2), except_ok_bind, zero_mul, add_zero, ite_self,
    hw0', hw1', hmod, except_pure_eq_ok]
  refine ⟨_, rfl, hch, rfl, Int.emod_nonneg _ (by omega), Int.emod_lt_of_pos _ (by omega), ?_⟩
  intro c i
  simp only [hzero, ite_self]

theorem Chorus.chorus_sampleLoop_zero (m : MathFns) (stereo : Bool) (n : ℕ) :
    ∀ s : Chorus.State, s.delayBuffer.numChannels = 2 → 1 ≤ s.delayBuffer.numSamples →
      0 ≤ s.writePosition → s.writePosition < s.delayBuffer.numSamples →
      (∀ c i, s.delayBuffer.data c i = 0) →
      ∃ s1, Chorus.sampleLoop m stereo s (List.replicate n (0, 0))
          = .ok (s1, List.replicate n (0, 0))
        ∧ ∀ c i, s1.delayBuffer.data c i = 0 := by
  induction n with
  | zero => intro s _ _ _ _ hz; exact ⟨s, rfl, hz⟩
  | succ n ih =>
    intro s hch hcap hw0 hw hz
    obtain ⟨s1, hstep, h1, h2, h3, h4, h5⟩ :=
      Chorus.chorus_processSample_zero m stereo s hch hcap hw0 hw hz
    obtain ⟨s2, hloop, h6⟩ := ih s1 h1 (by rw [h2]; exact hcap) h3 h4 h5
    refine ⟨s2, ?_, h6⟩
    simp only [List.replicate_succ, Chorus.sampleLoop, hstep, hloop, except_ok_bind,
      except_pure_eq_ok]

theorem Delay.delay_processSample_zero (m : MathFns) (htanh : m.tanh 0 = 0) (stereo : Bool)
    (s : Delay.State) (feedback dryWet : ℚ)
    (hch : s.delayBuffer.numChannels = 2) (hcap : 1 ≤ s.delayBuffer.numSamples)
    (hw0 : 0 ≤ s.writePosition) (hw : s.writePosition < s.delayBuffer.numSamples)
    (hds : s.delaySamples ≤ s.delayBuffer.numSamples - 1)
    (hzero : ∀ c i, s.delayBuffer.data c i = 0) :
    ∃ s1, Delay.processSample m stereo s feedback dryWet (0, 0) = .ok (s1, (0, 0))
      ∧ s1.delayBuffer.numChannels = 2
      ∧ s1.delayBuffer.numSamples = s.delayBuffer.numSamples
      ∧ 0 ≤ s1.writePosition ∧ s1.writePosition < s1.delayBuffer.numSamples
      ∧ s1.delaySamples = s.delaySamples
      ∧ ∀ c i, s1.delayBuffer.data c i = 0 := by
  have hread := cMod_eq_emod (s.writePosition - s.delaySamples + s.delayBuffer.numSamples)
    s.delayBuffer.numSamples (by omega) (by omega)
  have hg0 := AudioBuffer.getSample_ok s.delayBuffer 0
    ((s.writePosition - s.delaySamples + s.delayBuffer.numSamples) % s.delayBuffer.numSamples)
    (by rw [hch]; norm_num) (Int.emod_nonneg _ (by omega)) (Int.emod_lt_of_pos _ (by omega))
  have hg1 := AudioBuffer.getSample_ok s.delayBuffer 1
    ((s.writePosition - s.delaySamples + s.delayBuffer.numSamples) % s.delayBuffer.numSamples)
    (by rw [hch]; norm_num) (Int.emod_nonneg _ (by omega)) (Int.emod_lt_of_pos _ (by omega))
  have hmod := cMod_eq_emod (s.writePosition + 1) s.delayBuffer.numSamples (by omega) (by omega)
  have hw0' := AudioBuffer.setSample_ok s.delayBuffer 0 s.writePosition 0
    (by rw [hch]; norm_num) hw0 hw
  have hw1' := AudioBuffer.setSample_ok
    { s.delayBuffer with
      data := fun c i => if c = 0 ∧ i = s.writePosition.toNat then 0 else s.delayBuffer.data c i }
    1 s.writePosition 0 (by simp only; rw [hch]; norm_num) hw0 hw
  rw [hzero] at hg0 hg1
  simp only [Delay.processSample, hread, except_ok_bind, hg0, hg1, zero_mul, add_zero,
    ite_self, htanh, hw0', hw1', hmod, except_pure_eq_ok]
  refine ⟨_, rfl, hch, rfl, Int.emod_nonneg _ (by omega), Int.emod_lt_of_pos _ (by omega), rfl, ?_⟩
  intro c i
  simp only [hzero, ite_self]

theorem Delay.delay_sampleLoop_zero (m : MathFns) (htanh : m.tanh 0 = 0) (stereo : Bool)
    (ramp : ℕ → ℚ × ℚ) (n : ℕ) :
    ∀ (s : Delay.State) (k : ℕ), s.delayBuffer.numChannels = 2 →
      1 ≤ s.delayBuffer.numSamples →
      0 ≤ s.writePosition → s.writePosition < s.delayBuffer.numSamples →
      s.delaySamples ≤ s.delayBuffer.numSamples - 1 →
      (∀ c i, s.delayBuffer.data c i = 0) →
      ∃ s1, Delay.sampleLoop m stereo ramp s k (List.replicate n (0, 0))
          = .ok (s1, List.replicate n (0, 0))
        ∧ ∀ c i, s1.delayBuffer.data c i = 0 := by
  induction n with
  | zero => intro s k _ _ _ _ _ hz; exact ⟨s, rfl, hz⟩
  | succ n ih =>
    intro s k hch hcap hw0 hw hds hz
    obtain ⟨s1, hstep, h1, h2, h3, h4, h5, h6⟩ :=
      Delay.delay_processSample_zero m htanh stereo s (ramp k).1 (ramp k).2 hch hcap hw0 hw hds hz
    obtain ⟨s2, hloop, h7⟩ := ih s1 (k + 1) h1 (by rw [h2]; exact hcap) h3 h4
      (by rw [h5, h2]; exact hds) h6
    refine ⟨s2, ?_, h7⟩
    simp only [List.replicate_succ, Delay.sampleLoop, hstep, hloop, except_ok_bind,
      except_pure_eq_ok]

theorem Delay.processLoop_zero (m : MathFns) (htanh : m.tanh 0 = 0) (stereo : Bool)
    (ramp : ℕ → ℚ × ℚ) (d0 : Delay.State) (sampleRate : ℚ) (hsr : 0 ≤ sampleRate) (n : ℕ) :
    ∃ s1, Delay.processLoop m stereo ramp (Delay.reset (Delay.prepare d0 sampleRate))
        (List.replicate n (0, 0)) = .ok (s1, List.replicate n (0, 0))
      ∧ ∀ c i, s1.delayBuffer.data c i = 0 := by
  have hcap0 := truncToInt_nonneg sampleRate hsr
  have hnum : (Delay.reset (Delay.prepare d0 sampleRate)).delayBuffer.numSamples
      = truncToInt sampleRate := rfl
  have hds : (Delay.reset (Delay.prepare d0 sampleRate)).delaySamples
      ≤ truncToInt sampleRate - 1 := min_le_right _ _
  unfold Delay.processLoop
  split_ifs with hguard
  · exact ⟨_, rfl, fun _ _ => rfl⟩
  · rw [hnum] at hguard
    push_neg at hguard
    exact Delay.delay_sampleLoop_zero m htanh stereo ramp n _ 0 rfl (by rw [hnum]; omega)
      (le_refl 0) (by rw [hnum]; show (0 : ℤ) < _; omega) (by rw [hnum]; exact hds)
      (fun _ _ => rfl)

theorem Chorus.chorus_process_zero (m : MathFns) (stereo : Bool) (c0 : Chorus.State)
    (sampleRate : ℚ) (hsr : 0 ≤ sampleRate) (n : ℕ) :
    ∃ s1, Chorus.process m stereo (Chorus.reset (Chorus.prepare c0 sampleRate))
        (List.replicate n (0, 0)) = .ok (s1, List.replicate n (0, 0))
      ∧ ∀ c i, s1.delayBuffer.data c i = 0 := by
  have hcap0 := truncToInt_nonneg (sampleRate * (5 / 100)) (by linarith)
  have hnum : (Chorus.reset (Chorus.prepare c0 sampleRate)).delayBuffer.numSamples
      = truncToInt (sampleRate * (5 / 100)) := rfl
  unfold Chorus.process
  split_ifs with hguard
  · exact ⟨_, rfl, fun _ _ => rfl⟩
  · rw [hnum] at hguard
    exact Chorus.chorus_sampleLoop_zero m stereo n _ rfl (by rw [hnum]; omega)
      (le_refl 0) (by rw [hnum]; show (0 : ℤ) < _; omega) (fun _ _ => rfl)

theorem Glitch.bitCrush_zero (m : MathFns) (amount : ℚ) : Glitch.bitCrush m 0 amount = 0 := by
  have h : cRound 0 = 0 := by
    unfold cRound
    norm_num [Int.floor_eq_iff]
  simp only [Glitch.bitCrush, zero_mul, h, Int.cast_zero, zero_div]

theorem Glitch.glitch_processSample_zero (m : MathFns) (draws : ℕ → ℚ) (stereo : Bool)
    (s : Glitch.State) (hs : Glitch.Safe s) (hzero : ∀ c i, s.captureBuffer.data c i = 0) :
    ∃ s2, Glitch.processSample m draws stereo s (0, 0) = .ok (s2, (0, 0))
      ∧ Glitch.Safe s2 ∧ (∀ c i, s2.captureBuffer.data c i = 0)
      ∧ s2.params = s.params := by
  obtain ⟨s1, hc, hs1, hp1, -, -, hglitch, hcapt, -⟩ :=
    Glitch.captureStep_ok draws stereo s (0, 0) hs
  have hz1 : ∀ c i, s1.captureBuffer.data c i = 0 := by
    cases hg : s.isGlitching with
    | true => rw [hglitch hg]; exact hzero
    | false =>
      intro c i
      rw [(hcapt hg).2 c i, hzero]
      simp
  cases hg1 : s1.isGlitching with
  | false =>
    refine ⟨s1, ?_, hs1, hz1, hp1⟩
    simp only [Glitch.processSample, hc, except_ok_bind, Glitch.playbackStep, hg1,
      Bool.false_eq_true, if_false, except_pure_eq_ok]
  | true =>
    obtain ⟨idx, -, -, -, hpb⟩ := Glitch.playbackStep_ok m draws stereo s1 (0, 0) hs1 hg1
    simp only [hz1, Glitch.bitCrush_zero, ite_self] at hpb
    refine ⟨Glitch.advancePlayback draws s1, ?_, Glitch.advancePlayback_safe draws s1 hs1 hg1,
      by simpa using hz1, by simp [hp1]⟩
    simp only [Glitch.processSample, hc, except_ok_bind, hpb]

theorem Glitch.glitch_sampleLoop_zero (m : MathFns) (draws : ℕ → ℚ) (stereo : Bool) (n : ℕ) :
    ∀ s : Glitch.State, Glitch.Safe s → (∀ c i, s.captureBuffer.data c i = 0) →
      ∃ s1, Glitch.sampleLoop m draws stereo s (List.replicate n (0, 0))
          = .ok (s1, List.replicate n (0, 0))
        ∧ ∀ c i, s1.captureBuffer.data c i = 0 := by
  induction n with
  | zero => intro s _ hz; exact ⟨s, rfl, hz⟩
  | succ n ih =>
    intro s hs hz
    obtain ⟨s1, hstep, hs1, hz1, -⟩ := Glitch.glitch_processSample_zero m draws stereo s hs hz
    obtain ⟨s2, hloop, hz2⟩ := ih s1 hs1 hz1
    refine ⟨s2, ?_, hz2⟩
    simp only [List.replicate_succ, Glitch.sampleLoop, hstep, hloop, except_ok_bind,
      except_pure_eq_ok]

theorem Glitch.zipWith_mix_zero (stereo : Bool) (dryWet : ℚ) (n : ℕ) :
    List.zipWith (Glitch.mix stereo dryWet) (List.replicate n (0, 0)) (List.replicate n (0, 0))
      = List.replicate n (0, 0) := by
  induction n with
  | zero => rfl
  | succ n ih =>
    simp only [List.replicate_succ, List.zipWith_cons_cons, ih]
    cases stereo <;> simp [Glitch.mix]

/-- C5 as stated fails for Glitch at a sample rate whose capture buffer is
shorter than 65 cells: prepared at 10 Hz (5 cells, first trigger after one
sample) with the default parameters and draws of 1/2, the 64-sample grain floor
exceeds the buffer and the very first all-zero sample makes `process` read cell
`(1 - 64 + 0 + 5) % 5 = -3` of the capture buffer. -/
theorem C5_glitch_short_buffer_faults :
    (Glitch.reset (Glitch.prepare {} 10)).captureBuffer.numSamples = 5
    ∧ Glitch.process { sin := fun _ => 0, tan := fun _ => 0, tanh := fun v => v,
                       pow := fun _ _ => 1, pi := 3 } (fun _ => 1 / 2) false
        (Glitch.reset (Glitch.prepare {} 10)) [(0, 0)]
      = .error .indexOutOfRange := by
  have h1 : Int.tmod 1 5 = 1 := by decide
  have h2 : Int.tmod (-58) 5 = -3 := by decide
  constructor
  · norm_num [Glitch.reset, Glitch.prepare, truncToInt, AudioBuffer.sized, AudioBuffer.clear]
  · norm_num [Glitch.process, Glitch.sampleLoop, Glitch.processSample, Glitch.captureStep,
      Glitch.playbackStep, Glitch.readPos, Glitch.glitchSample, cMod,
      AudioBuffer.setSample, AudioBuffer.getSample, AudioBuffer.inRange,
      Glitch.countdown, Glitch.reset, Glitch.prepare, Glitch.triggerGlitch, truncToInt,
      AudioBuffer.sized, AudioBuffer.clear, Int.floor_eq_iff, h1, h2]

/-- For a sample rate above 8000 Hz and a depth in `[0,1]` the two divisors of
`Phaser::process` are not zero: the sample rate, and `1 + tan (w0 / 2)` of the
all-pass coefficient (the argument of the tangent is `pi * f / sampleRate` with
`f` in `[100, 4000]`, strictly between 0 and `pi / 2`). -/
theorem Phaser.divisors_ne_zero (m : MathFns) (s : Phaser.State)
    (hsin : ∀ v, -1 ≤ m.sin v ∧ m.sin v ≤ 1)
    (hpow : ∀ e, 0 ≤ e → e ≤ 1 → 1 ≤ m.pow 40 e ∧ m.pow 40 e ≤ 40)
    (hpi : 0 < m.pi) (htan : ∀ v, 0 < v → v < m.pi / 2 → 0 < m.tan v)
    (hd0 : 0 ≤ s.params.depth) (hd1 : s.params.depth ≤ 1) (hsr : 8000 < s.sampleRate) :
    s.sampleRate ≠ 0 ∧ 1 + m.tan (Phaser.w0 m s * (1 / 2)) ≠ 0 := by
  have h40 : (4000 / 100 : ℚ) = 40 := by norm_num
  obtain ⟨hs0, hs1⟩ := hsin (s.lfoPhase * 2 * m.pi)
  have hn0 : 0 ≤ Phaser.sweepNorm m s := by
    unfold Phaser.sweepNorm
    nlinarith
  have hn1 : Phaser.sweepNorm m s ≤ 1 := by
    unfold Phaser.sweepNorm
    nlinarith
  obtain ⟨hp0, hp1⟩ := hpow (Phaser.sweepNorm m s) hn0 hn1
  have hfreq : Phaser.sweepFreq m s = 100 * m.pow 40 (Phaser.sweepNorm m s) := by
    unfold Phaser.sweepFreq
    rw [h40]
  have hsr0 : 0 < s.sampleRate := by linarith
  have harg : Phaser.w0 m s * (1 / 2) = m.pi * Phaser.sweepFreq m s / s.sampleRate := by
    unfold Phaser.w0
    ring
  have ha0 : 0 < Phaser.w0 m s * (1 / 2) := by
    rw [harg, hfreq]
    exact div_pos (mul_pos hpi (by linarith)) hsr0
  have ha1 : Phaser.w0 m s * (1 / 2) < m.pi / 2 := by
    rw [harg, hfreq, div_lt_iff₀ hsr0]
    nlinarith
  have ht : 0 < m.tan (Phaser.w0 m s * (1 / 2)) := htan _ ha0 ha1
  exact ⟨hsr0.ne', by linarith⟩

/-- For a sample rate of at least 44.45 Hz and a resonance that is not negative
the divisors of `Filter::process` are not zero: the sample rate, the resonance `Q`
and the denominator `1 + g * (g + k)` of `a1`. -/
theorem Filter.filter_divisors_ne_zero (m : MathFns) (s : Filter.State)
    (hpi : 0 < m.pi) (htan : ∀ v, 0 < v → v < m.pi / 2 → 0 < m.tan v)
    (hsr : 4445 / 100 ≤ s.sampleRate) (hr0 : 0 ≤ s.params.resonance) :
    s.sampleRate ≠ 0 ∧ Filter.resonanceQ s ≠ 0
      ∧ 1 + Filter.coeffG m s * (Filter.coeffG m s + Filter.coeffK s) ≠ 0 := by
  have hsr0 : 0 < s.sampleRate := by linarith
  have hmax : (20 : ℚ) ≤ Filter.maxFreq s.sampleRate := by
    unfold Filter.maxFreq
    exact le_min (by norm_num) (by linarith)
  obtain ⟨hf0, hf1⟩ := jlimit_mem 20 (Filter.maxFreq s.sampleRate)
    (20 * m.pow (Filter.maxFreq s.sampleRate / 20) s.params.cutoff
      * m.pow 2 (m.sin (s.lfoPhase * 2 * m.pi) * s.params.lfoDepth * 2)) hmax
  have hf0' : 20 ≤ Filter.modulatedCutoff m s := hf0
  have hf1' : Filter.modulatedCutoff m s ≤ Filter.maxFreq s.sampleRate := hf1
  have hf2 : Filter.modulatedCutoff m s ≤ s.sampleRate * (45 / 100) :=
    le_trans hf1' (min_le_right _ _)
  have harg0 : 0 < m.pi * Filter.modulatedCutoff m s / s.sampleRate :=
    div_pos (mul_pos hpi (by linarith)) hsr0
  have harg1 : m.pi * Filter.modulatedCutoff m s / s.sampleRate ≤ 45 / 100 * m.pi := by
    rw [div_le_iff₀ hsr0]
    nlinarith
  have hg : 0 < Filter.coeffG m s := htan _ harg0 (by linarith)
  have hqpos : 0 < Filter.resonanceQ s := by unfold Filter.resonanceQ; nlinarith
  have hk : 0 < Filter.coeffK s := by
    unfold Filter.coeffK
    exact div_pos one_pos hqpos
  have hden : 0 < 1 + Filter.coeffG m s * (Filter.coeffG m s + Filter.coeffK s) := by
    have : 0 ≤ Filter.coeffG m s * (Filter.coeffG m s + Filter.coeffK s) :=
      mul_nonneg hg.le (by linarith)
    linarith
  exact ⟨hsr0.ne', hqpos.ne', hden.ne'⟩

/-- C5 (amended): over exact arithmetic with `tanh 0 = 0`, after `prepare` and
`reset ()` at a sample rate at which the arithmetic of the effect is defined,
a block of `n` all-zero frames comes out all zero and leaves the delay/capture
buffers, all-pass stage states, filter integrator states and feedback states
all zero.  The sample rate is not negative for the per-sample loop of Delay and
for Chorus (whose division by the sample rate is only reached with a delay line
of at least one cell, hence a sample rate that is not zero); it is above 8000 Hz
for Phaser with depth in `[0,1]` and at least 44.45 Hz for Filter with a
resonance that is not negative, where no divisor of the coefficients is zero; and for Glitch (any
random draws) the prepared capture buffer has at least 65 cells and the divisor
`levels` of the bit crusher is not zero.  `sin`, `tan`, `pow` and pi are
parameters with the properties of the real functions that this rests on. -/
theorem C5_silence_in_silence_out (m : MathFns) (htanh : m.tanh 0 = 0)
    (hsin : ∀ v, -1 ≤ m.sin v ∧ m.sin v ≤ 1)
    (hpow : ∀ e, 0 ≤ e → e ≤ 1 → 1 ≤ m.pow 40 e ∧ m.pow 40 e ≤ 40)
    (hpow2 : ∀ e, 0 < m.pow 2 e)
    (hpi : 0 < m.pi) (htan : ∀ v, 0 < v → v < m.pi / 2 → 0 < m.tan v)
    (stereo : Bool)
    (ramp : ℕ → ℚ × ℚ) (draws : ℕ → ℚ) (sampleRate : ℚ) (n : ℕ)
    (d0 : Delay.State) (c0 : Chorus.State) (p0 : Phaser.State) (f0 : Filter.State)
    (g0 : Glitch.State) :
    (0 ≤ sampleRate →
      ∃ d1, Delay.processLoop m stereo ramp (Delay.reset (Delay.prepare d0 sampleRate))
          (List.replicate n (0, 0)) = .ok (d1, List.replicate n (0, 0))
        ∧ ∀ c i, d1.delayBuffer.data c i = 0)
    ∧ (0 ≤ sampleRate →
      (∃ c1, Chorus.process m stereo (Chorus.reset (Chorus.prepare c0 sampleRate))
          (List.replicate n (0, 0)) = .ok (c1, List.replicate n (0, 0))
        ∧ ∀ c i, c1.delayBuffer.data c i = 0)
      ∧ ((Chorus.reset (Chorus.prepare c0 sampleRate)).delayBuffer.numSamples ≠ 0 →
          (Chorus.reset (Chorus.prepare c0 sampleRate)).sampleRate ≠ 0))
    ∧ (8000 < sampleRate → 0 ≤ p0.params.depth → p0.params.depth ≤ 1 →
      ((Phaser.process m stereo (Phaser.reset (Phaser.prepare p0 sampleRate))
          (List.replicate n (0, 0))).2 = List.replicate n (0, 0)
      ∧ (∀ st ∈ (Phaser.process m stereo (Phaser.reset (Phaser.prepare p0 sampleRate))
            (List.replicate n (0, 0))).1.stages, st.z1L = 0 ∧ st.z1R = 0)
      ∧ (Phaser.process m stereo (Phaser.reset (Phaser.prepare p0 sampleRate))
            (List.replicate n (0, 0))).1.feedbackL = 0
      ∧ (Phaser.process m stereo (Phaser.reset (Phaser.prepare p0 sampleRate))
            (List.replicate n (0, 0))).1.feedbackR = 0)
      ∧ ∀ s : Phaser.State, s.params = p0.params → s.sampleRate = sampleRate →
          s.sampleRate ≠ 0 ∧ 1 + m.tan (Phaser.w0 m s * (1 / 2)) ≠ 0)
    ∧ (4445 / 100 ≤ sampleRate → 0 ≤ f0.params.resonance →
      ((Filter.process m stereo (Filter.reset (Filter.prepare f0 sampleRate))
          (List.replicate n (0, 0))).2 = List.replicate n (0, 0)
      ∧ (Filter.process m stereo (Filter.reset (Filter.prepare f0 sampleRate))
            (List.replicate n (0, 0))).1.stateL = { ic1eq := 0, ic2eq := 0 }
      ∧ (Filter.process m stereo (Filter.reset (Filter.prepare f0 sampleRate))
            (List.replicate n (0, 0))).1.stateR = { ic1eq := 0, ic2eq := 0 })
      ∧ ∀ s : Filter.State, s.params = f0.params → s.sampleRate = sampleRate →
          s.sampleRate ≠ 0 ∧ Filter.resonanceQ s ≠ 0
            ∧ 1 + Filter.coeffG m s * (Filter.coeffG m s + Filter.coeffK s) ≠ 0)
    ∧ (65 ≤ (Glitch.reset (Glitch.prepare g0 sampleRate)).captureBuffer.numSamples →
      (∃ g1, Glitch.process m draws stereo (Glitch.reset (Glitch.prepare g0 sampleRate))
          (List.replicate n (0, 0)) = .ok (g1, List.replicate n (0, 0))
        ∧ ∀ c i, g1.captureBuffer.data c i = 0)
      ∧ ∀ amount : ℚ, m.pow 2 (max (16 - amount * 13) 2) ≠ 0) := by
  refine ⟨fun hsr => Delay.processLoop_zero m htanh stereo ramp d0 sampleRate hsr n,
    fun hsr => ⟨Chorus.chorus_process_zero m stereo c0 sampleRate hsr n, ?_⟩, ?_, ?_, ?_⟩
  · intro hcap hzero
    apply hcap
    have hsr0 : sampleRate = 0 := hzero
    show truncToInt (sampleRate * (5 / 100)) = 0
    rw [hsr0]
    norm_num [truncToInt]
  · intro hsr hd0 hd1
    refine ⟨?_, ?_⟩
    · refine Phaser.phaser_process_zero m htanh stereo n _ ?_ rfl rfl
      intro st hst
      simp only [Phaser.reset, Phaser.prepare, List.mem_map] at hst
      obtain ⟨_, _, rfl⟩ := hst
      exact ⟨rfl, rfl⟩
    · intro s hp hs
      exact Phaser.divisors_ne_zero m s hsin hpow hpi htan (by rw [hp]; exact hd0)
        (by rw [hp]; exact hd1) (by rw [hs]; exact hsr)
  · intro hsr hr0
    refine ⟨Filter.filter_process_zero m stereo n _ rfl rfl, ?_⟩
    intro s hp hs
    exact Filter.filter_divisors_ne_zero m s hpi htan (by rw [hs]; exact hsr)
      (by rw [hp]; exact hr0)
  · intro hcap
    have hsafe : Glitch.Safe (Glitch.reset (Glitch.prepare g0 sampleRate)) :=
      Glitch.prepare_safe g0 sampleRate hcap
    obtain ⟨g1, hloop, hz⟩ := Glitch.glitch_sampleLoop_zero m draws stereo n _ hsafe (fun _ _ => rfl)
    refine ⟨⟨g1, ?_, hz⟩, fun amount => (hpow2 _).ne'⟩
    simp only [Glitch.process, hloop, except_ok_bind, except_pure_eq_ok,
      Glitch.zipWith_mix_zero]

/-- The sample functions have the properties the statements about the sweep and
the filter coefficients rest on. -/
theorem MathFns.sample_properties :
    MathFns.sample.tanh 0 = 0
    ∧ (∀ v, -1 ≤ MathFns.sample.sin v ∧ MathFns.sample.sin v ≤ 1)
    ∧ (∀ e, 0 ≤ e → e ≤ 1 → 1 ≤ MathFns.sample.pow 40 e ∧ MathFns.sample.pow 40 e ≤ 40)
    ∧ (∀ e, 0 < MathFns.sample.pow 2 e)
    ∧ 0 < MathFns.sample.pi
    ∧ (∀ v, 0 < v → v < MathFns.sample.pi / 2 → 0 < MathFns.sample.tan v) := by
  refine ⟨by norm_num [MathFns.sample], fun _ => by norm_num [MathFns.sample], ?_, ?_,
    by norm_num [MathFns.sample], fun v hv _ => hv⟩
  · intro e he0 he1
    have h0 : 0 ≤ ⌊e⌋ := Int.floor_nonneg.mpr he0
    have h1 : ⌊e⌋ ≤ 1 := by
      have h : e ≤ ((1 : ℤ) : ℚ) := by push_cast; exact he1
      exact Int.cast_le.mp (le_trans (Int.floor_le e) h)
    have hcases : ⌊e⌋ = 0 ∨ ⌊e⌋ = 1 := by omega
    simp only [MathFns.sample]
    rcases hcases with h | h
    · rw [h]
      norm_num
    · rw [h]
      have ht : Int.toNat 1 = 1 := rfl
      rw [ht]
      norm_num
  · intro e
    simp only [MathFns.sample]
    positivity

/-- Witness for C5: three zero frames at 44100 Hz through the loop of a Delay, a
Phaser, a Filter and a Glitch (22050 capture cells) with the default parameters
and the sample functions. -/
theorem C5_silence_in_silence_out_witness :
    (∃ d1, Delay.processLoop MathFns.sample true (fun _ => (2 / 5, 1 / 2))
          (Delay.reset (Delay.prepare {} 44100)) (List.replicate 3 (0, 0))
        = .ok (d1, List.replicate 3 (0, 0)) ∧ ∀ c i, d1.delayBuffer.data c i = 0)
    ∧ (Phaser.process MathFns.sample true (Phaser.reset (Phaser.prepare {} 44100))
          (List.replicate 3 (0, 0))).2 = List.replicate 3 (0, 0)
    ∧ (Filter.process MathFns.sample true (Filter.reset (Filter.prepare {} 44100))
          (List.replicate 3 (0, 0))).2 = List.replicate 3 (0, 0)
    ∧ (∃ g1, Glitch.process MathFns.sample (fun _ => 1 / 2) true
          (Glitch.reset (Glitch.prepare {} 44100)) (List.replicate 3 (0, 0))
        = .ok (g1, List.replicate 3 (0, 0)) ∧ ∀ c i, g1.captureBuffer.data c i = 0) := by
  obtain ⟨h1, h2, h3, h4, h5, h6⟩ := MathFns.sample_properties
  have h := C5_silence_in_silence_out MathFns.sample h1 h2 h3 h4 h5 h6 true
    (fun _ => (2 / 5, 1 / 2)) (fun _ => 1 / 2) 44100 3 {} {} {} {} {}
  exact ⟨h.1 (by norm_num),
    (h.2.2.1 (by norm_num) (by norm_num) (by norm_num)).1.1,
    (h.2.2.2.1 (by norm_num) (by norm_num)).1.1,
    (h.2.2.2.2 (by norm_num [Glitch.prepare, Glitch.reset, AudioBuffer.sized,
      AudioBuffer.clear, truncToInt])).1⟩

/-! ### Glitch read positions (C11) -/

/-- C11: in the playback half of `Glitch::process`, for capacity `C`, capture
cursor `c` in `[0, C)`, grain length `64 ≤ L ≤ C - 1` and playback offset
`0 ≤ p < L`, a forward grain reads cell `(c - L + p) mod C` and a reversed grain
reads cell `(c - 1 - p) mod C` (non-negative mod); at offset 0 these are
`(c - L) mod C` and `(c - 1) mod C`; the index lies in `[0, C)` and the read of
either channel of the two-channel capture buffer returns that cell. -/
theorem C11_glitch_read_positions (s : Glitch.State)
    (hc0 : 0 ≤ s.capturePosition) (hc1 : s.capturePosition < s.captureBuffer.numSamples)
    (hL0 : 64 ≤ s.captureLength) (hL1 : s.captureLength ≤ s.captureBuffer.numSamples - 1)
    (hp0 : 0 ≤ s.glitchPlaybackPos) (hp1 : s.glitchPlaybackPos < s.captureLength) :
    (s.isReversed = false →
      Glitch.readPos s
        = .ok ((s.capturePosition - s.captureLength + s.glitchPlaybackPos)
                % s.captureBuffer.numSamples))
    ∧ (s.isReversed = true →
      Glitch.readPos s
        = .ok ((s.capturePosition - 1 - s.glitchPlaybackPos) % s.captureBuffer.numSamples))
    ∧ (s.isReversed = false → s.glitchPlaybackPos = 0 →
      Glitch.readPos s
        = .ok ((s.capturePosition - s.captureLength) % s.captureBuffer.numSamples))
    ∧ (s.isReversed = true → s.glitchPlaybackPos = 0 →
      Glitch.readPos s = .ok ((s.capturePosition - 1) % s.captureBuffer.numSamples))
    ∧ ∃ idx, Glitch.readPos s = .ok idx ∧ 0 ≤ idx ∧ idx < s.captureBuffer.numSamples
        ∧ (s.captureBuffer.numChannels = 2 → ∀ channel < 2,
            s.captureBuffer.getSample channel idx
              = .ok (s.captureBuffer.data channel idx.toNat)) := by
  have hfwd : s.isReversed = false →
      Glitch.readPos s
        = .ok ((s.capturePosition - s.captureLength + s.glitchPlaybackPos)
                % s.captureBuffer.numSamples) := by
    intro hr
    simp only [Glitch.readPos, hr, Bool.false_eq_true, if_false]
    rw [cMod_eq_emod _ _ (by omega) (by omega), Int.add_emod_self]
  have hrev : s.isReversed = true →
      Glitch.readPos s
        = .ok ((s.capturePosition - 1 - s.glitchPlaybackPos) % s.captureBuffer.numSamples) := by
    intro hr
    simp only [Glitch.readPos, hr, if_true]
    rw [cMod_eq_emod _ _ (by omega) (by omega), Int.add_emod_self]
  refine ⟨hfwd, hrev, ?_, ?_, ?_⟩
  · intro hr hp
    rw [hfwd hr, hp, add_zero]
  · intro hr hp
    rw [hrev hr, hp, sub_zero]
  · have hget : ∀ idx : ℤ, 0 ≤ idx → idx < s.captureBuffer.numSamples →
        s.captureBuffer.numChannels = 2 → ∀ channel < 2,
          s.captureBuffer.getSample channel idx
            = .ok (s.captureBuffer.data channel idx.toNat) := by
      intro idx h0 h1 hch channel hlt
      exact AudioBuffer.getSample_ok _ _ _ (by rw [hch]; exact hlt) h0 h1
    cases hr : s.isReversed with
    | false =>
      exact ⟨_, hfwd hr, Int.emod_nonneg _ (by omega), Int.emod_lt_of_pos _ (by omega),
        hget _ (Int.emod_nonneg _ (by omega)) (Int.emod_lt_of_pos _ (by omega))⟩
    | true =>
      exact ⟨_, hrev hr, Int.emod_nonneg _ (by omega), Int.emod_lt_of_pos _ (by omega),
        hget _ (Int.emod_nonneg _ (by omega)) (Int.emod_lt_of_pos _ (by omega))⟩

/-- Witness for C11: a forward grain of 64 samples at offset 3 with the capture
cursor at 10 of 100 cells reads cell `(10 - 64 + 3) mod 100 = 49`. -/
theorem C11_glitch_read_positions_witness :
    Glitch.readPos { captureBuffer := AudioBuffer.sized 2 100, capturePosition := 10,
                     captureLength := 64, glitchPlaybackPos := 3, isGlitching := true }
      = .ok 49 := by
  have h := (C11_glitch_read_positions
    { captureBuffer := AudioBuffer.sized 2 100, capturePosition := 10,
      captureLength := 64, glitchPlaybackPos := 3, isGlitching := true }
    (by norm_num) (by norm_num [AudioBuffer.sized]) (by norm_num)
    (by norm_num [AudioBuffer.sized]) (by norm_num) (by norm_num)).1 rfl
  rw [h]
  norm_num [AudioBuffer.sized]

/-! ### Bit depth of the crusher (C12) -/

/-- C12 as stated fails: the crusher computes `bits = 16 - 13 * amount`, so full
crush quantizes to 3 bits (8 levels), not 2 bits (4 levels).  With a power
function that is exact at whole exponents, `bitCrush (1/8, 1)` is
`round (8 * 1/8) / 8 = 1/8`, whereas `round (4 * 1/8) / 4 = 1/4`. -/
theorem C12_full_crush_is_three_bits :
    Glitch.bitCrush MathFns.sample (1 / 8) 1 = 1 / 8
    ∧ (cRound (4 * (1 / 8)) : ℚ) / 4 = 1 / 4
    ∧ Glitch.bitCrush MathFns.sample (1 / 8) 1 ≠ (cRound (4 * (1 / 8)) : ℚ) / 4 := by
  have h3 : (16 - (1 : ℚ) * 13) ⊔ 2 = 3 := by norm_num
  have hf : ⌊(3 : ℚ)⌋ = 3 := by norm_num
  have ht : Int.toNat 3 = 3 := rfl
  have h1 : Glitch.bitCrush MathFns.sample (1 / 8) 1 = 1 / 8 := by
    simp only [Glitch.bitCrush, MathFns.sample, h3, hf, ht]
    norm_num [cRound, Int.floor_eq_iff]
  have h2 : (cRound (4 * (1 / 8)) : ℚ) / 4 = 1 / 4 := by
    norm_num [cRound, Int.floor_eq_iff]
  refine ⟨h1, h2, ?_⟩
  rw [h1, h2]
  norm_num

/-- C12 (amended): for every sample `x` and every crush amount in `[0, 1]`,
`bitCrush (x, crush) = round (x * 2^bits) / 2^bits` with
`bits = 16 - 13 * crush`, a bit depth that decreases linearly from 16 bits at
crush 0 to 3 bits at crush 1 (the floor of 2 bits is never reached); in
particular, when `2^3` is evaluated as 8, `bitCrush (x, 1) = round (8 x) / 8`.
Here `round` is `std::round` and `2^bits` is `std::pow (2, bits)`. -/
theorem C12_bitCrush_bit_depth (m : MathFns) (x crush : ℚ) (h0 : 0 ≤ crush) (h1 : crush ≤ 1) :
    Glitch.bitCrush m x crush
      = (cRound (x * m.pow 2 (16 - 13 * crush)) : ℚ) / m.pow 2 (16 - 13 * crush)
    ∧ 3 ≤ 16 - 13 * crush ∧ 16 - 13 * crush ≤ 16
    ∧ (16 - 13 * (0 : ℚ) = 16 ∧ 16 - 13 * (1 : ℚ) = 3)
    ∧ (m.pow 2 3 = 8 → Glitch.bitCrush m x 1 = (cRound (8 * x) : ℚ) / 8) := by
  refine ⟨?_, by linarith, by linarith, ⟨by norm_num, by norm_num⟩, ?_⟩
  · have hb : (16 - crush * 13) ⊔ 2 = 16 - 13 * crush := by
      rw [max_eq_left (by linarith)]
      ring
    simp only [Glitch.bitCrush, hb]
  · intro hpow
    have hb : (16 - (1 : ℚ) * 13) ⊔ 2 = 3 := by norm_num
    simp only [Glitch.bitCrush, hb, hpow]
    rw [mul_comm]

/-- Witness for C12: the sample 1/3 at crush 1/2 and at full crush. -/
theorem C12_bitCrush_bit_depth_witness :
    Glitch.bitCrush MathFns.sample (1 / 3) 1 = (cRound (8 * (1 / 3)) : ℚ) / 8 :=
  (C12_bitCrush_bit_depth MathFns.sample (1 / 3) (1 / 2)
    (by norm_num) (by norm_num)).2.2.2.2
    (by
      have hf : ⌊(3 : ℚ)⌋ = 3 := by norm_num
      have ht : Int.toNat 3 = 3 := rfl
      simp only [MathFns.sample, hf, ht]
      norm_num)

/-! ### Quartile selectors (C18, C19) and the tremolo shape (C20) -/

theorem Phaser.runStages_length (coefficient : ℚ) (stages : List Phaser.AllPassStage) :
    ∀ (n : ℕ) (wetL wetR : ℚ),
      (Phaser.runStages coefficient stages n wetL wetR).1.length = stages.length := by
  induction stages with
  | nil => intro n wetL wetR; simp [Phaser.runStages]
  | cons st rest ih =>
    intro n wetL wetR
    cases n with
    | zero => simp [Phaser.runStages]
    | succ n =>
      simp only [Phaser.runStages, List.length_cons]
      rw [ih]

/-- C18: the Phaser stage count is the quartile of the `stages` parameter
(below 0.25: 4, below 0.5: 6, below 0.75: 8, else 12), so the documented values
0, 0.5 and 1 give 4, 8 and 12; it is non-decreasing in `stages` and never
exceeds `kMaxStages = 12`, the number of stages a Phaser is constructed with,
which `reset` and the stage loop of `process` leave unchanged. -/
theorem C18_phaser_stage_count (p q : PhaserParams) (s : Phaser.State) (m : MathFns)
    (stereo : Bool) (x : Frame) :
    (p.stages < 1 / 4 → Phaser.numStages p = 4)
    ∧ (1 / 4 ≤ p.stages → p.stages < 1 / 2 → Phaser.numStages p = 6)
    ∧ (1 / 2 ≤ p.stages → p.stages < 3 / 4 → Phaser.numStages p = 8)
    ∧ (3 / 4 ≤ p.stages → Phaser.numStages p = 12)
    ∧ (Phaser.numStages { p with stages := 0 } = 4
        ∧ Phaser.numStages { p with stages := 1 / 2 } = 8
        ∧ Phaser.numStages { p with stages := 1 } = 12)
    ∧ (p.stages ≤ q.stages → Phaser.numStages p ≤ Phaser.numStages q)
    ∧ Phaser.numStages p ≤ Phaser.kMaxStages
    ∧ ({} : Phaser.State).stages.length = Phaser.kMaxStages
    ∧ (Phaser.reset s).stages.length = s.stages.length
    ∧ (Phaser.processSample m stereo s x).1.stages.length = s.stages.length := by
  refine ⟨?_, ?_, ?_, ?_, ⟨?_, ?_, ?_⟩, ?_, ?_, ?_, ?_, ?_⟩
  · intro h
    unfold Phaser.numStages
    rw [if_pos h]
  · intro h1 h2
    unfold Phaser.numStages
    split_ifs <;> first | rfl | (exfalso; linarith)
  · intro h1 h2
    unfold Phaser.numStages
    split_ifs <;> first | rfl | (exfalso; linarith)
  · intro h1
    unfold Phaser.numStages
    split_ifs <;> first | rfl | (exfalso; linarith)
  · norm_num [Phaser.numStages]
  · norm_num [Phaser.numStages]
  · norm_num [Phaser.numStages]
  · intro hpq
    unfold Phaser.numStages
    split_ifs <;> first | omega | (exfalso; linarith)
  · unfold Phaser.numStages Phaser.kMaxStages
    split_ifs <;> omega
  · simp [Phaser.kMaxStages]
  · simp [Phaser.reset]
  · unfold Phaser.processSample
    simp only
    exact Phaser.runStages_length _ _ _ _ _

/-- Witness for C18: the default stages value 0.5 against 0.8. -/
theorem C18_phaser_stage_count_witness :
    Phaser.numStages {} ≤ Phaser.numStages { stages := 8 / 10 } :=
  (C18_phaser_stage_count {} { stages := 8 / 10 } {} MathFns.sample
    true (0, 0)).2.2.2.2.2.1 (by norm_num)

/-- C19: the Filter output tap is the quartile of the `filterType` parameter
(below 0.25 lowpass, below 0.5 highpass, below 0.75 bandpass, else notch), so the
documented values 0, 0.33, 0.66 and 1 select lowpass, highpass, bandpass and
notch; the tick then outputs `v2`, `input - k v1 - v2`, `v1` and `input - k v1`
for these four types. -/
theorem C19_filter_type_quartiles (p : FilterParams) (a1 a2 a3 k input : ℚ)
    (state : Filter.SVFState) :
    (p.filterType < 1 / 4 → Filter.getFilterType p = .LowPass)
    ∧ (1 / 4 ≤ p.filterType → p.filterType < 1 / 2 → Filter.getFilterType p = .HighPass)
    ∧ (1 / 2 ≤ p.filterType → p.filterType < 3 / 4 → Filter.getFilterType p = .BandPass)
    ∧ (3 / 4 ≤ p.filterType → Filter.getFilterType p = .Notch)
    ∧ (Filter.getFilterType { p with filterType := 0 } = .LowPass
        ∧ Filter.getFilterType { p with filterType := 33 / 100 } = .HighPass
        ∧ Filter.getFilterType { p with filterType := 66 / 100 } = .BandPass
        ∧ Filter.getFilterType { p with filterType := 1 } = .Notch)
    ∧ ((Filter.svfTick .LowPass a1 a2 a3 k state input).2
          = state.ic2eq + a2 * state.ic1eq + a3 * (input - state.ic2eq)
      ∧ (Filter.svfTick .HighPass a1 a2 a3 k state input).2
          = input - k * (a1 * state.ic1eq + a2 * (input - state.ic2eq))
            - (state.ic2eq + a2 * state.ic1eq + a3 * (input - state.ic2eq))
      ∧ (Filter.svfTick .BandPass a1 a2 a3 k state input).2
          = a1 * state.ic1eq + a2 * (input - state.ic2eq)
      ∧ (Filter.svfTick .Notch a1 a2 a3 k state input).2
          = input - k * (a1 * state.ic1eq + a2 * (input - state.ic2eq))) := by
  refine ⟨?_, ?_, ?_, ?_, ⟨?_, ?_, ?_, ?_⟩, ⟨rfl, rfl, rfl, rfl⟩⟩
  · intro h
    unfold Filter.getFilterType
    rw [if_pos h]
  · intro h1 h2
    unfold Filter.getFilterType
    split_ifs <;> first | rfl | (exfalso; linarith)
  · intro h1 h2
    unfold Filter.getFilterType
    split_ifs <;> first | rfl | (exfalso; linarith)
  · intro h1
    unfold Filter.getFilterType
    split_ifs <;> first | rfl | (exfalso; linarith)
  · norm_num [Filter.getFilterType]
  · norm_num [Filter.getFilterType]
  · norm_num [Filter.getFilterType]
  · norm_num [Filter.getFilterType]

/-- Witness for C19: the default record with filterType 0.3 selects highpass. -/
theorem C19_filter_type_quartiles_witness :
    Filter.getFilterType { filterType := 3 / 10 } = .HighPass :=
  (C19_filter_type_quartiles { filterType := 3 / 10 } 0 0 0 0 0 {}).2.1
    (by norm_num) (by norm_num)

/-- C20 at the failing input: `getLfoValue` is the sine for shape 0 and the
square for shape 1, but shape 0.5 lies inside the triangle-to-square crossfade
(`0.33 ≤ shape < 0.66`, blend `17/33`): at phase 1/4 the pure triangle
`4 * |phase - 1/2| - 1` is 0 while `getLfoValue (1/4, 0.5)` is `17/33`.  The pure
triangle is returned at shape 0.33. -/
theorem C20_tremolo_shape_half_is_blend (m : MathFns) (phase : ℚ) :
    Tremolo.getLfoValue m phase 0 = m.sin (phase * 2 * m.pi)
    ∧ Tremolo.getLfoValue m phase 1 = (if phase < 1 / 2 then 1 else -1)
    ∧ Tremolo.getLfoValue m phase (33 / 100) = 4 * |phase - 1 / 2| - 1
    ∧ Tremolo.getLfoValue m phase (1 / 2)
        = (4 * |phase - 1 / 2| - 1) * (16 / 33) + (if phase < 1 / 2 then 1 else -1) * (17 / 33)
    ∧ Tremolo.getLfoValue m (1 / 4) (1 / 2) = 17 / 33
    ∧ 4 * |(1 / 4 : ℚ) - 1 / 2| - 1 = 0 := by
  have habs : |(1 / 4 : ℚ) - 1 / 2| = 1 / 4 := by
    rw [abs_of_nonpos (by norm_num)]; norm_num
  refine ⟨?_, ?_, ?_, ?_, ?_, ?_⟩
  · norm_num [Tremolo.getLfoValue]
  · norm_num [Tremolo.getLfoValue]
  · norm_num [Tremolo.getLfoValue]
  · norm_num [Tremolo.getLfoValue]
  · have habs' : |(1 / 4 : ℚ)| = 1 / 4 := abs_of_pos (by norm_num)
    norm_num [Tremolo.getLfoValue, habs']
  · rw [habs]; norm_num

/-! ### Soft clipping in Phaser and Delay (C13, C15) -/

theorem Phaser.process_feedback_bounded (m : MathFns)
    (htanh : ∀ v, -1 < m.tanh v ∧ m.tanh v < 1) (stereo : Bool) (xs : List Frame) :
    ∀ (s : Phaser.State) (x : Frame),
      (-1 < (Phaser.process m stereo s (x :: xs)).1.feedbackL
        ∧ (Phaser.process m stereo s (x :: xs)).1.feedbackL < 1)
      ∧ (-1 < (Phaser.process m stereo s (x :: xs)).1.feedbackR
        ∧ (Phaser.process m stereo s (x :: xs)).1.feedbackR < 1) := by
  induction xs with
  | nil =>
    intro s x
    simp only [Phaser.process, Phaser.processSample]
    exact ⟨htanh _, htanh _⟩
  | cons x1 rest ih =>
    intro s x
    have h := ih (Phaser.processSample m stereo s x).1 x1
    simpa only [Phaser.process] using h

/-- One loop iteration of `Delay::process` on a ready state, spelled out: the
cell read, the two values written at the cursor, the output frame and the next
state. -/
theorem Delay.processSample_spec (m : MathFns) (stereo : Bool) (s : Delay.State)
    (feedback dryWet : ℚ) (x : Frame) (hs : Delay.Ready s) :
    ∃ (idx : ℤ) (s1 : Delay.State) (y : Frame),
      idx = (s.writePosition - s.delaySamples + s.delayBuffer.numSamples)
              % s.delayBuffer.numSamples
      ∧ Delay.processSample m stereo s feedback dryWet x = .ok (s1, y)
      ∧ Delay.Ready s1
      ∧ s1.params = s.params ∧ s1.delayBuffer.numSamples = s.delayBuffer.numSamples
      ∧ s1.delayBuffer.data 0 s.writePosition.toNat
          = m.tanh (x.1 + (s.delayBuffer.data 0 idx.toNat * (1 - s.params.pingPong)
              + s.delayBuffer.data 1 idx.toNat * s.params.pingPong) * feedback)
      ∧ s1.delayBuffer.data 1 s.writePosition.toNat
          = m.tanh ((if stereo = true then x.2 else x.1)
              + (s.delayBuffer.data 1 idx.toNat * (1 - s.params.pingPong)
                + s.delayBuffer.data 0 idx.toNat * s.params.pingPong) * feedback)
      ∧ (∀ c i, i ≠ s.writePosition.toNat → s1.delayBuffer.data c i = s.delayBuffer.data c i)
      ∧ y.1 = x.1 * (1 - dryWet) + s.delayBuffer.data 0 idx.toNat * dryWet
      ∧ y.2 = (if stereo = true
                then x.2 * (1 - dryWet) + s.delayBuffer.data 1 idx.toNat * dryWet
                else x.2) := by
  have hch := hs.channels
  have hcap := hs.capacity
  have hw0 := hs.cursor_nonneg
  have hw := hs.cursor_lt
  have hds := hs.delay_le
  have hread := cMod_eq_emod (s.writePosition - s.delaySamples + s.delayBuffer.numSamples)
    s.delayBuffer.numSamples (by omega) (by omega)
  have hg0 := AudioBuffer.getSample_ok s.delayBuffer 0
    ((s.writePosition - s.delaySamples + s.delayBuffer.numSamples) % s.delayBuffer.numSamples)
    (by rw [hch]; norm_num) (Int.emod_nonneg _ (by omega)) (Int.emod_lt_of_pos _ (by omega))
  have hg1 := AudioBuffer.getSample_ok s.delayBuffer 1
    ((s.writePosition - s.delaySamples + s.delayBuffer.numSamples) % s.delayBuffer.numSamples)
    (by rw [hch]; norm_num) (Int.emod_nonneg _ (by omega)) (Int.emod_lt_of_pos _ (by omega))
  have hmod := cMod_eq_emod (s.writePosition + 1) s.delayBuffer.numSamples (by omega) (by omega)
  have hw0' := fun v => AudioBuffer.setSample_ok s.delayBuffer 0 s.writePosition v
    (by rw [hch]; norm_num) hw0 hw
  have hw1' := fun v0 v => AudioBuffer.setSample_ok
    { s.delayBuffer with
      data := fun c i => if c = 0 ∧ i = s.writePosition.toNat then v0 else s.delayBuffer.data c i }
    1 s.writePosition v (by simp only; rw [hch]; norm_num) hw0 hw
  refine ⟨(s.writePosition - s.delaySamples + s.delayBuffer.numSamples)
    % s.delayBuffer.numSamples, ?_⟩
  simp only [Delay.processSample, hread, except_ok_bind, hg0, hg1, hw0', hw1', hmod,
    except_pure_eq_ok]
  refine ⟨_, _, trivial, rfl, ⟨hch, hcap, Int.emod_nonneg _ (by omega),
    Int.emod_lt_of_pos _ (by omega), hds⟩, rfl, rfl, ?_, ?_, ?_, rfl, ?_⟩
  · simp
  · simp
  · intro c i hi
    simp [hi]
  · cases stereo <;> simp

theorem MathFns.sample_tanh_bounded (v : ℚ) :
    -1 < MathFns.sample.tanh v ∧ MathFns.sample.tanh v < 1 := by
  have hpos : (0 : ℚ) < 1 + |v| := by positivity
  have h1 := neg_abs_le v
  have h2 := le_abs_self v
  simp only [MathFns.sample]
  constructor
  · rw [lt_div_iff₀ hpos]; linarith
  · rw [div_lt_iff₀ hpos]; linarith

theorem Delay.prepare_ready (d0 : Delay.State) (sampleRate : ℚ) (hsr : 0 ≤ sampleRate)
    (hguard : (Delay.prepare d0 sampleRate).delayBuffer.numSamples ≠ 0) :
    Delay.Ready (Delay.prepare d0 sampleRate) := by
  have hnum : (Delay.prepare d0 sampleRate).delayBuffer.numSamples = truncToInt sampleRate := rfl
  have h0 := truncToInt_nonneg sampleRate hsr
  rw [hnum] at hguard
  refine ⟨rfl, by rw [hnum]; omega, le_refl 0, ?_, ?_⟩
  · show (0 : ℤ) < (Delay.prepare d0 sampleRate).delayBuffer.numSamples
    rw [hnum]; omega
  · exact min_le_right _ _

theorem Delay.reset_ready (s : Delay.State) (hs : Delay.Ready s) : Delay.Ready (Delay.reset s) :=
  ⟨hs.channels, hs.capacity, le_refl 0, lt_of_lt_of_le zero_lt_one hs.capacity, hs.delay_le⟩

/-- One loop iteration of `Delay::process` on a ready state moves the cursor on
by one modulo the capacity and keeps the state ready. -/
theorem Delay.delay_processSample_cursor (m : MathFns) (stereo : Bool) (s : Delay.State)
    (feedback dryWet : ℚ) (x : Frame) (hs : Delay.Ready s) :
    ∃ (s1 : Delay.State) (y : Frame),
      Delay.processSample m stereo s feedback dryWet x = .ok (s1, y)
      ∧ Delay.Ready s1
      ∧ s1.delayBuffer.numSamples = s.delayBuffer.numSamples
      ∧ s1.delaySamples = s.delaySamples
      ∧ s1.writePosition = (s.writePosition + 1) % s.delayBuffer.numSamples := by
  have hch := hs.channels
  have hcap := hs.capacity
  have hw0 := hs.cursor_nonneg
  have hw := hs.cursor_lt
  have hds := hs.delay_le
  have hread := cMod_eq_emod (s.writePosition - s.delaySamples + s.delayBuffer.numSamples)
    s.delayBuffer.numSamples (by omega) (by omega)
  have hg0 := AudioBuffer.getSample_ok s.delayBuffer 0
    ((s.writePosition - s.delaySamples + s.delayBuffer.numSamples) % s.delayBuffer.numSamples)
    (by rw [hch]; norm_num) (Int.emod_nonneg _ (by omega)) (Int.emod_lt_of_pos _ (by omega))
  have hg1 := AudioBuffer.getSample_ok s.delayBuffer 1
    ((s.writePosition - s.delaySamples + s.delayBuffer.numSamples) % s.delayBuffer.numSamples)
    (by rw [hch]; norm_num) (Int.emod_nonneg _ (by omega)) (Int.emod_lt_of_pos _ (by omega))
  have hmod := cMod_eq_emod (s.writePosition + 1) s.delayBuffer.numSamples (by omega) (by omega)
  have hw0' := fun v => AudioBuffer.setSample_ok s.delayBuffer 0 s.writePosition v
    (by rw [hch]; norm_num) hw0 hw
  have hw1' := fun v0 v => AudioBuffer.setSample_ok
    { s.delayBuffer with
      data := fun c i => if c = 0 ∧ i = s.writePosition.toNat then v0 else s.delayBuffer.data c i }
    1 s.writePosition v (by simp only; rw [hch]; norm_num) hw0 hw
  simp only [Delay.processSample, hread, except_ok_bind, hg0, hg1, hw0', hw1', hmod,
    except_pure_eq_ok]
  exact ⟨_, _, rfl, ⟨hch, hcap, Int.emod_nonneg _ (by omega), Int.emod_lt_of_pos _ (by omega),
    hds⟩, rfl, rfl, rfl⟩

/-- One loop iteration of `Delay::process` on a ready state whose cursor has not
yet reached the delay and whose cells from the cursor on are still zero (the
first pass after `prepare`): the delayed cell is zero, so the value written at
the cursor is `tanh` of the input, and the cursor moves on by one. -/
theorem Delay.processSample_fresh (m : MathFns) (s : Delay.State) (feedback dryWet : ℚ)
    (x : Frame) (hs : Delay.Ready s) (hw : s.writePosition < s.delaySamples)
    (hzero : ∀ c i, s.writePosition.toNat ≤ i → s.delayBuffer.data c i = 0) :
    ∃ (s1 : Delay.State) (y : Frame),
      Delay.processSample m true s feedback dryWet x = .ok (s1, y)
      ∧ Delay.Ready s1
      ∧ s1.writePosition = s.writePosition + 1
      ∧ s1.delaySamples = s.delaySamples
      ∧ s1.delayBuffer.numSamples = s.delayBuffer.numSamples
      ∧ s1.delayBuffer.data 0 s.writePosition.toNat = m.tanh x.1
      ∧ (∀ c i, i ≠ s.writePosition.toNat → s1.delayBuffer.data c i = s.delayBuffer.data c i) := by
  have hch := hs.channels
  have hcap := hs.capacity
  have hw0 := hs.cursor_nonneg
  have hwc := hs.cursor_lt
  have hds := hs.delay_le
  have hidx : (s.writePosition - s.delaySamples + s.delayBuffer.numSamples)
      % s.delayBuffer.numSamples = s.writePosition - s.delaySamples + s.delayBuffer.numSamples :=
    Int.emod_eq_of_lt (by omega) (by omega)
  have hread := cMod_eq_emod (s.writePosition - s.delaySamples + s.delayBuffer.numSamples)
    s.delayBuffer.numSamples (by omega) (by omega)
  rw [hidx] at hread
  have hcell : ∀ c, s.delayBuffer.data c
      (s.writePosition - s.delaySamples + s.delayBuffer.numSamples).toNat = 0 := by
    intro c
    apply hzero
    omega
  have hg0 := AudioBuffer.getSample_ok s.delayBuffer 0
    (s.writePosition - s.delaySamples + s.delayBuffer.numSamples)
    (by rw [hch]; norm_num) (by omega) (by omega)
  have hg1 := AudioBuffer.getSample_ok s.delayBuffer 1
    (s.writePosition - s.delaySamples + s.delayBuffer.numSamples)
    (by rw [hch]; norm_num) (by omega) (by omega)
  rw [hcell] at hg0 hg1
  have hmod := cMod_eq_emod (s.writePosition + 1) s.delayBuffer.numSamples (by omega) (by omega)
  rw [Int.emod_eq_of_lt (by omega) (by omega)] at hmod
  have hw0' := fun v => AudioBuffer.setSample_ok s.delayBuffer 0 s.writePosition v
    (by rw [hch]; norm_num) hw0 hwc
  have hw1' := fun v0 v => AudioBuffer.setSample_ok
    { s.delayBuffer with
      data := fun c i => if c = 0 ∧ i = s.writePosition.toNat then v0 else s.delayBuffer.data c i }
    1 s.writePosition v (by simp only; rw [hch]; norm_num) hw0 hwc
  simp only [Delay.processSample, hread, except_ok_bind, hg0, hg1, hw0', hw1', hmod,
    except_pure_eq_ok]
  refine ⟨_, _, rfl,
    ⟨hch, hcap, by show (0 : ℤ) ≤ s.writePosition + 1; omega,
      by show s.writePosition + 1 < s.delayBuffer.numSamples; omega, hds⟩,
    rfl, rfl, rfl, ?_, ?_⟩
  · simp
  · intro c i hi
    simp [hi]

/-- The lowpass pass keeps the dimensions of the delay buffer. -/
theorem Delay.feedbackFilter_size (c : Delay.IIRCoefficients) (memory : ℕ → ℚ × ℚ)
    (buffer : AudioBuffer) :
    (Delay.feedbackFilter c memory buffer).numChannels = buffer.numChannels
    ∧ (Delay.feedbackFilter c memory buffer).numSamples = buffer.numSamples :=
  ⟨rfl, rfl⟩

/-- The sample loop of `Delay::process` on a ready state runs through every block
and leaves a ready state. -/
theorem Delay.smoothedLoop_ready (m : MathFns) (stereo : Bool) :
    ∀ (block : List Frame) (s : Delay.State), Delay.Ready s →
      ∃ s1 out, Delay.smoothedLoop m stereo s block = .ok (s1, out) ∧ Delay.Ready s1 := by
  intro block
  induction block with
  | nil => exact fun s hs => ⟨s, [], rfl, hs⟩
  | cons x xs ih =>
    intro s hs
    have hs' : Delay.Ready (Delay.nextGains s).1 :=
      ⟨hs.channels, hs.capacity, hs.cursor_nonneg, hs.cursor_lt, hs.delay_le⟩
    obtain ⟨idx, s1, y, -, hstep, hs1, -⟩ :=
      Delay.processSample_spec m stereo (Delay.nextGains s).1 (Delay.nextGains s).2.1
        (Delay.nextGains s).2.2 x hs'
    obtain ⟨s2, out, hloop, hs2⟩ := ih s1 hs1
    exact ⟨s2, y :: out, by
      simp only [Delay.smoothedLoop, hstep, hloop, except_ok_bind, except_pure_eq_ok], hs2⟩

/-- With a `tanh` whose values lie strictly between -1 and 1, the sample loop of
`Delay::process` runs through every block from every ready state, whatever the
delay line holds, and at the end of the loop every cell the loop has written in
this block (the cells `writePosition + j` modulo the capacity, `j` below the
block length) holds a value strictly within (-1, 1) in both channels; a cell of
these channels that held such a value before the loop holds one after it. -/
theorem Delay.smoothedLoop_written (m : MathFns)
    (htanh : ∀ v, -1 < m.tanh v ∧ m.tanh v < 1) (stereo : Bool) :
    ∀ (block : List Frame) (s : Delay.State), Delay.Ready s →
      ∃ s1 out, Delay.smoothedLoop m stereo s block = .ok (s1, out) ∧ Delay.Ready s1
        ∧ s1.delayBuffer.numSamples = s.delayBuffer.numSamples
        ∧ (∀ i, (-1 < s.delayBuffer.data 0 i ∧ s.delayBuffer.data 0 i < 1) →
            (-1 < s1.delayBuffer.data 0 i ∧ s1.delayBuffer.data 0 i < 1))
        ∧ (∀ i, (-1 < s.delayBuffer.data 1 i ∧ s.delayBuffer.data 1 i < 1) →
            (-1 < s1.delayBuffer.data 1 i ∧ s1.delayBuffer.data 1 i < 1))
        ∧ ∀ j : ℕ, j < block.length →
            (-1 < s1.delayBuffer.data 0
                    ((s.writePosition + j) % s.delayBuffer.numSamples).toNat
              ∧ s1.delayBuffer.data 0
                    ((s.writePosition + j) % s.delayBuffer.numSamples).toNat < 1)
            ∧ (-1 < s1.delayBuffer.data 1
                    ((s.writePosition + j) % s.delayBuffer.numSamples).toNat
              ∧ s1.delayBuffer.data 1
                    ((s.writePosition + j) % s.delayBuffer.numSamples).toNat < 1) := by
  intro block
  induction block with
  | nil =>
    intro s hs
    exact ⟨s, [], rfl, hs, rfl, fun _ h => h, fun _ h => h, fun j hj => by simp at hj⟩
  | cons x xs ih =>
    intro s hs
    have hs' : Delay.Ready (Delay.nextGains s).1 :=
      ⟨hs.channels, hs.capacity, hs.cursor_nonneg, hs.cursor_lt, hs.delay_le⟩
    obtain ⟨idx, sa, y, -, hstep, hsa, -, hnum, hL, hR, hun, -, -⟩ :=
      Delay.processSample_spec m stereo (Delay.nextGains s).1 (Delay.nextGains s).2.1
        (Delay.nextGains s).2.2 x hs'
    obtain ⟨sb, yb, hstepb, -, -, -, hwb⟩ :=
      Delay.delay_processSample_cursor m stereo (Delay.nextGains s).1 (Delay.nextGains s).2.1
        (Delay.nextGains s).2.2 x hs'
    rw [hstep] at hstepb
    have hsab : sa = sb := (Prod.mk.inj (Except.ok.inj hstepb)).1
    have hwa : sa.writePosition = (s.writePosition + 1) % s.delayBuffer.numSamples := by
      rw [hsab]
      exact hwb
    have hnum' : sa.delayBuffer.numSamples = s.delayBuffer.numSamples := hnum
    have hL' : -1 < sa.delayBuffer.data 0 s.writePosition.toNat
        ∧ sa.delayBuffer.data 0 s.writePosition.toNat < 1 := by
      have h : sa.delayBuffer.data 0 (Delay.nextGains s).1.writePosition.toNat = _ := hL
      have h2 : (Delay.nextGains s).1.writePosition = s.writePosition := rfl
      rw [h2] at h
      rw [h]
      exact htanh _
    have hR' : -1 < sa.delayBuffer.data 1 s.writePosition.toNat
        ∧ sa.delayBuffer.data 1 s.writePosition.toNat < 1 := by
      have h : sa.delayBuffer.data 1 (Delay.nextGains s).1.writePosition.toNat = _ := hR
      have h2 : (Delay.nextGains s).1.writePosition = s.writePosition := rfl
      rw [h2] at h
      rw [h]
      exact htanh _
    have hun' : ∀ c i, i ≠ s.writePosition.toNat →
        sa.delayBuffer.data c i = s.delayBuffer.data c i := fun c i hi => hun c i hi
    obtain ⟨s1, out, hloop, hs1, hnum1, hk0, hk1, hwr⟩ := ih sa hsa
    have hp0 : ∀ i, (-1 < s.delayBuffer.data 0 i ∧ s.delayBuffer.data 0 i < 1) →
        (-1 < s1.delayBuffer.data 0 i ∧ s1.delayBuffer.data 0 i < 1) := by
      intro i hi
      apply hk0
      by_cases hiw : i = s.writePosition.toNat
      · rw [hiw]; exact hL'
      · rw [hun' 0 i hiw]; exact hi
    have hp1 : ∀ i, (-1 < s.delayBuffer.data 1 i ∧ s.delayBuffer.data 1 i < 1) →
        (-1 < s1.delayBuffer.data 1 i ∧ s1.delayBuffer.data 1 i < 1) := by
      intro i hi
      apply hk1
      by_cases hiw : i = s.writePosition.toNat
      · rw [hiw]; exact hR'
      · rw [hun' 1 i hiw]; exact hi
    refine ⟨s1, y :: out, ?_, hs1, hnum1.trans hnum', hp0, hp1, ?_⟩
    · simp only [Delay.smoothedLoop, hstep, hloop, except_ok_bind, except_pure_eq_ok]
    · intro j hj
      cases j with
      | zero =>
        have hw : (s.writePosition + ((0 : ℕ) : ℤ)) % s.delayBuffer.numSamples
            = s.writePosition := by
          simp only [Nat.cast_zero, add_zero]
          exact Int.emod_eq_of_lt hs.cursor_nonneg hs.cursor_lt
        rw [hw]
        exact ⟨hk0 _ hL', hk1 _ hR'⟩
      | succ j' =>
        have hj' : j' < xs.length := by
          simp only [List.length_cons] at hj
          omega
        have h := hwr j' hj'
        rw [hwa, hnum', Int.emod_add_emod] at h
        have hidx : s.writePosition + ((j' + 1 : ℕ) : ℤ) = s.writePosition + 1 + (j' : ℤ) := by
          push_cast
          ring
        rw [hidx]
        exact h

/-- The first block after `prepare (44100)` with the default parameters: three
frames of DC level 1000 run through the sample loop of `Delay::process` leave
`tanh 1000` in cells 0, 1 and 2 of channel 0 (the delayed cells are still zero). -/
theorem Delay.first_block_cells (m : MathFns) :
    ∃ sc out,
      Delay.smoothedLoop m true (Delay.prepare {} 44100)
          [(1000, 1000), (1000, 1000), (1000, 1000)] = .ok (sc, out)
      ∧ sc.delayBuffer.numChannels = 2 ∧ sc.delayBuffer.numSamples = 44100
      ∧ sc.delayBuffer.data 0 0 = m.tanh 1000
      ∧ sc.delayBuffer.data 0 1 = m.tanh 1000
      ∧ sc.delayBuffer.data 0 2 = m.tanh 1000 := by
  have hnum : (Delay.prepare {} 44100).delayBuffer.numSamples = 44100 := by
    show truncToInt 44100 = 44100
    norm_num [truncToInt]
  have hds : (Delay.prepare {} 44100).delaySamples = 13538 := by
    show min (truncToInt ((10 + 3 / 10 * 990) * 44100 / 1000)) (truncToInt 44100 - 1) = 13538
    norm_num [truncToInt, Int.floor_eq_iff]
  have hff : (Delay.prepare {} 44100).filterFreq = 10650 := by
    show min (500 + 7 / 10 * 14500 : ℚ) (44100 * (45 / 100)) = 10650
    norm_num
  have hsr : (Delay.prepare {} 44100).sampleRate = 44100 := rfl
  have hready : Delay.Ready (Delay.prepare {} 44100) :=
    Delay.prepare_ready {} 44100 (by norm_num) (by rw [hnum]; norm_num)
  have hready0 : Delay.Ready (Delay.nextGains (Delay.prepare {} 44100)).1 :=
    ⟨hready.channels, hready.capacity, hready.cursor_nonneg, hready.cursor_lt, hready.delay_le⟩
  obtain ⟨sa, ya, hstepa, hra, hwa, hda, hna, hca, hua⟩ :=
    Delay.processSample_fresh m (Delay.nextGains (Delay.prepare {} 44100)).1
      (Delay.nextGains (Delay.prepare {} 44100)).2.1
      (Delay.nextGains (Delay.prepare {} 44100)).2.2 (1000, 1000) hready0
      (by show (0 : ℤ) < (Delay.prepare {} 44100).delaySamples; rw [hds]; norm_num)
      (fun _ _ _ => rfl)
  have hwa' : sa.writePosition = 1 := hwa
  have hda' : sa.delaySamples = 13538 := by rw [hda]; exact hds
  have hna' : sa.delayBuffer.numSamples = 44100 := by rw [hna]; exact hnum
  have hza : ∀ c i, 1 ≤ i → sa.delayBuffer.data c i = 0 := by
    intro c i hi
    rw [hua c i (by show i ≠ (0 : ℤ).toNat; simp; omega)]
    rfl
  have hreadya : Delay.Ready (Delay.nextGains sa).1 :=
    ⟨hra.channels, hra.capacity, hra.cursor_nonneg, hra.cursor_lt, hra.delay_le⟩
  obtain ⟨sb, yb, hstepb, hrb, hwb, hdb, hnb, hcb, hub⟩ :=
    Delay.processSample_fresh m (Delay.nextGains sa).1
      (Delay.nextGains sa).2.1 (Delay.nextGains sa).2.2 (1000, 1000) hreadya
      (by show sa.writePosition < sa.delaySamples; rw [hwa', hda']; norm_num)
      (by
        intro c i hi
        have hi' : (sa.writePosition).toNat ≤ i := hi
        rw [hwa'] at hi'
        exact hza c i (by simpa using hi'))
  have hwb' : sb.writePosition = 2 := by
    rw [hwb]
    show sa.writePosition + 1 = 2
    rw [hwa']
    norm_num
  have hdb' : sb.delaySamples = 13538 := by rw [hdb]; exact hda'
  have hnb' : sb.delayBuffer.numSamples = 44100 := by rw [hnb]; exact hna'
  have hcb' : sb.delayBuffer.data 0 1 = m.tanh 1000 := by
    have h : sb.delayBuffer.data 0 (sa.writePosition).toNat = m.tanh 1000 := hcb
    rw [hwa'] at h
    exact h
  have hub' : ∀ c i, i ≠ 1 → sb.delayBuffer.data c i = sa.delayBuffer.data c i := by
    intro c i hi
    have h := hub c i
    have hw1 : (Delay.nextGains sa).1.writePosition.toNat = 1 := by
      show sa.writePosition.toNat = 1
      rw [hwa']
      rfl
    rw [hw1] at h
    exact h hi
  have hzb : ∀ c i, 2 ≤ i → sb.delayBuffer.data c i = 0 := by
    intro c i hi
    rw [hub' c i (by omega)]
    exact hza c i (by omega)
  have hreadyb : Delay.Ready (Delay.nextGains sb).1 :=
    ⟨hrb.channels, hrb.capacity, hrb.cursor_nonneg, hrb.cursor_lt, hrb.delay_le⟩
  obtain ⟨sc, yc, hstepc, hrc, -, hdc, hnc, hcc, huc⟩ :=
    Delay.processSample_fresh m (Delay.nextGains sb).1
      (Delay.nextGains sb).2.1 (Delay.nextGains sb).2.2 (1000, 1000) hreadyb
      (by show sb.writePosition < sb.delaySamples; rw [hwb', hdb']; norm_num)
      (by
        intro c i hi
        have hi' : (sb.writePosition).toNat ≤ i := hi
        rw [hwb'] at hi'
        exact hzb c i (by simpa using hi'))
  have hw2 : (Delay.nextGains sb).1.writePosition.toNat = 2 := by
    show sb.writePosition.toNat = 2
    rw [hwb']
    rfl
  rw [hw2] at hcc huc
  have huc' : ∀ c i, i ≠ 2 → sc.delayBuffer.data c i = sb.delayBuffer.data c i :=
    fun c i hi => huc c i hi
  have hc0 : sc.delayBuffer.data 0 0 = m.tanh 1000 := by
    rw [huc' 0 0 (by norm_num), hub' 0 0 (by norm_num)]
    exact hca
  have hc1 : sc.delayBuffer.data 0 1 = m.tanh 1000 := by
    rw [huc' 0 1 (by norm_num), hcb']
  have hc2 : sc.delayBuffer.data 0 2 = m.tanh 1000 := hcc
  have hnc' : sc.delayBuffer.numSamples = 44100 := by rw [hnc]; exact hnb'
  refine ⟨sc, [ya, yb, yc], ?_, hrc.channels, hnc', hc0, hc1, hc2⟩
  simp only [Delay.smoothedLoop, hstepa, hstepb, hstepc, except_ok_bind, except_pure_eq_ok]

/-- The lowpass coefficients for a tangent value between 0.94 and 0.95 (the
tangent of `pi * 10650 / 44100` is 0.948...). -/
theorem Delay.makeLowPass_bounds (m : MathFns) (sampleRate frequency : ℚ)
    (ht0 : 94 / 100 ≤ m.tan (m.pi * frequency / sampleRate))
    (ht1 : m.tan (m.pi * frequency / sampleRate) ≤ 95 / 100) :
    (Delay.makeLowPass m sampleRate frequency).b1
        = (Delay.makeLowPass m sampleRate frequency).b0 * 2
    ∧ (Delay.makeLowPass m sampleRate frequency).b2
        = (Delay.makeLowPass m sampleRate frequency).b0
    ∧ 27 / 100 ≤ (Delay.makeLowPass m sampleRate frequency).b0
    ∧ (Delay.makeLowPass m sampleRate frequency).a1 ≤ -(5 / 100)
    ∧ (Delay.makeLowPass m sampleRate frequency).a2 ≤ 19 / 100 := by
  have htpos : 0 < m.tan (m.pi * frequency / sampleRate) := by linarith
  have hn0 : 105 / 100 ≤ 1 / m.tan (m.pi * frequency / sampleRate) := by
    rw [le_div_iff₀ htpos]; linarith
  have hn1 : 1 / m.tan (m.pi * frequency / sampleRate) ≤ 107 / 100 := by
    rw [div_le_iff₀ htpos]; linarith
  simp only [Delay.makeLowPass]
  generalize 1 / m.tan (m.pi * frequency / sampleRate) = n at hn0 hn1
  have hk : (1 : ℚ) / (11863283 / 16777216) = 16777216 / 11863283 := by norm_num
  rw [hk]
  have hsq0 : 11025 / 10000 ≤ n * n := by nlinarith
  have hsq1 : n * n ≤ 11449 / 10000 := by nlinarith
  have hD0 : 358 / 100 ≤ 1 + 16777216 / 11863283 * n + n * n := by nlinarith
  have hD1 : 1 + 16777216 / 11863283 * n + n * n ≤ 366 / 100 := by nlinarith
  have hDpos : 0 < 1 + 16777216 / 11863283 * n + n * n := by linarith
  have hc0 : 27 / 100 ≤ 1 / (1 + 16777216 / 11863283 * n + n * n) := by
    rw [le_div_iff₀ hDpos]; linarith
  have hc1 : 1 / (1 + 16777216 / 11863283 * n + n * n) ≤ 28 / 100 := by
    rw [div_le_iff₀ hDpos]; linarith
  generalize 1 / (1 + 16777216 / 11863283 * n + n * n) = c at hc0 hc1
  have hu : 1 - n * n ≤ -(1025 / 10000) := by linarith
  have hv0 : 0 ≤ 1 - 16777216 / 11863283 * n + n * n := by nlinarith
  have hv1 : 1 - 16777216 / 11863283 * n + n * n ≤ 66 / 100 := by nlinarith
  refine ⟨trivial, trivial, hc0, ?_, ?_⟩
  · nlinarith
  · nlinarith

/-- The third output of the lowpass for a constant input `T` from the zero
state is `T * b0 * (4 - a2 - 3 * a1 + a1 ^ 2)`, above 1 for these coefficients. -/
theorem Delay.lowpass_third_output (T b0 a1 a2 : ℚ) (hT : 99 / 100 ≤ T) (hb : 27 / 100 ≤ b0)
    (ha1 : a1 ≤ -(5 / 100)) (ha2 : a2 ≤ 19 / 100) :
    1 < T * b0 + (T * (b0 * 2) - (T * b0 + (T * (b0 * 2) - (T * b0 + 0) * a1 + 0)) * a1
          + (T * b0 - (T * b0 + 0) * a2)) := by
  have h : T * b0 + (T * (b0 * 2) - (T * b0 + (T * (b0 * 2) - (T * b0 + 0) * a1 + 0)) * a1
          + (T * b0 - (T * b0 + 0) * a2))
      = T * b0 * (4 - a2 - 3 * a1 + a1 * a1) := by ring
  rw [h]
  have hG : 396 / 100 ≤ 4 - a2 - 3 * a1 + a1 * a1 := by nlinarith [mul_self_nonneg a1]
  have hTb : 99 / 100 * (27 / 100) ≤ T * b0 := by nlinarith
  nlinarith

theorem Delay.nextGains_reset (s : Delay.State) :
    Delay.nextGains (Delay.reset s) = (Delay.reset s, s.params.feedback, s.params.dryWet) := by
  simp [Delay.nextGains, Delay.reset, SmoothedValue.getNextValue,
    SmoothedValue.setCurrentAndTargetValue]

/-- C15 as stated fails: the output path of `Delay::process` is a plain dry/wet
crossfade with no soft clipper.  A Delay prepared at 44100 Hz with the default
parameters (dry/wet 0.5) and reset turns the input sample 5 into the output
sample 5/2, outside (-1, 1). -/
theorem C15_delay_output_not_clipped :
    ∃ s1, Delay.smoothedLoop MathFns.sample true (Delay.reset (Delay.prepare {} 44100)) [(5, 5)]
      = .ok (s1, [(5 / 2, 5 / 2)]) := by
  have hready : Delay.Ready (Delay.reset (Delay.prepare {} 44100)) :=
    Delay.reset_ready _ (Delay.prepare_ready {} 44100 (by norm_num)
      (by norm_num [Delay.prepare, Delay.updateDelay, AudioBuffer.sized, truncToInt]))
  have hg : Delay.nextGains (Delay.reset (Delay.prepare {} 44100))
      = (Delay.reset (Delay.prepare {} 44100), 2 / 5, 1 / 2) := by
    rw [Delay.nextGains_reset]
    have h1 : (Delay.prepare {} 44100).params.feedback = 2 / 5 := by
      show (4 / 10 : ℚ) = 2 / 5
      norm_num
    have h2 : (Delay.prepare {} 44100).params.dryWet = 1 / 2 := by
      show (5 / 10 : ℚ) = 1 / 2
      norm_num
    rw [h1, h2]
  obtain ⟨idx, s1, y, -, hstep, -, -, -, -, -, -, hy1, hy2⟩ :=
    Delay.processSample_spec MathFns.sample true (Delay.reset (Delay.prepare {} 44100))
      (2 / 5) (1 / 2) (5, 5) hready
  have hzero : ∀ c i, (Delay.reset (Delay.prepare {} 44100)).delayBuffer.data c i = 0 :=
    fun _ _ => rfl
  have hy : y = (5 / 2, 5 / 2) := by
    rw [hzero] at hy1 hy2
    apply Prod.ext
    · rw [hy1]; norm_num
    · rw [hy2]; norm_num
  refine ⟨s1, ?_⟩
  simp only [Delay.smoothedLoop, hg, hstep, except_ok_bind, except_pure_eq_ok, hy]

/-- C15 (amended): in `Delay::process` only the feedback-write path is
soft-clipped.  With a `tanh` whose values lie in `[-1, 1]` (as the values of
`std::tanh` do, in `float` arithmetic too, where they reach -1 and 1), every loop
iteration on a ready state writes into both channels of the delay line the
`tanh` of input plus feedback, a value within `[-1, 1]`, for every input sample
and every feedback and dry/wet value; the written values lie strictly within
`(-1, 1)` when the values of `tanh` do (real arithmetic).  The sample written to
the output block is the linear crossfade `input * (1 - dryWet) + delayed *
dryWet` of the input and the delayed cell, with no clipper on it. -/
theorem C15_delay_write_path_clipped (m : MathFns)
    (htanh : ∀ v, -1 ≤ m.tanh v ∧ m.tanh v ≤ 1) (stereo : Bool) (s : Delay.State)
    (feedback dryWet : ℚ) (x : Frame) (hs : Delay.Ready s) :
    ∃ (idx : ℤ) (s1 : Delay.State) (y : Frame),
      idx = (s.writePosition - s.delaySamples + s.delayBuffer.numSamples)
              % s.delayBuffer.numSamples
      ∧ Delay.processSample m stereo s feedback dryWet x = .ok (s1, y)
      ∧ s1.delayBuffer.data 0 s.writePosition.toNat
          = m.tanh (x.1 + (s.delayBuffer.data 0 idx.toNat * (1 - s.params.pingPong)
              + s.delayBuffer.data 1 idx.toNat * s.params.pingPong) * feedback)
      ∧ s1.delayBuffer.data 1 s.writePosition.toNat
          = m.tanh ((if stereo = true then x.2 else x.1)
              + (s.delayBuffer.data 1 idx.toNat * (1 - s.params.pingPong)
                + s.delayBuffer.data 0 idx.toNat * s.params.pingPong) * feedback)
      ∧ (-1 ≤ s1.delayBuffer.data 0 s.writePosition.toNat
          ∧ s1.delayBuffer.data 0 s.writePosition.toNat ≤ 1)
      ∧ (-1 ≤ s1.delayBuffer.data 1 s.writePosition.toNat
          ∧ s1.delayBuffer.data 1 s.writePosition.toNat ≤ 1)
      ∧ ((∀ v, -1 < m.tanh v ∧ m.tanh v < 1) →
          (-1 < s1.delayBuffer.data 0 s.writePosition.toNat
            ∧ s1.delayBuffer.data 0 s.writePosition.toNat < 1)
          ∧ (-1 < s1.delayBuffer.data 1 s.writePosition.toNat
            ∧ s1.delayBuffer.data 1 s.writePosition.toNat < 1))
      ∧ y.1 = x.1 * (1 - dryWet) + s.delayBuffer.data 0 idx.toNat * dryWet
      ∧ (stereo = true →
          y.2 = x.2 * (1 - dryWet) + s.delayBuffer.data 1 idx.toNat * dryWet) := by
  obtain ⟨idx, s1, y, hidx, hstep, -, -, -, hL, hR, -, hy1, hy2⟩ :=
    Delay.processSample_spec m stereo s feedback dryWet x hs
  refine ⟨idx, s1, y, hidx, hstep, hL, hR, ?_, ?_, ?_, hy1, ?_⟩
  · rw [hL]; exact htanh _
  · rw [hR]; exact htanh _
  · intro hstrict
    rw [hL, hR]
    exact ⟨hstrict _, hstrict _⟩
  · intro hst
    rw [hy2, if_pos hst]

/-- Witness for C15: the input sample 10 through a Delay prepared at 44100 Hz,
with a soft clipper that saturates (it returns exactly 1 from 1 on, as the
`float` `tanh` does for large arguments): the value written at the cursor is 1,
within `[-1, 1]` but not strictly inside. -/
theorem C15_delay_write_path_clipped_witness :
    ∃ s1 y, Delay.processSample MathFns.saturating true (Delay.prepare {} 44100) (2 / 5) (1 / 2)
        (10, 10) = .ok (s1, y) ∧ s1.delayBuffer.data 0 0 = 1 ∧ s1.delayBuffer.data 0 0 ≤ 1 := by
  obtain ⟨idx, s1, y, -, hstep, hL, -, hb, -, -, -, -⟩ :=
    C15_delay_write_path_clipped MathFns.saturating
      (fun v => by
        simp only [MathFns.saturating]
        exact ⟨le_max_left _ _, max_le (by norm_num) (min_le_left _ _)⟩)
      true (Delay.prepare {} 44100) (2 / 5) (1 / 2) (10, 10)
      (Delay.prepare_ready {} 44100 (by norm_num)
        (by norm_num [Delay.prepare, Delay.updateDelay, AudioBuffer.sized, truncToInt]))
  have hzero : ∀ c i, (Delay.prepare {} 44100).delayBuffer.data c i = 0 := fun _ _ => rfl
  have hw : (Delay.prepare {} 44100).writePosition.toNat = 0 := rfl
  rw [hw] at hL hb
  refine ⟨s1, y, hstep, ?_, hb.2⟩
  rw [hL, hzero, hzero]
  norm_num [MathFns.saturating]

/-! ### The feedback gain after `reset` (C16) -/

/-- C16 at the failing input: `updateDelay` ramps the feedback gain towards
`0.95 * feedback`, but `reset` sets the ramp to the raw feedback parameter.
After `prepare (44100)`, `setParameter (1, 1.0)` and `reset ()` all parameters
are in the unit interval, yet the gain `getNextValue ()` hands to the first
sample is 1 and the state of the ramp is unchanged by the call, so every later
sample gets 1 as well; in general the gain right after `reset` is the feedback
parameter itself. -/
theorem C16_reset_bypasses_feedback_limit :
    (Delay.setParameter (Delay.prepare {} 44100) 1 1).smoothedFeedback.target = 95 / 100
    ∧ (Delay.reset (Delay.setParameter (Delay.prepare {} 44100) 1 1)).params.InRange
    ∧ Delay.nextGains (Delay.reset (Delay.setParameter (Delay.prepare {} 44100) 1 1))
        = (Delay.reset (Delay.setParameter (Delay.prepare {} 44100) 1 1), 1, 1 / 2)
    ∧ ∀ s : Delay.State,
        Delay.nextGains (Delay.reset s) = (Delay.reset s, s.params.feedback, s.params.dryWet) := by
  have hp : (Delay.setParameter (Delay.prepare {} 44100) 1 1).params
      = { feedback := 1 } := by
    simp [Delay.setParameter, Delay.params_updateDelay, Delay.prepare, jlimit]
  refine ⟨?_, ?_, ?_, Delay.nextGains_reset⟩
  · norm_num [Delay.setParameter, Delay.prepare, Delay.updateDelay, jlimit,
      SmoothedValue.setTargetValue, SmoothedValue.reset, SmoothedValue.setCurrentAndTargetValue,
      Int.floor_eq_iff]
  · show (Delay.setParameter (Delay.prepare {} 44100) 1 1).params.InRange
    rw [hp]
    simp only [DelayParams.InRange, Normalized]
    norm_num
  · rw [Delay.nextGains_reset, hp]
    norm_num

/-! ### Filter coefficients (C17) -/

/-- C17: for every sample rate of at least 44.45 Hz, every resonance in `[0,1]`,
every cutoff and LFO depth, every LFO phase and every value of the base-cutoff
and modulation powers, the modulated cutoff `f` of a sample lies in
`[20, min (20000, 0.45 * sampleRate)]`, so `pi * f / sampleRate` lies strictly
between 0 and `pi / 2` (at most `0.45 * pi`); hence, for a `tan` that is positive
on that interval, `g > 0`; `Q` lies in `[0.5, 20]` and `k = 1 / Q` in `[0.05, 2]`;
the denominator `1 + g * (g + k)` is at least 1, so `a1` lies in `(0, 1]` and
`a2`, `a3` are positive, and no divisor is zero.  These are the coefficients the
tick of `Filter::process` is run with. -/
theorem C17_filter_coefficients_defined (m : MathFns) (s : Filter.State) (stereo : Bool)
    (x : Frame) (hpi : 0 < m.pi) (htan : ∀ v, 0 < v → v < m.pi / 2 → 0 < m.tan v)
    (hsr : 4445 / 100 ≤ s.sampleRate)
    (hr0 : 0 ≤ s.params.resonance) (hr1 : s.params.resonance ≤ 1) :
    (20 ≤ Filter.modulatedCutoff m s
      ∧ Filter.modulatedCutoff m s ≤ min 20000 (s.sampleRate * (45 / 100)))
    ∧ (0 < m.pi * Filter.modulatedCutoff m s / s.sampleRate
      ∧ m.pi * Filter.modulatedCutoff m s / s.sampleRate ≤ 45 / 100 * m.pi
      ∧ m.pi * Filter.modulatedCutoff m s / s.sampleRate < m.pi / 2)
    ∧ 0 < Filter.coeffG m s
    ∧ (1 / 2 ≤ Filter.resonanceQ s ∧ Filter.resonanceQ s ≤ 20)
    ∧ (1 / 20 ≤ Filter.coeffK s ∧ Filter.coeffK s ≤ 2)
    ∧ 1 ≤ 1 + Filter.coeffG m s * (Filter.coeffG m s + Filter.coeffK s)
    ∧ (0 < Filter.coeffA1 m s ∧ Filter.coeffA1 m s ≤ 1)
    ∧ (0 < Filter.coeffA2 m s ∧ 0 < Filter.coeffA3 m s)
    ∧ (s.sampleRate ≠ 0 ∧ Filter.resonanceQ s ≠ 0
        ∧ 1 + Filter.coeffG m s * (Filter.coeffG m s + Filter.coeffK s) ≠ 0)
    ∧ (Filter.processSample m stereo s x).2.1
        = (Filter.svfTick (Filter.getFilterType s.params) (Filter.coeffA1 m s)
            (Filter.coeffA2 m s) (Filter.coeffA3 m s) (Filter.coeffK s) s.stateL x.1).2 := by
  have hsr0 : 0 < s.sampleRate := by linarith
  have hmax : (20 : ℚ) ≤ Filter.maxFreq s.sampleRate := by
    unfold Filter.maxFreq
    exact le_min (by norm_num) (by linarith)
  obtain ⟨hf0, hf1⟩ := jlimit_mem 20 (Filter.maxFreq s.sampleRate)
    (20 * m.pow (Filter.maxFreq s.sampleRate / 20) s.params.cutoff
      * m.pow 2 (m.sin (s.lfoPhase * 2 * m.pi) * s.params.lfoDepth * 2)) hmax
  have hf0' : 20 ≤ Filter.modulatedCutoff m s := hf0
  have hf1' : Filter.modulatedCutoff m s ≤ Filter.maxFreq s.sampleRate := hf1
  have hf2 : Filter.modulatedCutoff m s ≤ s.sampleRate * (45 / 100) :=
    le_trans hf1' (min_le_right _ _)
  have harg0 : 0 < m.pi * Filter.modulatedCutoff m s / s.sampleRate :=
    div_pos (mul_pos hpi (by linarith)) hsr0
  have harg1 : m.pi * Filter.modulatedCutoff m s / s.sampleRate ≤ 45 / 100 * m.pi := by
    rw [div_le_iff₀ hsr0]
    nlinarith
  have harg2 : m.pi * Filter.modulatedCutoff m s / s.sampleRate < m.pi / 2 := by linarith
  have hg : 0 < Filter.coeffG m s := htan _ harg0 harg2
  have hq0 : 1 / 2 ≤ Filter.resonanceQ s := by unfold Filter.resonanceQ; nlinarith
  have hq1 : Filter.resonanceQ s ≤ 20 := by unfold Filter.resonanceQ; nlinarith
  have hqpos : 0 < Filter.resonanceQ s := by linarith
  have hk0 : 1 / 20 ≤ Filter.coeffK s := by
    unfold Filter.coeffK
    rw [le_div_iff₀ hqpos]
    linarith
  have hk1 : Filter.coeffK s ≤ 2 := by
    unfold Filter.coeffK
    rw [div_le_iff₀ hqpos]
    linarith
  have hden : 1 ≤ 1 + Filter.coeffG m s * (Filter.coeffG m s + Filter.coeffK s) := by
    have : 0 ≤ Filter.coeffG m s * (Filter.coeffG m s + Filter.coeffK s) :=
      mul_nonneg hg.le (by linarith)
    linarith
  have hdpos : 0 < 1 + Filter.coeffG m s * (Filter.coeffG m s + Filter.coeffK s) := by linarith
  have ha1 : 0 < Filter.coeffA1 m s := by
    unfold Filter.coeffA1
    exact div_pos one_pos hdpos
  have ha1' : Filter.coeffA1 m s ≤ 1 := by
    unfold Filter.coeffA1
    rw [div_le_iff₀ hdpos]
    linarith
  have ha2 : 0 < Filter.coeffA2 m s := mul_pos hg ha1
  have ha3 : 0 < Filter.coeffA3 m s := mul_pos hg ha2
  exact ⟨⟨hf0', hf1'⟩, ⟨harg0, harg1, harg2⟩, hg, ⟨hq0, hq1⟩, ⟨hk0, hk1⟩, hden, ⟨ha1, ha1'⟩,
    ⟨ha2, ha3⟩, ⟨hsr0.ne', hqpos.ne', hdpos.ne'⟩, rfl⟩

/-- Witness for C17: a freshly constructed Filter (44100 Hz, resonance 0.3), with
the identity in place of `tan` and 3 in place of pi. -/
theorem C17_filter_coefficients_defined_witness :
    0 < Filter.coeffA1 MathFns.sample {} ∧ Filter.coeffA1 MathFns.sample {} ≤ 1 :=
  (C17_filter_coefficients_defined MathFns.sample {} true (0, 0)
    (by norm_num [MathFns.sample]) (fun v hv _ => hv)
    (by norm_num) (by norm_num) (by norm_num)).2.2.2.2.2.2.1

/-! ### The chorus delay line has no limiter (C14) -/

theorem Chorus.readInterpolated_bounded (buffer : AudioBuffer) (w : ℤ) (channel : ℕ) (d : ℚ)
    (hch : channel < buffer.numChannels)
    (hw0 : 0 ≤ w) (hw : w < buffer.numSamples) (hd0 : 0 ≤ d)
    (hd : d ≤ (buffer.numSamples : ℚ)) :
    ∃ v, Chorus.readInterpolated buffer w channel d = .ok v
      ∧ ∀ B : ℚ, (∀ c i, |buffer.data c i| ≤ B) → |v| ≤ B := by
  obtain ⟨hr0, hr1⟩ := Chorus.readPosFloat_bounds buffer.numSamples w d hw0 hw hd0 hd
  have hf0 : 0 ≤ ⌊Chorus.readPosFloat buffer.numSamples w d⌋ := Int.floor_nonneg.mpr hr0
  have hf1 : ⌊Chorus.readPosFloat buffer.numSamples w d⌋ < buffer.numSamples :=
    Int.floor_lt.mpr hr1
  have hmod := cMod_eq_emod (⌊Chorus.readPosFloat buffer.numSamples w d⌋ + 1)
    buffer.numSamples (by omega) (by omega)
  have hg0 := AudioBuffer.getSample_ok buffer channel _ hch hf0 hf1
  have hg1 := AudioBuffer.getSample_ok buffer channel
    ((⌊Chorus.readPosFloat buffer.numSamples w d⌋ + 1) % buffer.numSamples) hch
    (Int.emod_nonneg _ (by omega)) (Int.emod_lt_of_pos _ (by omega))
  have hfr0 : 0 ≤ Chorus.readPosFloat buffer.numSamples w d
      - (⌊Chorus.readPosFloat buffer.numSamples w d⌋ : ℤ) :=
    sub_nonneg.mpr (Int.floor_le _)
  have hfr1 : 0 ≤ 1 - (Chorus.readPosFloat buffer.numSamples w d
      - (⌊Chorus.readPosFloat buffer.numSamples w d⌋ : ℤ)) := by
    have := Int.lt_floor_add_one (Chorus.readPosFloat buffer.numSamples w d)
    linarith
  simp only [Chorus.readInterpolated, truncToInt_of_nonneg _ hr0, hmod, except_ok_bind, hg0, hg1,
    except_pure_eq_ok]
  refine ⟨_, rfl, ?_⟩
  intro B hcells
  obtain ⟨ha0, ha1⟩ := abs_le.mp
    (hcells channel ⌊Chorus.readPosFloat buffer.numSamples w d⌋.toNat)
  obtain ⟨hb0, hb1⟩ := abs_le.mp (hcells channel
    ((⌊Chorus.readPosFloat buffer.numSamples w d⌋ + 1) % buffer.numSamples).toNat)
  rw [abs_le]
  constructor
  · nlinarith [mul_nonneg hfr0 (by linarith : (0 : ℚ) ≤ buffer.data channel
      ((⌊Chorus.readPosFloat buffer.numSamples w d⌋ + 1) % buffer.numSamples).toNat + B),
      mul_nonneg hfr1 (by linarith : (0 : ℚ) ≤ buffer.data channel
        ⌊Chorus.readPosFloat buffer.numSamples w d⌋.toNat + B)]
  · nlinarith [mul_nonneg hfr0 (by linarith : (0 : ℚ) ≤ B - buffer.data channel
      ((⌊Chorus.readPosFloat buffer.numSamples w d⌋ + 1) % buffer.numSamples).toNat),
      mul_nonneg hfr1 (by linarith : (0 : ℚ) ≤ B - buffer.data channel
        ⌊Chorus.readPosFloat buffer.numSamples w d⌋.toNat)]

/-- One iteration of the loop of `Chorus::process` on a ready state, spelled
out: both taps read a value that is within every bound on the cells, the two
cells under the write cursor receive `input + delayed * (feedback * 0.7)` with no
limiter, every other cell is kept, and the output is the linear crossfade. -/
theorem Chorus.chorus_processSample_spec (m : MathFns) (stereo : Bool) (s : Chorus.State) (x : Frame)
    (hs : Chorus.Ready s) :
    ∃ (vL vR dL dR : ℚ) (s1 : Chorus.State) (y : Frame),
      Chorus.readInterpolated s.delayBuffer s.writePosition 0
          (jlimit 1 ((s.delayBuffer.numSamples - 1 : ℤ) : ℚ) vL) = .ok dL
      ∧ Chorus.readInterpolated s.delayBuffer s.writePosition 1
          (jlimit 1 ((s.delayBuffer.numSamples - 1 : ℤ) : ℚ) vR) = .ok dR
      ∧ (∀ B : ℚ, (∀ c i, |s.delayBuffer.data c i| ≤ B) → |dL| ≤ B)
      ∧ (∀ B : ℚ, (∀ c i, |s.delayBuffer.data c i| ≤ B) → |dR| ≤ B)
      ∧ Chorus.processSample m stereo s x = .ok (s1, y)
      ∧ Chorus.Ready s1
      ∧ s1.params = s.params ∧ s1.sampleRate = s.sampleRate
      ∧ s1.delayBuffer.numSamples = s.delayBuffer.numSamples
      ∧ s1.writePosition = (s.writePosition + 1) % s.delayBuffer.numSamples
      ∧ (∀ c i, s1.delayBuffer.data c i
          = if c = 1 ∧ i = s.writePosition.toNat
              then (if stereo = true then x.2 else x.1) + dR * (s.params.feedback * (7 / 10))
            else if c = 0 ∧ i = s.writePosition.toNat
              then x.1 + dL * (s.params.feedback * (7 / 10))
            else s.delayBuffer.data c i)
      ∧ y.1 = x.1 * (1 - s.params.dryWet) + dL * s.params.dryWet
      ∧ y.2 = (if stereo = true
                then x.2 * (1 - s.params.dryWet) + dR * s.params.dryWet
                else x.2) := by
  have hch := hs.channels
  have hcap := hs.capacity
  have hw0 := hs.cursor_nonneg
  have hw := hs.cursor_lt
  have hread : ∀ (channel : ℕ) (v : ℚ), channel < 2 →
      ∃ d, Chorus.readInterpolated s.delayBuffer s.writePosition channel
        (jlimit 1 ((s.delayBuffer.numSamples - 1 : ℤ) : ℚ) v) = .ok d
        ∧ ∀ B : ℚ, (∀ c i, |s.delayBuffer.data c i| ≤ B) → |d| ≤ B := by
    intro channel v hc
    obtain ⟨h0, h1⟩ := jlimit_delay_bounds s.delayBuffer.numSamples v hcap
    exact Chorus.readInterpolated_bounded _ _ _ _ (by rw [hch]; exact hc) hw0 hw h0 h1
  obtain ⟨dL, hdL, hbL⟩ := hread 0
    ((5 + s.params.delay * 25) * s.sampleRate / 1000
      + m.sin (s.lfoPhaseL * 2 * m.pi)
        * ((1 / 2 + s.params.depth * (45 / 10)) * s.sampleRate / 1000)) (by norm_num)
  obtain ⟨dR, hdR, hbR⟩ := hread 1
    ((5 + s.params.delay * 25) * s.sampleRate / 1000
      + m.sin (s.lfoPhaseR * 2 * m.pi)
        * ((1 / 2 + s.params.depth * (45 / 10)) * s.sampleRate / 1000)) (by norm_num)
  have hmod := cMod_eq_emod (s.writePosition + 1) s.delayBuffer.numSamples (by omega) (by omega)
  have hw0' := fun v => AudioBuffer.setSample_ok s.delayBuffer 0 s.writePosition v
    (by rw [hch]; norm_num) hw0 hw
  have hw1' := fun v0 v => AudioBuffer.setSample_ok
    { s.delayBuffer with
      data := fun c i => if c = 0 ∧ i = s.writePosition.toNat then v0 else s.delayBuffer.data c i }
    1 s.writePosition v (by simp only; rw [hch]; norm_num) hw0 hw
  refine ⟨(5 + s.params.delay * 25) * s.sampleRate / 1000
      + m.sin (s.lfoPhaseL * 2 * m.pi)
        * ((1 / 2 + s.params.depth * (45 / 10)) * s.sampleRate / 1000),
    (5 + s.params.delay * 25) * s.sampleRate / 1000
      + m.sin (s.lfoPhaseR * 2 * m.pi)
        * ((1 / 2 + s.params.depth * (45 / 10)) * s.sampleRate / 1000), dL, dR, ?_⟩
  simp only [Chorus.processSample, hdL, hdR, except_ok_bind, hw0', hw1', hmod, except_pure_eq_ok]
  refine ⟨_, _, trivial, trivial, hbL, hbR, rfl, ⟨hch, hcap, Int.emod_nonneg _ (by omega),
    Int.emod_lt_of_pos _ (by omega)⟩, rfl, rfl, rfl, rfl, ?_, rfl, ?_⟩
  · intro c i
    rfl
  · cases stereo <;> simp

theorem abs_add_mul_le (u d g A B : ℚ) (hg : 0 ≤ g) (hB : A + g * B ≤ B)
    (hu : |u| ≤ A) (hd : |d| ≤ B) : |u + d * g| ≤ B := by
  obtain ⟨hu0, hu1⟩ := abs_le.mp hu
  obtain ⟨hd0, hd1⟩ := abs_le.mp hd
  rw [abs_le]
  constructor
  · nlinarith [mul_nonneg hg (by linarith : (0 : ℚ) ≤ d + B)]
  · nlinarith [mul_nonneg hg (by linarith : (0 : ℚ) ≤ B - d)]

theorem abs_crossfade_le (u d t B : ℚ) (ht0 : 0 ≤ t) (ht1 : t ≤ 1)
    (hu : |u| ≤ B) (hd : |d| ≤ B) : |u * (1 - t) + d * t| ≤ B := by
  obtain ⟨hu0, hu1⟩ := abs_le.mp hu
  obtain ⟨hd0, hd1⟩ := abs_le.mp hd
  rw [abs_le]
  constructor
  · nlinarith [mul_nonneg ht0 (by linarith : (0 : ℚ) ≤ d + B),
      mul_nonneg (by linarith : (0 : ℚ) ≤ 1 - t) (by linarith : (0 : ℚ) ≤ u + B)]
  · nlinarith [mul_nonneg ht0 (by linarith : (0 : ℚ) ≤ B - d),
      mul_nonneg (by linarith : (0 : ℚ) ≤ 1 - t) (by linarith : (0 : ℚ) ≤ B - u)]

/-- One loop iteration of `Chorus::process` keeps the cells of the delay line
within `B` when the input is within `A` and `A + 0.7 * feedback * B ≤ B`; the
output is then within `B` as well for a dry/wet setting in `[0,1]`. -/
theorem Chorus.processSample_bounded (m : MathFns) (stereo : Bool) (s : Chorus.State)
    (x : Frame) (A B : ℚ) (hs : Chorus.Ready s) (hfb : 0 ≤ s.params.feedback)
    (hB : A + s.params.feedback * (7 / 10) * B ≤ B)
    (hx1 : |x.1| ≤ A) (hx2 : stereo = true → |x.2| ≤ A)
    (hcells : ∀ c i, |s.delayBuffer.data c i| ≤ B) :
    ∃ s1 y, Chorus.processSample m stereo s x = .ok (s1, y)
      ∧ Chorus.Ready s1 ∧ s1.params = s.params
      ∧ (∀ c i, |s1.delayBuffer.data c i| ≤ B)
      ∧ (0 ≤ s.params.dryWet → s.params.dryWet ≤ 1 → A ≤ B →
          |y.1| ≤ B ∧ (stereo = true → |y.2| ≤ B)) := by
  obtain ⟨vL, vR, dL, dR, s1, y, -, -, hbL, hbR, hstep, hready, hparams, -, -, -, hdata,
    hy1, hy2⟩ := Chorus.chorus_processSample_spec m stereo s x hs
  have hbL := hbL B hcells
  have hbR := hbR B hcells
  have hg : 0 ≤ s.params.feedback * (7 / 10) := by linarith
  have hin : |if stereo = true then x.2 else x.1| ≤ A := by
    cases stereo
    · simpa using hx1
    · simpa using hx2 rfl
  refine ⟨s1, y, hstep, hready, hparams, ?_, ?_⟩
  · intro c i
    rw [hdata c i]
    by_cases h1 : c = 1 ∧ i = s.writePosition.toNat
    · rw [if_pos h1]
      exact abs_add_mul_le _ _ _ A B hg hB hin hbR
    · rw [if_neg h1]
      by_cases h0 : c = 0 ∧ i = s.writePosition.toNat
      · rw [if_pos h0]
        exact abs_add_mul_le _ _ _ A B hg hB hx1 hbL
      · rw [if_neg h0]
        exact hcells c i
  · intro hd0 hd1 hAB
    refine ⟨?_, ?_⟩
    · rw [hy1]
      exact abs_crossfade_le _ _ _ B hd0 hd1 (le_trans hx1 hAB) hbL
    · intro hst
      rw [hy2, if_pos hst]
      exact abs_crossfade_le _ _ _ B hd0 hd1 (le_trans (hx2 hst) hAB) hbR

theorem Chorus.sampleLoop_bounded (m : MathFns) (stereo : Bool) (A B : ℚ) :
    ∀ (block : List Frame) (s : Chorus.State), Chorus.Ready s → 0 ≤ s.params.feedback →
      A + s.params.feedback * (7 / 10) * B ≤ B →
      (∀ x ∈ block, |x.1| ≤ A ∧ (stereo = true → |x.2| ≤ A)) →
      (∀ c i, |s.delayBuffer.data c i| ≤ B) →
      ∃ s1 out, Chorus.sampleLoop m stereo s block = .ok (s1, out)
        ∧ Chorus.Ready s1 ∧ s1.params = s.params
        ∧ (∀ c i, |s1.delayBuffer.data c i| ≤ B)
        ∧ (0 ≤ s.params.dryWet → s.params.dryWet ≤ 1 → A ≤ B →
            ∀ y ∈ out, |y.1| ≤ B ∧ (stereo = true → |y.2| ≤ B)) := by
  intro block
  induction block with
  | nil =>
    intro s hs _ _ _ hcells
    exact ⟨s, [], rfl, hs, rfl, hcells, fun _ _ _ y hy => absurd hy (List.not_mem_nil y)⟩
  | cons x xs ih =>
    intro s hs hfb hB hblock hcells
    obtain ⟨hx1, hx2⟩ := hblock x (List.mem_cons_self x xs)
    obtain ⟨s1, y, hstep, hready, hparams, hcells1, hout⟩ :=
      Chorus.processSample_bounded m stereo s x A B hs hfb hB hx1 hx2 hcells
    obtain ⟨s2, ys, hloop, hready2, hparams2, hcells2, houts⟩ :=
      ih s1 hready (by rw [hparams]; exact hfb) (by rw [hparams]; exact hB)
        (fun z hz => hblock z (List.mem_cons_of_mem x hz)) hcells1
    refine ⟨s2, y :: ys, ?_, hready2, hparams2.trans hparams, hcells2, ?_⟩
    · simp only [Chorus.sampleLoop, hstep, hloop, except_ok_bind, except_pure_eq_ok]
    · intro hd0 hd1 hAB z hz
      rcases List.mem_cons.mp hz with rfl | hz
      · exact hout hd0 hd1 hAB
      · exact houts (by rw [hparams]; exact hd0) (by rw [hparams]; exact hd1) hAB z hz

/-- The bounded-state invariant of `Chorus::process` for a whole block. -/
theorem Chorus.process_bounded (m : MathFns) (stereo : Bool) (A B : ℚ) (block : List Frame)
    (s : Chorus.State) (hs : Chorus.Ready s) (hfb : 0 ≤ s.params.feedback)
    (hB : A + s.params.feedback * (7 / 10) * B ≤ B)
    (hblock : ∀ x ∈ block, |x.1| ≤ A ∧ (stereo = true → |x.2| ≤ A))
    (hcells : ∀ c i, |s.delayBuffer.data c i| ≤ B) :
    ∃ s1 out, Chorus.process m stereo s block = .ok (s1, out)
      ∧ Chorus.Ready s1 ∧ s1.params = s.params
      ∧ (∀ c i, |s1.delayBuffer.data c i| ≤ B)
      ∧ (0 ≤ s.params.dryWet → s.params.dryWet ≤ 1 → A ≤ B →
          ∀ y ∈ out, |y.1| ≤ B ∧ (stereo = true → |y.2| ≤ B)) := by
  have hcap := hs.capacity
  unfold Chorus.process
  rw [if_neg (by omega)]
  exact Chorus.sampleLoop_bounded m stereo A B block s hs hfb hB hblock hcells

theorem Chorus.processBlocks_bounded (m : MathFns) (stereo : Bool) (A B : ℚ) :
    ∀ (blocks : List (List Frame)) (s : Chorus.State), Chorus.Ready s →
      0 ≤ s.params.feedback → A + s.params.feedback * (7 / 10) * B ≤ B →
      (∀ block ∈ blocks, ∀ x ∈ block, |x.1| ≤ A ∧ (stereo = true → |x.2| ≤ A)) →
      (∀ c i, |s.delayBuffer.data c i| ≤ B) →
      ∃ s1 outs, Chorus.processBlocks m stereo s blocks = .ok (s1, outs)
        ∧ Chorus.Ready s1 ∧ s1.params = s.params
        ∧ (∀ c i, |s1.delayBuffer.data c i| ≤ B)
        ∧ (0 ≤ s.params.dryWet → s.params.dryWet ≤ 1 → A ≤ B →
            ∀ out ∈ outs, ∀ y ∈ out, |y.1| ≤ B ∧ (stereo = true → |y.2| ≤ B)) := by
  intro blocks
  induction blocks with
  | nil =>
    intro s hs _ _ _ hcells
    exact ⟨s, [], rfl, hs, rfl, hcells, fun _ _ _ out hout => absurd hout (List.not_mem_nil out)⟩
  | cons block blocks ih =>
    intro s hs hfb hB hblocks hcells
    obtain ⟨s1, out, hstep, hready, hparams, hcells1, hout⟩ :=
      Chorus.process_bounded m stereo A B block s hs hfb hB
        (hblocks block (List.mem_cons_self block blocks)) hcells
    obtain ⟨s2, outs, hloop, hready2, hparams2, hcells2, houts⟩ :=
      ih s1 hready (by rw [hparams]; exact hfb) (by rw [hparams]; exact hB)
        (fun b hb => hblocks b (List.mem_cons_of_mem block hb)) hcells1
    refine ⟨s2, out :: outs, ?_, hready2, hparams2.trans hparams, hcells2, ?_⟩
    · simp only [Chorus.processBlocks, hstep, hloop, except_ok_bind, except_pure_eq_ok]
    · intro hd0 hd1 hAB o ho
      rcases List.mem_cons.mp ho with rfl | ho
      · exact hout hd0 hd1 hAB
      · exact houts (by rw [hparams]; exact hd0) (by rw [hparams]; exact hd1) hAB o ho

/-- Without a delay buffer `Chorus::process` returns at once, whatever the block. -/
theorem Chorus.processBlocks_unprepared (m : MathFns) (stereo : Bool) (s : Chorus.State)
    (h : s.delayBuffer.numSamples = 0) :
    ∀ blocks : List (List Frame), Chorus.processBlocks m stereo s blocks = .ok (s, blocks) := by
  intro blocks
  induction blocks with
  | nil => rfl
  | cons block blocks ih =>
    simp only [Chorus.processBlocks, Chorus.process, h, if_true, except_pure_eq_ok,
      except_ok_bind, ih]

theorem Chorus.reset_prepare_ready (c0 : Chorus.State) (sampleRate : ℚ) (hsr : 0 ≤ sampleRate)
    (hguard : (Chorus.reset (Chorus.prepare c0 sampleRate)).delayBuffer.numSamples ≠ 0) :
    Chorus.Ready (Chorus.reset (Chorus.prepare c0 sampleRate)) := by
  have hnum : (Chorus.reset (Chorus.prepare c0 sampleRate)).delayBuffer.numSamples
      = truncToInt (sampleRate * (5 / 100)) := rfl
  have h0 := truncToInt_nonneg (sampleRate * (5 / 100)) (by linarith)
  rw [hnum] at hguard
  refine ⟨rfl, by rw [hnum]; omega, le_refl 0, ?_⟩
  show (0 : ℤ) < (Chorus.reset (Chorus.prepare c0 sampleRate)).delayBuffer.numSamples
  rw [hnum]
  omega

theorem jlimit_one_one (v : ℚ) : jlimit 1 ((2 - 1 : ℤ) : ℚ) v = 1 := by
  unfold jlimit
  push_cast
  split_ifs <;> linarith

/-- With a delay line of two cells both taps are clamped to a delay of one
sample: the cell under the cursor of channel 0 receives the input plus
`feedback * 0.7` times the other cell. -/
theorem Chorus.processSample_two_cells (m : MathFns) (stereo : Bool) (s : Chorus.State)
    (x : Frame) (hs : Chorus.Ready s) (hcap : s.delayBuffer.numSamples = 2) :
    ∃ s1 y, Chorus.processSample m stereo s x = .ok (s1, y)
      ∧ Chorus.Ready s1 ∧ s1.params = s.params ∧ s1.delayBuffer.numSamples = 2
      ∧ s1.writePosition = (s.writePosition + 1) % 2
      ∧ s1.delayBuffer.data 0 s.writePosition.toNat
          = x.1 + s.delayBuffer.data 0 ((s.writePosition - 1) % 2).toNat
              * (s.params.feedback * (7 / 10)) := by
  obtain ⟨vL, vR, dL, dR, s1, y, hdL, -, -, -, hstep, hready, hparams, -, hnum, hwp, hdata,
    -, -⟩ := Chorus.chorus_processSample_spec m stereo s x hs
  have hw := hs.cursor_lt
  rw [hcap] at hdL hwp hnum hw
  rw [jlimit_one_one] at hdL
  have hfrac : Chorus.readPosFloat 2 s.writePosition 1
      - (⌊Chorus.readPosFloat 2 s.writePosition 1⌋ : ℤ) = 0 := by
    rcases Chorus.fract_readPosFloat 2 s.writePosition 1 with h | h
    · exact h
    · exfalso
      rw [Int.ceil_one, Int.floor_one] at h
      omega
  rw [Chorus.readInterpolated_eq s.delayBuffer 2 s.writePosition 0 1 hcap
    (by rw [hs.channels]; norm_num) hs.cursor_nonneg hw (le_refl 1) (by norm_num), hfrac,
    zero_mul, add_zero, Int.ceil_one] at hdL
  have hd : s.delayBuffer.data 0 ((s.writePosition - 1) % 2).toNat = dL := Except.ok.inj hdL
  refine ⟨s1, y, hstep, hready, hparams, hnum, hwp, ?_⟩
  rw [hdata 0 s.writePosition.toNat, hd]
  simp

/-- C14 as stated fails: `Chorus::process` writes `input + delayed * feedback *
0.7` into its delay line with no limiter.  At 44100 Hz the first sample of a DC
input of level 1 is written as 1, which is not strictly inside (-1, 1); and with
feedback 1 on a two-cell delay line (prepared at 40 Hz) a DC input of level 1/2
is written as 1/2, then 17/20, then 219/200, which exceeds 1. -/
theorem C14_chorus_writes_exceed_one :
    (∃ s1 out,
      Chorus.process MathFns.sample true (Chorus.reset (Chorus.prepare {} 44100)) [(1, 1)]
        = .ok (s1, out)
      ∧ s1.delayBuffer.data 0 0 = 1)
    ∧ ∃ s1 out,
        Chorus.process MathFns.sample true
          (Chorus.reset (Chorus.prepare { params := { feedback := 1 } } 40))
          (List.replicate 3 (1 / 2, 1 / 2)) = .ok (s1, out)
        ∧ s1.delayBuffer.data 0 0 = 219 / 200 := by
  constructor
  · have hnum : (Chorus.reset (Chorus.prepare {} 44100)).delayBuffer.numSamples = 2205 := by
      show truncToInt (44100 * (5 / 100)) = 2205
      norm_num [truncToInt, Int.floor_eq_iff]
    have hready : Chorus.Ready (Chorus.reset (Chorus.prepare {} 44100)) :=
      Chorus.reset_prepare_ready {} 44100 (by norm_num) (by rw [hnum]; norm_num)
    obtain ⟨vL, vR, dL, dR, s1, y, -, -, hbL, -, hstep, -, -, -, -, -, hdata, -, -⟩ :=
      Chorus.chorus_processSample_spec MathFns.sample true (Chorus.reset (Chorus.prepare {} 44100))
        (1, 1) hready
    have hd : dL = 0 := by
      have h := hbL 0 (fun c i => by
        show |(0 : ℚ)| ≤ 0
        rw [abs_zero])
      exact abs_eq_zero.mp (le_antisymm h (abs_nonneg dL))
    refine ⟨s1, [y], ?_, ?_⟩
    · unfold Chorus.process
      rw [if_neg (by rw [hnum]; norm_num)]
      simp only [Chorus.sampleLoop, hstep, except_ok_bind, except_pure_eq_ok]
    · rw [hdata 0 0, hd]
      have hw : (Chorus.reset (Chorus.prepare {} 44100)).writePosition.toNat = 0 := rfl
      rw [hw]
      simp
  · have hnum : (Chorus.reset (Chorus.prepare { params := { feedback := 1 } } 40)).delayBuffer.numSamples
        = 2 := by
      show truncToInt (40 * (5 / 100)) = 2
      norm_num [truncToInt, Int.floor_eq_iff]
    have hready : Chorus.Ready (Chorus.reset (Chorus.prepare { params := { feedback := 1 } } 40)) :=
      Chorus.reset_prepare_ready _ 40 (by norm_num) (by rw [hnum]; norm_num)
    have hfb : (Chorus.reset (Chorus.prepare { params := { feedback := 1 } } 40)).params.feedback
        = 1 := rfl
    obtain ⟨s1, y1, hstep1, hready1, hparams1, hnum1, hwp1, hcell1⟩ :=
      Chorus.processSample_two_cells MathFns.sample true _ (1 / 2, 1 / 2) hready hnum
    have hw1 : s1.writePosition = 1 := hwp1
    have hc1 : s1.delayBuffer.data 0 0 = 1 / 2 := by
      have h : s1.delayBuffer.data 0 0 = 1 / 2 + 0 * (1 * (7 / 10)) := hcell1
      rw [h]
      norm_num
    obtain ⟨s2, y2, hstep2, hready2, hparams2, hnum2, hwp2, hcell2⟩ :=
      Chorus.processSample_two_cells MathFns.sample true s1 (1 / 2, 1 / 2) hready1 hnum1
    rw [hw1, hparams1, hfb] at hcell2
    rw [hw1] at hwp2
    have hw2 : s2.writePosition = 0 := hwp2
    have hc2 : s2.delayBuffer.data 0 1 = 17 / 20 := by
      have h : s2.delayBuffer.data 0 1
          = 1 / 2 + s1.delayBuffer.data 0 0 * (1 * (7 / 10)) := hcell2
      rw [h, hc1]
      norm_num
    obtain ⟨s3, y3, hstep3, -, -, -, -, hcell3⟩ :=
      Chorus.processSample_two_cells MathFns.sample true s2 (1 / 2, 1 / 2) hready2 hnum2
    rw [hw2, hparams2, hparams1, hfb] at hcell3
    have hc3 : s3.delayBuffer.data 0 0 = 219 / 200 := by
      have h : s3.delayBuffer.data 0 0
          = 1 / 2 + s2.delayBuffer.data 0 1 * (1 * (7 / 10)) := hcell3
      rw [h, hc2]
      norm_num
    refine ⟨s3, [y1, y2, y3], ?_, hc3⟩
    unfold Chorus.process
    rw [if_neg (by rw [hnum]; norm_num)]
    simp only [List.replicate, Chorus.sampleLoop, hstep1, hstep2, hstep3, except_ok_bind,
      except_pure_eq_ok]

/-- C14 (amended): over real (exact) arithmetic, the Chorus delay line has no
limiter, but it stays bounded.  A Chorus prepared at any sample rate and reset,
with a feedback setting `f` in `[0,1]`, is fed any number of blocks of any
lengths of a DC input of level `a`: every call of `Chorus::process` returns, and
every cell of the delay line (hence every value written so far) has magnitude at
most `|a| / (1 - 0.7 * f)`, which is at most `|a| / 0.3`; the cells lie strictly
within (-1, 1) when `|a| < 1 - 0.7 * f`.  The read position is the exact
`readPosFloat`; its rounding in `float` is not part of this statement. -/
theorem C14_chorus_feedback_bounded (m : MathFns) (stereo : Bool) (c0 : Chorus.State)
    (sampleRate a : ℚ) (lengths : List ℕ) (hsr : 0 ≤ sampleRate)
    (hfb0 : 0 ≤ c0.params.feedback) (hfb1 : c0.params.feedback ≤ 1) :
    ∃ s1 outs,
      Chorus.processBlocks m stereo (Chorus.reset (Chorus.prepare c0 sampleRate))
          (lengths.map (fun n => List.replicate n (a, a))) = .ok (s1, outs)
      ∧ (∀ c i, |s1.delayBuffer.data c i| ≤ |a| / (1 - 7 / 10 * c0.params.feedback))
      ∧ |a| / (1 - 7 / 10 * c0.params.feedback) ≤ |a| / (3 / 10)
      ∧ (|a| < 1 - 7 / 10 * c0.params.feedback →
          ∀ c i, -1 < s1.delayBuffer.data c i ∧ s1.delayBuffer.data c i < 1) := by
  have hden : 0 < 1 - 7 / 10 * c0.params.feedback := by linarith
  have hBeq : |a| / (1 - 7 / 10 * c0.params.feedback) * (1 - 7 / 10 * c0.params.feedback)
      = |a| := div_mul_cancel₀ _ hden.ne'
  have hB0 : 0 ≤ |a| / (1 - 7 / 10 * c0.params.feedback) := div_nonneg (abs_nonneg a) hden.le
  have hle : |a| / (1 - 7 / 10 * c0.params.feedback) ≤ |a| / (3 / 10) :=
    div_le_div_of_nonneg_left (abs_nonneg a) (by norm_num) (by linarith)
  have hstrict : |a| < 1 - 7 / 10 * c0.params.feedback →
      |a| / (1 - 7 / 10 * c0.params.feedback) < 1 := by
    intro h
    rw [div_lt_iff₀ hden]
    linarith
  have key : ∃ s1 outs,
      Chorus.processBlocks m stereo (Chorus.reset (Chorus.prepare c0 sampleRate))
          (lengths.map (fun n => List.replicate n (a, a))) = .ok (s1, outs)
      ∧ ∀ c i, |s1.delayBuffer.data c i| ≤ |a| / (1 - 7 / 10 * c0.params.feedback) := by
    by_cases hguard : (Chorus.reset (Chorus.prepare c0 sampleRate)).delayBuffer.numSamples = 0
    · refine ⟨_, _, Chorus.processBlocks_unprepared m stereo _ hguard _, ?_⟩
      intro c i
      show |(0 : ℚ)| ≤ _
      rw [abs_zero]
      exact hB0
    · obtain ⟨s1, outs, hrun, -, -, hcells, -⟩ :=
        Chorus.processBlocks_bounded m stereo |a| (|a| / (1 - 7 / 10 * c0.params.feedback))
          (lengths.map (fun n => List.replicate n (a, a)))
          (Chorus.reset (Chorus.prepare c0 sampleRate))
          (Chorus.reset_prepare_ready c0 sampleRate hsr hguard) hfb0
          (by
            show |a| + c0.params.feedback * (7 / 10)
              * (|a| / (1 - 7 / 10 * c0.params.feedback)) ≤ _
            linarith)
          (by
            intro block hblock x hx
            obtain ⟨n, -, rfl⟩ := List.mem_map.mp hblock
            rw [List.eq_of_mem_replicate hx]
            exact ⟨le_refl _, fun _ => le_refl _⟩)
          (by
            intro c i
            show |(0 : ℚ)| ≤ _
            rw [abs_zero]
            exact hB0)
      exact ⟨s1, outs, hrun, hcells⟩
  obtain ⟨s1, outs, hrun, hcells⟩ := key
  refine ⟨s1, outs, hrun, hcells, hle, ?_⟩
  intro h c i
  have hlt := lt_of_le_of_lt (hcells c i) (hstrict h)
  exact abs_lt.mp hlt

/-- Witness for C14: two blocks (of 2 and 3 samples) of DC level 1/4 through a
Chorus with feedback 1/2 prepared at 44100 Hz. -/
theorem C14_chorus_feedback_bounded_witness :
    ∃ s1 outs,
      Chorus.processBlocks MathFns.sample true
          (Chorus.reset (Chorus.prepare { params := { feedback := 1 / 2 } } 44100))
          ([2, 3].map (fun n => List.replicate n (1 / 4, 1 / 4))) = .ok (s1, outs)
      ∧ ∀ c i, -1 < s1.delayBuffer.data c i ∧ s1.delayBuffer.data c i < 1 := by
  obtain ⟨s1, outs, hrun, -, -, h⟩ :=
    C14_chorus_feedback_bounded MathFns.sample true { params := { feedback := 1 / 2 } } 44100
      (1 / 4) [2, 3] (by norm_num) (by norm_num) (by norm_num)
  refine ⟨s1, outs, hrun, h ?_⟩
  rw [abs_of_pos (by norm_num : (0 : ℚ) < 1 / 4)]
  norm_num

/-! ### Repeat target of the glitch engine (C21) -/

/-- C21: when `triggerGlitch` starts a grain (rate at least 0.01), for every
stutter in `[0,1]` and every second draw `u` in `[0,1)` the repeat target is
`1 + floor (u * (maxRepeats - 1))` with `maxRepeats = 2 + floor (14 * stutter)`
in `2..16`, and it satisfies `1 ≤ glitchRepeatCount ≤ maxRepeats` (indeed it
stays below `maxRepeats`, since `u < 1`). -/
theorem C21_repeat_target_range (draws : ℕ → ℚ) (s : Glitch.State)
    (hrate : 1 / 100 ≤ s.params.rate)
    (hst0 : 0 ≤ s.params.stutter) (hst1 : s.params.stutter ≤ 1)
    (hu0 : 0 ≤ draws (s.rngCalls + 1)) (hu1 : draws (s.rngCalls + 1) < 1) :
    (Glitch.triggerGlitch draws s).glitchRepeatCount
        = 1 + ⌊draws (s.rngCalls + 1) * ((2 + ⌊s.params.stutter * 14⌋ - 1 : ℤ) : ℚ)⌋
    ∧ (2 ≤ 2 + ⌊s.params.stutter * 14⌋ ∧ 2 + ⌊s.params.stutter * 14⌋ ≤ 16)
    ∧ 1 ≤ (Glitch.triggerGlitch draws s).glitchRepeatCount
    ∧ (Glitch.triggerGlitch draws s).glitchRepeatCount ≤ 2 + ⌊s.params.stutter * 14⌋
    ∧ (Glitch.triggerGlitch draws s).glitchRepeatCount < 2 + ⌊s.params.stutter * 14⌋ := by
  have hst : (0 : ℚ) ≤ s.params.stutter * 14 := by linarith
  have hf0 : 0 ≤ ⌊s.params.stutter * 14⌋ := Int.floor_nonneg.mpr hst
  have hf1 : ⌊s.params.stutter * 14⌋ ≤ 14 := by
    have h : s.params.stutter * 14 ≤ ((14 : ℤ) : ℚ) := by push_cast; linarith
    exact Int.cast_le.mp (le_trans (Int.floor_le _) h)
  have hspan : (0 : ℚ) ≤ ((2 + ⌊s.params.stutter * 14⌋ - 1 : ℤ) : ℚ) := by
    exact_mod_cast (by omega : (0 : ℤ) ≤ 2 + ⌊s.params.stutter * 14⌋ - 1)
  have hprod : 0 ≤ draws (s.rngCalls + 1) * ((2 + ⌊s.params.stutter * 14⌋ - 1 : ℤ) : ℚ) :=
    mul_nonneg hu0 hspan
  have hcount : (Glitch.triggerGlitch draws s).glitchRepeatCount
      = 1 + ⌊draws (s.rngCalls + 1) * ((2 + ⌊s.params.stutter * 14⌋ - 1 : ℤ) : ℚ)⌋ := by
    unfold Glitch.triggerGlitch
    rw [if_neg (not_lt.mpr (le_trans (by norm_num) hrate))]
    simp only [truncToInt_of_nonneg _ hst, truncToInt_of_nonneg _ hprod]
  have hlow : 0 ≤ ⌊draws (s.rngCalls + 1) * ((2 + ⌊s.params.stutter * 14⌋ - 1 : ℤ) : ℚ)⌋ :=
    Int.floor_nonneg.mpr hprod
  have hhigh : ⌊draws (s.rngCalls + 1) * ((2 + ⌊s.params.stutter * 14⌋ - 1 : ℤ) : ℚ)⌋
      < 2 + ⌊s.params.stutter * 14⌋ - 1 := by
    rw [Int.floor_lt]
    have hpos : (0 : ℚ) < ((2 + ⌊s.params.stutter * 14⌋ - 1 : ℤ) : ℚ) := by
      exact_mod_cast (by omega : (0 : ℤ) < 2 + ⌊s.params.stutter * 14⌋ - 1)
    nlinarith
  refine ⟨hcount, ⟨by omega, by omega⟩, ?_, ?_, ?_⟩
  · rw [hcount]; omega
  · rw [hcount]; omega
  · rw [hcount]; omega

/-- Witness for C21: stutter 1/2 (so `maxRepeats = 9`) and a second draw of 1/2
give the repeat target `1 + floor (1/2 * 8) = 5`. -/
theorem C21_repeat_target_range_witness :
    (Glitch.triggerGlitch (fun _ => 1 / 2) {}).glitchRepeatCount
        = 1 + ⌊(1 / 2 : ℚ) * ((2 + ⌊(5 / 10 : ℚ) * 14⌋ - 1 : ℤ) : ℚ)⌋
    ∧ 1 ≤ (Glitch.triggerGlitch (fun _ => 1 / 2) {}).glitchRepeatCount :=
  have h := C21_repeat_target_range (fun _ => 1 / 2) {} (by norm_num) (by norm_num)
    (by norm_num) (by norm_num) (by norm_num)
  ⟨h.1, h.2.2.1⟩

/-! ### Rounding to floating point -/

theorem roundHalfEven_intCast (n : ℤ) : roundHalfEven (n : ℚ) = n := by
  unfold roundHalfEven
  simp

theorem roundHalfEven_mem (x : ℚ) : roundHalfEven x = ⌊x⌋ ∨ roundHalfEven x = ⌊x⌋ + 1 := by
  unfold roundHalfEven
  split_ifs <;> simp

theorem roundHalfEven_mono (x y : ℚ) (h : x ≤ y) : roundHalfEven x ≤ roundHalfEven y := by
  have hf : ⌊x⌋ ≤ ⌊y⌋ := Int.floor_mono h
  rcases lt_or_eq_of_le hf with hlt | heq
  · rcases roundHalfEven_mem x with hx | hx <;> rcases roundHalfEven_mem y with hy | hy <;> omega
  · unfold roundHalfEven
    rw [heq]
    have hxy : x - (⌊y⌋ : ℤ) ≤ y - (⌊y⌋ : ℤ) := by linarith
    split_ifs <;> first | omega | (exfalso; linarith)

/-- A value more than half way from the integer `f` to `f + 1` rounds to `f + 1`. -/
theorem roundHalfEven_of_gt (x : ℚ) (f : ℤ) (h1 : (f : ℚ) + 1 / 2 < x) (h2 : x < (f : ℚ) + 1) :
    roundHalfEven x = f + 1 := by
  have hf : ⌊x⌋ = f := by
    rw [Int.floor_eq_iff]
    exact ⟨by linarith, h2⟩
  unfold roundHalfEven
  rw [hf, if_neg (by linarith), if_pos (by linarith)]

/-- A value less than half way from the integer `f` to `f + 1` rounds to `f`. -/
theorem roundHalfEven_of_lt (x : ℚ) (f : ℤ) (h1 : (f : ℚ) ≤ x) (h2 : x < (f : ℚ) + 1 / 2) :
    roundHalfEven x = f := by
  have hf : ⌊x⌋ = f := by
    rw [Int.floor_eq_iff]
    exact ⟨h1, by linarith⟩
  unfold roundHalfEven
  rw [hf, if_pos (by linarith)]

/-- The value of `roundBinary` on a number whose binade is known. -/
theorem roundBinary_of_binade (precision : ℕ) (x : ℚ) (e : ℤ)
    (h1 : (2 : ℚ) ^ e ≤ |x|) (h2 : |x| < (2 : ℚ) ^ (e + 1)) :
    roundBinary precision x
      = (roundHalfEven (x / 2 ^ (e + 1 - (precision : ℤ))) : ℚ)
          * 2 ^ (e + 1 - (precision : ℤ)) := by
  have hpos : 0 < |x| := lt_of_lt_of_le (zpow_pos (by norm_num) e) h1
  have hx : x ≠ 0 := abs_pos.mp hpos
  have hlog : Int.log 2 |x| = e := by
    have ha : e ≤ Int.log 2 |x| :=
      (Int.zpow_le_iff_le_log (by norm_num) hpos).mp (by exact_mod_cast h1)
    have hb : Int.log 2 |x| < e + 1 :=
      (Int.lt_zpow_iff_log_lt (by norm_num) hpos).mp (by exact_mod_cast h2)
    omega
  unfold roundBinary
  rw [if_neg hx]
  simp only [hlog]

theorem roundBinary_zero (precision : ℕ) : roundBinary precision 0 = 0 := by
  unfold roundBinary
  rw [if_pos rfl]

theorem log_binade (x : ℚ) (hx : 0 < x) :
    (2 : ℚ) ^ (Int.log 2 x) ≤ x ∧ x < (2 : ℚ) ^ (Int.log 2 x + 1) := by
  have h1 : ((2 : ℕ) : ℚ) ^ Int.log 2 x ≤ x := Int.zpow_log_le_self (by norm_num) hx
  have h2 : x < ((2 : ℕ) : ℚ) ^ (Int.log 2 x + 1) := Int.lt_zpow_succ_log_self (by norm_num) x
  exact ⟨by exact_mod_cast h1, by exact_mod_cast h2⟩

theorem roundBinary_of_pos (precision : ℕ) (x : ℚ) (hx : 0 < x) :
    roundBinary precision x
      = (roundHalfEven (x / 2 ^ (Int.log 2 x + 1 - (precision : ℤ))) : ℚ)
          * 2 ^ (Int.log 2 x + 1 - (precision : ℤ)) := by
  unfold roundBinary
  rw [if_neg (ne_of_gt hx), abs_of_pos hx]

/-- A value `n * 2 ^ k` whose integer significand `n` fits the precision is a
floating-point number: rounding leaves it unchanged. -/
theorem roundBinary_scaled_int (precision : ℕ) (n k : ℤ) (hn : 0 < n)
    (hfit : (n : ℚ) < 2 ^ precision) :
    roundBinary precision ((n : ℚ) * 2 ^ k) = (n : ℚ) * 2 ^ k := by
  have h2 : (0 : ℚ) < 2 := by norm_num
  have hnq : (0 : ℚ) < (n : ℚ) := by exact_mod_cast hn
  have hx : (0 : ℚ) < (n : ℚ) * 2 ^ k := mul_pos hnq (zpow_pos h2 k)
  obtain ⟨hlo, -⟩ := log_binade _ hx
  have hlt : (2 : ℚ) ^ Int.log 2 ((n : ℚ) * 2 ^ k) < 2 ^ ((precision : ℤ) + k) := by
    refine lt_of_le_of_lt hlo ?_
    rw [zpow_add₀ (ne_of_gt h2), zpow_natCast]
    exact mul_lt_mul_of_pos_right hfit (zpow_pos h2 k)
  have he : Int.log 2 ((n : ℚ) * 2 ^ k) < (precision : ℤ) + k :=
    (zpow_lt_zpow_iff_right₀ (by norm_num : (1 : ℚ) < 2)).mp hlt
  rw [roundBinary_of_pos _ _ hx]
  clear hlo hlt
  generalize Int.log 2 ((n : ℚ) * 2 ^ k) = e at he ⊢
  obtain ⟨j, hj⟩ : ∃ j : ℕ, (j : ℤ) = k - (e + 1 - (precision : ℤ)) :=
    ⟨(k - (e + 1 - (precision : ℤ))).toNat, Int.toNat_of_nonneg (by omega)⟩
  have hk : k = (e + 1 - (precision : ℤ)) + (j : ℤ) := by omega
  have hpow : (2 : ℚ) ^ k = 2 ^ (e + 1 - (precision : ℤ)) * 2 ^ j := by
    rw [hk, zpow_add₀ (ne_of_gt h2), zpow_natCast]
  have hu : (0 : ℚ) < 2 ^ (e + 1 - (precision : ℤ)) := zpow_pos h2 _
  have hdiv : (n : ℚ) * 2 ^ k / 2 ^ (e + 1 - (precision : ℤ)) = ((n * 2 ^ j : ℤ) : ℚ) := by
    rw [div_eq_iff (ne_of_gt hu), hpow]
    push_cast
    ring
  rw [hdiv, roundHalfEven_intCast, hpow]
  push_cast
  ring

/-- A `float` value, given as an integer significand below `2^24` times a power
of two, is left unchanged by the rounding to `float`. -/
theorem roundFloat_of_scaled (x : ℚ) (n k : ℤ) (hn : 0 < n) (hfit : (n : ℚ) < 2 ^ 24)
    (hx : x = (n : ℚ) * 2 ^ k) : roundFloat x = x := by
  rw [hx]
  exact roundBinary_scaled_int 24 n k hn hfit

/-- A `double` value, given as an integer significand below `2^53` times a power
of two, is left unchanged by the rounding to `double`. -/
theorem roundDouble_of_scaled (x : ℚ) (n k : ℤ) (hn : 0 < n) (hfit : (n : ℚ) < 2 ^ 53)
    (hx : x = (n : ℚ) * 2 ^ k) : roundDouble x = x := by
  rw [hx]
  exact roundBinary_scaled_int 53 n k hn hfit

theorem roundBinary_binade_bounds (precision : ℕ) (hp : 1 ≤ precision) (x : ℚ) (hx : 0 < x) :
    (2 : ℚ) ^ Int.log 2 x ≤ roundBinary precision x
    ∧ roundBinary precision x ≤ (2 : ℚ) ^ (Int.log 2 x + 1) := by
  have h2 : (0 : ℚ) < 2 := by norm_num
  obtain ⟨hlo, hhi⟩ := log_binade x hx
  have hu : (0 : ℚ) < 2 ^ (Int.log 2 x + 1 - (precision : ℤ)) := zpow_pos h2 _
  rw [roundBinary_of_pos _ _ hx]
  obtain ⟨q, hq⟩ : ∃ q : ℕ, precision = q + 1 := ⟨precision - 1, by omega⟩
  have ha : (2 : ℚ) ^ Int.log 2 x
      = ((2 ^ q : ℤ) : ℚ) * 2 ^ (Int.log 2 x + 1 - (precision : ℤ)) := by
    have : Int.log 2 x = (q : ℤ) + (Int.log 2 x + 1 - (precision : ℤ)) := by
      rw [hq]; push_cast; ring
    nth_rewrite 1 [this]
    rw [zpow_add₀ (ne_of_gt h2), zpow_natCast]
    push_cast
    ring
  have hb : (2 : ℚ) ^ (Int.log 2 x + 1)
      = ((2 ^ precision : ℤ) : ℚ) * 2 ^ (Int.log 2 x + 1 - (precision : ℤ)) := by
    have : Int.log 2 x + 1 = (precision : ℤ) + (Int.log 2 x + 1 - (precision : ℤ)) := by ring
    nth_rewrite 1 [this]
    rw [zpow_add₀ (ne_of_gt h2), zpow_natCast]
    push_cast
    ring
  constructor
  · rw [ha]
    apply mul_le_mul_of_nonneg_right _ (le_of_lt hu)
    have h := roundHalfEven_mono ((2 ^ q : ℤ) : ℚ)
      (x / 2 ^ (Int.log 2 x + 1 - (precision : ℤ))) (by
        rw [le_div_iff₀ hu, ← ha]; exact hlo)
    rw [roundHalfEven_intCast] at h
    exact_mod_cast h
  · rw [hb]
    apply mul_le_mul_of_nonneg_right _ (le_of_lt hu)
    have h := roundHalfEven_mono (x / 2 ^ (Int.log 2 x + 1 - (precision : ℤ)))
      ((2 ^ precision : ℤ) : ℚ) (by
        rw [div_le_iff₀ hu, ← hb]; exact le_of_lt hhi)
    rw [roundHalfEven_intCast] at h
    exact_mod_cast h

theorem roundBinary_nonneg (precision : ℕ) (x : ℚ) (hx : 0 ≤ x) : 0 ≤ roundBinary precision x := by
  rcases eq_or_lt_of_le hx with h0 | hpos
  · rw [← h0, roundBinary_zero]
  · rw [roundBinary_of_pos _ _ hpos]
    have hu : (0 : ℚ) < 2 ^ (Int.log 2 x + 1 - (precision : ℤ)) := zpow_pos (by norm_num) _
    apply mul_nonneg _ (le_of_lt hu)
    have h := roundHalfEven_mono ((0 : ℤ) : ℚ)
      (x / 2 ^ (Int.log 2 x + 1 - (precision : ℤ))) (by
        push_cast; exact div_nonneg hx (le_of_lt hu))
    rw [roundHalfEven_intCast] at h
    exact_mod_cast h

/-- Rounding to a binary floating-point format is monotone on the non-negative
values. -/
theorem roundBinary_mono (precision : ℕ) (hp : 1 ≤ precision) (x y : ℚ) (hx : 0 ≤ x)
    (hxy : x ≤ y) : roundBinary precision x ≤ roundBinary precision y := by
  rcases eq_or_lt_of_le hx with h0 | hpos
  · rw [← h0, roundBinary_zero]
    exact roundBinary_nonneg precision y (le_trans hx hxy)
  · have hy : 0 < y := lt_of_lt_of_le hpos hxy
    have hlog : Int.log 2 x ≤ Int.log 2 y := Int.log_mono_right hpos hxy
    rcases eq_or_lt_of_le hlog with heq | hlt
    · rw [roundBinary_of_pos _ _ hpos, roundBinary_of_pos _ _ hy, heq]
      have hu : (0 : ℚ) < 2 ^ (Int.log 2 y + 1 - (precision : ℤ)) := zpow_pos (by norm_num) _
      apply mul_le_mul_of_nonneg_right _ (le_of_lt hu)
      have h := roundHalfEven_mono (x / 2 ^ (Int.log 2 y + 1 - (precision : ℤ)))
        (y / 2 ^ (Int.log 2 y + 1 - (precision : ℤ)))
        (div_le_div_of_nonneg_right hxy (le_of_lt hu))
      exact_mod_cast h
    · have h1 := (roundBinary_binade_bounds precision hp x hpos).2
      have h2 := (roundBinary_binade_bounds precision hp y hy).1
      have h3 : (2 : ℚ) ^ (Int.log 2 x + 1) ≤ 2 ^ Int.log 2 y :=
        zpow_le_zpow_right₀ (by norm_num) (by omega)
      linarith

/-- For an integer `B` with `0 ≤ B < 2^22` the values `B`, `B / 2` and `3 * B / 2`
are `float` values: the rounding to `float` leaves them unchanged. -/
theorem roundFloat_countdown_fixed (B : ℤ) (h0 : 0 ≤ B) (h1 : B < 2 ^ 22) :
    roundFloat (B : ℚ) = B
    ∧ roundFloat ((B : ℚ) * (1 / 2)) = (B : ℚ) * (1 / 2)
    ∧ roundFloat ((B : ℚ) * (3 / 2)) = (B : ℚ) * (3 / 2) := by
  rcases eq_or_lt_of_le h0 with hz | hpos
  · rw [← hz]
    simp only [Int.cast_zero, zero_mul]
    exact ⟨roundBinary_zero 24, roundBinary_zero 24, roundBinary_zero 24⟩
  · have hq : (B : ℚ) < 2 ^ 22 := by exact_mod_cast h1
    refine ⟨roundFloat_of_scaled _ B 0 hpos (by linarith) (by simp),
      roundFloat_of_scaled _ B (-1) hpos (by linarith) (by norm_num),
      roundFloat_of_scaled _ (3 * B) (-1) (by omega) (by push_cast; linarith) ?_⟩
    push_cast
    norm_num
    ring

/-- The `float` literal `0.01f` is the binary32 value `5368709 / 2^29`. -/
theorem roundFloat_one_hundredth : roundFloat (1 / 100) = 5368709 / 536870912 := by
  have h := roundBinary_of_binade 24 (1 / 100) (-7) (by norm_num [abs_of_pos])
    (by norm_num [abs_of_pos])
  have hr : roundHalfEven ((1 / 100 : ℚ) / 2 ^ ((-7 : ℤ) + 1 - ((24 : ℕ) : ℤ))) = 10737418 :=
    roundHalfEven_of_lt _ 10737418 (by norm_num) (by norm_num)
  unfold roundFloat
  rw [h, hr]
  norm_num

/-! ### The rounded read position of Chorus (C6) -/

/-- C6 at the failing input: a Chorus prepared at 44100 Hz has a delay line of
2205 cells.  With the write cursor at 631 and the delay `631 + 2^-14` (a `float`
in `[1, 2204]`), `readPosFloat` is `-2^-14`, negative, so the wrap
`readPosFloat += delayBufferSize` is evaluated in `float`: `2205 - 2^-14` is not
a `float` (the spacing of `float` values near 2205 is `2^-12`) and rounds to
2205.  The first read index is then 2205, the capacity, and `getSample` reads
past the delay line.  Over exact arithmetic the index is 2204, and with exact
rounding the rounded lambda is the lambda of the exact model. -/
theorem C6_rounded_read_position_out_of_range :
    roundFloat (631 + 1 / 16384) = 631 + 1 / 16384
    ∧ (1 ≤ (631 + 1 / 16384 : ℚ) ∧ (631 + 1 / 16384 : ℚ) ≤ ((2205 - 1 : ℤ) : ℚ))
    ∧ (Chorus.prepare {} 44100).delayBuffer.numSamples = 2205
    ∧ Chorus.readPosFloatRounded Rounding.ieee 2205 631 (631 + 1 / 16384) = 2205
    ∧ Chorus.readInterpolatedRounded Rounding.ieee (Chorus.prepare {} 44100).delayBuffer 631 0
        (631 + 1 / 16384) = .error .indexOutOfRange
    ∧ truncToInt (Chorus.readPosFloat 2205 631 (631 + 1 / 16384)) = 2204
    ∧ ∀ (buffer : AudioBuffer) (w : ℤ) (channel : ℕ) (d : ℚ),
        Chorus.readInterpolatedRounded Rounding.exact buffer w channel d
          = Chorus.readInterpolated buffer w channel d := by
  have hd : roundFloat (631 + 1 / 16384) = 631 + 1 / 16384 :=
    roundFloat_of_scaled _ 10338305 (-14) (by norm_num) (by norm_num) (by norm_num)
  have hnum : (Chorus.prepare {} 44100).delayBuffer.numSamples = 2205 := by
    show truncToInt (44100 * (5 / 100)) = 2205
    norm_num [truncToInt, Int.floor_eq_iff]
  have hw : roundFloat (((631 : ℤ) : ℚ)) = 631 := by
    have h := roundFloat_of_scaled 631 631 0 (by norm_num) (by norm_num) (by norm_num)
    push_cast
    exact h
  have hsub : roundFloat (631 - (631 + 1 / 16384)) = -(1 / 16384) := by
    have h := roundBinary_of_binade 24 (-(1 / 16384)) (-14)
      (by rw [abs_neg, abs_of_pos (by norm_num)]; norm_num)
      (by rw [abs_neg, abs_of_pos (by norm_num)]; norm_num)
    have hq : (-(1 / 16384) : ℚ) / 2 ^ ((-14 : ℤ) + 1 - ((24 : ℕ) : ℤ))
        = ((-8388608 : ℤ) : ℚ) := by norm_num
    rw [hq, roundHalfEven_intCast] at h
    have hx : (631 - (631 + 1 / 16384) : ℚ) = -(1 / 16384) := by norm_num
    unfold roundFloat
    rw [hx, h]
    norm_num
  have hcap : roundFloat (((2205 : ℤ) : ℚ)) = 2205 := by
    have h := roundFloat_of_scaled 2205 2205 0 (by norm_num) (by norm_num) (by norm_num)
    push_cast
    exact h
  have hwrap : roundFloat (-(1 / 16384) + 2205) = 2205 := by
    have h := roundBinary_of_binade 24 (-(1 / 16384) + 2205) 11
      (by rw [abs_of_pos (by norm_num)]; norm_num)
      (by rw [abs_of_pos (by norm_num)]; norm_num)
    have hr : roundHalfEven ((-(1 / 16384) + 2205 : ℚ) / 2 ^ ((11 : ℤ) + 1 - ((24 : ℕ) : ℤ)))
        = 9031679 + 1 :=
      roundHalfEven_of_gt _ 9031679 (by norm_num) (by norm_num)
    unfold roundFloat
    rw [h, hr]
    norm_num
  have hpos : Chorus.readPosFloatRounded Rounding.ieee 2205 631 (631 + 1 / 16384) = 2205 := by
    simp only [Chorus.readPosFloatRounded, Rounding.ieee, hw, hsub, hcap]
    rw [if_pos (by norm_num), hwrap]
  refine ⟨hd, ⟨by norm_num, by norm_num⟩, hnum, hpos, ?_, ?_, ?_⟩
  · have hmod : cMod (2205 + 1) 2205 = .ok 1 := by
      rw [cMod_eq_emod _ _ (by norm_num) (by norm_num)]
      rfl
    have hget : (Chorus.prepare {} 44100).delayBuffer.getSample 0 2205
        = .error .indexOutOfRange := by
      unfold AudioBuffer.getSample
      rw [if_neg]
      intro hin
      have h3 := hin.2.2
      rw [hnum] at h3
      omega
    have ht : truncToInt (2205 : ℚ) = 2205 := by
      norm_num [truncToInt]
    simp only [Chorus.readInterpolatedRounded, hnum, hpos, ht, hmod, except_ok_bind, hget]
    rfl
  · have hx : Chorus.readPosFloat 2205 631 (631 + 1 / 16384) = 2205 - 1 / 16384 := by
      simp only [Chorus.readPosFloat]
      norm_num
    rw [hx]
    norm_num [truncToInt, Int.floor_eq_iff]
  · intro buffer w channel d
    rfl

theorem Rounding.exact_monotone : Rounding.exact.Monotone :=
  ⟨fun _ _ _ h => h, fun _ _ _ h => h, rfl, rfl⟩

theorem Rounding.ieee_monotone : Rounding.ieee.Monotone :=
  ⟨fun x y hx h => roundBinary_mono 24 (by norm_num) x y hx h,
   fun x y hx h => roundBinary_mono 53 (by norm_num) x y hx h,
   roundBinary_zero 24, roundBinary_zero 53⟩

theorem Rounding.Monotone.float_nonneg {r : Rounding} (hr : r.Monotone) (x : ℚ) (hx : 0 ≤ x) :
    0 ≤ r.toFloat x := by
  have h := hr.float_mono 0 x (le_refl 0) hx
  rwa [hr.float_zero] at h

theorem Rounding.Monotone.double_nonneg {r : Rounding} (hr : r.Monotone) (x : ℚ) (hx : 0 ≤ x) :
    0 ≤ r.toDouble x := by
  have h := hr.double_mono 0 x (le_refl 0) hx
  rwa [hr.double_zero] at h

theorem truncToInt_mono (x y : ℚ) (hx : 0 ≤ x) (hxy : x ≤ y) : truncToInt x ≤ truncToInt y := by
  rw [truncToInt_of_nonneg _ hx, truncToInt_of_nonneg _ (le_trans hx hxy)]
  exact Int.floor_mono hxy

/-! ### Rescheduling of the glitch engine (C23) -/

/-- The base countdown is not negative and does not grow with the rate, also
with the rounding of the floating-point operations. -/
theorem Glitch.baseCountdown_antitone (r : Rounding) (hr : r.Monotone) (sampleRate rate1 rate2 : ℚ)
    (hsr : 0 ≤ sampleRate) (h12 : rate1 ≤ rate2) (h2 : rate2 ≤ 1) :
    0 ≤ Glitch.baseCountdown r sampleRate rate2
    ∧ Glitch.baseCountdown r sampleRate rate2 ≤ Glitch.baseCountdown r sampleRate rate1 := by
  have ha0 : 0 ≤ r.toFloat (1 - rate2) := hr.float_nonneg _ (by linarith)
  have ha : r.toFloat (1 - rate2) ≤ r.toFloat (1 - rate1) :=
    hr.float_mono _ _ (by linarith) (by linarith)
  have hb0 : 0 ≤ r.toFloat (r.toFloat (1 - rate2) * 2000) := hr.float_nonneg _ (by linarith)
  have hb : r.toFloat (r.toFloat (1 - rate2) * 2000) ≤ r.toFloat (r.toFloat (1 - rate1) * 2000) :=
    hr.float_mono _ _ (by linarith) (by linarith)
  have hc0 : 0 ≤ r.toFloat (50 + r.toFloat (r.toFloat (1 - rate2) * 2000)) :=
    hr.float_nonneg _ (by linarith)
  have hc : r.toFloat (50 + r.toFloat (r.toFloat (1 - rate2) * 2000))
      ≤ r.toFloat (50 + r.toFloat (r.toFloat (1 - rate1) * 2000)) :=
    hr.float_mono _ _ (by linarith) (by linarith)
  have hd0 : 0 ≤ r.toDouble (r.toFloat (50 + r.toFloat (r.toFloat (1 - rate2) * 2000))
      * sampleRate) := hr.double_nonneg _ (mul_nonneg hc0 hsr)
  have hd : r.toDouble (r.toFloat (50 + r.toFloat (r.toFloat (1 - rate2) * 2000)) * sampleRate)
      ≤ r.toDouble (r.toFloat (50 + r.toFloat (r.toFloat (1 - rate1) * 2000)) * sampleRate) :=
    hr.double_mono _ _ (mul_nonneg hc0 hsr) (mul_le_mul_of_nonneg_right hc hsr)
  have he0 : 0 ≤ r.toDouble (r.toDouble (r.toFloat (50 + r.toFloat (r.toFloat (1 - rate2) * 2000))
      * sampleRate) / 1000) := hr.double_nonneg _ (div_nonneg hd0 (by norm_num))
  have he : r.toDouble (r.toDouble (r.toFloat (50 + r.toFloat (r.toFloat (1 - rate2) * 2000))
        * sampleRate) / 1000)
      ≤ r.toDouble (r.toDouble (r.toFloat (50 + r.toFloat (r.toFloat (1 - rate1) * 2000))
        * sampleRate) / 1000) :=
    hr.double_mono _ _ (div_nonneg hd0 (by norm_num))
      (div_le_div_of_nonneg_right hd (by norm_num))
  exact ⟨truncToInt_nonneg _ he0, truncToInt_mono _ _ he0 he⟩

/-- Over exact arithmetic the two rescheduling lines give the floor of the
product of the floored base countdown and the jitter factor. -/
theorem Glitch.nextCountdown_exact (sampleRate rate u : ℚ) (hsr : 0 ≤ sampleRate)
    (hrate : rate ≤ 1) (hu : 0 ≤ u) :
    Glitch.baseCountdown Rounding.exact sampleRate rate
        = ⌊(50 + (1 - rate) * 2000) * sampleRate / 1000⌋
    ∧ Glitch.nextCountdown Rounding.exact sampleRate rate u
        = ⌊((⌊(50 + (1 - rate) * 2000) * sampleRate / 1000⌋ : ℤ) : ℚ) * (1 / 2 + u)⌋ := by
  have hB : 0 ≤ (50 + (1 - rate) * 2000) * sampleRate / 1000 :=
    div_nonneg (mul_nonneg (by linarith) hsr) (by norm_num)
  have hb : Glitch.baseCountdown Rounding.exact sampleRate rate
      = ⌊(50 + (1 - rate) * 2000) * sampleRate / 1000⌋ := by
    simp only [Glitch.baseCountdown, Rounding.exact]
    exact truncToInt_of_nonneg _ hB
  refine ⟨hb, ?_⟩
  have hBf : (0 : ℚ) ≤ ((⌊(50 + (1 - rate) * 2000) * sampleRate / 1000⌋ : ℤ) : ℚ) := by
    exact_mod_cast Int.floor_nonneg.mpr hB
  simp only [Glitch.nextCountdown, hb]
  simp only [Rounding.exact]
  exact truncToInt_of_nonneg _ (mul_nonneg hBf (by linarith))

/-- C23 as stated fails in the arithmetic of the code: the product
`samplesUntilNextGlitch_ * (0.5f + dist_(rng_))` is a `float` product, rounded
to `float` before `static_cast<int>`.  At 44100 Hz with rate 1/2 (`B = 46305`)
and the draw `u = 5239415 / 2^23` (a `float` in `[0,1)`, so `0.5f + u` is the
`float` `9433719 / 2^23`) the exact product 52073.9986... rounds to the `float`
52074, so the countdown is 52074 and not `floor (B * (0.5 + u)) = 52073`. -/
theorem C23_rounded_product_exceeds_floor :
    roundFloat (5239415 / 8388608) = 5239415 / 8388608
    ∧ Glitch.baseCountdown Rounding.ieee 44100 (1 / 2) = 46305
    ∧ ⌊(50 + (1 - (1 / 2 : ℚ)) * 2000) * 44100 / 1000⌋ = 46305
    ∧ Glitch.nextCountdown Rounding.ieee 44100 (1 / 2) (5239415 / 8388608) = 52074
    ∧ ⌊((46305 : ℤ) : ℚ) * (1 / 2 + 5239415 / 8388608)⌋ = 52073 := by
  have hu : roundFloat (5239415 / 8388608) = 5239415 / 8388608 :=
    roundFloat_of_scaled _ 5239415 (-23) (by norm_num) (by norm_num) (by norm_num)
  have h1 : roundFloat (1 - 1 / 2) = 1 / 2 := by
    have h := roundFloat_of_scaled (1 / 2) 1 (-1) (by norm_num) (by norm_num) (by norm_num)
    norm_num
    exact h
  have h2 : roundFloat (1 / 2 * 2000) = 1000 := by
    have h := roundFloat_of_scaled 1000 1000 0 (by norm_num) (by norm_num) (by norm_num)
    norm_num
    exact h
  have h3 : roundFloat (50 + 1000) = 1050 := by
    have h := roundFloat_of_scaled 1050 1050 0 (by norm_num) (by norm_num) (by norm_num)
    norm_num
    exact h
  have h4 : roundDouble (1050 * 44100) = 46305000 := by
    have h := roundDouble_of_scaled 46305000 46305000 0 (by norm_num) (by norm_num) (by norm_num)
    norm_num
    exact h
  have h5 : roundDouble (46305000 / 1000) = 46305 := by
    have h := roundDouble_of_scaled 46305 46305 0 (by norm_num) (by norm_num) (by norm_num)
    norm_num
    exact h
  have hB : Glitch.baseCountdown Rounding.ieee 44100 (1 / 2) = 46305 := by
    simp only [Glitch.baseCountdown, Rounding.ieee, h1, h2, h3, h4, h5]
    norm_num [truncToInt]
  have h6 : roundFloat (((46305 : ℤ) : ℚ)) = 46305 := by
    have h := roundFloat_of_scaled 46305 46305 0 (by norm_num) (by norm_num) (by norm_num)
    push_cast
    exact h
  have h7 : roundFloat (1 / 2 + 5239415 / 8388608) = 9433719 / 8388608 := by
    have h := roundFloat_of_scaled (9433719 / 8388608) 9433719 (-23) (by norm_num) (by norm_num)
      (by norm_num)
    norm_num
    exact h
  have h8 : roundFloat (46305 * (9433719 / 8388608)) = 52074 := by
    have h := roundBinary_of_binade 24 (46305 * (9433719 / 8388608)) 15
      (by norm_num [abs_of_pos]) (by norm_num [abs_of_pos])
    have hr : roundHalfEven ((46305 * (9433719 / 8388608) : ℚ)
        / 2 ^ ((15 : ℤ) + 1 - ((24 : ℕ) : ℤ))) = 13330943 + 1 :=
      roundHalfEven_of_gt _ 13330943 (by norm_num) (by norm_num)
    unfold roundFloat
    rw [h, hr]
    norm_num
  refine ⟨hu, hB, ?_, ?_, ?_⟩
  · rw [Int.floor_eq_iff]; norm_num
  · simp only [Glitch.nextCountdown, hB]
    simp only [Rounding.ieee, h6, h7, h8]
    norm_num [truncToInt]
  · rw [Int.floor_eq_iff]; norm_num

/-- C23 (amended): when the last repeat of a grain ends (the playback offset
reaches the grain length and the repeat counter reaches its target), the engine
leaves the Glitching state and the next countdown is
`int (fl (B * fl (0.5 + u)))` with `B = int ((50 + (1 - rate) * 2000) *
sampleRate / 1000)` and `u` the next draw, `fl` being the rounding of the `float`
operations.  Over exact arithmetic this is `floor (B * (0.5 + u))`.  For every
rounding `r` that is monotone and leaves 0, 1/2, 3/2, `B`, `B / 2` and
`3 * B / 2` unchanged (as the rounding to `float` does for `B` below `2^22`), a
sample rate that is not negative, rate at most 1 and `u` in `[0,1)`: the jitter
factor lies in `[0.5, 1.5]`, the countdown lies between `floor (0.5 * B)` and
`1.5 * B`, and with the same draw and sample rate a higher rate (up to 1) never
gives a longer countdown. -/
theorem C23_next_countdown (draws : ℕ → ℚ) (s : Glitch.State) (rate2 : ℚ) (r : Rounding)
    (hend1 : s.captureLength ≤ s.glitchPlaybackPos + 1)
    (hend2 : s.glitchRepeatCount ≤ s.currentRepeat + 1)
    (hsr : 0 ≤ s.sampleRate) (hr1 : s.params.rate ≤ 1)
    (hu0 : 0 ≤ draws s.rngCalls) (hu1 : draws s.rngCalls < 1)
    (hr2 : s.params.rate ≤ rate2) (hr3 : rate2 ≤ 1)
    (hr : r.Monotone) (hhalf : r.toFloat (1 / 2) = 1 / 2) (h32 : r.toFloat (3 / 2) = 3 / 2)
    (hB1 : r.toFloat ((Glitch.baseCountdown r s.sampleRate s.params.rate : ℤ) : ℚ)
        = ((Glitch.baseCountdown r s.sampleRate s.params.rate : ℤ) : ℚ))
    (hB2 : r.toFloat (((Glitch.baseCountdown r s.sampleRate s.params.rate : ℤ) : ℚ) * (1 / 2))
        = ((Glitch.baseCountdown r s.sampleRate s.params.rate : ℤ) : ℚ) * (1 / 2))
    (hB3 : r.toFloat (((Glitch.baseCountdown r s.sampleRate s.params.rate : ℤ) : ℚ) * (3 / 2))
        = ((Glitch.baseCountdown r s.sampleRate s.params.rate : ℤ) : ℚ) * (3 / 2)) :
    (Glitch.advancePlayback draws s).isGlitching = false
    ∧ (Glitch.advancePlayback draws s).samplesUntilNextGlitch
        = Glitch.nextCountdown Rounding.exact s.sampleRate s.params.rate (draws s.rngCalls)
    ∧ Glitch.nextCountdown Rounding.exact s.sampleRate s.params.rate (draws s.rngCalls)
        = ⌊((⌊(50 + (1 - s.params.rate) * 2000) * s.sampleRate / 1000⌋ : ℤ) : ℚ)
            * (1 / 2 + draws s.rngCalls)⌋
    ∧ (1 / 2 ≤ r.toFloat (1 / 2 + draws s.rngCalls)
        ∧ r.toFloat (1 / 2 + draws s.rngCalls) ≤ 3 / 2)
    ∧ ⌊(1 / 2 : ℚ) * ((Glitch.baseCountdown r s.sampleRate s.params.rate : ℤ) : ℚ)⌋
        ≤ Glitch.nextCountdown r s.sampleRate s.params.rate (draws s.rngCalls)
    ∧ ((Glitch.nextCountdown r s.sampleRate s.params.rate (draws s.rngCalls) : ℤ) : ℚ)
        ≤ 3 / 2 * ((Glitch.baseCountdown r s.sampleRate s.params.rate : ℤ) : ℚ)
    ∧ Glitch.nextCountdown r s.sampleRate rate2 (draws s.rngCalls)
        ≤ Glitch.nextCountdown r s.sampleRate s.params.rate (draws s.rngCalls) := by
  obtain ⟨hbase, hnext⟩ :=
    Glitch.nextCountdown_exact s.sampleRate s.params.rate (draws s.rngCalls) hsr hr1 hu0
  have hf0 : 1 / 2 ≤ r.toFloat (1 / 2 + draws s.rngCalls) := by
    have h := hr.float_mono (1 / 2) (1 / 2 + draws s.rngCalls) (by norm_num) (by linarith)
    rwa [hhalf] at h
  have hf1 : r.toFloat (1 / 2 + draws s.rngCalls) ≤ 3 / 2 := by
    have h := hr.float_mono (1 / 2 + draws s.rngCalls) (3 / 2) (by linarith) (by linarith)
    rwa [h32] at h
  obtain ⟨hb0, -⟩ :=
    Glitch.baseCountdown_antitone r hr s.sampleRate s.params.rate s.params.rate hsr (le_refl _) hr1
  obtain ⟨hb20, hb21⟩ :=
    Glitch.baseCountdown_antitone r hr s.sampleRate s.params.rate rate2 hsr hr2 hr3
  have hbq : (0 : ℚ) ≤ ((Glitch.baseCountdown r s.sampleRate s.params.rate : ℤ) : ℚ) := by
    exact_mod_cast hb0
  have hb2q : (0 : ℚ) ≤ ((Glitch.baseCountdown r s.sampleRate rate2 : ℤ) : ℚ) := by
    exact_mod_cast hb20
  have hb21q : ((Glitch.baseCountdown r s.sampleRate rate2 : ℤ) : ℚ)
      ≤ ((Glitch.baseCountdown r s.sampleRate s.params.rate : ℤ) : ℚ) := by
    exact_mod_cast hb21
  have hprod_lo : ((Glitch.baseCountdown r s.sampleRate s.params.rate : ℤ) : ℚ) * (1 / 2)
      ≤ r.toFloat (r.toFloat ((Glitch.baseCountdown r s.sampleRate s.params.rate : ℤ) : ℚ)
          * r.toFloat (1 / 2 + draws s.rngCalls)) := by
    have h := hr.float_mono
      (((Glitch.baseCountdown r s.sampleRate s.params.rate : ℤ) : ℚ) * (1 / 2))
      (r.toFloat ((Glitch.baseCountdown r s.sampleRate s.params.rate : ℤ) : ℚ)
          * r.toFloat (1 / 2 + draws s.rngCalls))
      (by linarith) (by rw [hB1]; exact mul_le_mul_of_nonneg_left hf0 hbq)
    rwa [hB2] at h
  have hprod_hi : r.toFloat (r.toFloat ((Glitch.baseCountdown r s.sampleRate s.params.rate : ℤ) : ℚ)
          * r.toFloat (1 / 2 + draws s.rngCalls))
      ≤ ((Glitch.baseCountdown r s.sampleRate s.params.rate : ℤ) : ℚ) * (3 / 2) := by
    have h := hr.float_mono
      (r.toFloat ((Glitch.baseCountdown r s.sampleRate s.params.rate : ℤ) : ℚ)
          * r.toFloat (1 / 2 + draws s.rngCalls))
      (((Glitch.baseCountdown r s.sampleRate s.params.rate : ℤ) : ℚ) * (3 / 2))
      (by rw [hB1]; exact mul_nonneg hbq (by linarith))
      (by rw [hB1]; exact mul_le_mul_of_nonneg_left hf1 hbq)
    rwa [hB3] at h
  have hprod0 : 0 ≤ r.toFloat
      (r.toFloat ((Glitch.baseCountdown r s.sampleRate s.params.rate : ℤ) : ℚ)
          * r.toFloat (1 / 2 + draws s.rngCalls)) := by linarith
  refine ⟨?_, ?_, hnext, ⟨hf0, hf1⟩, ?_, ?_, ?_⟩
  · unfold Glitch.advancePlayback
    simp only
    rw [if_pos (by omega), if_pos (by omega)]
  · rw [hnext]
    have hB : 0 ≤ (50 + (1 - s.params.rate) * 2000) * s.sampleRate / 1000 :=
      div_nonneg (mul_nonneg (by linarith) hsr) (by norm_num)
    have hBf : (0 : ℚ) ≤ ((⌊(50 + (1 - s.params.rate) * 2000) * s.sampleRate / 1000⌋ : ℤ) : ℚ) := by
      exact_mod_cast Int.floor_nonneg.mpr hB
    unfold Glitch.advancePlayback
    simp only
    rw [if_pos (by omega), if_pos (by omega)]
    simp only [truncToInt_of_nonneg _ hB,
      truncToInt_of_nonneg _ (mul_nonneg hBf (by linarith : (0 : ℚ) ≤ 1 / 2 + draws s.rngCalls))]
  · show _ ≤ truncToInt _
    rw [truncToInt_of_nonneg _ hprod0]
    apply Int.floor_mono
    linarith
  · show ((truncToInt _ : ℤ) : ℚ) ≤ _
    rw [truncToInt_of_nonneg _ hprod0]
    refine le_trans (Int.floor_le _) ?_
    linarith
  · show truncToInt _ ≤ truncToInt _
    apply truncToInt_mono
    · exact hr.float_nonneg _ (mul_nonneg (hr.float_nonneg _ hb2q) (by linarith))
    · apply hr.float_mono _ _ (mul_nonneg (hr.float_nonneg _ hb2q) (by linarith))
      exact mul_le_mul_of_nonneg_right (hr.float_mono _ _ hb2q hb21q) (by linarith)

/-- Witness for C23: the end of a one-repeat grain of 64 samples at 44100 Hz with
rate 1/2 (`B = 46305`) and draw 1/4, compared with rate 3/4, in IEEE arithmetic. -/
theorem C23_next_countdown_witness :
    (Glitch.advancePlayback (fun _ => 1 / 4)
      { captureLength := 64, glitchPlaybackPos := 63, glitchRepeatCount := 1,
        isGlitching := true }).isGlitching = false
    ∧ Glitch.nextCountdown Rounding.ieee 44100 (3 / 4) (1 / 4)
        ≤ Glitch.nextCountdown Rounding.ieee 44100 (5 / 10) (1 / 4) := by
  have h1 : roundFloat (1 - 5 / 10) = 1 / 2 := by
    have h := roundFloat_of_scaled (1 / 2) 1 (-1) (by norm_num) (by norm_num) (by norm_num)
    norm_num
    exact h
  have h2 : roundFloat (1 / 2 * 2000) = 1000 := by
    have h := roundFloat_of_scaled 1000 1000 0 (by norm_num) (by norm_num) (by norm_num)
    norm_num
    exact h
  have h3 : roundFloat (50 + 1000) = 1050 := by
    have h := roundFloat_of_scaled 1050 1050 0 (by norm_num) (by norm_num) (by norm_num)
    norm_num
    exact h
  have h4 : roundDouble (1050 * 44100) = 46305000 := by
    have h := roundDouble_of_scaled 46305000 46305000 0 (by norm_num) (by norm_num) (by norm_num)
    norm_num
    exact h
  have h5 : roundDouble (46305000 / 1000) = 46305 := by
    have h := roundDouble_of_scaled 46305 46305 0 (by norm_num) (by norm_num) (by norm_num)
    norm_num
    exact h
  have hB : Glitch.baseCountdown Rounding.ieee 44100 (5 / 10) = 46305 := by
    simp only [Glitch.baseCountdown, Rounding.ieee, h1, h2, h3, h4, h5]
    norm_num [truncToInt]
  have hfix := roundFloat_countdown_fixed (Glitch.baseCountdown Rounding.ieee 44100 (5 / 10))
    (by rw [hB]; norm_num) (by rw [hB]; norm_num)
  have h := C23_next_countdown (fun _ => 1 / 4)
    { captureLength := 64, glitchPlaybackPos := 63, glitchRepeatCount := 1,
      isGlitching := true } (3 / 4) Rounding.ieee
    (by norm_num) (by norm_num) (by norm_num) (by norm_num) (by norm_num) (by norm_num)
    (by norm_num) (by norm_num) Rounding.ieee_monotone
    (roundFloat_of_scaled _ 1 (-1) (by norm_num) (by norm_num) (by norm_num))
    (roundFloat_of_scaled _ 3 (-1) (by norm_num) (by norm_num) (by norm_num))
    hfix.1 hfix.2.1 hfix.2.2
  exact ⟨h.1, h.2.2.2.2.2.2⟩

/-! ### Derived settings of Distortion (C30) -/

theorem Distortion.setParameter_consistent (s : Distortion.State) (index : ℤ) (value : ℚ) :
    Distortion.Consistent (Distortion.setParameter s index value) := by
  constructor
  · simp only [Distortion.setParameter, Distortion.updateFilter]
    ring
  · simp only [Distortion.setParameter, Distortion.updateFilter, Distortion.quartileCurve]

theorem Distortion.setParams_consistent (s : Distortion.State) (params : DistortionParams) :
    Distortion.Consistent (Distortion.setParams s params) := by
  have h := Distortion.setParameter_consistent { s with params := params } 3 params.curveType
  exact ⟨h.1, h.2⟩

/-- C30 at the failing input: a constructed Distortion holds `driveGain_ = 1`
next to the default drive parameter 0.5, for which `1 + 49 * drive` is 25.5, and
`prepare` does not recompute the gain: the drive loop of `process` then shapes
`x * 1`, not `x * 25.5`.  The drive loop always multiplies by `driveGain_`, the
curve of a constructed instance does match its `curveType`, and after any
`setParameter` or `setParams` call both settings agree with the stored
parameters. -/
theorem C30_distortion_gain_stale_after_construction (m : MathFns) (exp : ℚ → ℚ) (x : ℚ) :
    ({} : Distortion.State).driveGain = 1
    ∧ 1 + 49 * ({} : Distortion.State).params.drive = 51 / 2
    ∧ ¬ Distortion.Consistent {}
    ∧ ¬ Distortion.Consistent (Distortion.prepare {} 44100)
    ∧ Distortion.applyDrive m exp (Distortion.prepare {} 44100) [x] = [m.tanh (x * 1)]
    ∧ ({} : Distortion.State).curveType
        = Distortion.quartileCurve ({} : Distortion.State).params.curveType
    ∧ (∀ (s : Distortion.State) (data : List ℚ),
        Distortion.applyDrive m exp s data
          = data.map (fun v => Distortion.processSample m exp s (v * s.driveGain)))
    ∧ ∀ (s : Distortion.State) (call : ParamCall DistortionParams),
        Distortion.Consistent (Distortion.applyCall s call) := by
  have hdrive : 1 + 49 * ({} : Distortion.State).params.drive = 51 / 2 := by
    show 1 + 49 * (5 / 10 : ℚ) = 51 / 2
    norm_num
  refine ⟨rfl, hdrive, ?_, ?_, rfl, ?_, fun _ _ => rfl, ?_⟩
  · intro h
    have h1 : (1 : ℚ) = 1 + 49 * ({} : Distortion.State).params.drive := h.1
    rw [hdrive] at h1
    norm_num at h1
  · intro h
    have h1 : (1 : ℚ) = 1 + 49 * ({} : Distortion.State).params.drive := h.1
    rw [hdrive] at h1
    norm_num at h1
  · show Distortion.CurveType.SoftClip = Distortion.quartileCurve 0
    norm_num [Distortion.quartileCurve]
  · intro s call
    cases call with
    | setParameter index value => exact Distortion.setParameter_consistent s index value
    | setParams params => exact Distortion.setParams_consistent s params

/-! ### The phaser sweep (C26) -/

theorem Chorus.chorus_reset_ready (s : Chorus.State) (hch : s.delayBuffer.numChannels = 2)
    (hcap : 1 ≤ s.delayBuffer.numSamples) : Chorus.Ready (Chorus.reset s) :=
  ⟨hch, hcap, le_refl 0, lt_of_lt_of_le zero_lt_one hcap⟩

/-- C27: a Chorus with a two-channel delay line of at least one cell, feedback
and dry/wet in `[0,1]`, is reset and then fed any number of blocks whose samples
all have magnitude at most `A`: every call of `Chorus::process` returns, every
cell of the delay line (hence every value written so far) has magnitude at most
`A / (1 - 0.7 * feedback)`, which is at most `A / 0.3`, and every output sample
has magnitude at most that same bound. -/
theorem C27_chorus_bounded_state (m : MathFns) (stereo : Bool) (s : Chorus.State) (A : ℚ)
    (blocks : List (List Frame))
    (hch : s.delayBuffer.numChannels = 2) (hcap : 1 ≤ s.delayBuffer.numSamples)
    (hA : 0 ≤ A)
    (hfb0 : 0 ≤ s.params.feedback) (hfb1 : s.params.feedback ≤ 1)
    (hdw0 : 0 ≤ s.params.dryWet) (hdw1 : s.params.dryWet ≤ 1)
    (hin : ∀ block ∈ blocks, ∀ x ∈ block, |x.1| ≤ A ∧ (stereo = true → |x.2| ≤ A)) :
    ∃ s1 outs,
      Chorus.processBlocks m stereo (Chorus.reset s) blocks = .ok (s1, outs)
      ∧ (∀ c i, |s1.delayBuffer.data c i| ≤ A / (1 - 7 / 10 * s.params.feedback))
      ∧ A / (1 - 7 / 10 * s.params.feedback) ≤ A / (3 / 10)
      ∧ ∀ out ∈ outs, ∀ y ∈ out,
          |y.1| ≤ A / (1 - 7 / 10 * s.params.feedback)
          ∧ (stereo = true → |y.2| ≤ A / (1 - 7 / 10 * s.params.feedback)) := by
  have hden : 0 < 1 - 7 / 10 * s.params.feedback := by linarith
  have hBeq : A / (1 - 7 / 10 * s.params.feedback) * (1 - 7 / 10 * s.params.feedback) = A :=
    div_mul_cancel₀ _ hden.ne'
  have hB0 : 0 ≤ A / (1 - 7 / 10 * s.params.feedback) := div_nonneg hA hden.le
  have hle : A / (1 - 7 / 10 * s.params.feedback) ≤ A / (3 / 10) :=
    div_le_div_of_nonneg_left hA (by norm_num) (by linarith)
  have hAB : A ≤ A / (1 - 7 / 10 * s.params.feedback) := by
    rw [le_div_iff₀ hden]
    nlinarith
  obtain ⟨s1, outs, hrun, -, -, hcells, houts⟩ :=
    Chorus.processBlocks_bounded m stereo A (A / (1 - 7 / 10 * s.params.feedback)) blocks
      (Chorus.reset s) (Chorus.chorus_reset_ready s hch hcap) hfb0
      (by
        show A + s.params.feedback * (7 / 10) * (A / (1 - 7 / 10 * s.params.feedback)) ≤ _
        linarith)
      hin
      (by
        intro c i
        show |(0 : ℚ)| ≤ _
        rw [abs_zero]
        exact hB0)
  exact ⟨s1, outs, hrun, hcells, hle, houts hdw0 hdw1 hAB⟩

/-- Witness for C27: one block of three frames of level 1/4 through a Chorus
with feedback 1/2 prepared at 44100 Hz. -/
theorem C27_chorus_bounded_state_witness :
    ∃ s1 outs,
      Chorus.processBlocks MathFns.sample true
          (Chorus.reset (Chorus.prepare { params := { feedback := 1 / 2 } } 44100))
          [List.replicate 3 (1 / 4, 1 / 4)] = .ok (s1, outs)
      ∧ ∀ c i, |s1.delayBuffer.data c i| ≤ 1 / 4 / (1 - 7 / 10 * (1 / 2)) := by
  have hnum : (Chorus.prepare { params := { feedback := 1 / 2 } } 44100).delayBuffer.numSamples
      = 2205 := by
    show truncToInt (44100 * (5 / 100)) = 2205
    norm_num [truncToInt, Int.floor_eq_iff]
  obtain ⟨s1, outs, hrun, hcells, -, -⟩ :=
    C27_chorus_bounded_state MathFns.sample true
      (Chorus.prepare { params := { feedback := 1 / 2 } } 44100) (1 / 4)
      [List.replicate 3 (1 / 4, 1 / 4)] rfl (by rw [hnum]; norm_num) (by norm_num)
      (by show (0 : ℚ) ≤ 1 / 2; norm_num) (by show (1 / 2 : ℚ) ≤ 1; norm_num)
      (by show (0 : ℚ) ≤ 5 / 10; norm_num) (by show (5 / 10 : ℚ) ≤ 1; norm_num)
      (by
        intro block hblock x hx
        rw [List.mem_singleton.mp hblock] at hx
        rw [List.eq_of_mem_replicate hx]
        have h : |(1 / 4 : ℚ)| ≤ 1 / 4 := by rw [abs_of_pos (by norm_num)]
        exact ⟨h, fun _ => h⟩)
  exact ⟨s1, outs, hrun, hcells⟩

/-! ### Cursors and LFO phases (C24, C25) -/

theorem wrap_phase_mem (p inc : ℚ) (hp0 : 0 ≤ p) (hp1 : p < 1) (hi0 : 0 ≤ inc) (hi1 : inc < 1) :
    0 ≤ (if p + inc ≥ 1 then p + inc - 1 else p + inc)
    ∧ (if p + inc ≥ 1 then p + inc - 1 else p + inc) < 1 := by
  split_ifs with h
  · constructor <;> linarith
  · constructor <;> linarith

theorem wrap_phase_quadrature (l r inc : ℚ) (hl1 : l < 1) (hr0 : 0 ≤ r)
    (hr1 : r < 1) (hi1 : inc < 1) (hq : r = l + 1 / 4 ∨ r = l - 3 / 4) :
    (if r + inc ≥ 1 then r + inc - 1 else r + inc)
        = (if l + inc ≥ 1 then l + inc - 1 else l + inc) + 1 / 4
    ∨ (if r + inc ≥ 1 then r + inc - 1 else r + inc)
        = (if l + inc ≥ 1 then l + inc - 1 else l + inc) - 3 / 4 := by
  rcases hq with h | h
  · subst h
    split_ifs <;> first | (left; linarith) | (right; linarith)
  · subst h
    split_ifs <;> first | (left; linarith) | (right; linarith)

/-- One loop iteration of `Chorus::process` on a ready state: the cursor moves
on by one modulo the capacity, and each phase is advanced by `lfoIncrement` and
wrapped by one subtraction of 1. -/
theorem Chorus.chorus_processSample_cursor (m : MathFns) (stereo : Bool) (s : Chorus.State)
    (x : Frame) (hs : Chorus.Ready s) :
    ∃ (s1 : Chorus.State) (y : Frame),
      Chorus.processSample m stereo s x = .ok (s1, y)
      ∧ Chorus.Ready s1
      ∧ s1.params = s.params ∧ s1.sampleRate = s.sampleRate
      ∧ s1.delayBuffer.numSamples = s.delayBuffer.numSamples
      ∧ s1.writePosition = (s.writePosition + 1) % s.delayBuffer.numSamples
      ∧ s1.lfoPhaseL = (if s.lfoPhaseL + Chorus.lfoIncrement s ≥ 1
          then s.lfoPhaseL + Chorus.lfoIncrement s - 1 else s.lfoPhaseL + Chorus.lfoIncrement s)
      ∧ s1.lfoPhaseR = (if s.lfoPhaseR + Chorus.lfoIncrement s ≥ 1
          then s.lfoPhaseR + Chorus.lfoIncrement s - 1
          else s.lfoPhaseR + Chorus.lfoIncrement s) := by
  have hch := hs.channels
  have hcap := hs.capacity
  have hw0 := hs.cursor_nonneg
  have hw := hs.cursor_lt
  have hread : ∀ (channel : ℕ) (v : ℚ), channel < 2 →
      ∃ d, Chorus.readInterpolated s.delayBuffer s.writePosition channel
        (jlimit 1 ((s.delayBuffer.numSamples - 1 : ℤ) : ℚ) v) = .ok d := by
    intro channel v hc
    obtain ⟨h0, h1⟩ := jlimit_delay_bounds s.delayBuffer.numSamples v hcap
    obtain ⟨d, hd, -⟩ :=
      Chorus.readInterpolated_bounded _ _ _ _ (by rw [hch]; exact hc) hw0 hw h0 h1
    exact ⟨d, hd⟩
  obtain ⟨dL, hdL⟩ := hread 0
    ((5 + s.params.delay * 25) * s.sampleRate / 1000
      + m.sin (s.lfoPhaseL * 2 * m.pi)
        * ((1 / 2 + s.params.depth * (45 / 10)) * s.sampleRate / 1000)) (by norm_num)
  obtain ⟨dR, hdR⟩ := hread 1
    ((5 + s.params.delay * 25) * s.sampleRate / 1000
      + m.sin (s.lfoPhaseR * 2 * m.pi)
        * ((1 / 2 + s.params.depth * (45 / 10)) * s.sampleRate / 1000)) (by norm_num)
  have hmod := cMod_eq_emod (s.writePosition + 1) s.delayBuffer.numSamples (by omega) (by omega)
  have hw0' := fun v => AudioBuffer.setSample_ok s.delayBuffer 0 s.writePosition v
    (by rw [hch]; norm_num) hw0 hw
  have hw1' := fun v0 v => AudioBuffer.setSample_ok
    { s.delayBuffer with
      data := fun c i => if c = 0 ∧ i = s.writePosition.toNat then v0 else s.delayBuffer.data c i }
    1 s.writePosition v (by simp only; rw [hch]; norm_num) hw0 hw
  simp only [Chorus.processSample, hdL, hdR, except_ok_bind, hw0', hw1', hmod, except_pure_eq_ok]
  exact ⟨_, _, rfl, ⟨hch, hcap, Int.emod_nonneg _ (by omega), Int.emod_lt_of_pos _ (by omega)⟩,
    rfl, rfl, rfl, rfl, rfl, rfl⟩

theorem Chorus.lfoIncrement_congr (s s1 : Chorus.State) (hp : s1.params = s.params)
    (hsr : s1.sampleRate = s.sampleRate) : Chorus.lfoIncrement s1 = Chorus.lfoIncrement s := by
  unfold Chorus.lfoIncrement
  rw [hp, hsr]

/-- The sample loop of `Chorus::process` on a ready state returns, stays ready
and leaves the cursor `block.length` positions further on, modulo the capacity. -/
theorem Chorus.chorus_sampleLoop_cursor (m : MathFns) (stereo : Bool) :
    ∀ (block : List Frame) (s : Chorus.State), Chorus.Ready s →
      ∃ s1 out, Chorus.sampleLoop m stereo s block = .ok (s1, out)
        ∧ Chorus.Ready s1
        ∧ s1.delayBuffer.numSamples = s.delayBuffer.numSamples
        ∧ s1.writePosition
            = (s.writePosition + (block.length : ℤ)) % s.delayBuffer.numSamples := by
  intro block
  induction block with
  | nil =>
    intro s hs
    refine ⟨s, [], rfl, hs, rfl, ?_⟩
    simp only [List.length_nil, Nat.cast_zero, add_zero]
    exact (Int.emod_eq_of_lt hs.cursor_nonneg hs.cursor_lt).symm
  | cons x xs ih =>
    intro s hs
    obtain ⟨s1, y, hstep, hready, -, -, hnum, hw, -, -⟩ :=
      Chorus.chorus_processSample_cursor m stereo s x hs
    obtain ⟨s2, ys, hloop, hready2, hnum2, hw2⟩ := ih s1 hready
    refine ⟨s2, y :: ys, ?_, hready2, hnum2.trans hnum, ?_⟩
    · simp only [Chorus.sampleLoop, hstep, hloop, except_ok_bind, except_pure_eq_ok]
    · rw [hw2, hw, hnum, Int.emod_add_emod]
      congr 1
      simp only [List.length_cons, Nat.cast_add, Nat.cast_one]
      ring

/-- The sample loop of `Chorus::process` keeps both phases in `[0,1)` and the
right phase a quarter turn ahead of the left one, when the phase step is in
`[0,1)`. -/
theorem Chorus.sampleLoop_phase (m : MathFns) (stereo : Bool) :
    ∀ (block : List Frame) (s : Chorus.State), Chorus.Ready s →
      0 ≤ Chorus.lfoIncrement s → Chorus.lfoIncrement s < 1 →
      (0 ≤ s.lfoPhaseL ∧ s.lfoPhaseL < 1) → (0 ≤ s.lfoPhaseR ∧ s.lfoPhaseR < 1) →
      (s.lfoPhaseR = s.lfoPhaseL + 1 / 4 ∨ s.lfoPhaseR = s.lfoPhaseL - 3 / 4) →
      ∃ s1 out, Chorus.sampleLoop m stereo s block = .ok (s1, out)
        ∧ Chorus.Ready s1 ∧ s1.params = s.params ∧ s1.sampleRate = s.sampleRate
        ∧ (0 ≤ s1.lfoPhaseL ∧ s1.lfoPhaseL < 1) ∧ (0 ≤ s1.lfoPhaseR ∧ s1.lfoPhaseR < 1)
        ∧ (s1.lfoPhaseR = s1.lfoPhaseL + 1 / 4 ∨ s1.lfoPhaseR = s1.lfoPhaseL - 3 / 4) := by
  intro block
  induction block with
  | nil =>
    intro s hs _ _ hL hR hq
    exact ⟨s, [], rfl, hs, rfl, rfl, hL, hR, hq⟩
  | cons x xs ih =>
    intro s hs hi0 hi1 hL hR hq
    obtain ⟨s1, y, hstep, hready, hparams, hsr, -, -, hpL, hpR⟩ :=
      Chorus.chorus_processSample_cursor m stereo s x hs
    have hinc := Chorus.lfoIncrement_congr s s1 hparams hsr
    obtain ⟨s2, ys, hloop, hready2, hparams2, hsr2, hL2, hR2, hq2⟩ :=
      ih s1 hready (by rw [hinc]; exact hi0) (by rw [hinc]; exact hi1)
        (by rw [hpL]; exact wrap_phase_mem _ _ hL.1 hL.2 hi0 hi1)
        (by rw [hpR]; exact wrap_phase_mem _ _ hR.1 hR.2 hi0 hi1)
        (by rw [hpL, hpR]; exact wrap_phase_quadrature _ _ _ hL.2 hR.1 hR.2 hi1 hq)
    refine ⟨s2, y :: ys, ?_, hready2, hparams2.trans hparams, hsr2.trans hsr, hL2, hR2, hq2⟩
    simp only [Chorus.sampleLoop, hstep, hloop, except_ok_bind, except_pure_eq_ok]

theorem Phaser.phaser_process_phase (m : MathFns) (stereo : Bool) :
    ∀ (block : List Frame) (s : Phaser.State),
      0 ≤ Phaser.lfoIncrement s → Phaser.lfoIncrement s < 1 →
      0 ≤ s.lfoPhase → s.lfoPhase < 1 →
      (Phaser.process m stereo s block).1.params = s.params
      ∧ (Phaser.process m stereo s block).1.sampleRate = s.sampleRate
      ∧ 0 ≤ (Phaser.process m stereo s block).1.lfoPhase
      ∧ (Phaser.process m stereo s block).1.lfoPhase < 1 := by
  intro block
  induction block with
  | nil =>
    intro s _ _ h0 h1
    exact ⟨rfl, rfl, h0, h1⟩
  | cons x xs ih =>
    intro s hi0 hi1 h0 h1
    have hstep : (Phaser.processSample m stereo s x).1.lfoPhase
        = (if s.lfoPhase + Phaser.lfoIncrement s ≥ 1
            then s.lfoPhase + Phaser.lfoIncrement s - 1
            else s.lfoPhase + Phaser.lfoIncrement s) := rfl
    have hp : (Phaser.processSample m stereo s x).1.params = s.params := rfl
    have hsr : (Phaser.processSample m stereo s x).1.sampleRate = s.sampleRate := rfl
    have hinc : Phaser.lfoIncrement (Phaser.processSample m stereo s x).1
        = Phaser.lfoIncrement s := by
      unfold Phaser.lfoIncrement
      rw [hp, hsr]
    obtain ⟨w0, w1⟩ := wrap_phase_mem _ _ h0 h1 hi0 hi1
    obtain ⟨e1, e2, e3, e4⟩ := ih (Phaser.processSample m stereo s x).1
      (by rw [hinc]; exact hi0) (by rw [hinc]; exact hi1)
      (by rw [hstep]; exact w0) (by rw [hstep]; exact w1)
    simp only [Phaser.process]
    exact ⟨e1.trans hp, e2.trans hsr, e3, e4⟩

theorem Filter.filter_process_phase (m : MathFns) (stereo : Bool) :
    ∀ (block : List Frame) (s : Filter.State),
      0 ≤ Filter.lfoIncrement s → Filter.lfoIncrement s < 1 →
      0 ≤ s.lfoPhase → s.lfoPhase < 1 →
      (Filter.process m stereo s block).1.params = s.params
      ∧ (Filter.process m stereo s block).1.sampleRate = s.sampleRate
      ∧ 0 ≤ (Filter.process m stereo s block).1.lfoPhase
      ∧ (Filter.process m stereo s block).1.lfoPhase < 1 := by
  intro block
  induction block with
  | nil =>
    intro s _ _ h0 h1
    exact ⟨rfl, rfl, h0, h1⟩
  | cons x xs ih =>
    intro s hi0 hi1 h0 h1
    have hstep : (Filter.processSample m stereo s x).1.lfoPhase
        = (if s.lfoPhase + Filter.lfoIncrement s ≥ 1
            then s.lfoPhase + Filter.lfoIncrement s - 1
            else s.lfoPhase + Filter.lfoIncrement s) := rfl
    have hp : (Filter.processSample m stereo s x).1.params = s.params := rfl
    have hsr : (Filter.processSample m stereo s x).1.sampleRate = s.sampleRate := rfl
    have hinc : Filter.lfoIncrement (Filter.processSample m stereo s x).1
        = Filter.lfoIncrement s := by
      unfold Filter.lfoIncrement
      rw [hp, hsr]
    obtain ⟨w0, w1⟩ := wrap_phase_mem _ _ h0 h1 hi0 hi1
    obtain ⟨e1, e2, e3, e4⟩ := ih (Filter.processSample m stereo s x).1
      (by rw [hinc]; exact hi0) (by rw [hinc]; exact hi1)
      (by rw [hstep]; exact w0) (by rw [hstep]; exact w1)
    simp only [Filter.process]
    exact ⟨e1.trans hp, e2.trans hsr, e3, e4⟩

/-- C25: for Chorus, Phaser and Filter with a rate parameter that is not
negative and a sample rate above the LFO frequency, the per-sample phase step
lies in `[0,1)`; `reset` and `prepare` put the phases at 0 (Chorus: 0 and 0.25);
one processed sample replaces each phase `p` by `p + step`, less 1 when that
reaches 1; and from a state with its phases in `[0,1)` (Chorus: ready, right
phase equal to left phase plus 0.25 modulo 1) processing any block returns and
leaves the phases in `[0,1)`, the Chorus phases still a quarter turn apart, with
the parameters and the sample rate unchanged.  A Chorus without delay buffer
returns from `process` with its state unchanged. -/
theorem C25_lfo_phase_invariant (m : MathFns) (stereo : Bool) (block : List Frame)
    (c : Chorus.State) (p : Phaser.State) (f : Filter.State)
    (hcr : 0 ≤ c.params.rate) (hcs : 1 / 10 + c.params.rate * (49 / 10) < c.sampleRate)
    (hpr : 0 ≤ p.params.rate) (hps : 5 / 100 + p.params.rate * (495 / 100) < p.sampleRate)
    (hfr : 0 ≤ f.params.lfoRate) (hfs : 1 / 10 + f.params.lfoRate * (99 / 10) < f.sampleRate)
    (hc : Chorus.Ready c)
    (hcL : 0 ≤ c.lfoPhaseL ∧ c.lfoPhaseL < 1) (hcR : 0 ≤ c.lfoPhaseR ∧ c.lfoPhaseR < 1)
    (hcq : c.lfoPhaseR = c.lfoPhaseL + 1 / 4 ∨ c.lfoPhaseR = c.lfoPhaseL - 3 / 4)
    (hp : 0 ≤ p.lfoPhase ∧ p.lfoPhase < 1) (hf : 0 ≤ f.lfoPhase ∧ f.lfoPhase < 1) :
    ((0 ≤ Chorus.lfoIncrement c ∧ Chorus.lfoIncrement c < 1)
      ∧ (0 ≤ Phaser.lfoIncrement p ∧ Phaser.lfoIncrement p < 1)
      ∧ (0 ≤ Filter.lfoIncrement f ∧ Filter.lfoIncrement f < 1))
    ∧ ((Chorus.reset c).lfoPhaseL = 0 ∧ (Chorus.reset c).lfoPhaseR = 1 / 4
      ∧ (Chorus.prepare c c.sampleRate).lfoPhaseL = 0
      ∧ (Chorus.prepare c c.sampleRate).lfoPhaseR = 1 / 4
      ∧ (Phaser.reset p).lfoPhase = 0 ∧ (Phaser.prepare p p.sampleRate).lfoPhase = 0
      ∧ (Filter.reset f).lfoPhase = 0 ∧ (Filter.prepare f f.sampleRate).lfoPhase = 0)
    ∧ (∀ x : Frame,
        (∃ c1 y, Chorus.processSample m stereo c x = .ok (c1, y)
          ∧ c1.lfoPhaseL = (if c.lfoPhaseL + Chorus.lfoIncrement c ≥ 1
              then c.lfoPhaseL + Chorus.lfoIncrement c - 1
              else c.lfoPhaseL + Chorus.lfoIncrement c)
          ∧ c1.lfoPhaseR = (if c.lfoPhaseR + Chorus.lfoIncrement c ≥ 1
              then c.lfoPhaseR + Chorus.lfoIncrement c - 1
              else c.lfoPhaseR + Chorus.lfoIncrement c))
        ∧ (Phaser.processSample m stereo p x).1.lfoPhase
            = (if p.lfoPhase + Phaser.lfoIncrement p ≥ 1
                then p.lfoPhase + Phaser.lfoIncrement p - 1
                else p.lfoPhase + Phaser.lfoIncrement p)
        ∧ (Filter.processSample m stereo f x).1.lfoPhase
            = (if f.lfoPhase + Filter.lfoIncrement f ≥ 1
                then f.lfoPhase + Filter.lfoIncrement f - 1
                else f.lfoPhase + Filter.lfoIncrement f))
    ∧ (∃ c1 out, Chorus.process m stereo c block = .ok (c1, out)
        ∧ Chorus.Ready c1 ∧ c1.params = c.params ∧ c1.sampleRate = c.sampleRate
        ∧ (0 ≤ c1.lfoPhaseL ∧ c1.lfoPhaseL < 1) ∧ (0 ≤ c1.lfoPhaseR ∧ c1.lfoPhaseR < 1)
        ∧ (c1.lfoPhaseR = c1.lfoPhaseL + 1 / 4 ∨ c1.lfoPhaseR = c1.lfoPhaseL - 3 / 4))
    ∧ ((Phaser.process m stereo p block).1.params = p.params
        ∧ (Phaser.process m stereo p block).1.sampleRate = p.sampleRate
        ∧ 0 ≤ (Phaser.process m stereo p block).1.lfoPhase
        ∧ (Phaser.process m stereo p block).1.lfoPhase < 1)
    ∧ ((Filter.process m stereo f block).1.params = f.params
        ∧ (Filter.process m stereo f block).1.sampleRate = f.sampleRate
        ∧ 0 ≤ (Filter.process m stereo f block).1.lfoPhase
        ∧ (Filter.process m stereo f block).1.lfoPhase < 1)
    ∧ ∀ c0 : Chorus.State, c0.delayBuffer.numSamples = 0 →
        Chorus.process m stereo c0 block = .ok (c0, block) := by
  have hci : 0 ≤ Chorus.lfoIncrement c ∧ Chorus.lfoIncrement c < 1 := by
    have hsr : 0 < c.sampleRate := by linarith
    unfold Chorus.lfoIncrement
    exact ⟨div_nonneg (by linarith) hsr.le, by rw [div_lt_iff₀ hsr]; linarith⟩
  have hpi : 0 ≤ Phaser.lfoIncrement p ∧ Phaser.lfoIncrement p < 1 := by
    have hsr : 0 < p.sampleRate := by linarith
    unfold Phaser.lfoIncrement
    exact ⟨div_nonneg (by linarith) hsr.le, by rw [div_lt_iff₀ hsr]; linarith⟩
  have hfi : 0 ≤ Filter.lfoIncrement f ∧ Filter.lfoIncrement f < 1 := by
    have hsr : 0 < f.sampleRate := by linarith
    unfold Filter.lfoIncrement
    exact ⟨div_nonneg (by linarith) hsr.le, by rw [div_lt_iff₀ hsr]; linarith⟩
  refine ⟨⟨hci, hpi, hfi⟩, ⟨rfl, rfl, rfl, rfl, rfl, rfl, rfl, rfl⟩, ?_, ?_,
    Phaser.phaser_process_phase m stereo block p hpi.1 hpi.2 hp.1 hp.2,
    Filter.filter_process_phase m stereo block f hfi.1 hfi.2 hf.1 hf.2, ?_⟩
  · intro x
    obtain ⟨c1, y, hstep, -, -, -, -, -, hL, hR⟩ :=
      Chorus.chorus_processSample_cursor m stereo c x hc
    exact ⟨⟨c1, y, hstep, hL, hR⟩, rfl, rfl⟩
  · have hcap := hc.capacity
    unfold Chorus.process
    rw [if_neg (by omega)]
    exact Chorus.sampleLoop_phase m stereo block c hc hci.1 hci.2 hcL hcR hcq
  · intro c0 h0
    unfold Chorus.process
    rw [if_pos h0]
    rfl

/-- Witness for C25: a Chorus prepared at 44100 Hz and reset, a constructed
Phaser and a constructed Filter, on a block of two frames. -/
theorem C25_lfo_phase_invariant_witness :
    0 ≤ (Phaser.process MathFns.sample true {} [(1, 1), (1 / 2, 0)]).1.lfoPhase
    ∧ (Phaser.process MathFns.sample true {} [(1, 1), (1 / 2, 0)]).1.lfoPhase < 1 := by
  have hnum : (Chorus.reset (Chorus.prepare {} 44100)).delayBuffer.numSamples = 2205 := by
    show truncToInt (44100 * (5 / 100)) = 2205
    norm_num [truncToInt, Int.floor_eq_iff]
  have h := C25_lfo_phase_invariant MathFns.sample true [(1, 1), (1 / 2, 0)]
    (Chorus.reset (Chorus.prepare {} 44100)) {} {}
    (by show (0 : ℚ) ≤ 4 / 10; norm_num)
    (by show 1 / 10 + (4 / 10 : ℚ) * (49 / 10) < 44100; norm_num)
    (by show (0 : ℚ) ≤ 3 / 10; norm_num)
    (by show 5 / 100 + (3 / 10 : ℚ) * (495 / 100) < 44100; norm_num)
    (by show (0 : ℚ) ≤ 3 / 10; norm_num)
    (by show 1 / 10 + (3 / 10 : ℚ) * (99 / 10) < 44100; norm_num)
    (Chorus.reset_prepare_ready {} 44100 (by norm_num) (by rw [hnum]; norm_num))
    (by show (0 : ℚ) ≤ 0 ∧ (0 : ℚ) < 1; norm_num)
    (by show (0 : ℚ) ≤ 1 / 4 ∧ (1 / 4 : ℚ) < 1; norm_num)
    (Or.inl (by show (1 / 4 : ℚ) = 0 + 1 / 4; norm_num))
    (by show (0 : ℚ) ≤ 0 ∧ (0 : ℚ) < 1; norm_num)
    (by show (0 : ℚ) ≤ 0 ∧ (0 : ℚ) < 1; norm_num)
  exact ⟨h.2.2.2.2.1.2.2.1, h.2.2.2.2.1.2.2.2⟩

/-! ### The capture half on a prepared engine -/

/-- The capture half of an iteration on a prepared engine that is not glitching
never faults: it runs the countdown, stores the frame and moves the cursor on by
one modulo the capacity. -/
theorem Glitch.captureStep_prepared (draws : ℕ → ℚ) (stereo : Bool) (s : Glitch.State)
    (x : Frame) (hs : Glitch.Prepared s) (hg : s.isGlitching = false) :
    ∃ buf : AudioBuffer,
      Glitch.captureStep draws stereo s x
        = .ok { Glitch.countdown draws s with
                captureBuffer := buf
                capturePosition := (s.capturePosition + 1) % s.captureBuffer.numSamples }
      ∧ buf.numChannels = 2 ∧ buf.numSamples = s.captureBuffer.numSamples := by
  have hcap := hs.capacity
  have hc0 := hs.cursor_nonneg
  have hc1 := hs.cursor_lt
  have hmod := cMod_eq_emod (s.capturePosition + 1) s.captureBuffer.numSamples
    (by omega) (by omega)
  have hw0 := AudioBuffer.setSample_ok s.captureBuffer 0 s.capturePosition x.1
    (by rw [hs.channels]; norm_num) hc0 hc1
  cases hst : stereo with
  | false =>
    refine ⟨{ s.captureBuffer with
              data := fun c i => if c = 0 ∧ i = s.capturePosition.toNat then x.1
                else s.captureBuffer.data c i }, ?_, hs.channels, rfl⟩
    simp only [Glitch.captureStep, hg, Bool.false_eq_true, if_false,
      Glitch.countdown_captureBuffer, Glitch.countdown_capturePosition, hw0,
      except_ok_bind, except_pure_eq_ok, hmod]
  | true =>
    have hw1 := AudioBuffer.setSample_ok
      { s.captureBuffer with
        data := fun c i => if c = 0 ∧ i = s.capturePosition.toNat then x.1
          else s.captureBuffer.data c i }
      1 s.capturePosition x.2 (by simp only; rw [hs.channels]; norm_num) hc0 hc1
    refine ⟨{ s.captureBuffer with
              data := fun c i => if c = 1 ∧ i = s.capturePosition.toNat then x.2
                else if c = 0 ∧ i = s.capturePosition.toNat then x.1
                else s.captureBuffer.data c i }, ?_, hs.channels, rfl⟩
    simp only [Glitch.captureStep, hg, Bool.false_eq_true, if_false, if_true,
      Glitch.countdown_captureBuffer, Glitch.countdown_capturePosition, hw0,
      except_ok_bind, except_pure_eq_ok, hmod, hw1]

/-- When the playback half of an iteration returns, the state it returns is the
advanced playback state for a glitching engine and the unchanged state
otherwise. -/
theorem Glitch.playbackStep_state (m : MathFns) (draws : ℕ → ℚ) (stereo : Bool)
    (s s1 : Glitch.State) (x y : Frame)
    (h : Glitch.playbackStep m draws stereo s x = .ok (s1, y)) :
    s1 = if s.isGlitching = true then Glitch.advancePlayback draws s else s := by
  cases hg : s.isGlitching with
  | false =>
    simp only [Glitch.playbackStep, hg, Bool.false_eq_true, if_false, except_pure_eq_ok,
      Except.ok.injEq, Prod.mk.injEq] at h
    rw [← h.1]
    simp
  | true =>
    simp only [Glitch.playbackStep, hg, if_true] at h
    cases h0 : Glitch.readPos s with
    | error e => rw [h0] at h; simp at h
    | ok idx =>
      rw [h0] at h
      simp only [except_ok_bind] at h
      cases h1 : Glitch.glitchSample m s 0 idx with
      | error e => rw [h1] at h; simp at h
      | ok outL =>
        rw [h1] at h
        simp only [except_ok_bind] at h
        cases stereo with
        | false =>
          simp only [Bool.false_eq_true, if_false, except_pure_eq_ok, except_ok_bind,
            Except.ok.injEq, Prod.mk.injEq] at h
          rw [← h.1]
          simp
        | true =>
          simp only [if_true] at h
          cases h2 : Glitch.glitchSample m s 1 idx with
          | error e => rw [h2] at h; simp at h
          | ok outR =>
            rw [h2] at h
            simp only [except_ok_bind, except_pure_eq_ok, Except.ok.injEq, Prod.mk.injEq] at h
            rw [← h.1]
            simp

theorem Glitch.countdown_waiting (draws : ℕ → ℚ) (s : Glitch.State)
    (h : 1 < s.samplesUntilNextGlitch) :
    Glitch.countdown draws s
      = { s with samplesUntilNextGlitch := s.samplesUntilNextGlitch - 1 } := by
  unfold Glitch.countdown
  simp only
  rw [if_neg (by omega)]

theorem Glitch.countdown_low_rate (draws : ℕ → ℚ) (s : Glitch.State)
    (hrate : s.params.rate < 5368709 / 536870912) :
    (Glitch.countdown draws s).isGlitching = s.isGlitching
    ∧ (Glitch.countdown draws s).samplesUntilNextGlitch
        = (if s.samplesUntilNextGlitch - 1 ≤ 0 then truncToInt s.sampleRate
            else s.samplesUntilNextGlitch - 1) := by
  unfold Glitch.countdown
  simp only
  split_ifs with h
  · unfold Glitch.triggerGlitch
    simp only
    rw [if_pos hrate]
    exact ⟨rfl, rfl⟩
  · exact ⟨rfl, rfl⟩

theorem Glitch.countdown_trigger_float (draws : ℕ → ℚ) (s : Glitch.State)
    (h : s.samplesUntilNextGlitch ≤ 1) (hrate : 5368709 / 536870912 ≤ s.params.rate) :
    Glitch.countdown draws s
      = Glitch.triggerGlitch draws
          { s with samplesUntilNextGlitch := s.samplesUntilNextGlitch - 1 }
    ∧ (Glitch.countdown draws s).isGlitching = true
    ∧ (Glitch.countdown draws s).glitchPlaybackPos = 0
    ∧ (Glitch.countdown draws s).currentRepeat = 0
    ∧ 64 ≤ (Glitch.countdown draws s).captureLength := by
  have hc : Glitch.countdown draws s
      = Glitch.triggerGlitch draws
          { s with samplesUntilNextGlitch := s.samplesUntilNextGlitch - 1 } := by
    unfold Glitch.countdown
    simp only
    rw [if_pos (by omega)]
  refine ⟨hc, ?_⟩
  rw [hc]
  unfold Glitch.triggerGlitch
  simp only
  rw [if_neg (not_lt.mpr hrate)]
  exact ⟨rfl, rfl, rfl, le_max_right _ _⟩

theorem Glitch.countdown_trigger (draws : ℕ → ℚ) (s : Glitch.State)
    (h : s.samplesUntilNextGlitch ≤ 1) (hrate : 1 / 100 ≤ s.params.rate) :
    Glitch.countdown draws s
      = Glitch.triggerGlitch draws
          { s with samplesUntilNextGlitch := s.samplesUntilNextGlitch - 1 }
    ∧ (Glitch.countdown draws s).isGlitching = true
    ∧ (Glitch.countdown draws s).glitchPlaybackPos = 0
    ∧ (Glitch.countdown draws s).currentRepeat = 0
    ∧ 64 ≤ (Glitch.countdown draws s).captureLength := by
  have hc : Glitch.countdown draws s
      = Glitch.triggerGlitch draws
          { s with samplesUntilNextGlitch := s.samplesUntilNextGlitch - 1 } := by
    unfold Glitch.countdown
    simp only
    rw [if_pos (by omega)]
  refine ⟨hc, ?_⟩
  rw [hc]
  unfold Glitch.triggerGlitch
  simp only
  rw [if_neg (not_lt.mpr (le_trans (by norm_num) hrate))]
  exact ⟨rfl, rfl, rfl, le_max_right _ _⟩

/-- An iteration that starts and stays in the Capturing state passes the input
frame through, stores it and moves the capture cursor on by one. -/
theorem Glitch.processSample_capturing (m : MathFns) (draws : ℕ → ℚ) (stereo : Bool)
    (s : Glitch.State) (x : Frame) (hs : Glitch.Prepared s) (hg : s.isGlitching = false)
    (hc : (Glitch.countdown draws s).isGlitching = false) :
    ∃ s1, Glitch.processSample m draws stereo s x = .ok (s1, x)
      ∧ Glitch.Prepared s1 ∧ s1.isGlitching = false
      ∧ s1.samplesUntilNextGlitch = (Glitch.countdown draws s).samplesUntilNextGlitch
      ∧ s1.params = s.params ∧ s1.sampleRate = s.sampleRate
      ∧ s1.captureBuffer.numSamples = s.captureBuffer.numSamples
      ∧ s1.capturePosition = (s.capturePosition + 1) % s.captureBuffer.numSamples := by
  have hcap := hs.capacity
  obtain ⟨buf, hstep, hch, hnum⟩ := Glitch.captureStep_prepared draws stereo s x hs hg
  refine ⟨{ Glitch.countdown draws s with
            captureBuffer := buf
            capturePosition := (s.capturePosition + 1) % s.captureBuffer.numSamples },
    ?_, ⟨hch, by rw [hnum]; exact hcap, Int.emod_nonneg _ (by omega), ?_⟩, hc, rfl,
    Glitch.countdown_params draws s, Glitch.countdown_sampleRate draws s, hnum, rfl⟩
  · simp only [Glitch.processSample, hstep, except_ok_bind, Glitch.playbackStep, hc,
      Bool.false_eq_true, if_false, except_pure_eq_ok]
  · show (s.capturePosition + 1) % s.captureBuffer.numSamples < buf.numSamples
    rw [hnum]
    exact Int.emod_lt_of_pos _ (by omega)

theorem Glitch.mix_self (stereo : Bool) (dryWet : ℚ) (x : Frame) :
    Glitch.mix stereo dryWet x x = x := by
  unfold Glitch.mix
  apply Prod.ext
  · show x.1 * (1 - dryWet) + x.1 * dryWet = x.1
    ring
  · cases stereo
    · rfl
    · show x.2 * (1 - dryWet) + x.2 * dryWet = x.2
      ring

theorem Glitch.zipWith_mix_self (stereo : Bool) (dryWet : ℚ) (block : List Frame) :
    List.zipWith (Glitch.mix stereo dryWet) block block = block := by
  induction block with
  | nil => rfl
  | cons x xs ih => rw [List.zipWith_cons_cons, ih, Glitch.mix_self]

/-- A run of the sample loop that passes the block through is a `process` call
that returns the block unchanged, whatever the dry/wet setting. -/
theorem Glitch.process_of_passthrough (m : MathFns) (draws : ℕ → ℚ) (stereo : Bool)
    (s s1 : Glitch.State) (block : List Frame)
    (h : Glitch.sampleLoop m draws stereo s block = .ok (s1, block)) :
    Glitch.process m draws stereo s block = .ok (s1, block) := by
  simp only [Glitch.process, h, except_ok_bind, except_pure_eq_ok, Glitch.zipWith_mix_self]

theorem Glitch.process_of_sampleLoop (m : MathFns) (draws : ℕ → ℚ) (stereo : Bool)
    (s s1 : Glitch.State) (block wet : List Frame)
    (h : Glitch.sampleLoop m draws stereo s block = .ok (s1, wet)) :
    Glitch.process m draws stereo s block
      = .ok (s1, List.zipWith (Glitch.mix stereo s.params.dryWet) block wet) := by
  simp only [Glitch.process, h, except_ok_bind, except_pure_eq_ok]

theorem Glitch.sampleLoop_append (m : MathFns) (draws : ℕ → ℚ) (stereo : Bool)
    (ys : List Frame) (s2 : Glitch.State) (out2 : List Frame) :
    ∀ (xs : List Frame) (s s1 : Glitch.State) (out1 : List Frame),
      Glitch.sampleLoop m draws stereo s xs = .ok (s1, out1) →
      Glitch.sampleLoop m draws stereo s1 ys = .ok (s2, out2) →
      Glitch.sampleLoop m draws stereo s (xs ++ ys) = .ok (s2, out1 ++ out2) := by
  intro xs
  induction xs with
  | nil =>
    intro s s1 out1 h1 h2
    simp only [Glitch.sampleLoop, except_pure_eq_ok, Except.ok.injEq, Prod.mk.injEq] at h1
    rw [← h1.1] at h2
    rw [← h1.2]
    simpa using h2
  | cons x xs ih =>
    intro s s1 out1 h1 h2
    simp only [Glitch.sampleLoop] at h1
    cases h0 : Glitch.processSample m draws stereo s x with
    | error e => rw [h0] at h1; simp at h1
    | ok r =>
      obtain ⟨sa, y⟩ := r
      rw [h0] at h1
      simp only [except_ok_bind] at h1
      cases h3 : Glitch.sampleLoop m draws stereo sa xs with
      | error e => rw [h3] at h1; simp at h1
      | ok r2 =>
        obtain ⟨sb, ys1⟩ := r2
        rw [h3] at h1
        simp only [except_ok_bind, except_pure_eq_ok, Except.ok.injEq, Prod.mk.injEq] at h1
        have h4 := ih sa sb ys1 h3 (by rw [h1.1]; exact h2)
        rw [← h1.2]
        show Glitch.sampleLoop m draws stereo s (x :: (xs ++ ys)) = _
        simp only [Glitch.sampleLoop, h0, except_ok_bind, h4, except_pure_eq_ok,
          List.cons_append]

theorem Glitch.safe_of_prepared (s : Glitch.State) (hs : Glitch.Prepared s)
    (hcap : 65 ≤ s.captureBuffer.numSamples) (hg : s.isGlitching = false) : Glitch.Safe s :=
  ⟨hs.channels, hcap, hs.cursor_nonneg, hs.cursor_lt, fun h => by rw [hg] at h; simp at h⟩

theorem Glitch.prepared_of_safe (s : Glitch.State) (hs : Glitch.Safe s) : Glitch.Prepared s :=
  ⟨hs.channels, by have := hs.capacity; omega, hs.cursor_nonneg, hs.cursor_lt⟩

theorem Glitch.reset_prepared (s : Glitch.State) (hch : s.captureBuffer.numChannels = 2)
    (hcap : 1 ≤ s.captureBuffer.numSamples) : Glitch.Prepared (Glitch.reset s) :=
  ⟨hch, hcap, le_refl 0, lt_of_lt_of_le zero_lt_one hcap⟩

theorem Glitch.advancePlayback_continue (draws : ℕ → ℚ) (s : Glitch.State)
    (h : s.glitchPlaybackPos + 1 < s.captureLength) :
    Glitch.advancePlayback draws s
      = { s with glitchPlaybackPos := s.glitchPlaybackPos + 1 } := by
  unfold Glitch.advancePlayback
  simp only
  rw [if_neg (by omega)]

theorem Glitch.advancePlayback_repeat (draws : ℕ → ℚ) (s : Glitch.State)
    (h : s.captureLength ≤ s.glitchPlaybackPos + 1)
    (hr : s.currentRepeat + 1 < s.glitchRepeatCount) :
    Glitch.advancePlayback draws s
      = { s with glitchPlaybackPos := 0, currentRepeat := s.currentRepeat + 1 } := by
  unfold Glitch.advancePlayback
  simp only
  rw [if_pos (by omega), if_neg (by omega)]

theorem Glitch.advancePlayback_end (draws : ℕ → ℚ) (s : Glitch.State)
    (h : s.captureLength ≤ s.glitchPlaybackPos + 1)
    (hr : s.glitchRepeatCount ≤ s.currentRepeat + 1) :
    (Glitch.advancePlayback draws s).isGlitching = false := by
  unfold Glitch.advancePlayback
  simp only
  rw [if_pos (by omega), if_pos (by omega)]

/-- While the countdown has more samples left than the block is long, the sample
loop stays in the Capturing state, passes the block through and counts down by
one per sample. -/
theorem Glitch.sampleLoop_waiting (m : MathFns) (draws : ℕ → ℚ) (stereo : Bool) :
    ∀ (block : List Frame) (s : Glitch.State), Glitch.Prepared s → s.isGlitching = false →
      (block.length : ℤ) < s.samplesUntilNextGlitch →
      ∃ s1, Glitch.sampleLoop m draws stereo s block = .ok (s1, block)
        ∧ Glitch.Prepared s1 ∧ s1.isGlitching = false
        ∧ s1.samplesUntilNextGlitch = s.samplesUntilNextGlitch - (block.length : ℤ)
        ∧ s1.params = s.params ∧ s1.sampleRate = s.sampleRate
        ∧ s1.captureBuffer.numSamples = s.captureBuffer.numSamples := by
  intro block
  induction block with
  | nil =>
    intro s hs hg _
    exact ⟨s, rfl, hs, hg, by simp, rfl, rfl, rfl⟩
  | cons x xs ih =>
    intro s hs hg hlen
    simp only [List.length_cons, Nat.cast_add, Nat.cast_one] at hlen
    have hwait : 1 < s.samplesUntilNextGlitch := by omega
    have hcd := Glitch.countdown_waiting draws s hwait
    have hcg : (Glitch.countdown draws s).isGlitching = false := by rw [hcd]; exact hg
    obtain ⟨s1, hstep, hs1, hg1, hcnt, hp, hsr, hnum, -⟩ :=
      Glitch.processSample_capturing m draws stereo s x hs hg hcg
    have hcnt1 : s1.samplesUntilNextGlitch = s.samplesUntilNextGlitch - 1 := by
      rw [hcnt, hcd]
    obtain ⟨s2, hloop, hs2, hg2, hcnt2, hp2, hsr2, hnum2⟩ := ih s1 hs1 hg1 (by omega)
    refine ⟨s2, ?_, hs2, hg2, ?_, hp2.trans hp, hsr2.trans hsr, hnum2.trans hnum⟩
    · simp only [Glitch.sampleLoop, hstep, hloop, except_ok_bind, except_pure_eq_ok]
    · simp only [List.length_cons, Nat.cast_add, Nat.cast_one]
      omega

/-- With a rate below the `float` literal `0.01f` the sample loop never leaves
the Capturing state and passes every block through. -/
theorem Glitch.sampleLoop_low_rate (m : MathFns) (draws : ℕ → ℚ) (stereo : Bool) :
    ∀ (block : List Frame) (s : Glitch.State), Glitch.Prepared s → s.isGlitching = false →
      s.params.rate < 5368709 / 536870912 →
      ∃ s1, Glitch.sampleLoop m draws stereo s block = .ok (s1, block)
        ∧ Glitch.Prepared s1 ∧ s1.isGlitching = false
        ∧ s1.params = s.params ∧ s1.sampleRate = s.sampleRate
        ∧ s1.captureBuffer.numSamples = s.captureBuffer.numSamples := by
  intro block
  induction block with
  | nil =>
    intro s hs hg _
    exact ⟨s, rfl, hs, hg, rfl, rfl, rfl⟩
  | cons x xs ih =>
    intro s hs hg hrate
    have hcg : (Glitch.countdown draws s).isGlitching = false := by
      rw [(Glitch.countdown_low_rate draws s hrate).1]
      exact hg
    obtain ⟨s1, hstep, hs1, hg1, -, hp, hsr, hnum, -⟩ :=
      Glitch.processSample_capturing m draws stereo s x hs hg hcg
    obtain ⟨s2, hloop, hs2, hg2, hp2, hsr2, hnum2⟩ :=
      ih s1 hs1 hg1 (by rw [hp]; exact hrate)
    refine ⟨s2, ?_, hs2, hg2, hp2.trans hp, hsr2.trans hsr, hnum2.trans hnum⟩
    simp only [Glitch.sampleLoop, hstep, hloop, except_ok_bind, except_pure_eq_ok]

/-! ### A grain that replays the first captured frame -/

/-- While the countdown has more samples left than the block is long, the states
the loop passes through are reached states, and the capture history grows by the
block (most recent frame first). -/
theorem Glitch.reaches_waiting (m : MathFns) (draws : ℕ → ℚ) (stereo : Bool)
    (start : Glitch.State) :
    ∀ (block : List Frame) (s : Glitch.State) (history : List Frame),
      Glitch.Reaches m draws stereo start s history →
      Glitch.Prepared s → s.isGlitching = false →
      (block.length : ℤ) < s.samplesUntilNextGlitch →
      ∃ s1, Glitch.sampleLoop m draws stereo s block = .ok (s1, block)
        ∧ Glitch.Reaches m draws stereo start s1 (block.reverse ++ history)
        ∧ Glitch.Prepared s1 ∧ s1.isGlitching = false
        ∧ s1.samplesUntilNextGlitch = s.samplesUntilNextGlitch - (block.length : ℤ)
        ∧ s1.params = s.params ∧ s1.sampleRate = s.sampleRate
        ∧ s1.captureBuffer.numSamples = s.captureBuffer.numSamples
        ∧ s1.rngCalls = s.rngCalls := by
  intro block
  induction block with
  | nil =>
    intro s history hreach hs hg _
    exact ⟨s, rfl, by simpa using hreach, hs, hg, by simp, rfl, rfl, rfl, rfl⟩
  | cons x xs ih =>
    intro s history hreach hs hg hlen
    simp only [List.length_cons, Nat.cast_add, Nat.cast_one] at hlen
    have hwait : 1 < s.samplesUntilNextGlitch := by omega
    have hcd := Glitch.countdown_waiting draws s hwait
    have hcg : (Glitch.countdown draws s).isGlitching = false := by rw [hcd]; exact hg
    obtain ⟨sa, hca, hsa⟩ :
        ∃ sa, Glitch.captureStep draws stereo s x = .ok sa ∧ sa.rngCalls = s.rngCalls := by
      obtain ⟨buf, hstep, -, -⟩ := Glitch.captureStep_prepared draws stereo s x hs hg
      refine ⟨_, hstep, ?_⟩
      show (Glitch.countdown draws s).rngCalls = s.rngCalls
      rw [hcd]
    obtain ⟨s1, hstep, hs1, hg1, hcnt, hp, hsr, hnum, -⟩ :=
      Glitch.processSample_capturing m draws stereo s x hs hg hcg
    have hrng : s1.rngCalls = s.rngCalls := by
      have hps : Glitch.processSample m draws stereo s x = .ok (sa, x) := by
        have hga : sa.isGlitching = false := by
          obtain ⟨buf, hstep2, -, -⟩ := Glitch.captureStep_prepared draws stereo s x hs hg
          rw [hstep2] at hca
          rw [← Except.ok.inj hca]
          exact hcg
        simp only [Glitch.processSample, hca, except_ok_bind, Glitch.playbackStep, hga,
          Bool.false_eq_true, if_false, except_pure_eq_ok]
      rw [hps] at hstep
      have h1 : sa = s1 := (Prod.mk.inj (Except.ok.inj hstep)).1
      rw [← h1]
      exact hsa
    have hcnt1 : s1.samplesUntilNextGlitch = s.samplesUntilNextGlitch - 1 := by
      rw [hcnt, hcd]
    have hreach1 : Glitch.Reaches m draws stereo start s1 (x :: history) := by
      have h := Glitch.Reaches.sample x x hreach hstep
      simpa [Glitch.captured, hg] using h
    obtain ⟨s2, hloop, hreach2, hs2, hg2, hcnt2, hp2, hsr2, hnum2, hrng2⟩ :=
      ih s1 (x :: history) hreach1 hs1 hg1 (by omega)
    refine ⟨s2, ?_, ?_, hs2, hg2, ?_, hp2.trans hp, hsr2.trans hsr, hnum2.trans hnum,
      hrng2.trans hrng⟩
    · simp only [Glitch.sampleLoop, hstep, hloop, except_ok_bind, except_pure_eq_ok]
    · simpa using hreach2
    · simp only [List.length_cons, Nat.cast_add, Nat.cast_one]
      omega

/-- On a prepared Capturing engine with at least 65 capture cells and a rate of
at least `0.01f`, the sample on which the countdown expires starts a grain: after
as many samples as the countdown holds, the engine is Glitching. -/
theorem Glitch.sampleLoop_trigger (m : MathFns) (draws : ℕ → ℚ) (stereo : Bool)
    (s : Glitch.State) (xs : List Frame) (x : Frame)
    (hs : Glitch.Prepared s) (hg : s.isGlitching = false)
    (hcap : 65 ≤ s.captureBuffer.numSamples)
    (hrate : 5368709 / 536870912 ≤ s.params.rate)
    (hlen : (xs.length : ℤ) + 1 = s.samplesUntilNextGlitch) :
    ∃ s3 out, Glitch.sampleLoop m draws stereo s (xs ++ [x]) = .ok (s3, out)
      ∧ s3.isGlitching = true := by
  obtain ⟨s1, hloop, hs1, hg1, hcnt, hp, -, hnum⟩ :=
    Glitch.sampleLoop_waiting m draws stereo xs s hs hg (by omega)
  have hcnt1 : s1.samplesUntilNextGlitch ≤ 1 := by omega
  obtain ⟨-, htrig, hpos, -, hL⟩ :=
    Glitch.countdown_trigger_float draws s1 hcnt1 (by rw [hp]; exact hrate)
  obtain ⟨buf, hstep, -, -⟩ := Glitch.captureStep_prepared draws stereo s1 x hs1 hg1
  have hsafe1 : Glitch.Safe s1 :=
    Glitch.safe_of_prepared s1 hs1 (by rw [hnum]; exact hcap) hg1
  obtain ⟨sa, sb, y, hca, hpb, hps, -, -, -, -, -, -⟩ :=
    Glitch.processSample_ok m draws stereo s1 x hsafe1
  rw [hstep] at hca
  have hsa := Except.ok.inj hca
  have hga : sa.isGlitching = true := by rw [← hsa]; exact htrig
  have hsb := Glitch.playbackStep_state m draws stereo sa sb x y hpb
  rw [if_pos hga] at hsb
  have hcont := Glitch.advancePlayback_continue draws sa (by
    have e1 : sa.glitchPlaybackPos = 0 := by rw [← hsa]; exact hpos
    have e2 : 64 ≤ sa.captureLength := by rw [← hsa]; exact hL
    omega)
  have hgb : sb.isGlitching = true := by
    rw [hsb, hcont]
    exact hga
  have hone : Glitch.sampleLoop m draws stereo s1 [x] = .ok (sb, [y]) := by
    simp only [Glitch.sampleLoop, hps, except_ok_bind, except_pure_eq_ok]
  exact ⟨sb, _, Glitch.sampleLoop_append m draws stereo [x] sb [y] xs _ s1 xs hloop hone, hgb⟩

/-- C29 as stated fails at one rate: the code compares the rate with the `float`
literal `0.01f`, which is `5368709 / 2^29`, a little below 0.01.  A Glitch whose
rate is that value (below 0.01) prepared at 44100 Hz is Glitching after the 4410
samples of its first countdown. -/
theorem C29_rate_at_float_literal_glitches :
    (5368709 / 536870912 : ℚ) < 1 / 100
    ∧ ∃ s1 out, Glitch.process MathFns.sample (fun _ => 1 / 2) true
          (Glitch.prepare { params := { rate := 5368709 / 536870912 } } 44100)
          (List.replicate 4409 (1, 1) ++ [(1, 1)]) = .ok (s1, out)
        ∧ s1.isGlitching = true := by
  have hnum : (Glitch.prepare { params := { rate := 5368709 / 536870912 } }
      44100).captureBuffer.numSamples = 22050 := by
    show truncToInt (44100 * (1 / 2)) = 22050
    norm_num [truncToInt, Int.floor_eq_iff]
  have hN : (Glitch.prepare { params := { rate := 5368709 / 536870912 } }
      44100).samplesUntilNextGlitch = 4410 := by
    show truncToInt (44100 * (1 / 10)) = 4410
    norm_num [truncToInt, Int.floor_eq_iff]
  refine ⟨by norm_num, ?_⟩
  obtain ⟨s3, out, hloop, hg3⟩ :=
    Glitch.sampleLoop_trigger MathFns.sample (fun _ => 1 / 2) true
      (Glitch.prepare { params := { rate := 5368709 / 536870912 } } 44100)
      (List.replicate 4409 (1, 1)) (1, 1)
      ⟨rfl, by rw [hnum]; norm_num, le_refl 0, by
        show (0 : ℤ) < (Glitch.prepare { params := { rate := 5368709 / 536870912 } }
          44100).captureBuffer.numSamples
        rw [hnum]
        norm_num⟩
      rfl (by rw [hnum]; norm_num) (le_refl _)
      (by rw [hN, List.length_replicate]; norm_num)
  exact ⟨s3, _, Glitch.process_of_sampleLoop MathFns.sample (fun _ => 1 / 2) true _ s3 _ _ hloop,
    hg3⟩

/-- C29 (amended): with rate below the `float` literal `0.01f` (the binary32
value `5368709 / 2^29`, the constant the code compares with), a prepared Glitch
that is in the Capturing state (as it is after `reset`) stays there: for every
block, every draw stream and every value of the other parameters, `process`
returns the block unchanged (so every output sample equals its input sample, for
every dry/wet value) and leaves the engine prepared, Capturing and with the same
parameters; an expired countdown is re-armed to `static_cast<int> (sampleRate)`
samples and not otherwise changed than by the decrement.  Arithmetic is exact. -/
theorem C29_low_rate_never_glitches (m : MathFns) (draws : ℕ → ℚ) (stereo : Bool)
    (s : Glitch.State) (block : List Frame)
    (hs : Glitch.Prepared s) (hg : s.isGlitching = false)
    (hrate : s.params.rate < 5368709 / 536870912) :
    (∀ s0 : Glitch.State, s0.captureBuffer.numChannels = 2 → 1 ≤ s0.captureBuffer.numSamples →
        Glitch.Prepared (Glitch.reset s0) ∧ (Glitch.reset s0).isGlitching = false
        ∧ (Glitch.reset s0).params = s0.params)
    ∧ ((Glitch.countdown draws s).isGlitching = false
        ∧ (Glitch.countdown draws s).samplesUntilNextGlitch
            = (if s.samplesUntilNextGlitch - 1 ≤ 0 then truncToInt s.sampleRate
                else s.samplesUntilNextGlitch - 1))
    ∧ ∃ s1, Glitch.process m draws stereo s block = .ok (s1, block)
        ∧ Glitch.Prepared s1 ∧ s1.isGlitching = false
        ∧ s1.params = s.params ∧ s1.sampleRate = s.sampleRate := by
  refine ⟨fun s0 hch hcap => ⟨Glitch.reset_prepared s0 hch hcap, rfl, rfl⟩, ?_, ?_⟩
  · obtain ⟨h1, h2⟩ := Glitch.countdown_low_rate draws s hrate
    exact ⟨by rw [h1]; exact hg, h2⟩
  · obtain ⟨s1, hloop, hs1, hg1, hp, hsr, -⟩ :=
      Glitch.sampleLoop_low_rate m draws stereo block s hs hg hrate
    exact ⟨s1, Glitch.process_of_passthrough m draws stereo s s1 block hloop, hs1, hg1, hp, hsr⟩

/-- Witness for C29: an engine with rate 0 prepared at 10 Hz, whose countdown of
one sample expires on the first sample of a block of three frames and is
re-armed to ten samples; the block is returned unchanged. -/
theorem C29_low_rate_never_glitches_witness :
    (Glitch.prepare { params := { rate := 0 } } 10).samplesUntilNextGlitch = 1
    ∧ (Glitch.countdown (fun _ => 1 / 2)
        (Glitch.prepare { params := { rate := 0 } } 10)).isGlitching = false
    ∧ (Glitch.countdown (fun _ => 1 / 2)
        (Glitch.prepare { params := { rate := 0 } } 10)).samplesUntilNextGlitch = 10
    ∧ ∃ s1, Glitch.process MathFns.sample (fun _ => 1 / 2) true
        (Glitch.prepare { params := { rate := 0 } } 10) [(1, -1), (1 / 2, 3), (2, 2)]
          = .ok (s1, [(1, -1), (1 / 2, 3), (2, 2)])
      ∧ s1.isGlitching = false := by
  have hnum : (Glitch.prepare { params := { rate := 0 } } 10).captureBuffer.numSamples = 5 := by
    show truncToInt (10 * (1 / 2)) = 5
    norm_num [truncToInt, Int.floor_eq_iff]
  have hN : (Glitch.prepare { params := { rate := 0 } } 10).samplesUntilNextGlitch = 1 := by
    show truncToInt (10 * (1 / 10)) = 1
    norm_num [truncToInt, Int.floor_eq_iff]
  have hsr : truncToInt (Glitch.prepare { params := { rate := 0 } } 10).sampleRate = 10 := by
    show truncToInt 10 = 10
    norm_num [truncToInt]
  obtain ⟨-, ⟨hcg, hcc⟩, s1, hrun, -, hg, -, -⟩ :=
    C29_low_rate_never_glitches MathFns.sample (fun _ => 1 / 2) true
      (Glitch.prepare { params := { rate := 0 } } 10) [(1, -1), (1 / 2, 3), (2, 2)]
      ⟨rfl, by rw [hnum]; norm_num, le_refl 0, by
        show (0 : ℤ) < (Glitch.prepare { params := { rate := 0 } } 10).captureBuffer.numSamples
        rw [hnum]
        norm_num⟩
      rfl (by show (0 : ℚ) < 5368709 / 536870912; norm_num)
  rw [hN, hsr] at hcc
  exact ⟨hN, hcg, by simpa using hcc, s1, hrun, hg⟩

/-! ### The first trigger after `reset` (C22) -/

/-- C22: after `reset` of a Glitch with a two-channel capture buffer of at least
one cell (`prepare` is such a `reset`), with `N = floor (0.1 * sampleRate) ≥ 1`
and rate at least 0.01, the engine is Capturing with a countdown of `N`; any
block shorter than `N` is passed through and leaves it Capturing with the
countdown reduced by the block length; after `N - 1` samples the capture half of
the next sample triggers and the engine is Glitching.  When the capture buffer
has at least 65 cells the whole of sample number `N` is processed and the engine
is Glitching after it.  `N` samples are at most 100 ms. -/
theorem C22_first_trigger (m : MathFns) (draws : ℕ → ℚ) (stereo : Bool) (s0 : Glitch.State)
    (xs : List Frame) (x : Frame)
    (hch : s0.captureBuffer.numChannels = 2) (hcap : 1 ≤ s0.captureBuffer.numSamples)
    (hN : 1 ≤ truncToInt (s0.sampleRate * (1 / 10)))
    (hrate : 1 / 100 ≤ s0.params.rate)
    (hlen : (xs.length : ℤ) + 1 = truncToInt (s0.sampleRate * (1 / 10))) :
    ((Glitch.reset s0).isGlitching = false
      ∧ (Glitch.reset s0).samplesUntilNextGlitch = truncToInt (s0.sampleRate * (1 / 10)))
    ∧ (∀ ys : List Frame, (ys.length : ℤ) < truncToInt (s0.sampleRate * (1 / 10)) →
        ∃ s1, Glitch.process m draws stereo (Glitch.reset s0) ys = .ok (s1, ys)
          ∧ s1.isGlitching = false
          ∧ s1.samplesUntilNextGlitch
              = truncToInt (s0.sampleRate * (1 / 10)) - (ys.length : ℤ))
    ∧ (∃ s1 s2, Glitch.process m draws stereo (Glitch.reset s0) xs = .ok (s1, xs)
        ∧ s1.isGlitching = false
        ∧ Glitch.captureStep draws stereo s1 x = .ok s2 ∧ s2.isGlitching = true)
    ∧ (65 ≤ s0.captureBuffer.numSamples →
        ∃ s3 out, Glitch.process m draws stereo (Glitch.reset s0) (xs ++ [x]) = .ok (s3, out)
          ∧ s3.isGlitching = true)
    ∧ ((truncToInt (s0.sampleRate * (1 / 10)) : ℚ) ≤ s0.sampleRate * (1 / 10))
    ∧ ∀ sr : ℚ, Glitch.prepare s0 sr
          = Glitch.reset { s0 with
              sampleRate := sr
              captureBuffer := AudioBuffer.sized 2 (truncToInt (sr * (1 / 2))) }
        ∧ (1 ≤ truncToInt (sr * (1 / 10)) →
            (AudioBuffer.sized 2 (truncToInt (sr * (1 / 2)))).numChannels = 2
            ∧ 1 ≤ (AudioBuffer.sized 2 (truncToInt (sr * (1 / 2)))).numSamples) := by
  have hprep := Glitch.reset_prepared s0 hch hcap
  have hsr : 0 ≤ s0.sampleRate * (1 / 10) := by
    by_contra hneg
    have hN' := hN
    unfold truncToInt at hN'
    rw [if_neg hneg] at hN'
    have h1 : s0.sampleRate * (1 / 10) ≤ ((0 : ℤ) : ℚ) := by push_cast; linarith
    have h2 : ⌈s0.sampleRate * (1 / 10)⌉ ≤ 0 := Int.ceil_le.mpr h1
    omega
  have hwait : ∀ ys : List Frame, (ys.length : ℤ) < truncToInt (s0.sampleRate * (1 / 10)) →
      ∃ s1, Glitch.sampleLoop m draws stereo (Glitch.reset s0) ys = .ok (s1, ys)
        ∧ Glitch.Prepared s1 ∧ s1.isGlitching = false
        ∧ s1.samplesUntilNextGlitch
            = truncToInt (s0.sampleRate * (1 / 10)) - (ys.length : ℤ)
        ∧ s1.params = s0.params
        ∧ s1.captureBuffer.numSamples = s0.captureBuffer.numSamples := by
    intro ys hys
    obtain ⟨s1, hloop, hs1, hg1, hcnt, hp, -, hnum⟩ :=
      Glitch.sampleLoop_waiting m draws stereo ys (Glitch.reset s0) hprep rfl hys
    exact ⟨s1, hloop, hs1, hg1, hcnt, hp, hnum⟩
  obtain ⟨s1, hloop, hs1, hg1, hcnt, hp, hnum⟩ := hwait xs (by omega)
  have hcnt1 : s1.samplesUntilNextGlitch ≤ 1 := by omega
  obtain ⟨-, htrig, hpos, -, hL⟩ :=
    Glitch.countdown_trigger draws s1 hcnt1 (by rw [hp]; exact hrate)
  obtain ⟨buf, hstep, hbch, hbnum⟩ := Glitch.captureStep_prepared draws stereo s1 x hs1 hg1
  refine ⟨⟨rfl, rfl⟩, ?_, ?_, ?_, ?_, fun sr => ⟨rfl, fun h => ⟨rfl, ?_⟩⟩⟩
  rotate_right
  · show 1 ≤ truncToInt (sr * (1 / 2))
    have h10 : (1 : ℚ) ≤ sr * (1 / 10) := by
      by_contra hlt
      have hx : truncToInt (sr * (1 / 10)) ≤ 0 := by
        unfold truncToInt
        split_ifs with h0
        · have : ⌊sr * (1 / 10)⌋ < 1 := Int.floor_lt.mpr (by push_cast; linarith)
          omega
        · exact Int.ceil_le.mpr (by push_cast; linarith)
      omega
    rw [truncToInt_of_nonneg _ (by linarith)]
    exact Int.le_floor.mpr (by push_cast; linarith)
  · intro ys hys
    obtain ⟨sa, hla, -, hga, hca, -, -⟩ := hwait ys hys
    exact ⟨sa, Glitch.process_of_passthrough m draws stereo _ sa ys hla, hga, hca⟩
  · exact ⟨s1, _, Glitch.process_of_passthrough m draws stereo _ s1 xs hloop, hg1, hstep, htrig⟩
  · intro hcap65
    have hsafe1 : Glitch.Safe s1 :=
      Glitch.safe_of_prepared s1 hs1 (by rw [hnum]; exact hcap65) hg1
    obtain ⟨sa, sb, y, hca, hpb, hps, -, -, -, -, -, -⟩ :=
      Glitch.processSample_ok m draws stereo s1 x hsafe1
    rw [hstep] at hca
    have hsa := Except.ok.inj hca
    have hga : sa.isGlitching = true := by rw [← hsa]; exact htrig
    have hsb := Glitch.playbackStep_state m draws stereo sa sb x y hpb
    rw [if_pos hga] at hsb
    have hcont := Glitch.advancePlayback_continue draws sa (by
      have e1 : sa.glitchPlaybackPos = 0 := by rw [← hsa]; exact hpos
      have e2 : 64 ≤ sa.captureLength := by rw [← hsa]; exact hL
      omega)
    have hgb : sb.isGlitching = true := by
      rw [hsb, hcont]
      exact hga
    have hone : Glitch.sampleLoop m draws stereo s1 [x] = .ok (sb, [y]) := by
      simp only [Glitch.sampleLoop, hps, except_ok_bind, except_pure_eq_ok]
    have happ := Glitch.sampleLoop_append m draws stereo [x] sb [y] xs _ s1 xs hloop hone
    exact ⟨sb, _, Glitch.process_of_sampleLoop m draws stereo _ sb _ _ happ, hgb⟩
  · rw [truncToInt_of_nonneg _ hsr]
    exact Int.floor_le _

/-- Witness for C22: an engine prepared at 20 Hz (`N = 2`, ten capture cells):
the first sample leaves it Capturing, the capture half of the second triggers. -/
theorem C22_first_trigger_witness :
    ∃ s1 s2, Glitch.process MathFns.sample (fun _ => 1 / 2) true
        (Glitch.reset (Glitch.prepare {} 20)) [(1, 1)] = .ok (s1, [(1, 1)])
      ∧ s1.isGlitching = false
      ∧ Glitch.captureStep (fun _ => 1 / 2) true s1 (2, 2) = .ok s2 ∧ s2.isGlitching = true := by
  have hnum : (Glitch.prepare {} 20).captureBuffer.numSamples = 10 := by
    show truncToInt (20 * (1 / 2)) = 10
    norm_num [truncToInt, Int.floor_eq_iff]
  have hN : truncToInt ((Glitch.prepare {} 20).sampleRate * (1 / 10)) = 2 := by
    show truncToInt (20 * (1 / 10)) = 2
    norm_num [truncToInt, Int.floor_eq_iff]
  exact (C22_first_trigger MathFns.sample (fun _ => 1 / 2) true (Glitch.prepare {} 20)
    [(1, 1)] (2, 2) rfl (by rw [hnum]; norm_num) (by rw [hN]; norm_num)
    (by show (1 / 100 : ℚ) ≤ 5 / 10; norm_num)
    (by rw [hN]; rfl)).2.2.1

/-! ### The length of a glitch event (C28) -/

/-- An iteration on a safe glitching engine never faults: the capture half does
nothing and the playback half advances the playback state. -/
theorem Glitch.processSample_playing (m : MathFns) (draws : ℕ → ℚ) (stereo : Bool)
    (s : Glitch.State) (x : Frame) (hs : Glitch.Safe s) (hg : s.isGlitching = true) :
    ∃ y, Glitch.processSample m draws stereo s x = .ok (Glitch.advancePlayback draws s, y)
      ∧ Glitch.playbackStep m draws stereo s x = .ok (Glitch.advancePlayback draws s, y)
      ∧ Glitch.Safe (Glitch.advancePlayback draws s) := by
  obtain ⟨idx, -, -, -, hpb⟩ := Glitch.playbackStep_ok m draws stereo s x hs hg
  have hcs : Glitch.captureStep draws stereo s x = .ok s := by
    simp only [Glitch.captureStep, hg, if_true, except_pure_eq_ok]
  refine ⟨_, ?_, hpb, Glitch.advancePlayback_safe draws s hs hg⟩
  simp only [Glitch.processSample, hcs, except_ok_bind, hpb]

/-- A grain of length `L` with repeat target `R`, from playback offset `p` in
repeat `r`: the sample loop never faults, and after `n` more samples with
`p + L r + n < L R` the engine is still glitching at linear position
`p + L r + n`, while with `p + L r + n = L R` it has just left the Glitching
state. -/
theorem Glitch.sampleLoop_grain (m : MathFns) (draws : ℕ → ℚ) (stereo : Bool) (L R : ℤ) :
    ∀ (block : List Frame) (s : Glitch.State), Glitch.Safe s → s.isGlitching = true →
      s.captureLength = L → s.glitchRepeatCount = R →
      0 ≤ s.currentRepeat → s.currentRepeat < R →
      s.glitchPlaybackPos + L * s.currentRepeat + (block.length : ℤ) ≤ L * R →
      ∃ s1 out, Glitch.sampleLoop m draws stereo s block = .ok (s1, out)
        ∧ Glitch.Safe s1
        ∧ (s.glitchPlaybackPos + L * s.currentRepeat + (block.length : ℤ) < L * R →
            s1.isGlitching = true ∧ s1.captureLength = L ∧ s1.glitchRepeatCount = R
            ∧ 0 ≤ s1.currentRepeat ∧ s1.currentRepeat < R
            ∧ s1.glitchPlaybackPos + L * s1.currentRepeat
                = s.glitchPlaybackPos + L * s.currentRepeat + (block.length : ℤ))
        ∧ (s.glitchPlaybackPos + L * s.currentRepeat + (block.length : ℤ) = L * R →
            s1.isGlitching = false) := by
  intro block
  induction block with
  | nil =>
    intro s hs hg hL hR hr0 hr1 _
    obtain ⟨hL0, -, hp0, hp1⟩ := hs.grain hg
    rw [hL] at hL0 hp1
    have hlt : s.glitchPlaybackPos + L * s.currentRepeat < L * R := by
      have h1 : L * (s.currentRepeat + 1) ≤ L * R :=
        mul_le_mul_of_nonneg_left (by omega) (by omega)
      have h2 : L * (s.currentRepeat + 1) = L * s.currentRepeat + L := by ring
      linarith
    refine ⟨s, [], rfl, hs, ?_, ?_⟩
    · intro _
      refine ⟨hg, hL, hR, hr0, hr1, ?_⟩
      simp only [List.length_nil, Nat.cast_zero, add_zero]
    · intro h
      simp only [List.length_nil, Nat.cast_zero, add_zero] at h
      exfalso
      linarith
  | cons x xs ih =>
    intro s hs hg hL hR hr0 hr1 hlen
    obtain ⟨hL0, -, hp0, hp1⟩ := hs.grain hg
    rw [hL] at hL0 hp1
    simp only [List.length_cons, Nat.cast_add, Nat.cast_one] at hlen ⊢
    obtain ⟨y, hstep, -, hsafe⟩ := Glitch.processSample_playing m draws stereo s x hs hg
    by_cases hc : s.glitchPlaybackPos + 1 < L
    · have hadv := Glitch.advancePlayback_continue draws s (by rw [hL]; exact hc)
      obtain ⟨s2, out, hloop, hs2, hin, hfin⟩ :=
        ih (Glitch.advancePlayback draws s) hsafe (by rw [hadv]; exact hg)
          (by rw [hadv]; exact hL) (by rw [hadv]; exact hR) (by rw [hadv]; exact hr0)
          (by rw [hadv]; exact hr1) (by rw [hadv]; dsimp only; linarith)
      rw [hadv] at hin hfin
      dsimp only at hin hfin
      refine ⟨s2, y :: out, ?_, hs2, ?_, ?_⟩
      · simp only [Glitch.sampleLoop, hstep, hloop, except_ok_bind, except_pure_eq_ok]
      · intro h
        obtain ⟨e1, e2, e3, e4, e5, e6⟩ := hin (by linarith)
        exact ⟨e1, e2, e3, e4, e5, by linarith⟩
      · intro h
        exact hfin (by linarith)
    · have hpos : s.glitchPlaybackPos = L - 1 := by omega
      by_cases hrep : s.currentRepeat + 1 < R
      · have hadv := Glitch.advancePlayback_repeat draws s (by rw [hL]; omega)
          (by rw [hR]; exact hrep)
        have hmul : L * (s.currentRepeat + 1) = L * s.currentRepeat + L := by ring
        obtain ⟨s2, out, hloop, hs2, hin, hfin⟩ :=
          ih (Glitch.advancePlayback draws s) hsafe (by rw [hadv]; exact hg)
            (by rw [hadv]; exact hL) (by rw [hadv]; exact hR)
            (by rw [hadv]; dsimp only; omega) (by rw [hadv]; exact hrep)
            (by rw [hadv]; dsimp only; linarith)
        rw [hadv] at hin hfin
        dsimp only at hin hfin
        refine ⟨s2, y :: out, ?_, hs2, ?_, ?_⟩
        · simp only [Glitch.sampleLoop, hstep, hloop, except_ok_bind, except_pure_eq_ok]
        · intro h
          obtain ⟨e1, e2, e3, e4, e5, e6⟩ := hin (by linarith)
          exact ⟨e1, e2, e3, e4, e5, by linarith⟩
        · intro h
          exact hfin (by linarith)
      · have hrepeq : s.currentRepeat = R - 1 := by omega
        have hend := Glitch.advancePlayback_end draws s (by rw [hL]; omega) (by rw [hR]; omega)
        have hmul : L * (R - 1) = L * R - L := by ring
        rw [hpos, hrepeq, hmul] at hlen ⊢
        have hnil : xs = [] := by
          have h0 : (xs.length : ℤ) ≤ 0 := by linarith
          have h1 : xs.length = 0 := by omega
          exact List.length_eq_zero.mp h1
        subst hnil
        refine ⟨Glitch.advancePlayback draws s, [y], ?_, hsafe, ?_, fun _ => hend⟩
        · simp only [Glitch.sampleLoop, hstep, except_ok_bind, except_pure_eq_ok]
        · intro h
          simp only [List.length_nil, Nat.cast_zero, zero_add] at h
          exfalso
          linarith

theorem Glitch.countdown_repeat_pos (draws : ℕ → ℚ) (s : Glitch.State)
    (h : s.samplesUntilNextGlitch ≤ 1) (hrate : 1 / 100 ≤ s.params.rate)
    (hst : 0 ≤ s.params.stutter) (hu : 0 ≤ draws (s.rngCalls + 1)) :
    1 ≤ (Glitch.countdown draws s).glitchRepeatCount := by
  rw [(Glitch.countdown_trigger draws s h hrate).1]
  unfold Glitch.triggerGlitch
  simp only
  rw [if_neg (not_lt.mpr (le_trans (by norm_num) hrate))]
  simp only
  have h14 : (0 : ℚ) ≤ s.params.stutter * 14 := by linarith
  have hf := truncToInt_nonneg _ h14
  have hspan : (0 : ℚ) ≤ ((2 + truncToInt (s.params.stutter * 14) - 1 : ℤ) : ℚ) := by
    exact_mod_cast (by omega : (0 : ℤ) ≤ 2 + truncToInt (s.params.stutter * 14) - 1)
  have := truncToInt_nonneg _ (mul_nonneg hu hspan)
  omega

/-- C28 as stated fails on a capture buffer shorter than 65 cells: an engine
prepared at 10 Hz (5 cells, countdown 1) with the default parameters and draws of
1/2 triggers on its first sample a grain of length 64 with repeat target 5, and
the playback half of that same sample reads cell `(1 - 64 + 0 + 5) % 5 = -3`:
`process` faults before a single grain sample is output. -/
theorem C28_event_faults_on_short_buffer :
    (Glitch.prepare {} 10).captureBuffer.numSamples = 5
    ∧ (Glitch.prepare {} 10).samplesUntilNextGlitch = 1
    ∧ (Glitch.countdown (fun _ => 1 / 2) (Glitch.prepare {} 10)).isGlitching = true
    ∧ (Glitch.countdown (fun _ => 1 / 2) (Glitch.prepare {} 10)).captureLength = 64
    ∧ (Glitch.countdown (fun _ => 1 / 2) (Glitch.prepare {} 10)).glitchRepeatCount = 5
    ∧ Glitch.process MathFns.sample (fun _ => 1 / 2) false (Glitch.prepare {} 10) [(0, 0)]
        = .error .indexOutOfRange := by
  have h1 : Int.tmod 1 5 = 1 := by decide
  have h2 : Int.tmod (-58) 5 = -3 := by decide
  refine ⟨?_, ?_, ?_, ?_, ?_, ?_⟩
  · norm_num [Glitch.reset, Glitch.prepare, truncToInt, AudioBuffer.sized, AudioBuffer.clear]
  · norm_num [Glitch.reset, Glitch.prepare, truncToInt, Int.floor_eq_iff]
  · norm_num [Glitch.countdown, Glitch.reset, Glitch.prepare, Glitch.triggerGlitch, truncToInt,
      Int.floor_eq_iff]
  · norm_num [Glitch.countdown, Glitch.reset, Glitch.prepare, Glitch.triggerGlitch, truncToInt,
      AudioBuffer.sized, AudioBuffer.clear, Int.floor_eq_iff]
  · norm_num [Glitch.countdown, Glitch.reset, Glitch.prepare, Glitch.triggerGlitch, truncToInt,
      Int.floor_eq_iff]
  · norm_num [Glitch.process, Glitch.sampleLoop, Glitch.processSample, Glitch.captureStep,
      Glitch.playbackStep, Glitch.readPos, Glitch.glitchSample, cMod,
      AudioBuffer.setSample, AudioBuffer.getSample, AudioBuffer.inRange,
      Glitch.countdown, Glitch.reset, Glitch.prepare, Glitch.triggerGlitch, truncToInt,
      AudioBuffer.sized, AudioBuffer.clear, Int.floor_eq_iff, h1, h2]

/-- C28 (amended): on an engine whose capture buffer has at least 65 cells (a
safe engine), in the Capturing state with a countdown that expires on the next
sample (rate at least 0.01), that sample triggers a grain of length `L ≥ 64`
with repeat target `R`, the values `triggerGlitch` chooses; when `R ≥ 1`, every
block of `n ≥ 1` samples with `n ≤ L R` is processed without fault, and after it: for
`n < L R` the engine is Glitching with the same `L` and `R`, playback offset
`n mod L` in `[0, L)` and repeat counter `n div L` in `[0, R)`; for `n = L R` it
is back in the Capturing state.  So the event plays exactly `L R` grain samples,
the trigger sample included. -/
theorem C28_glitch_event_length (m : MathFns) (draws : ℕ → ℚ) (stereo : Bool)
    (s : Glitch.State) (x : Frame) (xs : List Frame)
    (hs : Glitch.Safe s) (hg : s.isGlitching = false)
    (hcount : s.samplesUntilNextGlitch ≤ 1) (hrate : 1 / 100 ≤ s.params.rate)
    (hR : 1 ≤ (Glitch.countdown draws s).glitchRepeatCount)
    (hlen : (xs.length : ℤ) + 1
      ≤ (Glitch.countdown draws s).captureLength * (Glitch.countdown draws s).glitchRepeatCount) :
    Glitch.countdown draws s
        = Glitch.triggerGlitch draws
            { s with samplesUntilNextGlitch := s.samplesUntilNextGlitch - 1 }
    ∧ 64 ≤ (Glitch.countdown draws s).captureLength
    ∧ ∃ s1 out, Glitch.process m draws stereo s (x :: xs) = .ok (s1, out)
      ∧ ((xs.length : ℤ) + 1
            < (Glitch.countdown draws s).captureLength
                * (Glitch.countdown draws s).glitchRepeatCount →
          s1.isGlitching = true
          ∧ s1.captureLength = (Glitch.countdown draws s).captureLength
          ∧ s1.glitchRepeatCount = (Glitch.countdown draws s).glitchRepeatCount
          ∧ s1.glitchPlaybackPos
              = ((xs.length : ℤ) + 1) % (Glitch.countdown draws s).captureLength
          ∧ s1.currentRepeat
              = ((xs.length : ℤ) + 1) / (Glitch.countdown draws s).captureLength
          ∧ (0 ≤ s1.glitchPlaybackPos
              ∧ s1.glitchPlaybackPos < (Glitch.countdown draws s).captureLength)
          ∧ (0 ≤ s1.currentRepeat
              ∧ s1.currentRepeat < (Glitch.countdown draws s).glitchRepeatCount))
      ∧ ((xs.length : ℤ) + 1
            = (Glitch.countdown draws s).captureLength
                * (Glitch.countdown draws s).glitchRepeatCount →
          s1.isGlitching = false) := by
  obtain ⟨hcd, htrig, hpos, hrep, hL64⟩ := Glitch.countdown_trigger draws s hcount hrate
  refine ⟨hcd, hL64, ?_⟩
  obtain ⟨buf, hstep, -, -⟩ :=
    Glitch.captureStep_prepared draws stereo s x (Glitch.prepared_of_safe s hs) hg
  obtain ⟨sa, hca, hsa, -⟩ := Glitch.captureStep_ok draws stereo s x hs
  rw [hstep] at hca
  have heq := Except.ok.inj hca
  have hga : sa.isGlitching = true := by rw [← heq]; exact htrig
  have hLa : sa.captureLength = (Glitch.countdown draws s).captureLength := by rw [← heq]
  have hRa : sa.glitchRepeatCount = (Glitch.countdown draws s).glitchRepeatCount := by
    rw [← heq]
  have hpa : sa.glitchPlaybackPos = 0 := by rw [← heq]; exact hpos
  have hra : sa.currentRepeat = 0 := by rw [← heq]; exact hrep
  obtain ⟨s1, out, hloop, hsafe1, hin, hfin⟩ :=
    Glitch.sampleLoop_grain m draws stereo (Glitch.countdown draws s).captureLength
      (Glitch.countdown draws s).glitchRepeatCount (x :: xs) sa hsa hga hLa hRa
      (by rw [hra]) (by rw [hra]; omega)
      (by
        rw [hpa, hra]
        simp only [List.length_cons, Nat.cast_add, Nat.cast_one, mul_zero, zero_add, add_zero]
        exact hlen)
  rw [hpa, hra] at hin hfin
  simp only [List.length_cons, Nat.cast_add, Nat.cast_one, mul_zero, zero_add, add_zero]
    at hin hfin
  have hcsa : Glitch.captureStep draws stereo sa x = .ok sa := by
    simp only [Glitch.captureStep, hga, if_true, except_pure_eq_ok]
  have hsame : Glitch.sampleLoop m draws stereo s (x :: xs)
      = Glitch.sampleLoop m draws stereo sa (x :: xs) := by
    simp only [Glitch.sampleLoop, Glitch.processSample, hstep, heq, hcsa, except_ok_bind]
  rw [← hsame] at hloop
  refine ⟨s1, _, Glitch.process_of_sampleLoop m draws stereo s s1 _ _ hloop, ?_, hfin⟩
  intro hlt
  obtain ⟨e1, e2, e3, e4, e5, e6⟩ := hin hlt
  have hs1grain : 0 ≤ s1.glitchPlaybackPos
      ∧ s1.glitchPlaybackPos < (Glitch.countdown draws s).captureLength := by
    obtain ⟨-, -, g0, g1⟩ := hsafe1.grain e1
    rw [e2] at g1
    exact ⟨g0, g1⟩
  have hLpos : (Glitch.countdown draws s).captureLength ≠ 0 := by omega
  refine ⟨e1, e2, e3, ?_, ?_, hs1grain, ⟨e4, e5⟩⟩
  · rw [← e6, Int.add_mul_emod_self_left]
    exact (Int.emod_eq_of_lt hs1grain.1 hs1grain.2).symm
  · rw [← e6, Int.add_mul_ediv_left _ _ hLpos, Int.ediv_eq_zero_of_lt hs1grain.1 hs1grain.2]
    ring

/-- Witness for C28: an engine prepared at 44100 Hz whose countdown stands at 1,
with every draw equal to 1/2: the next sample triggers a grain and the engine is
Glitching after it. -/
theorem C28_glitch_event_length_witness :
    ∃ s1 out, Glitch.process MathFns.sample (fun _ => 1 / 2) true
        { Glitch.prepare {} 44100 with samplesUntilNextGlitch := 1 } [(1, 1)] = .ok (s1, out)
      ∧ s1.isGlitching = true := by
  have hnum : (Glitch.prepare {} 44100).captureBuffer.numSamples = 22050 := by
    show truncToInt (44100 * (1 / 2)) = 22050
    norm_num [truncToInt, Int.floor_eq_iff]
  have hsafe : Glitch.Safe { Glitch.prepare {} 44100 with samplesUntilNextGlitch := 1 } := by
    refine ⟨rfl, ?_, le_refl 0, ?_, fun h => ?_⟩
    · show 65 ≤ (Glitch.prepare {} 44100).captureBuffer.numSamples
      rw [hnum]
      norm_num
    · show (0 : ℤ) < (Glitch.prepare {} 44100).captureBuffer.numSamples
      rw [hnum]
      norm_num
    · exact absurd h (by decide)
  have hrate : (1 / 100 : ℚ)
      ≤ ({ Glitch.prepare {} 44100 with samplesUntilNextGlitch := 1 } : Glitch.State).params.rate := by
    show (1 / 100 : ℚ) ≤ 5 / 10
    norm_num
  have hR := Glitch.countdown_repeat_pos (fun _ => 1 / 2)
    { Glitch.prepare {} 44100 with samplesUntilNextGlitch := 1 } (le_refl 1) hrate
    (by show (0 : ℚ) ≤ 5 / 10; norm_num) (by norm_num)
  have hL := (Glitch.countdown_trigger (fun _ => 1 / 2)
    { Glitch.prepare {} 44100 with samplesUntilNextGlitch := 1 } (le_refl 1) hrate).2.2.2.2
  have hprod : (64 : ℤ)
      ≤ (Glitch.countdown (fun _ => 1 / 2)
            { Glitch.prepare {} 44100 with samplesUntilNextGlitch := 1 }).captureLength
        * (Glitch.countdown (fun _ => 1 / 2)
            { Glitch.prepare {} 44100 with samplesUntilNextGlitch := 1 }).glitchRepeatCount := by
    nlinarith
  obtain ⟨-, -, s1, out, hrun, hin, -⟩ :=
    C28_glitch_event_length MathFns.sample (fun _ => 1 / 2) true
      { Glitch.prepare {} 44100 with samplesUntilNextGlitch := 1 } (1, 1) [] hsafe rfl
      (le_refl 1) hrate hR
      (by
        have h0 : (([] : List Frame).length : ℤ) = 0 := rfl
        rw [h0]
        linarith)
  refine ⟨s1, out, hrun, (hin ?_).1⟩
  have h0 : (([] : List Frame).length : ℤ) = 0 := rfl
  rw [h0]
  linarith

/-! ### The ring-buffer cursors (C24) -/

theorem Delay.delay_sampleLoop_cursor (m : MathFns) (stereo : Bool) (ramp : ℕ → ℚ × ℚ) :
    ∀ (block : List Frame) (s : Delay.State) (k : ℕ), Delay.Ready s →
      ∃ s1 out, Delay.sampleLoop m stereo ramp s k block = .ok (s1, out)
        ∧ Delay.Ready s1
        ∧ s1.delayBuffer.numSamples = s.delayBuffer.numSamples
        ∧ s1.writePosition
            = (s.writePosition + (block.length : ℤ)) % s.delayBuffer.numSamples := by
  intro block
  induction block with
  | nil =>
    intro s k hs
    refine ⟨s, [], rfl, hs, rfl, ?_⟩
    simp only [List.length_nil, Nat.cast_zero, add_zero]
    exact (Int.emod_eq_of_lt hs.cursor_nonneg hs.cursor_lt).symm
  | cons x xs ih =>
    intro s k hs
    obtain ⟨s1, y, hstep, hready, hnum, -, hw⟩ :=
      Delay.delay_processSample_cursor m stereo s (ramp k).1 (ramp k).2 x hs
    obtain ⟨s2, ys, hloop, hready2, hnum2, hw2⟩ := ih s1 (k + 1) hready
    refine ⟨s2, y :: ys, ?_, hready2, hnum2.trans hnum, ?_⟩
    · simp only [Delay.sampleLoop, hstep, hloop, except_ok_bind, except_pure_eq_ok]
    · rw [hw2, hw, hnum, Int.emod_add_emod]
      congr 1
      simp only [List.length_cons, Nat.cast_add, Nat.cast_one]
      ring

/-- When an iteration of `Glitch::process` on a prepared engine returns, the
engine is still prepared, with the same capacity, and the capture cursor has
moved on by one modulo the capacity if the iteration began in the Capturing
state and not at all if it began in the Glitching state. -/
theorem Glitch.processSample_cursor (m : MathFns) (draws : ℕ → ℚ) (stereo : Bool)
    (s s1 : Glitch.State) (x y : Frame) (hs : Glitch.Prepared s)
    (h : Glitch.processSample m draws stereo s x = .ok (s1, y)) :
    Glitch.Prepared s1
    ∧ s1.captureBuffer.numSamples = s.captureBuffer.numSamples
    ∧ s1.capturePosition
        = (if s.isGlitching = true then s.capturePosition
            else (s.capturePosition + 1) % s.captureBuffer.numSamples) := by
  have hcap := hs.capacity
  cases hg : s.isGlitching with
  | true =>
    have hcs : Glitch.captureStep draws stereo s x = .ok s := by
      simp only [Glitch.captureStep, hg, if_true, except_pure_eq_ok]
    simp only [Glitch.processSample, hcs, except_ok_bind] at h
    have hst := Glitch.playbackStep_state m draws stereo s s1 x y h
    rw [if_pos hg] at hst
    rw [hst]
    refine ⟨⟨?_, ?_, ?_, ?_⟩, ?_, ?_⟩
    · simpa using hs.channels
    · simpa using hs.capacity
    · simpa using hs.cursor_nonneg
    · simpa using hs.cursor_lt
    · simp
    · simp
  | false =>
    have hex : ∃ sa, Glitch.captureStep draws stereo s x = .ok sa ∧ Glitch.Prepared sa
        ∧ sa.captureBuffer.numSamples = s.captureBuffer.numSamples
        ∧ sa.capturePosition = (s.capturePosition + 1) % s.captureBuffer.numSamples := by
      obtain ⟨buf, hstep, hch, hnum⟩ := Glitch.captureStep_prepared draws stereo s x hs hg
      refine ⟨_, hstep, ⟨hch, by rw [hnum]; exact hcap, Int.emod_nonneg _ (by omega), ?_⟩,
        hnum, rfl⟩
      show (s.capturePosition + 1) % s.captureBuffer.numSamples < buf.numSamples
      rw [hnum]
      exact Int.emod_lt_of_pos _ (by omega)
    obtain ⟨sa, hstep, hpa, hna, hca⟩ := hex
    simp only [Glitch.processSample, hstep, except_ok_bind] at h
    have hst := Glitch.playbackStep_state m draws stereo sa s1 x y h
    simp only [Bool.false_eq_true, if_false]
    by_cases hgl : sa.isGlitching = true
    · rw [if_pos hgl] at hst
      rw [hst]
      refine ⟨⟨?_, ?_, ?_, ?_⟩, ?_, ?_⟩
      · simpa using hpa.channels
      · simpa using hpa.capacity
      · simpa using hpa.cursor_nonneg
      · simpa using hpa.cursor_lt
      · simpa using hna
      · simpa using hca
    · rw [if_neg hgl] at hst
      rw [hst]
      exact ⟨hpa, hna, hca⟩

theorem Glitch.glitch_sampleLoop_cursor (m : MathFns) (draws : ℕ → ℚ) (stereo : Bool) :
    ∀ (block : List Frame) (s s1 : Glitch.State) (out : List Frame), Glitch.Prepared s →
      Glitch.sampleLoop m draws stereo s block = .ok (s1, out) →
      Glitch.Prepared s1 ∧ s1.captureBuffer.numSamples = s.captureBuffer.numSamples := by
  intro block
  induction block with
  | nil =>
    intro s s1 out hs h
    simp only [Glitch.sampleLoop, except_pure_eq_ok, Except.ok.injEq, Prod.mk.injEq] at h
    rw [← h.1]
    exact ⟨hs, rfl⟩
  | cons x xs ih =>
    intro s s1 out hs h
    simp only [Glitch.sampleLoop] at h
    cases h0 : Glitch.processSample m draws stereo s x with
    | error e => rw [h0] at h; simp at h
    | ok r =>
      obtain ⟨sa, y⟩ := r
      rw [h0] at h
      simp only [except_ok_bind] at h
      obtain ⟨hpa, hna, -⟩ := Glitch.processSample_cursor m draws stereo s sa x y hs h0
      cases h3 : Glitch.sampleLoop m draws stereo sa xs with
      | error e => rw [h3] at h; simp at h
      | ok r2 =>
        obtain ⟨sb, ys⟩ := r2
        rw [h3] at h
        simp only [except_ok_bind, except_pure_eq_ok, Except.ok.injEq, Prod.mk.injEq] at h
        obtain ⟨hpb, hnb⟩ := ih sa sb ys hpa h3
        rw [← h.1]
        exact ⟨hpb, hnb.trans hna⟩

theorem Glitch.sampleLoop_safe (m : MathFns) (draws : ℕ → ℚ) (stereo : Bool) :
    ∀ (block : List Frame) (s : Glitch.State), Glitch.Safe s →
      ∃ s1 out, Glitch.sampleLoop m draws stereo s block = .ok (s1, out) ∧ Glitch.Safe s1 := by
  intro block
  induction block with
  | nil => intro s hs; exact ⟨s, [], rfl, hs⟩
  | cons x xs ih =>
    intro s hs
    obtain ⟨-, s2, y, -, -, hstep, -, hs2, -, -, -, -⟩ :=
      Glitch.processSample_ok m draws stereo s x hs
    obtain ⟨s3, ys, hloop, hs3⟩ := ih s2 hs2
    refine ⟨s3, y :: ys, ?_, hs3⟩
    simp only [Glitch.sampleLoop, hstep, hloop, except_ok_bind, except_pure_eq_ok]

/-- C24: for a Delay and a Chorus whose delay buffer has at least one cell and a
Glitch whose capture buffer has at least one cell, with the cursor in
`[0, capacity)`: `reset` keeps that with the cursor at 0, and `prepare` with a
capacity of at least 1 establishes it; every loop iteration of Delay and Chorus
returns and moves the cursor on by exactly one modulo the capacity, so a block of
`n` samples moves it on by `n` modulo the capacity (Delay returns at its guard,
cursor unchanged, when `delaySamples_` is 0); every iteration of Glitch that
returns keeps the capture cursor in range and moves it on by one modulo the
capacity if the iteration began Capturing and by zero if it began Glitching, and
it does return when the capture buffer has at least 65 cells (the capture half
alone returns for every capacity). -/
theorem C24_cursor_invariant (m : MathFns) (draws : ℕ → ℚ) (stereo : Bool)
    (ramp : ℕ → ℚ × ℚ) (block : List Frame) (x : Frame)
    (d : Delay.State) (c : Chorus.State) (g : Glitch.State)
    (hd : Delay.Ready d) (hc : Chorus.Ready c) (hg : Glitch.Prepared g) :
    ((0 ≤ d.writePosition ∧ d.writePosition < d.delayBuffer.numSamples)
      ∧ (0 ≤ c.writePosition ∧ c.writePosition < c.delayBuffer.numSamples)
      ∧ (0 ≤ g.capturePosition ∧ g.capturePosition < g.captureBuffer.numSamples))
    ∧ (Delay.Ready (Delay.reset d) ∧ (Delay.reset d).writePosition = 0
      ∧ Chorus.Ready (Chorus.reset c) ∧ (Chorus.reset c).writePosition = 0
      ∧ Glitch.Prepared (Glitch.reset g) ∧ (Glitch.reset g).capturePosition = 0)
    ∧ (∀ sr : ℚ, 0 ≤ sr →
        (1 ≤ (Delay.prepare d sr).delayBuffer.numSamples →
          Delay.Ready (Delay.prepare d sr) ∧ (Delay.prepare d sr).writePosition = 0)
        ∧ (1 ≤ (Chorus.prepare c sr).delayBuffer.numSamples →
          Chorus.Ready (Chorus.prepare c sr) ∧ (Chorus.prepare c sr).writePosition = 0)
        ∧ (1 ≤ (Glitch.prepare g sr).captureBuffer.numSamples →
          Glitch.Prepared (Glitch.prepare g sr) ∧ (Glitch.prepare g sr).capturePosition = 0))
    ∧ (∀ feedback dryWet : ℚ,
        ∃ d1 y, Delay.processSample m stereo d feedback dryWet x = .ok (d1, y)
          ∧ Delay.Ready d1 ∧ d1.delayBuffer.numSamples = d.delayBuffer.numSamples
          ∧ d1.writePosition = (d.writePosition + 1) % d.delayBuffer.numSamples)
    ∧ (∃ c1 y, Chorus.processSample m stereo c x = .ok (c1, y)
        ∧ Chorus.Ready c1 ∧ c1.delayBuffer.numSamples = c.delayBuffer.numSamples
        ∧ c1.writePosition = (c.writePosition + 1) % c.delayBuffer.numSamples)
    ∧ (∀ g1 y, Glitch.processSample m draws stereo g x = .ok (g1, y) →
        Glitch.Prepared g1 ∧ g1.captureBuffer.numSamples = g.captureBuffer.numSamples
        ∧ g1.capturePosition
            = (if g.isGlitching = true then g.capturePosition
                else (g.capturePosition + 1) % g.captureBuffer.numSamples))
    ∧ (g.isGlitching = false →
        ∃ g1, Glitch.captureStep draws stereo g x = .ok g1
          ∧ g1.capturePosition = (g.capturePosition + 1) % g.captureBuffer.numSamples)
    ∧ (Glitch.Safe g → ∃ g1 y, Glitch.processSample m draws stereo g x = .ok (g1, y))
    ∧ (∃ d1 out, Delay.processLoop m stereo ramp d block = .ok (d1, out)
        ∧ Delay.Ready d1 ∧ d1.delayBuffer.numSamples = d.delayBuffer.numSamples
        ∧ d1.writePosition
            = (if d.delaySamples = 0 then d.writePosition
                else (d.writePosition + (block.length : ℤ)) % d.delayBuffer.numSamples))
    ∧ (∃ c1 out, Chorus.process m stereo c block = .ok (c1, out)
        ∧ Chorus.Ready c1 ∧ c1.delayBuffer.numSamples = c.delayBuffer.numSamples
        ∧ c1.writePosition
            = (c.writePosition + (block.length : ℤ)) % c.delayBuffer.numSamples)
    ∧ (∀ g1 out, Glitch.process m draws stereo g block = .ok (g1, out) →
        Glitch.Prepared g1 ∧ g1.captureBuffer.numSamples = g.captureBuffer.numSamples)
    ∧ (Glitch.Safe g →
        ∃ g1 out, Glitch.process m draws stereo g block = .ok (g1, out) ∧ Glitch.Safe g1) := by
  have hdcap := hd.capacity
  have hccap := hc.capacity
  refine ⟨⟨⟨hd.cursor_nonneg, hd.cursor_lt⟩, ⟨hc.cursor_nonneg, hc.cursor_lt⟩,
      ⟨hg.cursor_nonneg, hg.cursor_lt⟩⟩,
    ⟨Delay.reset_ready d hd, rfl, Chorus.chorus_reset_ready c hc.channels hc.capacity, rfl,
      Glitch.reset_prepared g hg.channels hg.capacity, rfl⟩, ?_, ?_, ?_, ?_, ?_, ?_, ?_, ?_,
    ?_, ?_⟩
  · intro sr hsr
    refine ⟨fun h => ⟨Delay.prepare_ready d sr hsr (by omega), rfl⟩, fun h => ⟨⟨rfl, h,
      le_refl 0, ?_⟩, rfl⟩, fun h => ⟨⟨rfl, h, le_refl 0, ?_⟩, rfl⟩⟩
    · show (0 : ℤ) < (Chorus.prepare c sr).delayBuffer.numSamples
      omega
    · show (0 : ℤ) < (Glitch.prepare g sr).captureBuffer.numSamples
      omega
  · intro feedback dryWet
    obtain ⟨d1, y, hstep, hready, hnum, -, hw⟩ :=
      Delay.delay_processSample_cursor m stereo d feedback dryWet x hd
    exact ⟨d1, y, hstep, hready, hnum, hw⟩
  · obtain ⟨c1, y, hstep, hready, -, -, hnum, hw, -, -⟩ :=
      Chorus.chorus_processSample_cursor m stereo c x hc
    exact ⟨c1, y, hstep, hready, hnum, hw⟩
  · intro g1 y h
    exact Glitch.processSample_cursor m draws stereo g g1 x y hg h
  · intro hgl
    obtain ⟨buf, hstep, -, -⟩ := Glitch.captureStep_prepared draws stereo g x hg hgl
    exact ⟨_, hstep, rfl⟩
  · intro hsafe
    obtain ⟨-, g2, y, -, -, hstep, -⟩ := Glitch.processSample_ok m draws stereo g x hsafe
    exact ⟨g2, y, hstep⟩
  · unfold Delay.processLoop
    by_cases hz : d.delaySamples = 0
    · rw [if_pos (Or.inr hz), if_pos hz]
      exact ⟨d, block, rfl, hd, rfl, rfl⟩
    · rw [if_neg (by
        intro h
        rcases h with h | h
        · omega
        · exact hz h), if_neg hz]
      exact Delay.delay_sampleLoop_cursor m stereo ramp block d 0 hd
  · unfold Chorus.process
    rw [if_neg (by omega)]
    exact Chorus.chorus_sampleLoop_cursor m stereo block c hc
  · intro g1 out h
    unfold Glitch.process at h
    cases h0 : Glitch.sampleLoop m draws stereo g block with
    | error e => rw [h0] at h; simp at h
    | ok r =>
      obtain ⟨ga, wet⟩ := r
      rw [h0] at h
      simp only [except_ok_bind, except_pure_eq_ok, Except.ok.injEq, Prod.mk.injEq] at h
      rw [← h.1]
      exact Glitch.glitch_sampleLoop_cursor m draws stereo block g ga wet hg h0
  · intro hsafe
    obtain ⟨g1, wet, hloop, hs1⟩ := Glitch.sampleLoop_safe m draws stereo block g hsafe
    exact ⟨g1, _, Glitch.process_of_sampleLoop m draws stereo g g1 block wet hloop, hs1⟩

/-- Witness for C24: a Delay, a Chorus and a Glitch prepared at 44100 Hz, on a
block of two frames. -/
theorem C24_cursor_invariant_witness :
    ∃ c1 out, Chorus.process MathFns.sample true (Chorus.reset (Chorus.prepare {} 44100))
        [(1, 1), (2, 2)] = .ok (c1, out)
      ∧ Chorus.Ready c1 := by
  have hcn : (Chorus.reset (Chorus.prepare {} 44100)).delayBuffer.numSamples = 2205 := by
    show truncToInt (44100 * (5 / 100)) = 2205
    norm_num [truncToInt, Int.floor_eq_iff]
  have hgn : (Glitch.prepare {} 44100).captureBuffer.numSamples = 22050 := by
    show truncToInt (44100 * (1 / 2)) = 22050
    norm_num [truncToInt, Int.floor_eq_iff]
  obtain ⟨c1, out, hrun, hready, -, -⟩ :=
    (C24_cursor_invariant MathFns.sample (fun _ => 1 / 2) true (fun _ => (2 / 5, 1 / 2))
      [(1, 1), (2, 2)] (0, 0) (Delay.prepare {} 44100)
      (Chorus.reset (Chorus.prepare {} 44100)) (Glitch.prepare {} 44100)
      (Delay.prepare_ready {} 44100 (by norm_num)
        (by norm_num [Delay.prepare, Delay.updateDelay, AudioBuffer.sized, truncToInt]))
      (Chorus.reset_prepare_ready {} 44100 (by norm_num) (by rw [hcn]; norm_num))
      ⟨rfl, by rw [hgn]; norm_num, le_refl 0, by
        show (0 : ℤ) < (Glitch.prepare {} 44100).captureBuffer.numSamples
        rw [hgn]
        norm_num⟩).2.2.2.2.2.2.2.2.2.1
  exact ⟨c1, out, hrun, hready⟩

end Incant
